import Mathlib

/-!
# VSRG judgment engine and beatmap generator: a shallow embedding of `src/main.cpp`

The definitions below transcribe the judgment code of `class Game`
(`processLaneInput`, `processLaneRelease`, `update`, `updateAutoPlay`,
`restartGame`) together with `struct Note` and the timing
constants of `namespace Config`, and the three methods of `class AudioAnalyzer`
(`detectBeats`, `generateNotes`, `analyze`) with the difficulty presets of
`Config::getDifficultyParams`.

Modelling conventions.

* `float` values (times, `dt`) are rationals `ℚ`; the literal `0.01f` of
  `Note::isHoldNote` is `1/100`.  The definitions named after the methods compute in
  exact arithmetic.  Where a claim turns on the value the code computes at the edge of a
  window or before a cast (the products `... * 1000.0f` of the press, release and miss
  checks, and the tick accrual), the section "The judgment code with the `float`
  arithmetic of the source" repeats the judgment code with every `float` operation
  rounded to binary32 by `f32`; its names end in `32`.
* `int` counters (`score`, `combo`, ...) are unbounded `Int`.
* `std::vector<Note>` is `List Note`; the pointer `closest` of
  `processLaneInput` is an index into that list.
* The arrays `keyPressed`, `keyReleased`, `keyHeld` are functions `Int → Bool`
  (an index outside `0..3` is undefined behaviour in the source; every theorem
  holds for whatever such a read returns).
* Cosmetic collaborators (`hitEffects`, `particles`, `beatFlash`, `bgBars`,
  `lanePositions`) never feed back into notes or counters and are left out, and
  so is `autoHeld`, which the source writes but never reads.  Branches on
  `Config::clearMode` are kept, since the source sets `holding` inside them.
* `gameClock` and the `sf::Sound` status are inputs of `update`
  (`currentTime`, `soundStopped`).
* The sample buffer of `analyze` is the list of its `std::int16_t` values with its sample
  rate and channel count; a read at an index is `sampleAt`.  The frame loop is modelled
  for `channelCount ≥ 1` (with `channelCount = 0` the source does not terminate).
* `std::mt19937 rng(42)` is the list of its outputs that are still to come, a parameter
  of `generateNotes`; `chanceDist(rng)` is one output divided by `2^32`.  `mt42` holds the
  first outputs of the generator.  `generateNotes` returns `none` when the list ends
  before the run does.
* Event polling (`processEvents`, `handleKeyPress`) only writes the key arrays; in
  `EngineStep` it is a step that may set them to anything.  The guard
  `gameStarted && !gameEnded && !paused` of the frame loop is not imposed: `update` may
  run in any state.
* A pass of the loop of `Game::run` during play (`processEvents`, then `update(dt)`) is a
  `Frame`: the values of `dt`, of the clock and of the playback status, and the key arrays
  that polling left.  `runFrames` runs a list of them.
-/

namespace VSRG

/-! ## Config -/

/-- The constant `Config::PERFECT_WINDOW` (milliseconds). -/
def PERFECT_WINDOW : ℚ := 45
/-- The constant `Config::GOOD_WINDOW` (milliseconds). -/
def GOOD_WINDOW : ℚ := 100
/-- The constant `Config::MISS_WINDOW` (milliseconds). -/
def MISS_WINDOW : ℚ := 150
/-- The constant `Config::PERFECT_SCORE`. -/
def PERFECT_SCORE : Int := 300
/-- The constant `Config::GOOD_SCORE`. -/
def GOOD_SCORE : Int := 100
/-- The constant `Config::HOLD_TICK_SCORE`. -/
def HOLD_TICK_SCORE : Int := 10
/-- The constant `Config::HOLD_COMPLETE_SCORE`. -/
def HOLD_COMPLETE_SCORE : Int := 100
/-- The constant `Config::NUM_LANES`. -/
def NUM_LANES : Nat := 4

/-- The two mutable globals of `namespace Config` that the judgment code reads. -/
structure Config where
  autoPlay : Bool
  clearMode : Bool
deriving DecidableEq, Repr

/-! ## Arithmetic helpers -/

/-- The function `std::abs` on a `float`. -/
def fabs (x : ℚ) : ℚ := if x < 0 then -x else x

/-- The conversion `static_cast<int>(x)` of a `float`: truncation toward zero. -/
def truncToInt (x : ℚ) : Int := if 0 ≤ x then ⌊x⌋ else ⌈x⌉

/-! ## Note -/

/-- The record `struct Note`. -/
structure Note where
  timestamp : ℚ
  endTimestamp : ℚ
  lane : Int
  intensity : ℚ
  hit : Bool
  missed : Bool
  holding : Bool
  holdCompleted : Bool
  holdFailed : Bool
deriving DecidableEq, Repr

/-- The constructor `Note(t, l, dur, intens)`: all five flags start false. -/
def Note.create (t : ℚ) (l : Int) (dur : ℚ) (intens : ℚ) : Note :=
  { timestamp := t, endTimestamp := t + dur, lane := l, intensity := intens,
    hit := false, missed := false, holding := false,
    holdCompleted := false, holdFailed := false }

/-- The method `Note::isHoldNote`. -/
def Note.isHoldNote (n : Note) : Bool := decide (n.endTimestamp > n.timestamp + 1 / 100)

/-! ## Game state -/

/-- The score and judgment counters of `class Game`. -/
structure Stats where
  score : Int
  combo : Int
  maxCombo : Int
  perfectCount : Int
  goodCount : Int
  missCount : Int
  holdCount : Int
deriving DecidableEq, Repr

/-- The judgment-relevant members of `class Game`. -/
structure Game extends Stats where
  notes : List Note
  gameStarted : Bool
  gameEnded : Bool
  paused : Bool
  keyPressed : Int → Bool
  keyReleased : Int → Bool
  keyHeld : Int → Bool

/-- The counters as set by the constructor `Game()` and by `restartGame`. -/
def Stats.zero : Stats :=
  { score := 0, combo := 0, maxCombo := 0, perfectCount := 0, goodCount := 0,
    missCount := 0, holdCount := 0 }

/-- A loop `for (auto& note : notes)` whose body updates the note and the counters. -/
def forEachNote (body : Note → Stats → Note × Stats) : List Note → Stats → List Note × Stats
  | [], st => ([], st)
  | n :: rest, st =>
    let r := body n st
    let rs := forEachNote body rest r.2
    (r.1 :: rs.1, rs.2)

/-! ## processLaneInput -/

/-- The search loop of `processLaneInput`: `acc` is `(closest, closestDiff)`, `i` the
index of the head of the remaining list. -/
def findClosest (lane : Int) (currentTime : ℚ) :
    List Note → Nat → Option Nat × ℚ → Option Nat × ℚ
  | [], _, acc => acc
  | n :: rest, i, acc =>
    if n.lane = lane ∧ n.hit = false ∧ n.missed = false then
      let diff := fabs (currentTime - n.timestamp) * 1000
      if diff < acc.2 ∧ diff ≤ MISS_WINDOW then
        findClosest lane currentTime rest (i + 1) (some i, diff)
      else findClosest lane currentTime rest (i + 1) acc
    else findClosest lane currentTime rest (i + 1) acc

/-- The judgment part of `processLaneInput`, applied to the matched note `closest`
with offset `closestDiff`; returns the note and the counters after the call. -/
def judgePress (cfg : Config) (closestDiff : ℚ) (closest : Note) (st : Stats) : Note × Stats :=
  let c0 : Note := { closest with hit := true }
  let r : Note × Stats :=
    if closestDiff ≤ PERFECT_WINDOW then
      let st1 : Stats := { st with score := st.score + PERFECT_SCORE, combo := st.combo + 1,
                                   perfectCount := st.perfectCount + 1 }
      if cfg.clearMode = false then
        (if c0.isHoldNote then { c0 with holding := true } else c0, st1)
      else
        (if c0.isHoldNote then { c0 with holding := true } else c0, st1)
    else if closestDiff ≤ GOOD_WINDOW then
      let st1 : Stats := { st with score := st.score + GOOD_SCORE, combo := st.combo + 1,
                                   goodCount := st.goodCount + 1 }
      if cfg.clearMode = false then
        (if c0.isHoldNote then { c0 with holding := true } else c0, st1)
      else
        (if c0.isHoldNote then { c0 with holding := true } else c0, st1)
    else
      let st1 : Stats := { st with combo := 0, missCount := st.missCount + 1 }
      (if c0.isHoldNote then { c0 with holdFailed := true } else c0, st1)
  (r.1, { r.2 with maxCombo := max r.2.maxCombo r.2.combo })

/-- The method `Game::processLaneInput`. -/
def processLaneInput (cfg : Config) (lane : Int) (currentTime : ℚ) (g : Game) : Game :=
  match findClosest lane currentTime g.notes 0 (none, MISS_WINDOW + 1) with
  | (none, _) => g
  | (some i, closestDiff) =>
    match g.notes[i]? with
    | none => g
    | some closest =>
      let r := judgePress cfg closestDiff closest g.toStats
      { g with toStats := r.2, notes := g.notes.set i r.1 }

/-! ## processLaneRelease -/

/-- The condition under which a hold note is being held and still unresolved
(the guard shared by `processLaneRelease` and the hold loop of `update`). -/
def Note.holdActive (n : Note) : Bool :=
  n.isHoldNote && n.holding && !n.holdCompleted && !n.holdFailed

/-- The loop of `processLaneRelease`; it stops (`break`) at the first active hold
note of the lane. -/
def releaseLoop (lane : Int) (currentTime : ℚ) : List Note → Stats → List Note × Stats
  | [], st => ([], st)
  | n :: rest, st =>
    if n.lane = lane ∧ n.holdActive = true then
      let diff := fabs (currentTime - n.endTimestamp) * 1000
      if diff ≤ GOOD_WINDOW then
        ({ n with holdCompleted := true, holding := false } :: rest,
         { st with score := st.score + HOLD_COMPLETE_SCORE, combo := st.combo + 1,
                   holdCount := st.holdCount + 1,
                   maxCombo := max st.maxCombo (st.combo + 1) })
      else if currentTime < n.endTimestamp then
        ({ n with holdFailed := true, holding := false } :: rest,
         { st with combo := 0, missCount := st.missCount + 1 })
      else (n :: rest, st)
    else
      let rs := releaseLoop lane currentTime rest st
      (n :: rs.1, rs.2)

/-- The method `Game::processLaneRelease`. -/
def processLaneRelease (_cfg : Config) (lane : Int) (currentTime : ℚ) (g : Game) : Game :=
  let r := releaseLoop lane currentTime g.notes g.toStats
  { g with toStats := r.2, notes := r.1 }

/-! ## updateAutoPlay -/

/-- The loop body of `updateAutoPlay`. -/
def autoPlayNote (_cfg : Config) (currentTime : ℚ) (note : Note) (st : Stats) : Note × Stats :=
  if note.hit = false ∧ note.missed = false then
    let diff := (currentTime - note.timestamp) * 1000
    if diff ≥ -5 ∧ diff ≤ 5 then
      let n1 : Note := { note with hit := true }
      let st1 : Stats := { st with score := st.score + PERFECT_SCORE, combo := st.combo + 1,
                                   perfectCount := st.perfectCount + 1,
                                   maxCombo := max st.maxCombo (st.combo + 1) }
      (if n1.isHoldNote then { n1 with holding := true } else n1, st1)
    else (note, st)
  else (note, st)

/-- The method `Game::updateAutoPlay`. -/
def updateAutoPlay (cfg : Config) (currentTime : ℚ) (g : Game) : Game :=
  let r := forEachNote (autoPlayNote cfg currentTime) g.notes g.toStats
  { g with toStats := r.2, notes := r.1 }

/-! ## update -/

/-- The body of the lane loop at the top of `update` (manual play). -/
def laneStep (cfg : Config) (currentTime : ℚ) (g : Game) (lane : Int) : Game :=
  let g1 := if g.keyPressed lane = true then processLaneInput cfg lane currentTime g else g
  if g1.keyReleased lane = true then processLaneRelease cfg lane currentTime g1 else g1

/-- The first block of `update`: the auto-player, or the lane loop over `0..NUM_LANES-1`. -/
def inputPhase (cfg : Config) (currentTime : ℚ) (g : Game) : Game :=
  if cfg.autoPlay = true then updateAutoPlay cfg currentTime g
  else ((List.range NUM_LANES).map Int.ofNat).foldl (laneStep cfg currentTime) g

/-- The body of the loop "Update hold notes" of `update`. -/
def holdSweepNote (cfg : Config) (keyHeld : Int → Bool) (dt currentTime : ℚ)
    (note : Note) (st : Stats) : Note × Stats :=
  if note.holdActive = true then
    let isHeld : Bool := if cfg.autoPlay = true then true else keyHeld note.lane
    if isHeld = false then
      ({ note with holdFailed := true, holding := false },
       { st with combo := 0, missCount := st.missCount + 1 })
    else
      let st1 : Stats := { st with score := st.score + truncToInt (HOLD_TICK_SCORE * dt * 10) }
      if currentTime ≥ note.endTimestamp then
        ({ note with holdCompleted := true, holding := false },
         { st1 with score := st1.score + HOLD_COMPLETE_SCORE, combo := st1.combo + 1,
                    holdCount := st1.holdCount + 1,
                    maxCombo := max st1.maxCombo (st1.combo + 1) })
      else (note, st1)
  else (note, st)

/-- The body of the loop "Check missed notes" of `update`. -/
def missSweepNote (currentTime : ℚ) (note : Note) (st : Stats) : Note × Stats :=
  if note.hit = false ∧ note.missed = false then
    let diff := (currentTime - note.timestamp) * 1000
    if diff > MISS_WINDOW then
      ({ note with missed := true }, { st with combo := 0, missCount := st.missCount + 1 })
    else (note, st)
  else (note, st)

/-- The loop "Check game end" of `update`: the final value of `done`. -/
def checkDone : List Note → Bool
  | [] => true
  | n :: rest =>
    if n.hit = false ∧ n.missed = false then false
    else if n.isHoldNote = true ∧ n.holding = true then false
    else checkDone rest

/-- The method `Game::update`, with the clock reading and the playback status as inputs. -/
def update (cfg : Config) (dt currentTime : ℚ) (soundStopped : Bool) (g : Game) : Game :=
  let g1 := inputPhase cfg currentTime g
  let r2 := forEachNote (holdSweepNote cfg g1.keyHeld dt currentTime) g1.notes g1.toStats
  let r3 := if cfg.autoPlay = false then forEachNote (missSweepNote currentTime) r2.1 r2.2
            else r2
  let ended : Bool :=
    if soundStopped = true ∧ g1.gameStarted = true then
      (if checkDone r3.1 = true then true else g1.gameEnded)
    else g1.gameEnded
  { g1 with toStats := r3.2, notes := r3.1, gameEnded := ended }

/-! ## restartGame -/

/-- The method `Game::restartGame`. -/
def restartGame (g : Game) : Game :=
  { g with toStats := Stats.zero,
           gameStarted := false, gameEnded := false, paused := false,
           notes := g.notes.map (fun n => { n with hit := false, missed := false,
                                                   holding := false, holdCompleted := false,
                                                   holdFailed := false }) }

/-! ## Difficulty -/

/-- The enumeration `Config::Difficulty`. -/
inductive Difficulty
  | VERY_EASY
  | EASY
  | MEDIUM
  | HARD
  | EXTREME
deriving DecidableEq, Repr

/-- The record `Config::DifficultyParams`. -/
structure DifficultyParams where
  beatThreshold : ℚ
  minNoteInterval : ℚ
  holdNoteChance : ℚ
  maxHoldDuration : ℚ
  allowDoubles : Bool
  doubleChance : ℚ
deriving DecidableEq, Repr

/-- The function `Config::getDifficultyParams`, with the global `Config::difficulty` as
argument. -/
def getDifficultyParams : Difficulty → DifficultyParams
  | .VERY_EASY => { beatThreshold := 19 / 10, minNoteInterval := 1 / 2, holdNoteChance := 0,
                    maxHoldDuration := 0, allowDoubles := false, doubleChance := 0 }
  | .EASY => { beatThreshold := 16 / 10, minNoteInterval := 25 / 100, holdNoteChance := 1 / 10,
               maxHoldDuration := 8 / 10, allowDoubles := false, doubleChance := 0 }
  | .MEDIUM => { beatThreshold := 14 / 10, minNoteInterval := 15 / 100, holdNoteChance := 2 / 10,
                 maxHoldDuration := 12 / 10, allowDoubles := false, doubleChance := 0 }
  | .HARD => { beatThreshold := 13 / 10, minNoteInterval := 10 / 100, holdNoteChance := 25 / 100,
               maxHoldDuration := 15 / 10, allowDoubles := true, doubleChance := 15 / 100 }
  | .EXTREME => { beatThreshold := 12 / 10, minNoteInterval := 8 / 100, holdNoteChance := 3 / 10,
                  maxHoldDuration := 2, allowDoubles := true, doubleChance := 25 / 100 }

/-! ## AudioAnalyzer: detectBeats

Samples are the `std::int16_t` values of the buffer as a `List Int`, `sampleCount` is its
length.  A loop `for (x = a; x < b; x += s)` is the list `forRange a b s` of the values
`x` takes (for `s = 0`, which needs `channelCount = 0`, the source does not terminate and
the list is empty).  Accumulations `e += f(j)` are sums. -/

/-- The record `AudioAnalyzer::BeatInfo`. -/
structure BeatInfo where
  timestamp : ℚ
  intensity : ℚ
  bassStrength : ℚ
  midStrength : ℚ
  highStrength : ℚ
  isBass : Bool
  isSnare : Bool
  isHiHat : Bool
deriving DecidableEq, Repr

/-- The values of the loop variable of `for (x = start; x < stop; x += step)`. -/
def forRange (start stop step : Nat) : List Nat :=
  (List.range ((stop - start + step - 1) / step)).map (fun m => start + m * step)

/-- The constant `blockSize` of `detectBeats`. -/
def blockSize : Nat := 1024
/-- The constant `hopSize` of `detectBeats`. -/
def hopSize : Nat := 512
/-- The constant `historySize` of `detectBeats`. -/
def historySize : Nat := 43

/-- The read `samples[idx]`. -/
def sampleAt (samples : List Int) (idx : Nat) : Int := samples.getD idx 0

/-- The first inner loop of `detectBeats` with its normalisation: `bassEnergy` of the
frame starting at `i`. -/
def bassEnergyOf (samples : List Int) (channelCount i : Nat) : ℚ :=
  ((forRange 0 (blockSize * channelCount) (channelCount * 4)).map (fun j =>
    let sum : ℚ :=
      (((List.range (4 * channelCount)).takeWhile
          (fun k => decide (j + k < blockSize * channelCount))).map
        (fun k => (sampleAt samples (i + j + k) : ℚ) / 32768)).sum
    (sum / ((4 * channelCount : Nat) : ℚ)) * (sum / ((4 * channelCount : Nat) : ℚ)))).sum
    / ((blockSize / 4 : Nat) : ℚ)

/-- The second inner loop of `detectBeats` with its normalisation: `midEnergy`. -/
def midEnergyOf (samples : List Int) (channelCount i : Nat) : ℚ :=
  ((forRange channelCount (blockSize * channelCount) channelCount).map (fun j =>
    let diff : ℚ :=
      ((sampleAt samples (i + j) - sampleAt samples (i + j - channelCount) : Int) : ℚ) / 32768
    diff * diff)).sum / (blockSize : ℚ)

/-- The third inner loop of `detectBeats` with its normalisation: `highEnergy`. -/
def highEnergyOf (samples : List Int) (channelCount i : Nat) : ℚ :=
  ((forRange (2 * channelCount) (blockSize * channelCount) channelCount).map (fun j =>
    let diff1 : ℚ :=
      ((sampleAt samples (i + j) - sampleAt samples (i + j - channelCount) : Int) : ℚ) / 32768
    let diff2 : ℚ :=
      ((sampleAt samples (i + j - channelCount)
        - sampleAt samples (i + j - 2 * channelCount) : Int) : ℚ) / 32768
    (diff1 - diff2) * (diff1 - diff2))).sum / (blockSize : ℚ)

/-- The lambda `average` of `detectBeats`. -/
def average (h : List ℚ) : ℚ := h.sum / (h.length : ℚ)

/-- The local state of the frame loop of `detectBeats`. -/
structure DetectState where
  bassHistory : List ℚ
  midHistory : List ℚ
  highHistory : List ℚ
  totalHistory : List ℚ
  lastBeatTime : ℚ
  beats : List BeatInfo

/-- The locals of `detectBeats` before the frame loop. -/
def DetectState.init : DetectState :=
  { bassHistory := [], midHistory := [], highHistory := [], totalHistory := [],
    lastBeatTime := -(1 / 10), beats := [] }

/-- The body of the frame loop of `detectBeats`, for the frame starting at sample `i`. -/
def detectFrame (samples : List Int) (sampleRate channelCount : Nat)
    (params : DifficultyParams) (st : DetectState) (i : Nat) : DetectState :=
  let timestamp : ℚ := ((i / channelCount : Nat) : ℚ) / (sampleRate : ℚ)
  let bassEnergy := bassEnergyOf samples channelCount i
  let midEnergy := midEnergyOf samples channelCount i
  let highEnergy := highEnergyOf samples channelCount i
  let totalEnergy := bassEnergy + midEnergy * (1 / 2) + highEnergy * (3 / 10)
  let pop : Bool := decide ((st.bassHistory ++ [bassEnergy]).length > historySize)
  let bassHistory := if pop then (st.bassHistory ++ [bassEnergy]).tail
                     else st.bassHistory ++ [bassEnergy]
  let midHistory := if pop then (st.midHistory ++ [midEnergy]).tail
                    else st.midHistory ++ [midEnergy]
  let highHistory := if pop then (st.highHistory ++ [highEnergy]).tail
                     else st.highHistory ++ [highEnergy]
  let totalHistory := if pop then (st.totalHistory ++ [totalEnergy]).tail
                      else st.totalHistory ++ [totalEnergy]
  if totalHistory.length < historySize / 2 then
    { st with bassHistory := bassHistory, midHistory := midHistory,
              highHistory := highHistory, totalHistory := totalHistory }
  else
    let avgBass := average bassHistory
    let avgMid := average midHistory
    let avgHigh := average highHistory
    let avgTotal := average totalHistory
    let threshold := params.beatThreshold
    let isBass : Bool :=
      decide (bassEnergy > avgBass * (threshold + 1 / 10) ∧ bassEnergy > 1 / 1000)
    let isSnare : Bool := decide (midEnergy > avgMid * threshold ∧ midEnergy > 5 / 10000)
    let isHiHat : Bool :=
      decide (highEnergy > avgHigh * (threshold - 1 / 10) ∧ highEnergy > 1 / 10000)
    let isAnyBeat : Bool := decide (totalEnergy > avgTotal * threshold ∧ avgTotal > 5 / 10000)
    let minInterval := params.minNoteInterval * (1 / 2)
    if (isBass || isSnare || isHiHat || isAnyBeat) = true ∧
        timestamp - st.lastBeatTime ≥ minInterval then
      let beat : BeatInfo :=
        { timestamp := timestamp,
          intensity := totalEnergy / max avgTotal (1 / 1000),
          bassStrength := bassEnergy / max avgBass (1 / 1000),
          midStrength := midEnergy / max avgMid (1 / 1000),
          highStrength := highEnergy / max avgHigh (1 / 1000),
          isBass := isBass, isSnare := isSnare, isHiHat := isHiHat }
      { bassHistory := bassHistory, midHistory := midHistory, highHistory := highHistory,
        totalHistory := totalHistory, lastBeatTime := timestamp, beats := st.beats ++ [beat] }
    else
      { st with bassHistory := bassHistory, midHistory := midHistory,
                highHistory := highHistory, totalHistory := totalHistory }

/-- The frame starts visited by `for (i = 0; i + blockSize * channelCount <= sampleCount;
i += hopSize * channelCount)`. -/
def frameStarts (sampleCount channelCount : Nat) : List Nat :=
  forRange 0 (sampleCount + 1 - blockSize * channelCount) (hopSize * channelCount)

/-- The method `AudioAnalyzer::detectBeats`. -/
def detectBeats (samples : List Int) (sampleRate channelCount : Nat)
    (params : DifficultyParams) : List BeatInfo :=
  ((frameStarts samples.length channelCount).foldl
    (detectFrame samples sampleRate channelCount params) DetectState.init).beats

/-! ## AudioAnalyzer: generateNotes

The generator `std::mt19937 rng(42)` is a list `draws` of its successive outputs that are
not yet consumed; a call `rng()` takes the head, `chanceDist(rng)` takes the head and
scales it to `[0, 1)`.  The theorems hold for every such list.  The result is `none` when
the list ends before the run does (the two `do ... while` loops have no bound of their
own). -/

/-- The expression `rng() % m` for the draw `r`. -/
def rngMod (r m : Nat) : Nat := r % 2 ^ 32 % m

/-- The value of `chanceDist(rng)` for the draw `r`. -/
def chanceOf (r : Nat) : ℚ := ((r % 2 ^ 32 : Nat) : ℚ) / 2 ^ 32

/-- The function `std::clamp(v, lo, hi)` as libstdc++ computes it,
`std::min(std::max(v, lo), hi)`.  For `hi < lo` the C++ standard leaves the call undefined;
this expression then gives `hi`. -/
def stdClamp (v lo hi : ℚ) : ℚ := min (max v lo) hi

/-- The loop `do { lane = rng() % 4; } while (lane == lastLane && rng() % 3 != 0)`. -/
def selectAnyLane (lastLane : Int) : List Nat → Option (Nat × List Nat)
  | [] => none
  | [r] => if (rngMod r 4 : Int) = lastLane then none else some (rngMod r 4, [])
  | r :: r2 :: rest =>
    if (rngMod r 4 : Int) = lastLane then
      (if rngMod r2 3 ≠ 0 then selectAnyLane lastLane rest else some (rngMod r 4, rest))
    else some (rngMod r 4, r2 :: rest)

/-- The lane selection at the top of the loop body of `generateNotes`. -/
def selectLane (beat : BeatInfo) (lastLane : Int) (draws : List Nat) :
    Option (Nat × List Nat) :=
  if beat.isBass = true then
    match draws with
    | [] => none
    | r :: rest => some (rngMod r 2, rest)
  else if beat.isSnare = true then
    match draws with
    | [] => none
    | r :: rest => some (1 + rngMod r 2, rest)
  else if beat.isHiHat = true then
    match draws with
    | [] => none
    | r :: rest => some (2 + rngMod r 2, rest)
  else selectAnyLane lastLane draws

/-- The block "check that the lane is free" of `generateNotes`. -/
def resolveLane (lastNoteTime : Nat → ℚ) (timestamp minGap : ℚ) (lane : Nat) : Nat :=
  if timestamp - lastNoteTime lane < minGap then
    match (List.range 4).find? (fun l => decide (timestamp - lastNoteTime l ≥ minGap)) with
    | some l => l
    | none => lane
  else lane

/-- The value of `holdEnd` after the search loop of the strong-bass branch, for beat `i`. -/
def strongBassHoldEnd (beats : List BeatInfo) (i : Nat) (beat : BeatInfo) : ℚ :=
  match ((beats.drop (i + 1)).take (i + 10 - (i + 1))).find?
      (fun b => b.isBass && decide (b.bassStrength > 3 / 2)) with
  | some b => b.timestamp - 1 / 20
  | none => beat.timestamp + 3 / 10

/-- The `else if` branch of the duration block of `generateNotes` (dense hi-hat runs). -/
def hiHatDuration (beats : List BeatInfo) (params : DifficultyParams) (i : Nat)
    (beat : BeatInfo) (draws : List Nat) : Option (ℚ × List Nat) :=
  if beat.isHiHat = true ∧ i + 2 < beats.length then
    match draws with
    | [] => none
    | c :: rest =>
      if chanceOf c < params.holdNoteChance then
        (if (((beats.drop i).take 5).filter (fun b => b.isHiHat)).length ≥ 3 then
          match rest with
          | [] => none
          | c2 :: rest2 =>
            some (min (3 / 10 + chanceOf c2 * (1 / 2)) params.maxHoldDuration, rest2)
        else some (0, rest))
      else some (0, rest)
  else some (0, draws)

/-- The duration block of `generateNotes`: the value of `duration` and the draws left. -/
def chooseDuration (beats : List BeatInfo) (params : DifficultyParams) (i : Nat)
    (beat : BeatInfo) (draws : List Nat) : Option (ℚ × List Nat) :=
  if beat.isBass = true ∧ beat.bassStrength > 2 then
    match draws with
    | [] => none
    | c :: rest =>
      if chanceOf c < params.holdNoteChance * 2 then
        let duration :=
          stdClamp (strongBassHoldEnd beats i beat - beat.timestamp) (1 / 4)
            params.maxHoldDuration
        some (if duration < 1 / 4 then 0 else duration, rest)
      else hiHatDuration beats params i beat rest
  else hiHatDuration beats params i beat draws

/-- The loop `do { secondLane = rng() % 4; } while (secondLane == lane)`. -/
def selectSecondLane (lane : Nat) : List Nat → Option (Nat × List Nat)
  | [] => none
  | r :: rest => if rngMod r 4 = lane then selectSecondLane lane rest else some (rngMod r 4, rest)

/-- The locals of `generateNotes` that one iteration passes to the next. -/
structure ComposerState where
  lastNoteTime : Nat → ℚ
  lastLane : Int
  draws : List Nat

/-- The notes one iteration of `generateNotes` appends: the primary note, then the double
note if there is one. -/
structure Emission where
  primary : Note
  double : Option Note

/-- The notes of an emission in the order they are appended. -/
def Emission.notes (e : Emission) : List Note := e.primary :: e.double.toList

/-- The locals of `generateNotes` before the loop. -/
def ComposerState.init (draws : List Nat) : ComposerState :=
  { lastNoteTime := fun _ => -1, lastLane := -1, draws := draws }

/-- The loop body of `generateNotes` for beat `i`. -/
def composeBeat (beats : List BeatInfo) (params : DifficultyParams) (i : Nat)
    (beat : BeatInfo) (st : ComposerState) : Option (Emission × ComposerState) :=
  match selectLane beat st.lastLane st.draws with
  | none => none
  | some (lane0, d1) =>
    let minGap := params.minNoteInterval
    let lane := resolveLane st.lastNoteTime beat.timestamp minGap lane0
    match chooseDuration beats params i beat d1 with
    | none => none
    | some (duration, d2) =>
      let primary := Note.create beat.timestamp lane duration beat.intensity
      let lastNoteTime := Function.update st.lastNoteTime lane (beat.timestamp + duration)
      if params.allowDoubles = true then
        match d2 with
        | [] => none
        | c :: d3 =>
          if chanceOf c < params.doubleChance ∧ beat.intensity > 3 / 2 then
            match selectSecondLane lane d3 with
            | none => none
            | some (secondLane, d4) =>
              if beat.timestamp - lastNoteTime secondLane ≥ minGap then
                some ({ primary := primary,
                        double := some (Note.create beat.timestamp secondLane 0
                          (beat.intensity * (8 / 10))) },
                      { lastNoteTime := Function.update lastNoteTime secondLane beat.timestamp,
                        lastLane := lane, draws := d4 })
              else
                some ({ primary := primary, double := none },
                      { lastNoteTime := lastNoteTime, lastLane := lane, draws := d4 })
          else
            some ({ primary := primary, double := none },
                  { lastNoteTime := lastNoteTime, lastLane := lane, draws := d3 })
      else
        some ({ primary := primary, double := none },
              { lastNoteTime := lastNoteTime, lastLane := lane, draws := d2 })

/-- The loop of `generateNotes` from beat `i` on, `rest` being the beats from `i`. -/
def composeLoop (beats : List BeatInfo) (params : DifficultyParams) :
    Nat → List BeatInfo → ComposerState → Option (List Emission)
  | _, [], _ => some []
  | i, beat :: rest, st =>
    match composeBeat beats params i beat st with
    | none => none
    | some (e, st') =>
      match composeLoop beats params (i + 1) rest st' with
      | none => none
      | some es => some (e :: es)

/-- The emissions of `generateNotes`, one per beat. -/
def generateEmissions (beats : List BeatInfo) (params : DifficultyParams) (draws : List Nat) :
    Option (List Emission) :=
  composeLoop beats params 0 beats (ComposerState.init draws)

/-- The method `AudioAnalyzer::generateNotes`. -/
def generateNotes (beats : List BeatInfo) (params : DifficultyParams) (draws : List Nat) :
    Option (List Note) :=
  (generateEmissions beats params draws).map (fun es => (es.map Emission.notes).flatten)

/-- The method `AudioAnalyzer::analyze`, on the samples, sample rate and channel count of
the buffer. -/
def analyze (samples : List Int) (sampleRate channelCount : Nat) (difficulty : Difficulty)
    (draws : List Nat) : Option (List Note) :=
  generateNotes (detectBeats samples sampleRate channelCount (getDifficultyParams difficulty))
    (getDifficultyParams difficulty) draws

/-! ## Vocabulary of the composer -/

/-- The locals of `generateNotes` before the `k`-th of the beats `rest`, the first of
which has index `i` and is met in the state `st`. -/
def stateBefore (beats : List BeatInfo) (params : DifficultyParams) :
    Nat → Nat → List BeatInfo → ComposerState → Option ComposerState
  | 0, _, _, st => some st
  | _ + 1, _, [], _ => none
  | k + 1, i, beat :: rest, st =>
    match composeBeat beats params i beat st with
    | none => none
    | some (_, st') => stateBefore beats params k (i + 1) rest st'

/-- The test `beat.timestamp - lastNoteTime[l] >= minGap` of `generateNotes`: lane `l`
satisfies the spacing constraint for a note at `timestamp`. -/
def laneFree (lastNoteTime : Nat → ℚ) (timestamp minGap : ℚ) (l : Nat) : Bool :=
  decide (timestamp - lastNoteTime l ≥ minGap)

/-- No primary note of the run from beat `i` on is placed in a lane that violates the
spacing constraint: the block "check that the lane is free" never leaves a note in a lane
that fails its test. -/
def spacingKept (beats : List BeatInfo) (params : DifficultyParams) :
    Nat → List BeatInfo → ComposerState → Bool
  | _, [], _ => true
  | i, beat :: rest, st =>
    match selectLane beat st.lastLane st.draws, composeBeat beats params i beat st with
    | some (lane0, _), some (_, st') =>
      laneFree st.lastNoteTime beat.timestamp params.minNoteInterval
          (resolveLane st.lastNoteTime beat.timestamp params.minNoteInterval lane0) &&
        spacingKept beats params (i + 1) rest st'
    | _, _ => true

/-- The intervals `[timestamp, endTimestamp)` of two notes have a point in common. -/
def Note.overlaps (a b : Note) : Prop :=
  a.timestamp < b.endTimestamp ∧ b.timestamp < a.endTimestamp

instance (a b : Note) : Decidable (Note.overlaps a b) := by
  unfold Note.overlaps; infer_instance

/-- The effect of `std::sort(notes.begin(), notes.end(), ...)` in `Game::loadAudio`:
`sorted` holds the same notes as `notes`, ordered by `timestamp`. -/
def SortedByStart (notes sorted : List Note) : Prop :=
  sorted.Perm notes ∧ sorted.Pairwise (fun a b => a.timestamp ≤ b.timestamp)

/-- The end time of the last note of lane `l` in `notes`, or `start` when the lane has no
note: what the writes `lastNoteTime[lane] = ...` of `generateNotes` leave in entry `l`
after the notes were emitted, beginning from `start`. -/
def lastEndFrom (start : ℚ) (notes : List Note) (l : Nat) : ℚ :=
  notes.foldl (fun acc n => if n.lane = (l : Int) then n.endTimestamp else acc) start

/-- The end time of the last note of lane `l` in `notes`, or -1 when the lane has no
note. -/
def lastEndTime (notes : List Note) (l : Nat) : ℚ := lastEndFrom (-1) notes l

/-- The loop condition of the search in the strong-bass branch: a bass beat with
`bassStrength > 1.5`. -/
def BeatInfo.strongBass (b : BeatInfo) : Bool := b.isBass && decide (b.bassStrength > 3 / 2)

/-- The value of `duration` at the end of the strong-bass branch for the span
`holdEnd - beat.timestamp`: `std::clamp` and then the test `duration < 0.25`. -/
def clampedHold (span maxHoldDuration : ℚ) : ℚ :=
  if stdClamp span (1 / 4) maxHoldDuration < 1 / 4 then 0
  else stdClamp span (1 / 4) maxHoldDuration

/-! ## Vocabulary of the lifecycle -/

/-- The offset of a press at `t` from the start of note `n`, in milliseconds, as
`processLaneInput` computes it. -/
def offsetMs (t : ℚ) (n : Note) : ℚ := fabs (t - n.timestamp) * 1000

/-- A note that `processLaneInput` considers for lane `lane`: Pending (not hit, not
missed) and in that lane. -/
def Note.pendingIn (lane : Int) (n : Note) : Prop :=
  n.lane = lane ∧ n.hit = false ∧ n.missed = false

instance (lane : Int) (n : Note) : Decidable (n.pendingIn lane) := by
  unfold Note.pendingIn; infer_instance

/-! ## Lifecycle states and engine steps -/

/-- Pending, with the three hold flags clear as well: the state `restartGame` and the
constructor put a note in. -/
def Note.fresh (n : Note) : Prop :=
  n.hit = false ∧ n.missed = false ∧ n.holding = false ∧ n.holdCompleted = false ∧
    n.holdFailed = false

/-- Holding: a hold note that was hit and is being held, not yet resolved. -/
def Note.isHolding (n : Note) : Prop :=
  n.isHoldNote = true ∧ n.hit = true ∧ n.missed = false ∧ n.holding = true ∧
    n.holdCompleted = false ∧ n.holdFailed = false

/-- Completed: a hold note that was hit and held to its end. -/
def Note.isCompleted (n : Note) : Prop :=
  n.isHoldNote = true ∧ n.hit = true ∧ n.missed = false ∧ n.holding = false ∧
    n.holdCompleted = true ∧ n.holdFailed = false

/-- Failed: a hold note that was hit and then lost. -/
def Note.isFailed (n : Note) : Prop :=
  n.isHoldNote = true ∧ n.hit = true ∧ n.missed = false ∧ n.holding = false ∧
    n.holdCompleted = false ∧ n.holdFailed = true

/-- The flags encode one lifecycle state: `hit` and `missed` exclude each other, at most
one of `holding`, `holdCompleted`, `holdFailed` is set, and any of these three implies a
hold note that is hit and not missed. -/
def Note.wellFormed (n : Note) : Prop :=
  ¬ (n.hit = true ∧ n.missed = true) ∧
  ¬ (n.holding = true ∧ n.holdCompleted = true) ∧
  ¬ (n.holding = true ∧ n.holdFailed = true) ∧
  ¬ (n.holdCompleted = true ∧ n.holdFailed = true) ∧
  (n.holding = true ∨ n.holdCompleted = true ∨ n.holdFailed = true →
    n.endTimestamp > n.timestamp + 1 / 100 ∧ n.hit = true ∧ n.missed = false)

/-- The terminal states: Missed, Hit as a tap, Completed, Failed. -/
def Note.terminal (n : Note) : Prop :=
  n.missed = true ∨ (n.hit = true ∧ n.isHoldNote = false) ∨ n.holdCompleted = true ∨
    n.holdFailed = true

/-- The writes the source makes to one note: the three outcomes of a press or of the
auto-player on a Pending note, the passive miss, and the two resolutions of an active
hold. -/
inductive NoteStep : Note → Note → Prop
  | hitTap (n : Note) : n.hit = false → n.missed = false → n.isHoldNote = false →
      NoteStep n { n with hit := true }
  | hitHold (n : Note) : n.hit = false → n.missed = false → n.isHoldNote = true →
      NoteStep n { n with hit := true, holding := true }
  | hitHoldMiss (n : Note) : n.hit = false → n.missed = false → n.isHoldNote = true →
      NoteStep n { n with hit := true, holdFailed := true }
  | miss (n : Note) : n.hit = false → n.missed = false →
      NoteStep n { n with missed := true }
  | complete (n : Note) : n.holdActive = true →
      NoteStep n { n with holdCompleted := true, holding := false }
  | fail (n : Note) : n.holdActive = true →
      NoteStep n { n with holdFailed := true, holding := false }

/-- One call of an engine operation during play, or one change of the key arrays by
event polling. -/
inductive EngineStep : Game → Game → Prop
  | press (cfg : Config) (L : Int) (t : ℚ) (g : Game) :
      EngineStep g (processLaneInput cfg L t g)
  | release (cfg : Config) (L : Int) (t : ℚ) (g : Game) :
      EngineStep g (processLaneRelease cfg L t g)
  | tick (cfg : Config) (dt t : ℚ) (soundStopped : Bool) (g : Game) :
      EngineStep g (update cfg dt t soundStopped g)
  | autoTick (cfg : Config) (t : ℚ) (g : Game) :
      EngineStep g (updateAutoPlay cfg t g)
  | keys (kp kr kh : Int → Bool) (g : Game) :
      EngineStep g { g with keyPressed := kp, keyReleased := kr, keyHeld := kh }

/-- The states a session can be in: it starts with every note fresh, and moves by engine
steps and restarts. -/
inductive Reachable : Game → Prop
  | init (g : Game) : (∀ n ∈ g.notes, n.fresh) → Reachable g
  | step {g g' : Game} : Reachable g → EngineStep g g' → Reachable g'
  | restart {g : Game} : Reachable g → Reachable (restartGame g)

/-- The note after a hold is completed (by a release in time or by the hold sweep). -/
def Note.completed (n : Note) : Note := { n with holdCompleted := true, holding := false }

/-- The note after a hold is failed (by an early release or by the hold sweep). -/
def Note.failed (n : Note) : Note := { n with holdFailed := true, holding := false }

/-- The counters after a hold is completed by `processLaneRelease`. -/
def Stats.holdOk (st : Stats) : Stats :=
  { st with score := st.score + 100, combo := st.combo + 1, holdCount := st.holdCount + 1,
            maxCombo := max st.maxCombo (st.combo + 1) }

/-- The counters after a hold is failed. -/
def Stats.holdLost (st : Stats) : Stats :=
  { st with combo := 0, missCount := st.missCount + 1 }

/-- How far a note is in its lifecycle: the number of set flags among `hit`, `missed`,
`holdCompleted`, `holdFailed`.  Every write of the engine raises it. -/
def Note.progress (n : Note) : Nat :=
  n.hit.toNat + n.missed.toNat + n.holdCompleted.toNat + n.holdFailed.toNat

/-- The counters after the hold sweep completes a hold on a tick of length `dt`: the
tick accrual `static_cast<int>(HOLD_TICK_SCORE * dt * 10)` and then the completion
bonus. -/
def Stats.holdDone (dt : ℚ) (st : Stats) : Stats :=
  { st with score := st.score + truncToInt (HOLD_TICK_SCORE * dt * 10) + HOLD_COMPLETE_SCORE,
            combo := st.combo + 1, holdCount := st.holdCount + 1,
            maxCombo := max st.maxCombo (st.combo + 1) }

/-- The members of `Game` that no judgment operation writes. -/
def Game.sameInputs (g g' : Game) : Prop :=
  g'.keyPressed = g.keyPressed ∧ g'.keyReleased = g.keyReleased ∧ g'.keyHeld = g.keyHeld ∧
    g'.gameStarted = g.gameStarted ∧ g'.paused = g.paused

/-! ## Vocabulary of the tick -/

/-- A Pending note within 5 ms of `currentTime`: the guard of the write in
`updateAutoPlay`. -/
def Note.autoDue (currentTime : ℚ) (n : Note) : Bool :=
  decide (n.hit = false ∧ n.missed = false ∧
    ((currentTime - n.timestamp) * 1000 ≥ -5 ∧ (currentTime - n.timestamp) * 1000 ≤ 5))

/-- The note after the auto-player judged it: `hit`, and `holding` for a hold note. -/
def Note.autoJudged (n : Note) : Note :=
  if n.isHoldNote = true then { n with hit := true, holding := true } else { n with hit := true }

/-- The states of a session played by the auto-player: it starts with every note fresh and
missCount 0, and moves by ticks with `Config::autoPlay` set, by key changes, and by
restarts. -/
inductive AutoSession : Game → Prop
  | init (g : Game) : (∀ n ∈ g.notes, n.fresh) → g.missCount = 0 → AutoSession g
  | tick {g : Game} (cfg : Config) (dt t : ℚ) (soundStopped : Bool) :
      AutoSession g → cfg.autoPlay = true → AutoSession (update cfg dt t soundStopped g)
  | keys {g : Game} (kp kr kh : Int → Bool) :
      AutoSession g → AutoSession { g with keyPressed := kp, keyReleased := kr, keyHeld := kh }
  | restart {g : Game} : AutoSession g → AutoSession (restartGame g)

/-- Auto-play in normal mode. -/
def Config.auto : Config := { autoPlay := true, clearMode := false }

/-! ## Sample sessions -/

/-- A session as `startGame` leaves it: zero counters, no key down, the given notes. -/
def Game.start (notes : List Note) : Game :=
  { toStats := Stats.zero, notes := notes, gameStarted := true, gameEnded := false,
    paused := false, keyPressed := fun _ => false, keyReleased := fun _ => false,
    keyHeld := fun _ => false }

/-- Normal mode: manual play, effects on. -/
def Config.manual : Config := { autoPlay := false, clearMode := false }

/-- A tap note in lane 2 starting at second 1. -/
def tapAt1 : Note := Note.create 1 2 0 1

/-- A hold note in lane 0 from second 1 to second 3. -/
def holdAt1 : Note := Note.create 1 0 2 1

/-- A second hold note in lane 0, from second 1.1 to second 3.1. -/
def holdAt1b : Note := Note.create (11 / 10) 0 2 1

/-- The session after both hold notes of lane 0 were pressed on time, one after the
other. -/
def twoHolds : Game :=
  processLaneInput Config.manual 0 (11 / 10)
    (processLaneInput Config.manual 0 1 (Game.start [holdAt1, holdAt1b]))

/-- The session with the single hold note of lane 0 pressed exactly on time: the note is
Holding. -/
def holdingGame : Game := processLaneInput Config.manual 0 1 (Game.start [holdAt1])

/-- Event polling saw the key of lane 0 go up: the lane is unheld and flagged released. -/
def Game.releaseLane0 (g : Game) : Game :=
  { g with keyPressed := fun _ => false, keyReleased := fun l => decide (l = 0),
           keyHeld := fun _ => false }

/-- Event polling saw nothing: the key of lane 0 stays down. -/
def Game.holdLane0 (g : Game) : Game :=
  { g with keyPressed := fun _ => false, keyReleased := fun _ => false,
           keyHeld := fun l => decide (l = 0) }

/-! ## Sample beats and buffers -/

/-- The first outputs of `std::mt19937 rng(42)`. -/
def mt42 : List Nat :=
  [1608637542, 3421126067, 4083286876, 787846414, 3143890026, 3348747335, 2571218620,
   2563451924, 670094950, 1914837113, 669991378, 429389014, 249467210, 1972458954,
   3720198231, 1433267572, 2581769315, 613608295, 3041148567, 2795544706]

/-- A bass beat at `t` with the given `bassStrength`, intensity 1, not a snare or hi-hat
beat. -/
def bassBeat (t strength : ℚ) : BeatInfo :=
  { timestamp := t, intensity := 1, bassStrength := strength, midStrength := 0,
    highStrength := 0, isBass := true, isSnare := false, isHiHat := false }

/-- Six bass beats 50 ms apart, the last five strong. -/
def bassRun : List BeatInfo :=
  [bassBeat 0 1, bassBeat (1 / 20) 3, bassBeat (1 / 10) 3, bassBeat (3 / 20) 3,
   bassBeat (1 / 5) 3, bassBeat (1 / 4) 3]

/-- The notes `generateNotes` returns for `bassRun` in the preset EXTREME. -/
def bassRunNotes : List Note :=
  [Note.create 0 0 0 1, Note.create (1 / 20) 1 (1 / 4) 1, Note.create (1 / 10) 0 (1 / 4) 1,
   Note.create (3 / 20) 2 (1 / 4) 1, Note.create (1 / 5) 3 (1 / 4) 1,
   Note.create (1 / 4) 1 (3 / 10) 1]

/-- The emissions of `generateNotes` for `bassRun` in the preset EXTREME: no beat gets a
double note. -/
def bassRunEmissions : List Emission :=
  bassRunNotes.map (fun n => { primary := n, double := none })

/-- Five strong bass beats one second apart. -/
def slowRun : List BeatInfo :=
  [bassBeat 0 3, bassBeat 1 3, bassBeat 2 3, bassBeat 3 3, bassBeat 4 3]

/-- The notes `generateNotes` returns for `slowRun` in the preset EXTREME. -/
def slowRunNotes : List Note :=
  [Note.create 0 0 0 1, Note.create 1 0 0 1, Note.create 2 0 (19 / 20) 1,
   Note.create 3 1 (19 / 20) 1, Note.create 4 0 (3 / 10) 1]

/-- Thirteen bass beats 100 ms apart; only beats 2 and 12 are strong. -/
def farRun : List BeatInfo :=
  [bassBeat 0 1, bassBeat (1 / 10) 1, bassBeat (1 / 5) 3, bassBeat (3 / 10) 1,
   bassBeat (2 / 5) 1, bassBeat (1 / 2) 1, bassBeat (3 / 5) 1, bassBeat (7 / 10) 1,
   bassBeat (4 / 5) 1, bassBeat (9 / 10) 1, bassBeat 1 1, bassBeat (11 / 10) 1,
   bassBeat (6 / 5) 3]

/-- The notes `generateNotes` returns for `farRun` in the preset MEDIUM. -/
def farRunNotes : List Note :=
  [Note.create 0 0 0 1, Note.create (1 / 10) 1 0 1, Note.create (1 / 5) 0 (3 / 10) 1,
   Note.create (3 / 10) 1 0 1, Note.create (2 / 5) 2 0 1, Note.create (1 / 2) 1 0 1,
   Note.create (3 / 5) 2 0 1, Note.create (7 / 10) 0 0 1, Note.create (4 / 5) 1 0 1,
   Note.create (9 / 10) 0 0 1, Note.create 1 1 0 1, Note.create (11 / 10) 0 0 1,
   Note.create (6 / 5) 1 0 1]

/-- The emissions of `generateNotes` for `farRun` in the preset MEDIUM. -/
def farRunEmissions : List Emission :=
  farRunNotes.map (fun n => { primary := n, double := none })

/-- Two loud bass beats one second apart. -/
def loudRun : List BeatInfo :=
  [{ bassBeat 0 1 with intensity := 2 }, { bassBeat 1 1 with intensity := 2 }]

/-- The emissions of `generateNotes` for `loudRun` in the preset EXTREME: the second beat
gets a double note in lane 2. -/
def loudRunEmissions : List Emission :=
  [Emission.mk (Note.create 0 0 0 2) none,
   Emission.mk (Note.create 1 0 0 2) (some (Note.create 1 2 0 (8 / 5)))]

/-! ## Frames of the main loop -/

/-- One pass of the loop of `Game::run` during play, as `update` sees it: the frame time
`dt`, the clock reading `t`, the playback status, and the key arrays that `processEvents`
left. -/
structure Frame where
  dt : ℚ
  t : ℚ
  soundStopped : Bool
  keyPressed : Int → Bool
  keyReleased : Int → Bool
  keyHeld : Int → Bool

/-- One pass of the loop of `Game::run` during play: `processEvents`, then `update(dt)`. -/
def runFrame (cfg : Config) (g : Game) (f : Frame) : Game :=
  update cfg f.dt f.t f.soundStopped
    { g with keyPressed := f.keyPressed, keyReleased := f.keyReleased, keyHeld := f.keyHeld }

/-- Successive passes of the loop of `Game::run` during play. -/
def runFrames (cfg : Config) (frames : List Frame) (g : Game) : Game :=
  frames.foldl (runFrame cfg) g

/-- A frame of 1/60 s at clock reading `t` with no key down and playback stopped. -/
def Frame.idle (t : ℚ) : Frame :=
  { dt := 1 / 60, t := t, soundStopped := true, keyPressed := fun _ => false,
    keyReleased := fun _ => false, keyHeld := fun _ => false }

/-! ## Vocabulary of the invariants -/

/-- The relation `0 <= combo <= maxCombo` between the two combo counters. -/
def Stats.comboOk (st : Stats) : Prop := 0 ≤ st.combo ∧ st.combo ≤ st.maxCombo

/-- Two notes keep apart as holds: if both are hold notes of one lane, one of them ends at
least 100 ms (`GOOD_WINDOW`) before the other starts. -/
def Note.holdsApart (a b : Note) : Prop :=
  a.lane = b.lane → a.isHoldNote = true → b.isHoldNote = true →
    (a.endTimestamp ≤ b.timestamp - 1 / 10 ∨ b.endTimestamp ≤ a.timestamp - 1 / 10)

/-- The fields of a note that no engine operation writes are the same in `n` and `m`. -/
def Note.sameShape (n m : Note) : Prop :=
  m.timestamp = n.timestamp ∧ m.endTimestamp = n.endTimestamp ∧ m.lane = n.lane

/-- What the input block of a tick at `t` can do to a note `n`, seen on its result `m`: an
active hold was active before, or starts no later than 100 ms after `t`. -/
def Note.heldSince (t : ℚ) (n m : Note) : Prop :=
  n.sameShape m ∧ (m.holdActive = true → n.holdActive = true ∨ (n.timestamp - t) * 1000 ≤ 100)

/-- What a whole tick at `t` can do to a note `n`, seen on its result `m`: an active hold
was active before or starts no later than 100 ms after `t`, and ends after `t`. -/
def Note.heldThrough (t : ℚ) (n m : Note) : Prop :=
  n.sameShape m ∧
    (m.holdActive = true →
      (n.holdActive = true ∨ (n.timestamp - t) * 1000 ≤ 100) ∧ t < m.endTimestamp)

/-- A frame at clock reading `t` on which the key of lane 0 goes down. -/
def Frame.pressLane0 (t : ℚ) : Frame :=
  { dt := 1 / 60, t := t, soundStopped := false, keyPressed := fun l => decide (l = 0),
    keyReleased := fun _ => false, keyHeld := fun l => decide (l = 0) }

/-- A hold note in lane 0 from second 4 to second 6. -/
def holdAt4 : Note := Note.create 4 0 2 1

/-- The four histories of the frame loop have one length, at most 43 (`historySize`), and
no negative entry. -/
def DetectState.historiesOk (st : DetectState) : Prop :=
  st.bassHistory.length ≤ 43 ∧ st.midHistory.length = st.bassHistory.length ∧
  st.highHistory.length = st.bassHistory.length ∧
  st.totalHistory.length = st.bassHistory.length ∧
  (∀ x ∈ st.bassHistory, 0 ≤ x) ∧ (∀ x ∈ st.midHistory, 0 ≤ x) ∧
  (∀ x ∈ st.highHistory, 0 ≤ x) ∧ (∀ x ∈ st.totalHistory, 0 ≤ x)

/-- The intensity and the three band strengths of a beat lie in `[0, 43]`. -/
def BeatInfo.bounded (b : BeatInfo) : Prop :=
  (0 ≤ b.intensity ∧ b.intensity ≤ 43) ∧ (0 ≤ b.bassStrength ∧ b.bassStrength ≤ 43) ∧
  (0 ≤ b.midStrength ∧ b.midStrength ≤ 43) ∧ (0 ≤ b.highStrength ∧ b.highStrength ≤ 43)

/-- The state of the frame loop after `k` frames of silence: `k` zeros in each history, no
beat. -/
def DetectState.silent (k : Nat) : DetectState :=
  { bassHistory := List.replicate k 0, midHistory := List.replicate k 0,
    highHistory := List.replicate k 0, totalHistory := List.replicate k 0,
    lastBeatTime := -(1 / 10), beats := [] }

/-- A mono buffer of 11264 samples, silent except for its last sample: 21 frames, the last
of which ends on a click. -/
def clickBuffer : List Int := List.replicate 11263 0 ++ [32767]

/-! ## Vocabulary and samples of the loops of the composer -/

/-- Every `do ... while` loop of `generateNotes`, started at any point of `draws` that has
at least `k` draws ahead, exits within those `k` draws, whatever lane it is to avoid. -/
def loopsExitWithin (k : Nat) (draws : List Nat) : Bool :=
  draws.tails.all fun s =>
    decide (s.length < k) ||
      (List.range 4).all fun lane =>
        (selectAnyLane (lane : Int) (s.take k)).isSome &&
          (selectSecondLane lane (s.take k)).isSome

/-- The first 40 outputs of `std::mt19937 rng(42)`. -/
def mt42x : List Nat :=
  mt42 ++
  [88409749, 242285876, 4165731073, 3100961111, 3575313899, 4031053213, 911989541,
   3344769, 780932287, 4261516219, 787716372, 2652062880, 1306710475, 2627030329,
   2253811733, 30349564, 1855189739, 99052376, 1250819632, 2253890010]

/-- A run of two beats one second apart: one that is neither a bass, a snare nor a hi-hat
beat, then a loud hi-hat beat. -/
def mixedRun : List BeatInfo :=
  [{ timestamp := 0, intensity := 1, bassStrength := 0, midStrength := 0, highStrength := 0,
     isBass := false, isSnare := false, isHiHat := false },
   { timestamp := 1, intensity := 2, bassStrength := 0, midStrength := 0, highStrength := 3,
     isBass := false, isSnare := false, isHiHat := true }]

/-- The emissions of `generateNotes` for `mixedRun` in the preset EXTREME: the first lane
comes out of the loop of the unclassified branch, and the second beat gets a double note
in lane 3 after the loop for the second lane has run twice. -/
def mixedRunEmissions : List Emission :=
  [Emission.mk (Note.create 0 2 0 1) none,
   Emission.mk (Note.create 1 2 0 2) (some (Note.create 1 3 0 (8 / 5)))]

/-! ## Vocabulary and a sample of the histories of the frame loop -/

/-- The entries of the history `h` from position `q` on are zero. -/
def zerosFrom (q : Nat) (h : List ℚ) : Prop := ∀ j, q ≤ j → h.getD j 0 = 0

/-- Each of the four histories of the frame loop has length `n` and holds only zeros from
position `q` on. -/
def DetectState.quietFrom (q n : Nat) (st : DetectState) : Prop :=
  (st.bassHistory.length = n ∧ zerosFrom q st.bassHistory) ∧
  (st.midHistory.length = n ∧ zerosFrom q st.midHistory) ∧
  (st.highHistory.length = n ∧ zerosFrom q st.highHistory) ∧
  (st.totalHistory.length = n ∧ zerosFrom q st.totalHistory)

/-- The state of the frame loop of `detectBeats` after its first `k` frames. -/
def frameState (samples : List Int) (sampleRate channelCount : Nat)
    (params : DifficultyParams) (k : Nat) : DetectState :=
  ((List.range k).map (fun m => 0 + m * (hopSize * channelCount))).foldl
    (detectFrame samples sampleRate channelCount params) DetectState.init

/-- A mono buffer of 34304 samples (66 frames), silent except for two full-scale samples:
sample 11263, the last one of frame 20, and sample 34303, the last one of frame 65. -/
def twoClicks : List Int := clickBuffer ++ (List.replicate 23039 0 ++ [32767])

/-! ## The judgment code with the `float` arithmetic of the source

The definitions above compute the offsets of the judgment code in exact arithmetic.  The
source computes them in `float`: `std::abs(currentTime - n.timestamp) * 1000.0f` rounds
the difference and then the product to binary32, the tick accrual
`static_cast<int>(Config::HOLD_TICK_SCORE * dt * 10)` rounds both products before the
cast, and `Note::isHoldNote` rounds the sum `timestamp + 0.01f`.  The definitions of this
section repeat the judgment code with these roundings (names ending in `32`); comparisons
and the `int` counters are exact in the source as well.  Their inputs `currentTime`, `dt`
and the note times are any rationals; in the program they are `float` values. -/

/-- Rounding to the nearest integer, a tie going to the even neighbour. -/
def roundHalfEven (q : ℚ) : Int :=
  if q - ⌊q⌋ < 1 / 2 then ⌊q⌋
  else if 1 / 2 < q - ⌊q⌋ then ⌊q⌋ + 1
  else if ⌊q⌋ % 2 = 0 then ⌊q⌋ else ⌊q⌋ + 1

/-- The exponent of the binary32 format for the real `x`: that of its binade, at least
-126 (below that the format is subnormal). -/
def f32Exp (x : ℚ) : Int := max (Int.log 2 |x|) (-126)

/-- The `float` nearest to the real `x`: a significand of 24 bits, round to nearest, ties
to even, gradual underflow.  Overflow to infinity is not modelled. -/
def f32 (x : ℚ) : ℚ :=
  (roundHalfEven (x / 2 ^ (f32Exp x - 23)) : ℚ) * 2 ^ (f32Exp x - 23)

/-- The expression `std::abs(currentTime - timestamp) * 1000.0f` of `processLaneInput`
and `processLaneRelease`, in `float`. -/
def absMs32 (currentTime timestamp : ℚ) : ℚ :=
  f32 (fabs (f32 (currentTime - timestamp)) * 1000)

/-- The expression `(currentTime - timestamp) * 1000.0f` of `update` and `updateAutoPlay`,
in `float`. -/
def diffMs32 (currentTime timestamp : ℚ) : ℚ := f32 (f32 (currentTime - timestamp) * 1000)

/-- The expression `static_cast<int>(Config::HOLD_TICK_SCORE * dt * 10)` of `update`: the
`int` constant and the literal are converted to `float`, and each product is rounded. -/
def holdTick32 (dt : ℚ) : Int := truncToInt (f32 (f32 (HOLD_TICK_SCORE * dt) * 10))

/-- The method `Note::isHoldNote` in `float`: the literal `0.01f` and the sum
`timestamp + 0.01f` are rounded. -/
def Note.isHoldNote32 (n : Note) : Bool :=
  decide (n.endTimestamp > f32 (n.timestamp + f32 (1 / 100)))

/-- The condition under which a hold note is being held and still unresolved, with the
test `isHoldNote` in `float`. -/
def Note.holdActive32 (n : Note) : Bool :=
  n.isHoldNote32 && n.holding && !n.holdCompleted && !n.holdFailed

/-- The judgment part of `processLaneInput` in `float`, applied to the matched note
`closest` with the `float` offset `closestDiff`; returns the note and the counters after
the call. -/
def judgePress32 (cfg : Config) (closestDiff : ℚ) (closest : Note) (st : Stats) :
    Note × Stats :=
  let c0 : Note := { closest with hit := true }
  let r : Note × Stats :=
    if closestDiff ≤ PERFECT_WINDOW then
      let st1 : Stats := { st with score := st.score + PERFECT_SCORE, combo := st.combo + 1,
                                   perfectCount := st.perfectCount + 1 }
      if cfg.clearMode = false then
        (if c0.isHoldNote32 then { c0 with holding := true } else c0, st1)
      else
        (if c0.isHoldNote32 then { c0 with holding := true } else c0, st1)
    else if closestDiff ≤ GOOD_WINDOW then
      let st1 : Stats := { st with score := st.score + GOOD_SCORE, combo := st.combo + 1,
                                   goodCount := st.goodCount + 1 }
      if cfg.clearMode = false then
        (if c0.isHoldNote32 then { c0 with holding := true } else c0, st1)
      else
        (if c0.isHoldNote32 then { c0 with holding := true } else c0, st1)
    else
      let st1 : Stats := { st with combo := 0, missCount := st.missCount + 1 }
      (if c0.isHoldNote32 then { c0 with holdFailed := true } else c0, st1)
  (r.1, { r.2 with maxCombo := max r.2.maxCombo r.2.combo })

/-- The search loop of `processLaneInput` in `float`: `acc` is `(closest, closestDiff)`,
`i` the index of the head of the remaining list. -/
def findClosest32 (lane : Int) (currentTime : ℚ) :
    List Note → Nat → Option Nat × ℚ → Option Nat × ℚ
  | [], _, acc => acc
  | n :: rest, i, acc =>
    if n.lane = lane ∧ n.hit = false ∧ n.missed = false then
      let diff := absMs32 currentTime n.timestamp
      if diff < acc.2 ∧ diff ≤ MISS_WINDOW then
        findClosest32 lane currentTime rest (i + 1) (some i, diff)
      else findClosest32 lane currentTime rest (i + 1) acc
    else findClosest32 lane currentTime rest (i + 1) acc

/-- The method `Game::processLaneInput` in `float`. -/
def processLaneInput32 (cfg : Config) (lane : Int) (currentTime : ℚ) (g : Game) : Game :=
  match findClosest32 lane currentTime g.notes 0 (none, MISS_WINDOW + 1) with
  | (none, _) => g
  | (some i, closestDiff) =>
    match g.notes[i]? with
    | none => g
    | some closest =>
      let r := judgePress32 cfg closestDiff closest g.toStats
      { g with toStats := r.2, notes := g.notes.set i r.1 }

/-- The loop of `processLaneRelease` in `float`; it stops (`break`) at the first active
hold note of the lane. -/
def releaseLoop32 (lane : Int) (currentTime : ℚ) : List Note → Stats → List Note × Stats
  | [], st => ([], st)
  | n :: rest, st =>
    if n.lane = lane ∧ n.holdActive32 = true then
      let diff := absMs32 currentTime n.endTimestamp
      if diff ≤ GOOD_WINDOW then
        ({ n with holdCompleted := true, holding := false } :: rest,
         { st with score := st.score + HOLD_COMPLETE_SCORE, combo := st.combo + 1,
                   holdCount := st.holdCount + 1,
                   maxCombo := max st.maxCombo (st.combo + 1) })
      else if currentTime < n.endTimestamp then
        ({ n with holdFailed := true, holding := false } :: rest,
         { st with combo := 0, missCount := st.missCount + 1 })
      else (n :: rest, st)
    else
      let rs := releaseLoop32 lane currentTime rest st
      (n :: rs.1, rs.2)

/-- The method `Game::processLaneRelease` in `float`. -/
def processLaneRelease32 (_cfg : Config) (lane : Int) (currentTime : ℚ) (g : Game) : Game :=
  let r := releaseLoop32 lane currentTime g.notes g.toStats
  { g with toStats := r.2, notes := r.1 }

/-- The loop body of `updateAutoPlay` in `float`. -/
def autoPlayNote32 (_cfg : Config) (currentTime : ℚ) (note : Note) (st : Stats) :
    Note × Stats :=
  if note.hit = false ∧ note.missed = false then
    let diff := diffMs32 currentTime note.timestamp
    if diff ≥ -5 ∧ diff ≤ 5 then
      let n1 : Note := { note with hit := true }
      let st1 : Stats := { st with score := st.score + PERFECT_SCORE, combo := st.combo + 1,
                                   perfectCount := st.perfectCount + 1,
                                   maxCombo := max st.maxCombo (st.combo + 1) }
      (if n1.isHoldNote32 then { n1 with holding := true } else n1, st1)
    else (note, st)
  else (note, st)

/-- The method `Game::updateAutoPlay` in `float`. -/
def updateAutoPlay32 (cfg : Config) (currentTime : ℚ) (g : Game) : Game :=
  let r := forEachNote (autoPlayNote32 cfg currentTime) g.notes g.toStats
  { g with toStats := r.2, notes := r.1 }

/-- The body of the lane loop at the top of `update` (manual play), in `float`. -/
def laneStep32 (cfg : Config) (currentTime : ℚ) (g : Game) (lane : Int) : Game :=
  let g1 := if g.keyPressed lane = true then processLaneInput32 cfg lane currentTime g else g
  if g1.keyReleased lane = true then processLaneRelease32 cfg lane currentTime g1 else g1

/-- The first block of `update` in `float`: the auto-player, or the lane loop over
`0..NUM_LANES-1`. -/
def inputPhase32 (cfg : Config) (currentTime : ℚ) (g : Game) : Game :=
  if cfg.autoPlay = true then updateAutoPlay32 cfg currentTime g
  else ((List.range NUM_LANES).map Int.ofNat).foldl (laneStep32 cfg currentTime) g

/-- The body of the loop "Update hold notes" of `update`, in `float`. -/
def holdSweepNote32 (cfg : Config) (keyHeld : Int → Bool) (dt currentTime : ℚ)
    (note : Note) (st : Stats) : Note × Stats :=
  if note.holdActive32 = true then
    let isHeld : Bool := if cfg.autoPlay = true then true else keyHeld note.lane
    if isHeld = false then
      ({ note with holdFailed := true, holding := false },
       { st with combo := 0, missCount := st.missCount + 1 })
    else
      let st1 : Stats := { st with score := st.score + holdTick32 dt }
      if currentTime ≥ note.endTimestamp then
        ({ note with holdCompleted := true, holding := false },
         { st1 with score := st1.score + HOLD_COMPLETE_SCORE, combo := st1.combo + 1,
                    holdCount := st1.holdCount + 1,
                    maxCombo := max st1.maxCombo (st1.combo + 1) })
      else (note, st1)
  else (note, st)

/-- The body of the loop "Check missed notes" of `update`, in `float`. -/
def missSweepNote32 (currentTime : ℚ) (note : Note) (st : Stats) : Note × Stats :=
  if note.hit = false ∧ note.missed = false then
    let diff := diffMs32 currentTime note.timestamp
    if diff > MISS_WINDOW then
      ({ note with missed := true }, { st with combo := 0, missCount := st.missCount + 1 })
    else (note, st)
  else (note, st)

/-- The loop "Check game end" of `update`, with the test `isHoldNote` in `float`: the
final value of `done`. -/
def checkDone32 : List Note → Bool
  | [] => true
  | n :: rest =>
    if n.hit = false ∧ n.missed = false then false
    else if n.isHoldNote32 = true ∧ n.holding = true then false
    else checkDone32 rest

/-- The method `Game::update` in `float`, with the clock reading and the playback status
as inputs. -/
def update32 (cfg : Config) (dt currentTime : ℚ) (soundStopped : Bool) (g : Game) : Game :=
  let g1 := inputPhase32 cfg currentTime g
  let r2 := forEachNote (holdSweepNote32 cfg g1.keyHeld dt currentTime) g1.notes g1.toStats
  let r3 := if cfg.autoPlay = false then forEachNote (missSweepNote32 currentTime) r2.1 r2.2
            else r2
  let ended : Bool :=
    if soundStopped = true ∧ g1.gameStarted = true then
      (if checkDone32 r3.1 = true then true else g1.gameEnded)
    else g1.gameEnded
  { g1 with toStats := r3.2, notes := r3.1, gameEnded := ended }

/-- The notes and counters after the first two blocks of `update` in `float` (the input
block and the loop "Update hold notes"): the state on which the loop "Check missed notes"
runs. -/
def holdPhase32 (cfg : Config) (dt currentTime : ℚ) (g : Game) : List Note × Stats :=
  forEachNote (holdSweepNote32 cfg (inputPhase32 cfg currentTime g).keyHeld dt currentTime)
    (inputPhase32 cfg currentTime g).notes (inputPhase32 cfg currentTime g).toStats

/-- What the first two blocks of a manual tick at `t` can have done to a note `n` by the
time the miss check sees it as `m`, in `float`: times, lane and `missed` are as before,
`hit` is never cleared, and it is newly set only by a press of the note's lane for which
`std::abs(currentTime - timestamp) * 1000.0f` is within the miss window. -/
def Note.afterInput32 (g : Game) (t : ℚ) (n m : Note) : Prop :=
  m.timestamp = n.timestamp ∧ m.lane = n.lane ∧ m.missed = n.missed ∧
  (n.hit = true → m.hit = true) ∧
  (m.hit = true → n.hit = true ∨
    (g.keyPressed n.lane = true ∧ n.missed = false ∧ absMs32 t n.timestamp ≤ MISS_WINDOW))

/-- A Pending note for which `(currentTime - timestamp) * 1000.0f` exceeds the miss window:
the guard of the write in the loop "Check missed notes", in `float`. -/
def Note.overdue32 (currentTime : ℚ) (n : Note) : Bool :=
  decide (n.hit = false ∧ n.missed = false ∧ diffMs32 currentTime n.timestamp > MISS_WINDOW)

/-- What the loop "Update hold notes" adds to the score for one note on a tick of length
`dt` at `currentTime`, in `float`: for an active hold whose lane is held (or any active
hold in auto-play) the tick accrual `static_cast<int>(HOLD_TICK_SCORE * dt * 10)`, plus
the completion bonus when the hold has reached its end; nothing for any other note. -/
def holdAccrual32 (cfg : Config) (keyHeld : Int → Bool) (dt currentTime : ℚ) (note : Note) :
    Int :=
  if note.holdActive32 = true ∧ (cfg.autoPlay = true ∨ keyHeld note.lane = true) then
    holdTick32 dt + (if currentTime ≥ note.endTimestamp then HOLD_COMPLETE_SCORE else 0)
  else 0

/-- A tap note of lane 2 whose start is the `float` of 0.224 s, the time of frame 21 of a
track sampled at 48 kHz. -/
def edgeTap : Note := Note.create (7516193 / 33554432) 2 0 1

/-- A tap note of lane 2 whose start is the `float` of 22016/44100 s, the time of frame 43
of a track sampled at 44.1 kHz. -/
def edgeTap2 : Note := Note.create (8375673 / 16777216) 2 0 1

/-! ## Lemmas on `processLaneInput` -/

theorem fabs_eq_abs (x : ℚ) : fabs x = |x| := by
  unfold fabs
  split_ifs with h
  · exact (abs_of_neg h).symm
  · exact (abs_of_nonneg (not_lt.mp h)).symm

theorem offsetMs_eq (t : ℚ) (n : Note) : offsetMs t n = |t - n.timestamp| * 1000 := by
  unfold offsetMs; rw [fabs_eq_abs]

/-- Loop invariant of the search loop: either the accumulator is returned untouched and
no remaining note improves on it, or the result is the first note of minimal offset
among the remaining candidates. -/
theorem findClosest_spec (lane : Int) (t : ℚ) (l : List Note) :
    ∀ (i : Nat) (acc : Option Nat × ℚ),
      (findClosest lane t l i acc = acc ∧
        ∀ n ∈ l, n.pendingIn lane → ¬ (offsetMs t n < acc.2 ∧ offsetMs t n ≤ MISS_WINDOW)) ∨
      (∃ k n, l[k]? = some n ∧ findClosest lane t l i acc = (some (i + k), offsetMs t n) ∧
        n.pendingIn lane ∧ offsetMs t n < acc.2 ∧ offsetMs t n ≤ MISS_WINDOW ∧
        (∀ m ∈ l, m.pendingIn lane → offsetMs t n ≤ offsetMs t m) ∧
        (∀ j m, j < k → l[j]? = some m → m.pendingIn lane → offsetMs t n < offsetMs t m)) := by
  induction l with
  | nil =>
    intro i acc
    left
    exact ⟨rfl, fun n hn => absurd hn (List.not_mem_nil n)⟩
  | cons a rest ih =>
    intro i acc
    by_cases hcand : a.pendingIn lane ∧ offsetMs t a < acc.2 ∧ offsetMs t a ≤ MISS_WINDOW
    · -- the head becomes the new closest
      obtain ⟨hp, hlt, hle⟩ := hcand
      have hstep : findClosest lane t (a :: rest) i acc =
          findClosest lane t rest (i + 1) (some i, offsetMs t a) := by
        have hp' : a.lane = lane ∧ a.hit = false ∧ a.missed = false := hp
        have hc : fabs (t - a.timestamp) * 1000 < acc.2 ∧
            fabs (t - a.timestamp) * 1000 ≤ MISS_WINDOW := ⟨hlt, hle⟩
        simp only [findClosest, hp', hc, and_self, if_true, offsetMs]
      right
      rcases ih (i + 1) (some i, offsetMs t a) with ⟨heq, hall⟩ | ⟨k, n, hk, heq, hpn, hltn, hlen, hmin, hfirst⟩
      · refine ⟨0, a, by simp, ?_, hp, hlt, hle, ?_, ?_⟩
        · rw [hstep, heq]; simp
        · intro m hm hpm
          rcases List.mem_cons.mp hm with rfl | hm
          · exact le_refl _
          · have := hall m hm hpm
            by_contra hcon
            exact this ⟨not_le.mp hcon, le_trans (le_of_lt (not_le.mp hcon)) hle⟩
        · intro j m hj; exact absurd hj (Nat.not_lt_zero j)
      · refine ⟨k + 1, n, by simpa using hk, ?_, hpn, lt_trans hltn hlt, hlen, ?_, ?_⟩
        · rw [hstep, heq]; congr 2; omega
        · intro m hm hpm
          rcases List.mem_cons.mp hm with rfl | hm
          · exact le_of_lt hltn
          · exact hmin m hm hpm
        · intro j m hj hjm hpm
          cases j with
          | zero =>
            simp at hjm; subst hjm; exact hltn
          | succ j =>
            exact hfirst j m (by omega) (by simpa using hjm) hpm
    · -- the head is skipped
      have hstep : findClosest lane t (a :: rest) i acc =
          findClosest lane t rest (i + 1) acc := by
        by_cases hp : a.lane = lane ∧ a.hit = false ∧ a.missed = false
        · have hc : ¬ (fabs (t - a.timestamp) * 1000 < acc.2 ∧
              fabs (t - a.timestamp) * 1000 ≤ MISS_WINDOW) := fun h => hcand ⟨hp, h⟩
          simp only [findClosest, hp, hc, and_self, if_true, if_false]
        · simp only [findClosest, hp, if_false]
      rcases ih (i + 1) acc with ⟨heq, hall⟩ | ⟨k, n, hk, heq, hpn, hltn, hlen, hmin, hfirst⟩
      · left
        refine ⟨by rw [hstep, heq], ?_⟩
        intro m hm hpm
        rcases List.mem_cons.mp hm with rfl | hm
        · exact fun h => hcand ⟨hpm, h⟩
        · exact hall m hm hpm
      · right
        have ha : a.pendingIn lane → offsetMs t n < offsetMs t a := by
          intro hpa
          by_contra hcon
          have h1 : offsetMs t a ≤ offsetMs t n := not_lt.mp hcon
          exact hcand ⟨hpa, lt_of_le_of_lt h1 hltn, le_trans h1 hlen⟩
        refine ⟨k + 1, n, by simpa using hk, ?_, hpn, hltn, hlen, ?_, ?_⟩
        · rw [hstep, heq]; congr 2; omega
        · intro m hm hpm
          rcases List.mem_cons.mp hm with rfl | hm
          · exact le_of_lt (ha hpm)
          · exact hmin m hm hpm
        · intro j m hj hjm hpm
          cases j with
          | zero =>
            simp at hjm; subst hjm; exact ha hpm
          | succ j =>
            exact hfirst j m (by omega) (by simpa using hjm) hpm

/-- The two outcomes of `processLaneInput`: no candidate within the miss window (the call
returns the state untouched), or the first candidate of minimal offset is judged. -/
theorem processLaneInput_cases (cfg : Config) (lane : Int) (t : ℚ) (g : Game) :
    ((∀ n ∈ g.notes, n.pendingIn lane → MISS_WINDOW < offsetMs t n) ∧
        processLaneInput cfg lane t g = g) ∨
    (∃ k n, g.notes[k]? = some n ∧ n.pendingIn lane ∧ offsetMs t n ≤ MISS_WINDOW ∧
        (∀ m ∈ g.notes, m.pendingIn lane → offsetMs t n ≤ offsetMs t m) ∧
        (∀ j m, j < k → g.notes[j]? = some m → m.pendingIn lane →
          offsetMs t n < offsetMs t m) ∧
        processLaneInput cfg lane t g =
          { g with toStats := (judgePress cfg (offsetMs t n) n g.toStats).2,
                   notes := g.notes.set k (judgePress cfg (offsetMs t n) n g.toStats).1 }) := by
  rcases findClosest_spec lane t g.notes 0 (none, MISS_WINDOW + 1) with
    ⟨heq, hall⟩ | ⟨k, n, hk, heq, hpn, _, hlen, hmin, hfirst⟩
  · left
    refine ⟨?_, ?_⟩
    · intro n hn hpn
      have h := hall n hn hpn
      by_contra hcon
      have hle : offsetMs t n ≤ MISS_WINDOW := not_lt.mp hcon
      exact h ⟨lt_of_le_of_lt hle (lt_add_one _), hle⟩
    · simp only [processLaneInput, heq]
  · right
    refine ⟨k, n, hk, hpn, hlen, hmin, hfirst, ?_⟩
    simp only [processLaneInput, heq, Nat.zero_add, hk]

/-- The counters after a Perfect press. -/
theorem judgePress_perfect (cfg : Config) (d : ℚ) (n : Note) (st : Stats) (h : d ≤ 45) :
    (judgePress cfg d n st).2 =
      { st with score := st.score + 300, combo := st.combo + 1,
                perfectCount := st.perfectCount + 1,
                maxCombo := max st.maxCombo (st.combo + 1) } := by
  have h' : d ≤ PERFECT_WINDOW := h
  unfold judgePress
  simp only [h', if_true, PERFECT_SCORE]
  split_ifs <;> rfl

/-- The note after a press: `hit` is set, plus `holding` (Perfect or Good) or
`holdFailed` (Miss) when it is a hold note. -/
theorem judgePress_note (cfg : Config) (d : ℚ) (n : Note) (st : Stats) :
    (judgePress cfg d n st).1 =
      if n.isHoldNote = true then
        (if d ≤ 100 then { n with hit := true, holding := true }
         else { n with hit := true, holdFailed := true })
      else { n with hit := true } := by
  have hh : ({ n with hit := true } : Note).isHoldNote = n.isHoldNote := rfl
  unfold judgePress
  simp only [hh, PERFECT_WINDOW, GOOD_WINDOW]
  by_cases h1 : d ≤ 45
  · have h2 : d ≤ 100 := le_trans h1 (by norm_num)
    simp only [h1, h2, if_true]
    split_ifs <;> rfl
  · by_cases h2 : d ≤ 100
    · simp only [h1, h2, if_true, if_false]
      split_ifs <;> rfl
    · simp only [h1, h2, if_false]

/-! ## Press judgment (C2, C4, C7) -/

/-- C2: a press within 45 ms of a Pending note of the pressed lane (in particular exactly
at its start time, or 40 ms after it) is always judged Perfect, whatever other notes
exist: the score rises by 300, combo by 1 (so from 0 to 1) and perfectCount by 1. -/
theorem C2_press_within_perfect_window (cfg : Config) (g : Game) (L : Int) (t : ℚ) (n : Note)
    (hn : n ∈ g.notes) (hp : n.pendingIn L) (hoff : |t - n.timestamp| * 1000 ≤ 45) :
    (processLaneInput cfg L t g).score = g.score + 300 ∧
    (processLaneInput cfg L t g).combo = g.combo + 1 ∧
    (processLaneInput cfg L t g).perfectCount = g.perfectCount + 1 := by
  rcases processLaneInput_cases cfg L t g with ⟨hnone, _⟩ | ⟨k, n0, hk, hp0, hle0, hmin0, _, heq⟩
  · have h1 := hnone n hn hp
    rw [offsetMs_eq] at h1
    have : (45 : ℚ) < MISS_WINDOW := by norm_num [MISS_WINDOW]
    exact absurd (lt_of_le_of_lt hoff this) (not_lt.mpr (le_of_lt h1))
  · have h0 : offsetMs t n0 ≤ 45 := by
      have := hmin0 n hn hp
      rw [offsetMs_eq t n] at this
      exact le_trans this hoff
    rw [heq]
    simp only [judgePress_perfect cfg _ n0 g.toStats h0, and_self]

/-- C2 at the two presses the specification names: exactly at the start time, and
40 ms after it with combo going from 0 to 1. -/
theorem C2_press_within_perfect_window_witness :
    ((processLaneInput Config.manual 2 1 (Game.start [tapAt1])).score = 0 + 300 ∧
      (processLaneInput Config.manual 2 1 (Game.start [tapAt1])).combo = 0 + 1 ∧
      (processLaneInput Config.manual 2 1 (Game.start [tapAt1])).perfectCount = 0 + 1) ∧
    ((processLaneInput Config.manual 2 (1 + 40 / 1000) (Game.start [tapAt1])).score = 0 + 300 ∧
      (processLaneInput Config.manual 2 (1 + 40 / 1000) (Game.start [tapAt1])).combo = 0 + 1 ∧
      (processLaneInput Config.manual 2 (1 + 40 / 1000) (Game.start [tapAt1])).perfectCount
        = 0 + 1) :=
  ⟨C2_press_within_perfect_window Config.manual (Game.start [tapAt1]) 2 1 tapAt1
      (List.mem_singleton_self _) ⟨rfl, rfl, rfl⟩ (by norm_num [tapAt1, Note.create]),
   C2_press_within_perfect_window Config.manual (Game.start [tapAt1]) 2 (1 + 40 / 1000) tapAt1
      (List.mem_singleton_self _) ⟨rfl, rfl, rfl⟩
      (by norm_num [tapAt1, Note.create, abs_of_nonneg])⟩

theorem forall₂_set_of_rel {R : Note → Note → Prop} (hrefl : ∀ a, R a a) :
    ∀ (l : List Note) (k : Nat) (a b : Note), l[k]? = some a → R a b →
      List.Forall₂ R l (l.set k b) := by
  intro l
  induction l with
  | nil => intro k a b hk; simp at hk
  | cons x xs ih =>
    intro k a b hk hab
    cases k with
    | zero =>
      simp at hk; subst hk
      exact List.Forall₂.cons hab (List.forall₂_same.mpr (fun y _ => hrefl y))
    | succ k =>
      exact List.Forall₂.cons (hrefl x) (ih k a b (by simpa using hk) hab)

theorem forall₂_getElem? {R : Note → Note → Prop} {l l' : List Note}
    (h : List.Forall₂ R l l') :
    ∀ (i : Nat) (a : Note), l[i]? = some a → ∃ b, l'[i]? = some b ∧ R a b := by
  induction h with
  | nil => intro i a hi; simp at hi
  | cons hxy _ ih =>
    intro i a hi
    cases i with
    | zero => simp at hi; subst hi; exact ⟨_, by simp, hxy⟩
    | succ i => simpa using ih i a (by simpa using hi)

theorem forall₂_steps_trans {l1 l2 : List Note}
    (h12 : List.Forall₂ (Relation.ReflTransGen NoteStep) l1 l2) :
    ∀ {l3 : List Note}, List.Forall₂ (Relation.ReflTransGen NoteStep) l2 l3 →
      List.Forall₂ (Relation.ReflTransGen NoteStep) l1 l3 := by
  induction h12 with
  | nil => intro l3 h23; cases h23; exact List.Forall₂.nil
  | cons hxy _ ih =>
    intro l3 h23
    cases h23 with
    | cons hyz hrest => exact List.Forall₂.cons (hxy.trans hyz) (ih hrest)

theorem forall₂_steps_refl (l : List Note) :
    List.Forall₂ (Relation.ReflTransGen NoteStep) l l :=
  List.forall₂_same.mpr (fun _ _ => Relation.ReflTransGen.refl)

theorem judgePress_step (cfg : Config) (d : ℚ) (n : Note) (st : Stats)
    (h1 : n.hit = false) (h2 : n.missed = false) :
    NoteStep n (judgePress cfg d n st).1 := by
  rw [judgePress_note]
  by_cases hh : n.isHoldNote = true
  · by_cases hd : d ≤ 100
    · simp only [hh, hd, if_true]; exact NoteStep.hitHold n h1 h2 hh
    · simp only [hh, hd, if_true, if_false]; exact NoteStep.hitHoldMiss n h1 h2 hh
  · simp only [hh, if_false]
    exact NoteStep.hitTap n h1 h2 (by simpa using hh)

theorem autoPlayNote_step (cfg : Config) (t : ℚ) (n : Note) (st : Stats) :
    Relation.ReflTransGen NoteStep n (autoPlayNote cfg t n st).1 := by
  unfold autoPlayNote
  by_cases hp : n.hit = false ∧ n.missed = false
  · rw [if_pos hp]
    by_cases hd : (t - n.timestamp) * 1000 ≥ -5 ∧ (t - n.timestamp) * 1000 ≤ 5
    · have hh : ({ n with hit := true } : Note).isHoldNote = n.isHoldNote := rfl
      dsimp only
      rw [if_pos hd, hh]
      by_cases hn : n.isHoldNote = true
      · rw [if_pos hn]
        exact Relation.ReflTransGen.single (NoteStep.hitHold n hp.1 hp.2 hn)
      · rw [if_neg hn]
        exact Relation.ReflTransGen.single (NoteStep.hitTap n hp.1 hp.2 (by simpa using hn))
    · dsimp only
      rw [if_neg hd]
  · rw [if_neg hp]

theorem holdSweepNote_step (cfg : Config) (kh : Int → Bool) (dt t : ℚ) (n : Note)
    (st : Stats) : Relation.ReflTransGen NoteStep n (holdSweepNote cfg kh dt t n st).1 := by
  unfold holdSweepNote
  by_cases ha : n.holdActive = true
  · rw [if_pos ha]
    dsimp only
    split_ifs <;> first
      | exact Relation.ReflTransGen.refl
      | exact Relation.ReflTransGen.single (NoteStep.fail n ha)
      | exact Relation.ReflTransGen.single (NoteStep.complete n ha)
  · rw [if_neg ha]

theorem missSweepNote_step (t : ℚ) (n : Note) (st : Stats) :
    Relation.ReflTransGen NoteStep n (missSweepNote t n st).1 := by
  unfold missSweepNote
  by_cases hp : n.hit = false ∧ n.missed = false
  · rw [if_pos hp]
    dsimp only
    split_ifs
    · exact Relation.ReflTransGen.single (NoteStep.miss n hp.1 hp.2)
    · exact Relation.ReflTransGen.refl
  · rw [if_neg hp]

theorem forEachNote_steps (body : Note → Stats → Note × Stats)
    (hbody : ∀ n st, Relation.ReflTransGen NoteStep n (body n st).1) :
    ∀ (l : List Note) (st : Stats),
      List.Forall₂ (Relation.ReflTransGen NoteStep) l (forEachNote body l st).1 := by
  intro l
  induction l with
  | nil => intro st; exact List.Forall₂.nil
  | cons x xs ih => intro st; exact List.Forall₂.cons (hbody x st) (ih _)

theorem releaseLoop_steps (lane : Int) (t : ℚ) :
    ∀ (l : List Note) (st : Stats),
      List.Forall₂ (Relation.ReflTransGen NoteStep) l (releaseLoop lane t l st).1 := by
  intro l
  induction l with
  | nil => intro st; exact List.Forall₂.nil
  | cons x xs ih =>
    intro st
    unfold releaseLoop
    by_cases hx : x.lane = lane ∧ x.holdActive = true
    · rw [if_pos hx]
      dsimp only
      split_ifs
      · exact List.Forall₂.cons (Relation.ReflTransGen.single (NoteStep.complete x hx.2))
          (forall₂_steps_refl xs)
      · exact List.Forall₂.cons (Relation.ReflTransGen.single (NoteStep.fail x hx.2))
          (forall₂_steps_refl xs)
      · exact forall₂_steps_refl (x :: xs)
    · rw [if_neg hx]
      exact List.Forall₂.cons Relation.ReflTransGen.refl (ih st)

theorem processLaneInput_steps (cfg : Config) (L : Int) (t : ℚ) (g : Game) :
    List.Forall₂ (Relation.ReflTransGen NoteStep) g.notes (processLaneInput cfg L t g).notes := by
  rcases processLaneInput_cases cfg L t g with ⟨_, heq⟩ | ⟨k, n0, hk, hp0, _, _, _, heq⟩
  · rw [heq]; exact forall₂_steps_refl _
  · rw [heq]
    exact forall₂_set_of_rel (fun _ => Relation.ReflTransGen.refl) g.notes k n0 _ hk
      (Relation.ReflTransGen.single (judgePress_step cfg _ n0 g.toStats hp0.2.1 hp0.2.2))

theorem processLaneRelease_steps (cfg : Config) (L : Int) (t : ℚ) (g : Game) :
    List.Forall₂ (Relation.ReflTransGen NoteStep) g.notes
      (processLaneRelease cfg L t g).notes :=
  releaseLoop_steps L t g.notes g.toStats

theorem updateAutoPlay_steps (cfg : Config) (t : ℚ) (g : Game) :
    List.Forall₂ (Relation.ReflTransGen NoteStep) g.notes (updateAutoPlay cfg t g).notes :=
  forEachNote_steps _ (autoPlayNote_step cfg t) g.notes g.toStats

theorem laneStep_steps (cfg : Config) (t : ℚ) (g : Game) (lane : Int) :
    List.Forall₂ (Relation.ReflTransGen NoteStep) g.notes (laneStep cfg t g lane).notes := by
  unfold laneStep
  dsimp only
  split_ifs
  · exact forall₂_steps_trans (processLaneInput_steps cfg lane t g)
      (processLaneRelease_steps cfg lane t _)
  · exact processLaneInput_steps cfg lane t g
  · exact processLaneRelease_steps cfg lane t g
  · exact forall₂_steps_refl _

theorem laneFold_steps (cfg : Config) (t : ℚ) :
    ∀ (lanes : List Int) (g : Game),
      List.Forall₂ (Relation.ReflTransGen NoteStep) g.notes
        (lanes.foldl (laneStep cfg t) g).notes := by
  intro lanes
  induction lanes with
  | nil => intro g; exact forall₂_steps_refl _
  | cons x xs ih =>
    intro g
    exact forall₂_steps_trans (laneStep_steps cfg t g x) (ih _)

theorem inputPhase_steps (cfg : Config) (t : ℚ) (g : Game) :
    List.Forall₂ (Relation.ReflTransGen NoteStep) g.notes (inputPhase cfg t g).notes := by
  unfold inputPhase
  split_ifs
  · exact updateAutoPlay_steps cfg t g
  · exact laneFold_steps cfg t _ g

theorem update_steps (cfg : Config) (dt t : ℚ) (stopped : Bool) (g : Game) :
    List.Forall₂ (Relation.ReflTransGen NoteStep) g.notes (update cfg dt t stopped g).notes := by
  have h1 := inputPhase_steps cfg t g
  have h2 := forEachNote_steps _ (holdSweepNote_step cfg (inputPhase cfg t g).keyHeld dt t)
    (inputPhase cfg t g).notes (inputPhase cfg t g).toStats
  unfold update
  by_cases ha : cfg.autoPlay = false
  · simp only [ha, if_true]
    exact forall₂_steps_trans h1 (forall₂_steps_trans h2
      (forEachNote_steps _ (missSweepNote_step t) _ _))
  · simp only [ha, if_false]
    exact forall₂_steps_trans h1 h2

theorem engineStep_steps {g g' : Game} (h : EngineStep g g') :
    List.Forall₂ (Relation.ReflTransGen NoteStep) g.notes g'.notes := by
  cases h with
  | press cfg L t => exact processLaneInput_steps cfg L t g
  | release cfg L t => exact processLaneRelease_steps cfg L t g
  | tick cfg dt t stopped => exact update_steps cfg dt t stopped g
  | autoTick cfg t => exact updateAutoPlay_steps cfg t g
  | keys kp kr kh => exact forall₂_steps_refl _

/-! ## Lifecycle invariants (C5, C6) -/

theorem fresh_wellFormed {n : Note} (h : n.fresh) : n.wellFormed := by
  obtain ⟨h1, h2, h3, h4, h5⟩ := h
  simp [Note.wellFormed, h1, h2, h3, h4, h5]

theorem noteStep_wellFormed {n n' : Note} (h : NoteStep n n') (hw : n.wellFormed) :
    n'.wellFormed := by
  obtain ⟨ts, te, ln, it, hit, mi, ho, hc, hf⟩ := n
  cases h <;> simp_all [Note.wellFormed, Note.holdActive, Note.isHoldNote]

theorem noteSteps_wellFormed {n n' : Note} (h : Relation.ReflTransGen NoteStep n n')
    (hw : n.wellFormed) : n'.wellFormed := by
  induction h with
  | refl => exact hw
  | tail _ hstep ih => exact noteStep_wellFormed hstep ih

theorem noteStep_not_terminal {n n' : Note} (h : NoteStep n n') (hw : n.wellFormed)
    (ht : n.terminal) : False := by
  obtain ⟨ts, te, ln, it, hit, mi, ho, hc, hf⟩ := n
  cases h <;> simp_all [Note.wellFormed, Note.terminal, Note.holdActive, Note.isHoldNote]
    <;> rename_i ha <;> exact absurd ha.1.1.1 (not_lt.mpr ht)

theorem noteSteps_terminal {n n' : Note} (h : Relation.ReflTransGen NoteStep n n')
    (hw : n.wellFormed) (ht : n.terminal) : n' = n := by
  rcases Relation.ReflTransGen.cases_head h with heq | ⟨c, hstep, _⟩
  · exact heq.symm
  · exact absurd (noteStep_not_terminal hstep hw ht) id

theorem forall₂_wellFormed {l l' : List Note}
    (h : List.Forall₂ (Relation.ReflTransGen NoteStep) l l')
    (hw : ∀ n ∈ l, n.wellFormed) : ∀ n' ∈ l', n'.wellFormed := by
  induction h with
  | nil => intro n' hn'; exact absurd hn' (List.not_mem_nil n')
  | cons hxy _ ih =>
    intro n' hn'
    rcases List.mem_cons.mp hn' with rfl | hn'
    · exact noteSteps_wellFormed hxy (hw _ (List.mem_cons_self _ _))
    · exact ih (fun n hn => hw n (List.mem_cons_of_mem _ hn)) n' hn'

theorem reachable_wellFormed {g : Game} (h : Reachable g) : ∀ n ∈ g.notes, n.wellFormed := by
  induction h with
  | init g hfresh => exact fun n hn => fresh_wellFormed (hfresh n hn)
  | step _ hstep ih => exact forall₂_wellFormed (engineStep_steps hstep) ih
  | restart _ _ =>
    intro n hn
    simp only [restartGame, List.mem_map] at hn
    obtain ⟨m, _, rfl⟩ := hn
    exact fresh_wellFormed ⟨rfl, rfl, rfl, rfl, rfl⟩

theorem engineSteps_steps {g g' : Game} (h : Relation.ReflTransGen EngineStep g g') :
    List.Forall₂ (Relation.ReflTransGen NoteStep) g.notes g'.notes := by
  induction h with
  | refl => exact forall₂_steps_refl _
  | tail _ hstep ih => exact forall₂_steps_trans ih (engineStep_steps hstep)

/-- A session with one tap note that was missed by the passive sweep at second 2. -/
theorem reachable_missedTap :
    Reachable (update Config.manual 0 2 false (Game.start [tapAt1])) :=
  Reachable.step (Reachable.init _ (by
    intro n hn
    rw [show n = tapAt1 from List.mem_singleton.mp hn]
    exact ⟨rfl, rfl, rfl, rfl, rfl⟩)) (EngineStep.tick _ _ _ _ _)

/-- C5 (terminal-state stability): in a reachable session, once a note is Missed
(`missed`), Hit as a tap (`hit`, not a hold note), Completed (`holdCompleted`) or Failed
(`holdFailed`), no later sequence of calls of `processLaneInput`, `processLaneRelease`,
`update` (its hold and miss sweeps) or `updateAutoPlay`, with any lane, time, `dt`,
configuration and key state, changes the note: it stays at its index with its five flags
(and its other fields) as they were. -/
theorem C5_terminal_state_stability (g g' : Game) (i : Nat) (n : Note)
    (hr : Reachable g) (hi : g.notes[i]? = some n) (ht : n.terminal)
    (hlater : Relation.ReflTransGen EngineStep g g') :
    g'.notes[i]? = some n := by
  obtain ⟨n', hn', hsteps⟩ := forall₂_getElem? (engineSteps_steps hlater) i n hi
  have hw : n.wellFormed := reachable_wellFormed hr n (List.getElem?_mem hi)
  rw [hn', noteSteps_terminal hsteps hw ht]

/-- C6: in every state reachable from a list of fresh (all-Pending) notes by presses,
releases, update ticks, auto-play ticks, key changes and restarts, every note's flags
encode one lifecycle state: `hit` and `missed` are never both true; at most one of
`holding`, `holdCompleted`, `holdFailed` is true; and any of these three being true
implies a hold note (`endTimestamp > timestamp + 0.01`) with `hit` true and `missed`
false. -/
theorem C6_flags_encode_one_state (g : Game) (hr : Reachable g) (n : Note)
    (hn : n ∈ g.notes) :
    ¬ (n.hit = true ∧ n.missed = true) ∧
    ¬ (n.holding = true ∧ n.holdCompleted = true) ∧
    ¬ (n.holding = true ∧ n.holdFailed = true) ∧
    ¬ (n.holdCompleted = true ∧ n.holdFailed = true) ∧
    (n.holding = true ∨ n.holdCompleted = true ∨ n.holdFailed = true →
      n.endTimestamp > n.timestamp + 1 / 100 ∧ n.hit = true ∧ n.missed = false) :=
  reachable_wellFormed hr n hn

theorem missedTap_notes :
    (update Config.manual 0 2 false (Game.start [tapAt1])).notes =
      [{ tapAt1 with missed := true }] := by
  norm_num [update, inputPhase, laneStep, NUM_LANES, List.range, List.range.loop,
    Game.start, Config.manual, forEachNote, holdSweepNote, missSweepNote, tapAt1,
    Note.create, Note.holdActive, Note.isHoldNote, MISS_WINDOW]

/-- C5 at a missed tap note: a later press in its lane at the same instant leaves it
Missed. -/
theorem C5_terminal_state_stability_witness :
    (processLaneInput Config.manual 2 2
      (update Config.manual 0 2 false (Game.start [tapAt1]))).notes[0]? =
      some { tapAt1 with missed := true } :=
  C5_terminal_state_stability (update Config.manual 0 2 false (Game.start [tapAt1]))
    (processLaneInput Config.manual 2 2 (update Config.manual 0 2 false (Game.start [tapAt1])))
    0 { tapAt1 with missed := true } reachable_missedTap
    (by rw [missedTap_notes]; rfl) (Or.inl rfl)
    (Relation.ReflTransGen.single (EngineStep.press _ _ _ _))

/-- C6 at the session in which the tap note was missed. -/
theorem C6_flags_encode_one_state_witness :
    ¬ (({ tapAt1 with missed := true } : Note).hit = true ∧
        ({ tapAt1 with missed := true } : Note).missed = true) ∧
    ¬ (({ tapAt1 with missed := true } : Note).holding = true ∧
        ({ tapAt1 with missed := true } : Note).holdCompleted = true) ∧
    ¬ (({ tapAt1 with missed := true } : Note).holding = true ∧
        ({ tapAt1 with missed := true } : Note).holdFailed = true) ∧
    ¬ (({ tapAt1 with missed := true } : Note).holdCompleted = true ∧
        ({ tapAt1 with missed := true } : Note).holdFailed = true) ∧
    (({ tapAt1 with missed := true } : Note).holding = true ∨
      ({ tapAt1 with missed := true } : Note).holdCompleted = true ∨
      ({ tapAt1 with missed := true } : Note).holdFailed = true →
      ({ tapAt1 with missed := true } : Note).endTimestamp >
        ({ tapAt1 with missed := true } : Note).timestamp + 1 / 100 ∧
      ({ tapAt1 with missed := true } : Note).hit = true ∧
      ({ tapAt1 with missed := true } : Note).missed = false) :=
  C6_flags_encode_one_state (update Config.manual 0 2 false (Game.start [tapAt1]))
    reachable_missedTap { tapAt1 with missed := true }
    (by rw [missedTap_notes]; exact List.mem_singleton_self _)

/-! ## Release handling (C8) -/

theorem releaseLoop_none (lane : Int) (t : ℚ) :
    ∀ (l : List Note) (st : Stats),
      (∀ m ∈ l, m.lane = lane → m.holdActive = false) → releaseLoop lane t l st = (l, st) := by
  intro l
  induction l with
  | nil => intro st _; rfl
  | cons x xs ih =>
    intro st h
    have hx : ¬ (x.lane = lane ∧ x.holdActive = true) := by
      intro hc
      have := h x (List.mem_cons_self _ _) hc.1
      rw [hc.2] at this
      exact absurd this (by decide)
    unfold releaseLoop
    rw [if_neg hx, ih st (fun m hm => h m (List.mem_cons_of_mem _ hm))]

theorem releaseLoop_first (lane : Int) (t : ℚ) :
    ∀ (l : List Note) (st : Stats) (i : Nat) (n : Note), l[i]? = some n → n.lane = lane →
      n.holdActive = true →
      (∀ j m, j < i → l[j]? = some m → m.lane = lane → m.holdActive = false) →
      releaseLoop lane t l st =
        if fabs (t - n.endTimestamp) * 1000 ≤ GOOD_WINDOW then
          (l.set i n.completed, st.holdOk)
        else if t < n.endTimestamp then (l.set i n.failed, st.holdLost)
        else (l, st) := by
  intro l
  induction l with
  | nil => intro st i n hi; simp at hi
  | cons x xs ih =>
    intro st i n hi hl ha hfirst
    cases i with
    | zero =>
      simp at hi; subst hi
      unfold releaseLoop
      rw [if_pos ⟨hl, ha⟩]
      rfl
    | succ i =>
      have hx : ¬ (x.lane = lane ∧ x.holdActive = true) := by
        intro hc
        have := hfirst 0 x (Nat.succ_pos i) (by simp) hc.1
        rw [hc.2] at this
        exact absurd this (by decide)
      unfold releaseLoop
      rw [if_neg hx, ih st i n (by simpa using hi) hl ha
        (fun j m hj hjm => hfirst (j + 1) m (by omega) (by simpa using hjm))]
      split_ifs <;> rfl

theorem isHolding_holdActive {n : Note} (h : n.isHolding) : n.holdActive = true := by
  obtain ⟨h1, _, _, h4, h5, h6⟩ := h
  simp [Note.holdActive, h1, h4, h5, h6]

theorem twoHolds_notes :
    twoHolds.notes = [{ holdAt1 with hit := true, holding := true },
                      { holdAt1b with hit := true, holding := true }] := by
  norm_num [twoHolds, processLaneInput, findClosest, Game.start, holdAt1, holdAt1b,
    Note.create, fabs, MISS_WINDOW, judgePress, PERFECT_WINDOW, GOOD_WINDOW,
    Note.isHoldNote, Config.manual]

/-- C8 fails as stated: after two on-time presses both hold notes of lane 0 are Holding;
a release of lane 0 at second 2, more than 100 ms before the end 3.1 of the second one,
leaves that note Holding instead of making it Failed (the loop stops at the first
Holding note of the lane). -/
theorem C8_counterexample :
    twoHolds.notes[1]? = some { holdAt1b with hit := true, holding := true } ∧
    ({ holdAt1b with hit := true, holding := true } : Note).isHolding ∧
    ({ holdAt1b with hit := true, holding := true } : Note).lane = 0 ∧
    ¬ |(2 : ℚ) - ({ holdAt1b with hit := true, holding := true } : Note).endTimestamp| * 1000
        ≤ 100 ∧
    (2 : ℚ) < ({ holdAt1b with hit := true, holding := true } : Note).endTimestamp ∧
    (processLaneRelease Config.manual 0 2 twoHolds).notes[1]? =
      some { holdAt1b with hit := true, holding := true } ∧
    ({ holdAt1b with hit := true, holding := true } : Note).holdFailed = false := by
  refine ⟨by rw [twoHolds_notes]; rfl, ?_, rfl, ?_, ?_, ?_, rfl⟩
  · norm_num [Note.isHolding, Note.isHoldNote, holdAt1b, Note.create]
  · norm_num [holdAt1b, Note.create, abs_of_neg]
  · norm_num [holdAt1b, Note.create]
  · norm_num [processLaneRelease, twoHolds_notes, releaseLoop, Note.holdActive,
      Note.isHoldNote, holdAt1, holdAt1b, Note.create, fabs, GOOD_WINDOW]

/-- C8 (amended): let `n` be the first Holding hold note of lane `L` in list order (index
`i`, no Holding note of lane `L` before it).  Then `processLaneRelease L t` resolves it
in three ways: if `|t - endTime| ≤ 100 ms` it becomes Completed with score +100,
combo +1 and holdCount +1; else if `t < endTime` it becomes Failed with combo 0 and
missCount +1; else the whole state is left unchanged.  In the first two cases nothing
else changes.  When lane `L` has no Holding note the call changes nothing. -/
theorem C8_release_resolves_first_holding (cfg : Config) (g : Game) (L : Int) (t : ℚ) :
    (∀ (i : Nat) (n : Note), g.notes[i]? = some n → n.lane = L → n.isHolding →
      (∀ j m, j < i → g.notes[j]? = some m → m.lane = L → m.holdActive = false) →
      (|t - n.endTimestamp| * 1000 ≤ 100 →
        processLaneRelease cfg L t g =
          { g with toStats := g.toStats.holdOk, notes := g.notes.set i n.completed } ∧
        n.completed.isCompleted ∧
        (processLaneRelease cfg L t g).score = g.score + 100 ∧
        (processLaneRelease cfg L t g).combo = g.combo + 1 ∧
        (processLaneRelease cfg L t g).holdCount = g.holdCount + 1) ∧
      (¬ |t - n.endTimestamp| * 1000 ≤ 100 → t < n.endTimestamp →
        processLaneRelease cfg L t g =
          { g with toStats := g.toStats.holdLost, notes := g.notes.set i n.failed } ∧
        n.failed.isFailed ∧
        (processLaneRelease cfg L t g).combo = 0 ∧
        (processLaneRelease cfg L t g).missCount = g.missCount + 1) ∧
      (¬ |t - n.endTimestamp| * 1000 ≤ 100 → ¬ t < n.endTimestamp →
        processLaneRelease cfg L t g = g)) ∧
    ((∀ m ∈ g.notes, m.lane = L → m.holdActive = false) →
      processLaneRelease cfg L t g = g) := by
  refine ⟨?_, ?_⟩
  · intro i n hi hl hH hfirst
    have hloop := releaseLoop_first L t g.notes g.toStats i n hi hl
      (isHolding_holdActive hH) hfirst
    rw [fabs_eq_abs] at hloop
    obtain ⟨h1, h2, h3, h4, h5, h6⟩ := hH
    refine ⟨fun hd => ?_, fun hd ht => ?_, fun hd ht => ?_⟩
    · have hd' : |t - n.endTimestamp| * 1000 ≤ GOOD_WINDOW := hd
      rw [if_pos hd'] at hloop
      have heq : processLaneRelease cfg L t g =
          { g with toStats := g.toStats.holdOk, notes := g.notes.set i n.completed } := by
        simp only [processLaneRelease, hloop]
      refine ⟨heq, ⟨h1, h2, h3, rfl, rfl, h6⟩, ?_, ?_, ?_⟩ <;> rw [heq] <;> rfl
    · have hd' : ¬ |t - n.endTimestamp| * 1000 ≤ GOOD_WINDOW := hd
      rw [if_neg hd', if_pos ht] at hloop
      have heq : processLaneRelease cfg L t g =
          { g with toStats := g.toStats.holdLost, notes := g.notes.set i n.failed } := by
        simp only [processLaneRelease, hloop]
      refine ⟨heq, ⟨h1, h2, h3, rfl, h5, rfl⟩, ?_, ?_⟩ <;> rw [heq] <;> rfl
    · have hd' : ¬ |t - n.endTimestamp| * 1000 ≤ GOOD_WINDOW := hd
      rw [if_neg hd', if_neg ht] at hloop
      simp only [processLaneRelease, hloop]
  · intro hnone
    simp only [processLaneRelease, releaseLoop_none L t g.notes g.toStats hnone]

/-- C8 (amended) at the session with two Holding notes in lane 0: a release of lane 0 at
second 3 completes the first one, and a release of lane 1 changes nothing. -/
theorem C8_release_resolves_first_holding_witness :
    ((processLaneRelease Config.manual 0 3 twoHolds).score = twoHolds.score + 100 ∧
      (processLaneRelease Config.manual 0 3 twoHolds).combo = twoHolds.combo + 1 ∧
      (processLaneRelease Config.manual 0 3 twoHolds).holdCount = twoHolds.holdCount + 1) ∧
    processLaneRelease Config.manual 1 3 twoHolds = twoHolds :=
  ⟨(((C8_release_resolves_first_holding Config.manual twoHolds 0 3).1 0
      { holdAt1 with hit := true, holding := true } (by rw [twoHolds_notes]; rfl) rfl
      (by norm_num [Note.isHolding, Note.isHoldNote, holdAt1, Note.create])
      (fun j _ hj => absurd hj (Nat.not_lt_zero j))).1
      (by norm_num [holdAt1, Note.create])).2.2,
   (C8_release_resolves_first_holding Config.manual twoHolds 1 3).2 (by
      rw [twoHolds_notes]
      intro m hm hl
      simp only [List.mem_cons, List.mem_singleton, List.not_mem_nil, or_false] at hm
      rcases hm with rfl | rfl <;> exact absurd hl (by decide))⟩

/-! ## Ticks that judge a single note -/

theorem noteStep_progress {n n' : Note} (h : NoteStep n n') : n.progress < n'.progress := by
  obtain ⟨ts, te, ln, it, hit, mi, ho, hc, hf⟩ := n
  cases h <;> cases hit <;> cases mi <;> cases hc <;> cases hf <;>
    simp_all [Note.progress, Note.holdActive]

theorem noteSteps_progress {n n' : Note} (h : Relation.ReflTransGen NoteStep n n') :
    n.progress ≤ n'.progress := by
  induction h with
  | refl => exact le_refl _
  | tail _ hstep ih => exact le_trans ih (le_of_lt (noteStep_progress hstep))

/-- A note that comes back to an earlier value never left it. -/
theorem noteSteps_antisymm {a b : Note} (hab : Relation.ReflTransGen NoteStep a b)
    (hba : Relation.ReflTransGen NoteStep b a) : b = a := by
  rcases Relation.ReflTransGen.cases_head hab with heq | ⟨c, hstep, hcb⟩
  · exact heq.symm
  · have h1 := noteStep_progress hstep
    have h2 := noteSteps_progress hcb
    have h3 := noteSteps_progress hba
    omega

/-- If two operations in a row leave every note but the one at index `i` as it was, so
does each of them. -/
theorem agree_split {l1 l2 l3 : List Note} (i : Nat)
    (h12 : List.Forall₂ (Relation.ReflTransGen NoteStep) l1 l2)
    (h23 : List.Forall₂ (Relation.ReflTransGen NoteStep) l2 l3)
    (h : ∀ j, j ≠ i → l3[j]? = l1[j]?) :
    (∀ j, j ≠ i → l2[j]? = l1[j]?) ∧ (∀ j, j ≠ i → l3[j]? = l2[j]?) := by
  have key : ∀ j, j ≠ i → l2[j]? = l1[j]? := by
    intro j hj
    cases haj : l1[j]? with
    | none =>
      have hlen : l1.length ≤ j := by
        by_contra hc
        rw [List.getElem?_eq_getElem (not_le.mp hc)] at haj
        exact absurd haj (by simp)
      exact List.getElem?_eq_none (by rw [← h12.length_eq]; exact hlen)
    | some x =>
      obtain ⟨y, hy, hxy⟩ := forall₂_getElem? h12 j x haj
      obtain ⟨z, hz, hyz⟩ := forall₂_getElem? h23 j y hy
      have hzx : z = x := by
        have := h j hj
        rw [hz, haj] at this
        exact Option.some.inj this
      rw [hzx] at hyz
      rw [hy, noteSteps_antisymm hxy hyz]
  exact ⟨key, fun j hj => by rw [h j hj, key j hj]⟩

theorem forEachNote_fst (body : Note → Stats → Note × Stats) (f : Note → Note)
    (hf : ∀ m st, (body m st).1 = f m) :
    ∀ (l : List Note) (st : Stats), (forEachNote body l st).1 = l.map f := by
  intro l
  induction l with
  | nil => intro st; rfl
  | cons x xs ih =>
    intro st
    simp only [forEachNote, List.map_cons, hf, ih]

theorem forEachNote_of_notes_eq (body : Note → Stats → Note × Stats)
    (hbody : ∀ m st', (body m st').1 = m → ∀ st, body m st = (m, st)) :
    ∀ (l : List Note) (st : Stats), (forEachNote body l st).1 = l →
      forEachNote body l st = (l, st) := by
  intro l
  induction l with
  | nil => intro st _; rfl
  | cons x xs ih =>
    intro st h
    simp only [forEachNote, List.cons.injEq] at h
    have hx := hbody x st h.1 st
    have hrest : (forEachNote body xs st).1 = xs := by
      have := h.2
      rwa [hx] at this
    simp only [forEachNote, hx, ih st hrest]

theorem forEachNote_single (body : Note → Stats → Note × Stats) :
    ∀ (l : List Note) (st : Stats) (i : Nat) (n : Note), l[i]? = some n →
      (∀ j m, j ≠ i → l[j]? = some m → ∀ st', body m st' = (m, st')) →
      forEachNote body l st = (l.set i (body n st).1, (body n st).2) := by
  intro l
  induction l with
  | nil => intro st i n hi; simp at hi
  | cons x xs ih =>
    intro st i n hi hother
    cases i with
    | zero =>
      simp at hi; subst hi
      have hrest : ∀ (ys : List Note) (st1 : Stats),
          (∀ (j : Nat) (m : Note), ys[j]? = some m → ∀ st', body m st' = (m, st')) →
          forEachNote body ys st1 = (ys, st1) := by
        intro ys
        induction ys with
        | nil => intro st1 _; rfl
        | cons y ys ihy =>
          intro st1 hy
          simp only [forEachNote, hy 0 y (by simp) st1,
            ihy st1 (fun j m hjm => hy (j + 1) m (by simpa using hjm))]
      simp only [forEachNote, List.set_cons_zero,
        hrest xs _ (fun j m hjm => hother (j + 1) m (by omega) (by simpa using hjm))]
    | succ i =>
      have hx := hother 0 x (by omega) (by simp) st
      simp only [forEachNote, hx, List.set_cons_succ]
      rw [ih st i n (by simpa using hi)
        (fun j m hj hjm => hother (j + 1) m (by omega) (by simpa using hjm))]

theorem holdSweepNote_inactive (cfg : Config) (kh : Int → Bool) (dt t : ℚ) (m : Note)
    (st : Stats) (h : m.holdActive = false) : holdSweepNote cfg kh dt t m st = (m, st) := by
  unfold holdSweepNote
  rw [if_neg (by rw [h]; decide)]

theorem holdSweepNote_unheld (cfg : Config) (kh : Int → Bool) (dt t : ℚ) (n : Note)
    (st : Stats) (ha : n.holdActive = true) (hm : cfg.autoPlay = false)
    (hk : kh n.lane = false) :
    holdSweepNote cfg kh dt t n st = (n.failed, st.holdLost) := by
  have hh : (if cfg.autoPlay = true then true else kh n.lane) = false := by
    rw [if_neg (by rw [hm]; decide)]; exact hk
  unfold holdSweepNote
  rw [if_pos ha]
  dsimp only
  rw [if_pos hh]
  rfl

theorem holdSweepNote_held_to_end (cfg : Config) (kh : Int → Bool) (dt t : ℚ) (n : Note)
    (st : Stats) (ha : n.holdActive = true)
    (hheld : cfg.autoPlay = true ∨ kh n.lane = true) (hend : t ≥ n.endTimestamp) :
    holdSweepNote cfg kh dt t n st = (n.completed, st.holdDone dt) := by
  have hh : (if cfg.autoPlay = true then true else kh n.lane) = true := by
    rcases hheld with h | h
    · rw [if_pos h]
    · split_ifs <;> first | rfl | exact h
  have hh' : ¬ (if cfg.autoPlay = true then true else kh n.lane) = false := by
    rw [hh]; decide
  unfold holdSweepNote
  rw [if_pos ha]
  dsimp only
  rw [if_neg hh', if_pos hend]
  rfl

theorem holdSweepNote_fst (cfg : Config) (kh : Int → Bool) (dt t : ℚ) (m : Note)
    (st : Stats) :
    (holdSweepNote cfg kh dt t m st).1 = (holdSweepNote cfg kh dt t m Stats.zero).1 := by
  unfold holdSweepNote
  dsimp only
  split_ifs <;> rfl

theorem missSweepNote_hit (t : ℚ) (m : Note) (st : Stats) (h : m.hit = true) :
    missSweepNote t m st = (m, st) := by
  unfold missSweepNote
  rw [if_neg (by rw [h]; simp)]

theorem missSweepNote_unchanged (t : ℚ) (m : Note) (st' : Stats)
    (h : (missSweepNote t m st').1 = m) : ∀ st, missSweepNote t m st = (m, st) := by
  intro st
  unfold missSweepNote at h ⊢
  by_cases hp : m.hit = false ∧ m.missed = false
  · rw [if_pos hp] at h ⊢
    dsimp only at h ⊢
    by_cases hd : (t - m.timestamp) * 1000 > MISS_WINDOW
    · rw [if_pos hd] at h
      have h' : true = m.missed := congrArg Note.missed h
      rw [hp.2] at h'
      exact absurd h' (by decide)
    · rw [if_neg hd]
  · rw [if_neg hp]

theorem missSweepNote_fst (t : ℚ) (m : Note) (st : Stats) :
    (missSweepNote t m st).1 = (missSweepNote t m Stats.zero).1 := by
  unfold missSweepNote
  dsimp only
  split_ifs <;> rfl

theorem autoPlayNote_hit (cfg : Config) (t : ℚ) (m : Note) (st : Stats) (h : m.hit = true) :
    autoPlayNote cfg t m st = (m, st) := by
  unfold autoPlayNote
  rw [if_neg (by rw [h]; simp)]

theorem autoPlayNote_fst (cfg : Config) (t : ℚ) (m : Note) (st : Stats) :
    (autoPlayNote cfg t m st).1 = (autoPlayNote cfg t m Stats.zero).1 := by
  unfold autoPlayNote
  dsimp only
  split_ifs <;> rfl

theorem judgePress_hit (cfg : Config) (d : ℚ) (n : Note) (st : Stats) :
    (judgePress cfg d n st).1.hit = true := by
  rw [judgePress_note]
  split_ifs <;> rfl

theorem processLaneInput_keeps_hit (cfg : Config) (L : Int) (t : ℚ) (g : Game) (i : Nat)
    (m : Note) (hi : g.notes[i]? = some m) (hm : m.hit = true) :
    (processLaneInput cfg L t g).notes[i]? = some m := by
  rcases processLaneInput_cases cfg L t g with ⟨_, heq⟩ | ⟨k, n0, hk, hp0, _, _, _, heq⟩
  · rw [heq, hi]
  · have hne : k ≠ i := by
      intro hki
      rw [hki, hi] at hk
      cases hk
      exact absurd (hm.symm.trans hp0.2.1) (by decide)
    rw [heq]
    show (g.notes.set k _)[i]? = some m
    rw [List.getElem?_set_ne hne, hi]

/-- A press that leaves every note but a hit one as it was matched nothing. -/
theorem processLaneInput_quiet (cfg : Config) (L : Int) (t : ℚ) (g : Game) (i : Nat)
    (m : Note) (hi : g.notes[i]? = some m) (hm : m.hit = true)
    (hq : ∀ j, j ≠ i → (processLaneInput cfg L t g).notes[j]? = g.notes[j]?) :
    processLaneInput cfg L t g = g := by
  rcases processLaneInput_cases cfg L t g with ⟨_, heq⟩ | ⟨k, n0, hk, hp0, _, _, _, heq⟩
  · exact heq
  · exfalso
    have hklt : k < g.notes.length := (List.getElem?_eq_some.mp hk).1
    have hne : k ≠ i := by
      intro hki
      rw [hki, hi] at hk
      cases hk
      exact absurd (hm.symm.trans hp0.2.1) (by decide)
    have h1 := hq k hne
    rw [heq] at h1
    have h2 : (g.notes.set k (judgePress cfg (offsetMs t n0) n0 g.toStats).1)[k]? =
        some (judgePress cfg (offsetMs t n0) n0 g.toStats).1 := List.getElem?_set_self hklt
    have h3 : (judgePress cfg (offsetMs t n0) n0 g.toStats).1 = n0 :=
      Option.some.inj (h2.symm.trans (h1.trans hk))
    have h4 := judgePress_hit cfg (offsetMs t n0) n0 g.toStats
    rw [h3, hp0.2.1] at h4
    exact absurd h4 (by decide)

theorem processLaneInput_sameInputs (cfg : Config) (L : Int) (t : ℚ) (g : Game) :
    g.sameInputs (processLaneInput cfg L t g) := by
  rcases processLaneInput_cases cfg L t g with ⟨_, heq⟩ | ⟨k, n0, _, _, _, _, _, heq⟩ <;>
    rw [heq] <;> exact ⟨rfl, rfl, rfl, rfl, rfl⟩

theorem processLaneRelease_sameInputs (cfg : Config) (L : Int) (t : ℚ) (g : Game) :
    g.sameInputs (processLaneRelease cfg L t g) := ⟨rfl, rfl, rfl, rfl, rfl⟩

theorem sameInputs_trans {g1 g2 g3 : Game} (h12 : g1.sameInputs g2) (h23 : g2.sameInputs g3) :
    g1.sameInputs g3 := by
  obtain ⟨a1, a2, a3, a4, a5⟩ := h12
  obtain ⟨b1, b2, b3, b4, b5⟩ := h23
  exact ⟨b1.trans a1, b2.trans a2, b3.trans a3, b4.trans a4, b5.trans a5⟩

/-- What a release does to the note at one index: nothing, or the resolution of an
active hold of the released lane by the timing of the release. -/
theorem releaseLoop_getElem? (lane : Int) (t : ℚ) :
    ∀ (l : List Note) (st : Stats) (i : Nat) (n : Note), l[i]? = some n →
      (releaseLoop lane t l st).1[i]? = some n ∨
      (n.lane = lane ∧ n.holdActive = true ∧
        ((fabs (t - n.endTimestamp) * 1000 ≤ GOOD_WINDOW ∧
            (releaseLoop lane t l st).1[i]? = some n.completed) ∨
         (¬ fabs (t - n.endTimestamp) * 1000 ≤ GOOD_WINDOW ∧ t < n.endTimestamp ∧
            (releaseLoop lane t l st).1[i]? = some n.failed))) := by
  intro l
  induction l with
  | nil => intro st i n hi; simp at hi
  | cons x xs ih =>
    intro st i n hi
    unfold releaseLoop
    by_cases hx : x.lane = lane ∧ x.holdActive = true
    · rw [if_pos hx]
      dsimp only
      cases i with
      | zero =>
        simp at hi; subst hi
        split_ifs with h1 h2
        · right; exact ⟨hx.1, hx.2, Or.inl ⟨h1, by simp [Note.completed]⟩⟩
        · right; exact ⟨hx.1, hx.2, Or.inr ⟨h1, h2, by simp [Note.failed]⟩⟩
        · left; simp
      | succ i =>
        left
        split_ifs <;> simpa using hi
    · rw [if_neg hx]
      cases i with
      | zero => left; simpa using hi
      | succ i =>
        have := ih st i n (by simpa using hi)
        simpa using this

theorem laneFold_invariant (cfg : Config) (t : ℚ) (P : Game → Prop)
    (hstep : ∀ g1 x, P g1 → P (laneStep cfg t g1 x)) :
    ∀ (lanes : List Int) (g : Game), P g → P (lanes.foldl (laneStep cfg t) g) := by
  intro lanes
  induction lanes with
  | nil => intro g hg; exact hg
  | cons x xs ih => intro g hg; exact ih _ (hstep g x hg)

theorem isHolding_failed {n : Note} (h : n.isHolding) : n.failed.isFailed := by
  obtain ⟨h1, h2, h3, _, h5, _⟩ := h
  exact ⟨h1, h2, h3, rfl, h5, rfl⟩

theorem isFailed_inactive {n : Note} (h : n.isFailed) : n.holdActive = false := by
  obtain ⟨_, _, _, _, _, h6⟩ := h
  simp [Note.holdActive, h6]

theorem isFailed_wellFormed {n : Note} (h : n.isFailed) : n.wellFormed := by
  obtain ⟨h1, h2, h3, h4, h5, h6⟩ := h
  have h1' : n.timestamp + 100⁻¹ < n.endTimestamp := by simpa [Note.isHoldNote] using h1
  simp [Note.wellFormed, h2, h3, h4, h5, h6, h1']

/-- A release more than 100 ms before the end of a hold is outside the Good window. -/
theorem early_not_good (t : ℚ) (n : Note) (h : 100 < (n.endTimestamp - t) * 1000) :
    ¬ fabs (t - n.endTimestamp) * 1000 ≤ GOOD_WINDOW ∧ t < n.endTimestamp := by
  have hlt : t < n.endTimestamp := by
    by_contra hc
    have : n.endTimestamp - t ≤ 0 := by linarith [not_lt.mp hc]
    linarith
  refine ⟨?_, hlt⟩
  rw [fabs_eq_abs, abs_of_neg (by linarith)]
  intro hc
  have hc' : -(t - n.endTimestamp) * 1000 ≤ 100 := hc
  linarith

/-- In manual play the lane loop leaves an unheld early Holding note either untouched or
Failed, and does not write the key arrays. -/
theorem inputPhase_early (cfg : Config) (g : Game) (t : ℚ) (i : Nat) (n : Note)
    (hm : cfg.autoPlay = false) (hi : g.notes[i]? = some n) (hH : n.isHolding)
    (hearly : 100 < (n.endTimestamp - t) * 1000) :
    g.sameInputs (inputPhase cfg t g) ∧
    ((inputPhase cfg t g).notes[i]? = some n ∨
      (inputPhase cfg t g).notes[i]? = some n.failed) := by
  unfold inputPhase
  rw [if_neg (by rw [hm]; decide)]
  apply laneFold_invariant cfg t
    (fun g' => g.sameInputs g' ∧ (g'.notes[i]? = some n ∨ g'.notes[i]? = some n.failed))
  · intro g1 x hP
    obtain ⟨hsame, hnote⟩ := hP
    have hstepP : ∀ g2 : Game, (g.sameInputs g2 ∧
        (g2.notes[i]? = some n ∨ g2.notes[i]? = some n.failed)) →
        (g.sameInputs (processLaneInput cfg x t g2) ∧
          ((processLaneInput cfg x t g2).notes[i]? = some n ∨
            (processLaneInput cfg x t g2).notes[i]? = some n.failed)) := by
      intro g2 h2
      refine ⟨sameInputs_trans h2.1 (processLaneInput_sameInputs cfg x t g2), ?_⟩
      rcases h2.2 with h | h
      · exact Or.inl (processLaneInput_keeps_hit cfg x t g2 i n h hH.2.1)
      · exact Or.inr (processLaneInput_keeps_hit cfg x t g2 i n.failed h hH.2.1)
    have hstepR : ∀ g2 : Game, (g.sameInputs g2 ∧
        (g2.notes[i]? = some n ∨ g2.notes[i]? = some n.failed)) →
        (g.sameInputs (processLaneRelease cfg x t g2) ∧
          ((processLaneRelease cfg x t g2).notes[i]? = some n ∨
            (processLaneRelease cfg x t g2).notes[i]? = some n.failed)) := by
      intro g2 h2
      refine ⟨sameInputs_trans h2.1 (processLaneRelease_sameInputs cfg x t g2), ?_⟩
      rcases h2.2 with h | h
      · rcases releaseLoop_getElem? x t g2.notes g2.toStats i n h with
          h' | ⟨_, _, ⟨hgood, _⟩ | ⟨_, _, h'⟩⟩
        · exact Or.inl h'
        · exact absurd hgood (early_not_good t n hearly).1
        · exact Or.inr h'
      · rcases releaseLoop_getElem? x t g2.notes g2.toStats i n.failed h with
          h' | ⟨_, hact, _⟩
        · exact Or.inr h'
        · rw [isFailed_inactive (isHolding_failed hH)] at hact
          exact absurd hact (by decide)
    unfold laneStep
    dsimp only
    split_ifs
    · exact hstepR _ (hstepP g1 ⟨hsame, hnote⟩)
    · exact hstepP g1 ⟨hsame, hnote⟩
    · exact hstepR g1 ⟨hsame, hnote⟩
    · exact ⟨hsame, hnote⟩
  · exact ⟨⟨rfl, rfl, rfl, rfl, rfl⟩, Or.inl hi⟩

/-- The notes after `update` in manual play: the miss sweep of the hold sweep of the
notes after the lane loop. -/
theorem update_notes_manual (cfg : Config) (dt t : ℚ) (stopped : Bool) (g : Game)
    (hm : cfg.autoPlay = false) :
    (update cfg dt t stopped g).notes =
      ((inputPhase cfg t g).notes.map
        (fun m => (holdSweepNote cfg (inputPhase cfg t g).keyHeld dt t m Stats.zero).1)).map
        (fun m => (missSweepNote t m Stats.zero).1) := by
  unfold update
  dsimp only
  rw [if_pos hm]
  rw [forEachNote_fst _ _ (fun m st => missSweepNote_fst t m st),
    forEachNote_fst _ _ (fun m st => holdSweepNote_fst cfg _ dt t m st)]

/-- The notes after `update` in auto-play: the hold sweep of the notes after the
auto-player. -/
theorem update_notes_auto (cfg : Config) (dt t : ℚ) (stopped : Bool) (g : Game)
    (ha : cfg.autoPlay = true) :
    (update cfg dt t stopped g).notes =
      (inputPhase cfg t g).notes.map
        (fun m => (holdSweepNote cfg (inputPhase cfg t g).keyHeld dt t m Stats.zero).1) := by
  unfold update
  dsimp only
  rw [if_neg (by rw [ha]; decide)]
  rw [forEachNote_fst _ _ (fun m st => holdSweepNote_fst cfg _ dt t m st)]

/-- The lane loop under the assumption that it leaves every note but the one at index `i`
as it was: an invariant is kept if presses that match nothing and releases keep it. -/
theorem laneFold_quiet (cfg : Config) (t : ℚ) (i : Nat) (Q : Game → Prop)
    (hpress : ∀ g1 x, Q g1 →
      (∀ j, j ≠ i → (processLaneInput cfg x t g1).notes[j]? = g1.notes[j]?) →
      Q (processLaneInput cfg x t g1))
    (hrel : ∀ g1 x, Q g1 → g1.keyReleased x = true → Q (processLaneRelease cfg x t g1)) :
    ∀ (lanes : List Int) (g1 : Game), Q g1 →
      (∀ j, j ≠ i → (lanes.foldl (laneStep cfg t) g1).notes[j]? = g1.notes[j]?) →
      Q (lanes.foldl (laneStep cfg t) g1) := by
  intro lanes
  induction lanes with
  | nil => intro g1 hQ _; exact hQ
  | cons x xs ih =>
    intro g1 hQ hiso
    obtain ⟨isoA, isoB⟩ := agree_split i (laneStep_steps cfg t g1 x)
      (laneFold_steps cfg t xs (laneStep cfg t g1 x)) hiso
    refine ih _ ?_ isoB
    -- one lane: an optional press, then an optional release
    have hpressed : Q (if g1.keyPressed x = true then processLaneInput cfg x t g1 else g1) ∧
        (∀ j, j ≠ i → (laneStep cfg t g1 x).notes[j]? =
          (if g1.keyPressed x = true then processLaneInput cfg x t g1 else g1).notes[j]?) := by
      by_cases hp : g1.keyPressed x = true
      · rw [if_pos hp]
        have hsplit := agree_split i (processLaneInput_steps cfg x t g1)
          (by
            unfold laneStep
            dsimp only
            rw [if_pos hp]
            split_ifs
            · exact processLaneRelease_steps cfg x t _
            · exact forall₂_steps_refl _) isoA
        exact ⟨hpress g1 x hQ hsplit.1, hsplit.2⟩
      · rw [if_neg hp]
        exact ⟨hQ, isoA⟩
    unfold laneStep
    dsimp only
    by_cases hr : (if g1.keyPressed x = true then processLaneInput cfg x t g1
        else g1).keyReleased x = true
    · rw [if_pos hr]
      exact hrel _ x hpressed.1 hr
    · rw [if_neg hr]
      exact hpressed.1

theorem releaseLoop_other_inactive (lane : Int) (t : ℚ) (l : List Note) (st : Stats)
    (i : Nat) (n : Note) (hi : l[i]? = some n)
    (hn : n.lane ≠ lane ∨ n.holdActive = false)
    (hother : ∀ j m, j ≠ i → l[j]? = some m → m.holdActive = false) :
    releaseLoop lane t l st = (l, st) := by
  apply releaseLoop_none
  intro m hm hl
  obtain ⟨j, hj⟩ := List.mem_iff_getElem?.mp hm
  by_cases hji : j = i
  · rw [hji, hi] at hj
    cases hj
    rcases hn with h | h
    · exact absurd hl h
    · exact h
  · exact hother j m hji hj

theorem missSweep_quiet (t : ℚ) (l : List Note) (st : Stats) (i : Nat) (m : Note)
    (hi : l[i]? = some m) (hm : m.hit = true)
    (hiso : ∀ j, j ≠ i → (forEachNote (missSweepNote t) l st).1[j]? = l[j]?) :
    forEachNote (missSweepNote t) l st = (l, st) := by
  apply forEachNote_of_notes_eq _ (missSweepNote_unchanged t)
  apply List.ext_getElem?
  intro j
  by_cases hji : j = i
  · rw [hji, forEachNote_fst _ _ (fun m st => missSweepNote_fst t m st), List.getElem?_map, hi,
      Option.map_some', missSweepNote_hit t m _ hm]
  · exact hiso j hji

theorem holdingGame_eq :
    holdingGame = { Game.start [holdAt1] with
      toStats := { Stats.zero with score := 300, combo := 1, maxCombo := 1, perfectCount := 1 },
      notes := [{ holdAt1 with hit := true, holding := true }] } := by
  norm_num [holdingGame, processLaneInput, findClosest, Game.start, holdAt1, Note.create, fabs,
    MISS_WINDOW, judgePress, PERFECT_WINDOW, Note.isHoldNote, Config.manual, Stats.zero,
    PERFECT_SCORE]

/-- C9 fails as stated: the hold note of lane 0 (second 1 to second 3) is Holding; its key
is released at second 2.95, strictly before the end.  After that tick the note is
Completed, not Failed; missCount has not risen and combo is 2, not 0 (the release
handler accepts a release within 100 ms of the end). -/
theorem C9_counterexample :
    holdingGame.notes = [{ holdAt1 with hit := true, holding := true }] ∧
    ({ holdAt1 with hit := true, holding := true } : Note).isHolding ∧
    holdingGame.releaseLane0.keyHeld 0 = false ∧
    holdingGame.releaseLane0.keyReleased 0 = true ∧
    (59 / 20 : ℚ) < ({ holdAt1 with hit := true, holding := true } : Note).endTimestamp ∧
    (update Config.manual 0 (59 / 20) false holdingGame.releaseLane0).notes =
      [{ holdAt1 with hit := true, holdCompleted := true }] ∧
    (update Config.manual 0 (59 / 20) false holdingGame.releaseLane0).missCount =
      holdingGame.missCount ∧
    (update Config.manual 0 (59 / 20) false holdingGame.releaseLane0).combo = 2 := by
  refine ⟨by rw [holdingGame_eq], ?_, rfl, rfl, ?_, ?_, ?_, ?_⟩
  · norm_num [Note.isHolding, Note.isHoldNote, holdAt1, Note.create]
  · norm_num [holdAt1, Note.create]
  all_goals
    norm_num [holdingGame_eq, Game.releaseLane0, update, inputPhase, laneStep, NUM_LANES,
      List.range, List.range.loop, Game.start, Config.manual, forEachNote, holdSweepNote,
      missSweepNote, holdAt1, Note.create, Note.holdActive, Note.isHoldNote, MISS_WINDOW,
      processLaneRelease, releaseLoop, fabs, GOOD_WINDOW, Stats.zero, HOLD_COMPLETE_SCORE]

/-- The lane loop of a tick that judges no other note, for an unheld early Holding note
that is the only hold in progress: it returns the state untouched or with exactly that
note failed by the release handler. -/
theorem inputPhase_quiet_early (cfg : Config) (g : Game) (t : ℚ) (i : Nat) (n : Note)
    (hm : cfg.autoPlay = false) (hi : g.notes[i]? = some n) (hH : n.isHolding)
    (hearly : 100 < (n.endTimestamp - t) * 1000)
    (hother : ∀ j m, j ≠ i → g.notes[j]? = some m → m.holdActive = false)
    (hiso : ∀ j, j ≠ i → (inputPhase cfg t g).notes[j]? = g.notes[j]?) :
    inputPhase cfg t g = g ∨
    inputPhase cfg t g =
      { g with toStats := g.toStats.holdLost, notes := g.notes.set i n.failed } := by
  have hilt : i < g.notes.length := (List.getElem?_eq_some.mp hi).1
  have hFi : (g.notes.set i n.failed)[i]? = some n.failed := List.getElem?_set_self hilt
  have hFother : ∀ j m, j ≠ i → (g.notes.set i n.failed)[j]? = some m →
      m.holdActive = false := by
    intro j m hj hjm
    rw [List.getElem?_set_ne (Ne.symm hj)] at hjm
    exact hother j m hj hjm
  unfold inputPhase at hiso ⊢
  rw [if_neg (by rw [hm]; decide)] at hiso ⊢
  refine laneFold_quiet cfg t i
    (fun g1 => g1 = g ∨
      g1 = { g with toStats := g.toStats.holdLost, notes := g.notes.set i n.failed })
    ?_ ?_ _ g (Or.inl rfl) hiso
  · intro g1 x hQ hq
    rcases hQ with h | h
    · subst h
      exact Or.inl (processLaneInput_quiet cfg x t g1 i n hi hH.2.1 hq)
    · subst h
      exact Or.inr (processLaneInput_quiet cfg x t _ i n.failed hFi hH.2.1 hq)
  · intro g1 x hQ _
    rcases hQ with h | h
    · subst h
      by_cases hx : n.lane = x
      · right
        have hloop := releaseLoop_first x t g1.notes g1.toStats i n hi hx
          (isHolding_holdActive hH)
          (fun j m hj hjm _ => hother j m (by omega) hjm)
        rw [if_neg (early_not_good t n hearly).1, if_pos (early_not_good t n hearly).2] at hloop
        simp only [processLaneRelease, hloop]
      · left
        simp only [processLaneRelease,
          releaseLoop_other_inactive x t g1.notes g1.toStats i n hi (Or.inl hx) hother]
    · subst h
      right
      simp only [processLaneRelease,
        releaseLoop_other_inactive x t (g.notes.set i n.failed) g.toStats.holdLost i n.failed hFi
          (Or.inr (isFailed_inactive (isHolding_failed hH))) hFother]

/-- C9 (amended): in manual play, take a Holding hold note whose lane is unheld on a tick
at a time more than 100 ms before its end (whether or not that tick still sees the release
event).  After the tick the note is Failed, and it stays so whatever the engine does
later.  It is failed exactly once: when the tick judges no other note and no other hold
is in progress, the counters after the tick are the ones before it with combo set to 0
and missCount raised by 1, whether the release handler or the hold sweep failed the
note. -/
theorem C9_early_release_fails_once (cfg : Config) (g : Game) (dt t : ℚ) (stopped : Bool)
    (i : Nat) (n : Note) (hm : cfg.autoPlay = false) (hi : g.notes[i]? = some n)
    (hH : n.isHolding) (hunheld : g.keyHeld n.lane = false)
    (hearly : 100 < (n.endTimestamp - t) * 1000) :
    (update cfg dt t stopped g).notes[i]? = some n.failed ∧ n.failed.isFailed ∧
    (∀ g', Relation.ReflTransGen EngineStep (update cfg dt t stopped g) g' →
      g'.notes[i]? = some n.failed) ∧
    ((∀ j, j ≠ i → (update cfg dt t stopped g).notes[j]? = g.notes[j]?) →
      (∀ j m, j ≠ i → g.notes[j]? = some m → m.holdActive = false) →
      (update cfg dt t stopped g).toStats = g.toStats.holdLost ∧
      (update cfg dt t stopped g).missCount = g.missCount + 1 ∧
      (update cfg dt t stopped g).combo = 0) := by
  have hF := isHolding_failed hH
  have hilt : i < g.notes.length := (List.getElem?_eq_some.mp hi).1
  obtain ⟨hsame, hnote⟩ := inputPhase_early cfg g t i n hm hi hH hearly
  have hkh : (inputPhase cfg t g).keyHeld n.lane = false := by
    rw [hsame.2.2.1]; exact hunheld
  have hfinal : (update cfg dt t stopped g).notes[i]? = some n.failed := by
    rw [update_notes_manual cfg dt t stopped g hm, List.getElem?_map, List.getElem?_map]
    rcases hnote with h | h
    · rw [h, Option.map_some', Option.map_some',
        holdSweepNote_unheld cfg _ dt t n _ (isHolding_holdActive hH) hm hkh,
        missSweepNote_hit t n.failed _ hH.2.1]
    · rw [h, Option.map_some', Option.map_some',
        holdSweepNote_inactive cfg _ dt t n.failed _ (isFailed_inactive hF),
        missSweepNote_hit t n.failed _ hH.2.1]
  refine ⟨hfinal, hF, ?_, ?_⟩
  · intro g' hlater
    obtain ⟨n', hn', hsteps⟩ := forall₂_getElem? (engineSteps_steps hlater) i n.failed hfinal
    rw [hn', noteSteps_terminal hsteps (isFailed_wellFormed hF)
      (Or.inr (Or.inr (Or.inr rfl)))]
  · intro hiso hother
    have hparts : (update cfg dt t stopped g).notes =
          (forEachNote (missSweepNote t)
            (forEachNote (holdSweepNote cfg (inputPhase cfg t g).keyHeld dt t)
              (inputPhase cfg t g).notes (inputPhase cfg t g).toStats).1
            (forEachNote (holdSweepNote cfg (inputPhase cfg t g).keyHeld dt t)
              (inputPhase cfg t g).notes (inputPhase cfg t g).toStats).2).1 ∧
        (update cfg dt t stopped g).toStats =
          (forEachNote (missSweepNote t)
            (forEachNote (holdSweepNote cfg (inputPhase cfg t g).keyHeld dt t)
              (inputPhase cfg t g).notes (inputPhase cfg t g).toStats).1
            (forEachNote (holdSweepNote cfg (inputPhase cfg t g).keyHeld dt t)
              (inputPhase cfg t g).notes (inputPhase cfg t g).toStats).2).2 := by
      unfold update
      dsimp only
      rw [if_pos hm]
      exact ⟨rfl, rfl⟩
    rw [hparts.1] at hiso
    obtain ⟨iso1, iso23⟩ := agree_split i (inputPhase_steps cfg t g)
      (forall₂_steps_trans
        (forEachNote_steps _ (holdSweepNote_step cfg (inputPhase cfg t g).keyHeld dt t) _ _)
        (forEachNote_steps _ (missSweepNote_step t) _ _)) hiso
    obtain ⟨_, iso3⟩ := agree_split i
      (forEachNote_steps _ (holdSweepNote_step cfg (inputPhase cfg t g).keyHeld dt t)
        (inputPhase cfg t g).notes (inputPhase cfg t g).toStats)
      (forEachNote_steps _ (missSweepNote_step t) _ _) iso23
    -- the hold sweep ends with the note failed and counted once
    have hhold : forEachNote (holdSweepNote cfg (inputPhase cfg t g).keyHeld dt t)
        (inputPhase cfg t g).notes (inputPhase cfg t g).toStats =
        (g.notes.set i n.failed, g.toStats.holdLost) := by
      rcases inputPhase_quiet_early cfg g t i n hm hi hH hearly hother iso1 with h | h
      · rw [forEachNote_single _ _ _ i n (by rw [h]; exact hi)
          (fun j m hj hjm st' => holdSweepNote_inactive cfg _ dt t m st'
            (hother j m hj (by rw [h] at hjm; exact hjm)))]
        rw [holdSweepNote_unheld cfg _ dt t n _ (isHolding_holdActive hH) hm hkh, h]
      · have hFi : (inputPhase cfg t g).notes[i]? = some n.failed := by
          rw [h]; exact List.getElem?_set_self hilt
        rw [forEachNote_single _ _ _ i n.failed hFi
          (fun j m hj hjm st' => holdSweepNote_inactive cfg _ dt t m st'
            (hother j m hj (by
              rw [h] at hjm
              rw [← hjm]
              exact (List.getElem?_set_ne (Ne.symm hj)).symm)))]
        rw [holdSweepNote_inactive cfg _ dt t n.failed _ (isFailed_inactive hF), h]
        simp only [List.set_set]
    rw [hhold] at iso3 hparts
    have hmiss := missSweep_quiet t (g.notes.set i n.failed) g.toStats.holdLost i n.failed
      (List.getElem?_set_self hilt) hH.2.1 iso3
    rw [hmiss] at hparts
    refine ⟨hparts.2, ?_, ?_⟩
    · show (update cfg dt t stopped g).toStats.missCount = g.missCount + 1
      rw [hparts.2]; rfl
    · show (update cfg dt t stopped g).toStats.combo = 0
      rw [hparts.2]; rfl

/-- C9 (amended) at the hold note of lane 0 released at second 2, one second before its
end. -/
theorem C9_early_release_fails_once_witness :
    (update Config.manual 0 2 false holdingGame.releaseLane0).notes[0]? =
      some ({ holdAt1 with hit := true, holding := true } : Note).failed ∧
    (update Config.manual 0 2 false holdingGame.releaseLane0).missCount =
      holdingGame.releaseLane0.missCount + 1 ∧
    (update Config.manual 0 2 false holdingGame.releaseLane0).combo = 0 :=
  have h := C9_early_release_fails_once Config.manual holdingGame.releaseLane0 0 2 false 0
    { holdAt1 with hit := true, holding := true } rfl
    (by rw [holdingGame_eq]; rfl)
    (by norm_num [Note.isHolding, Note.isHoldNote, holdAt1, Note.create])
    rfl (by norm_num [holdAt1, Note.create])
  ⟨h.1, (h.2.2.2
    (by
      intro j hj
      have hlen : (update Config.manual 0 2 false holdingGame.releaseLane0).notes.length = 1 := by
        rw [← (update_steps Config.manual 0 2 false holdingGame.releaseLane0).length_eq]
        rw [holdingGame_eq]; rfl
      have hlen0 : holdingGame.releaseLane0.notes.length = 1 := by rw [holdingGame_eq]; rfl
      rw [List.getElem?_eq_none (by omega), List.getElem?_eq_none (by omega)])
    (by
      intro j m hj hjm
      have hlen0 : holdingGame.releaseLane0.notes.length = 1 := by rw [holdingGame_eq]; rfl
      rw [List.getElem?_eq_none (by omega)] at hjm
      exact absurd hjm (by simp))).2⟩

/-- The first block of `update` leaves a Holding note alone when its lane stays held
(or the auto-player runs), and does not write the key arrays. -/
theorem inputPhase_held (cfg : Config) (g : Game) (t : ℚ) (i : Nat) (n : Note)
    (hi : g.notes[i]? = some n) (hH : n.isHolding)
    (hheld : cfg.autoPlay = true ∨ (g.keyHeld n.lane = true ∧ g.keyReleased n.lane = false)) :
    g.sameInputs (inputPhase cfg t g) ∧ (inputPhase cfg t g).notes[i]? = some n := by
  unfold inputPhase
  by_cases ha : cfg.autoPlay = true
  · rw [if_pos ha]
    refine ⟨⟨rfl, rfl, rfl, rfl, rfl⟩, ?_⟩
    show (forEachNote (autoPlayNote cfg t) g.notes g.toStats).1[i]? = some n
    rw [forEachNote_fst _ _ (fun m st => autoPlayNote_fst cfg t m st), List.getElem?_map, hi,
      Option.map_some', autoPlayNote_hit cfg t n _ hH.2.1]
  · rw [if_neg ha]
    have hrel : g.keyReleased n.lane = false := by
      rcases hheld with h | h
      · exact absurd h ha
      · exact h.2
    apply laneFold_invariant cfg t (fun g' => g.sameInputs g' ∧ g'.notes[i]? = some n)
    · intro g1 x hP
      have hstepP : ∀ g2 : Game, (g.sameInputs g2 ∧ g2.notes[i]? = some n) →
          (g.sameInputs (processLaneInput cfg x t g2) ∧
            (processLaneInput cfg x t g2).notes[i]? = some n) := fun g2 h2 =>
        ⟨sameInputs_trans h2.1 (processLaneInput_sameInputs cfg x t g2),
          processLaneInput_keeps_hit cfg x t g2 i n h2.2 hH.2.1⟩
      have hstepR : ∀ g2 : Game, (g.sameInputs g2 ∧ g2.notes[i]? = some n) →
          g2.keyReleased x = true →
          (g.sameInputs (processLaneRelease cfg x t g2) ∧
            (processLaneRelease cfg x t g2).notes[i]? = some n) := by
        intro g2 h2 hx
        refine ⟨sameInputs_trans h2.1 (processLaneRelease_sameInputs cfg x t g2), ?_⟩
        rcases releaseLoop_getElem? x t g2.notes g2.toStats i n h2.2 with h' | ⟨hl, _, _⟩
        · exact h'
        · rw [h2.1.2.1, ← hl, hrel] at hx
          exact absurd hx (by decide)
      unfold laneStep
      dsimp only
      split_ifs with h1 h2 h3
      · exact hstepR _ (hstepP g1 hP) h2
      · exact hstepP g1 hP
      · exact hstepR g1 hP h3
      · exact hP
    · exact ⟨⟨rfl, rfl, rfl, rfl, rfl⟩, hi⟩

theorem holdSweepNote_fst_cases (cfg : Config) (kh : Int → Bool) (dt t : ℚ) (m : Note)
    (st : Stats) :
    (holdSweepNote cfg kh dt t m st).1 = m ∨ (holdSweepNote cfg kh dt t m st).1 = m.failed ∨
      (holdSweepNote cfg kh dt t m st).1 = m.completed := by
  unfold holdSweepNote
  dsimp only
  split_ifs <;> first
    | (left; rfl)
    | (right; left; rfl)
    | (right; right; rfl)

theorem laneStep_sameInputs (cfg : Config) (t : ℚ) (g : Game) (x : Int) :
    g.sameInputs (laneStep cfg t g x) := by
  unfold laneStep
  dsimp only
  split_ifs
  · exact sameInputs_trans (processLaneInput_sameInputs cfg x t g)
      (processLaneRelease_sameInputs cfg x t _)
  · exact processLaneInput_sameInputs cfg x t g
  · exact processLaneRelease_sameInputs cfg x t g
  · exact ⟨rfl, rfl, rfl, rfl, rfl⟩

theorem inputPhase_sameInputs (cfg : Config) (t : ℚ) (g : Game) :
    g.sameInputs (inputPhase cfg t g) := by
  unfold inputPhase
  split_ifs
  · exact ⟨rfl, rfl, rfl, rfl, rfl⟩
  · exact laneFold_invariant cfg t (fun g' => g.sameInputs g')
      (fun g1 x h => sameInputs_trans h (laneStep_sameInputs cfg t g1 x)) _ g
      ⟨rfl, rfl, rfl, rfl, rfl⟩

theorem processLaneInput_gameEnded (cfg : Config) (L : Int) (t : ℚ) (g : Game) :
    (processLaneInput cfg L t g).gameEnded = g.gameEnded := by
  rcases processLaneInput_cases cfg L t g with ⟨_, heq⟩ | ⟨k, n0, _, _, _, _, _, heq⟩ <;>
    rw [heq]

theorem inputPhase_gameEnded (cfg : Config) (t : ℚ) (g : Game) :
    (inputPhase cfg t g).gameEnded = g.gameEnded := by
  unfold inputPhase
  split_ifs
  · rfl
  · apply laneFold_invariant cfg t (fun g' => g'.gameEnded = g.gameEnded)
    · intro g1 x h
      unfold laneStep
      dsimp only
      split_ifs
      · exact (processLaneInput_gameEnded cfg x t g1).trans h
      · exact (processLaneInput_gameEnded cfg x t g1).trans h
      · exact h
      · exact h
    · rfl

theorem filter_length_congr {p : Note → Bool} :
    ∀ (l1 l2 : List Note), l1.map p = l2.map p →
      (l1.filter p).length = (l2.filter p).length := by
  intro l1
  induction l1 with
  | nil =>
    intro l2 h
    cases l2 with
    | nil => rfl
    | cons y ys => simp at h
  | cons x xs ih =>
    intro l2 h
    cases l2 with
    | nil => simp at h
    | cons y ys =>
      simp only [List.map_cons, List.cons.injEq] at h
      have hrest := ih ys h.2
      by_cases hx : p x = true
      · rw [List.filter_cons_of_pos hx, List.filter_cons_of_pos (h.1 ▸ hx)]
        simp only [List.length_cons, hrest]
      · rw [List.filter_cons_of_neg hx, List.filter_cons_of_neg (h.1 ▸ hx)]
        exact hrest

theorem forEachNote_id (body : Note → Stats → Note × Stats) :
    ∀ (l : List Note) (st : Stats), (∀ m ∈ l, ∀ st', body m st' = (m, st')) →
      forEachNote body l st = (l, st) := by
  intro l
  induction l with
  | nil => intro st _; rfl
  | cons x xs ih =>
    intro st h
    simp only [forEachNote, h x (List.mem_cons_self _ _) st,
      ih st (fun m hm => h m (List.mem_cons_of_mem _ hm))]

theorem checkDone_iff (l : List Note) :
    checkDone l = true ↔
      ∀ n ∈ l, (n.hit = true ∨ n.missed = true) ∧ ¬ (n.isHoldNote = true ∧ n.holding = true) := by
  induction l with
  | nil => simp [checkDone]
  | cons x xs ih =>
    unfold checkDone
    by_cases h1 : x.hit = false ∧ x.missed = false
    · rw [if_pos h1]
      constructor
      · intro h; exact absurd h (by decide)
      · intro h
        rcases (h x (List.mem_cons_self _ _)).1 with hh | hh
        · rw [h1.1] at hh; exact absurd hh (by decide)
        · rw [h1.2] at hh; exact absurd hh (by decide)
    · rw [if_neg h1]
      by_cases h2 : x.isHoldNote = true ∧ x.holding = true
      · rw [if_pos h2]
        constructor
        · intro h; exact absurd h (by decide)
        · intro h; exact absurd h2 (h x (List.mem_cons_self _ _)).2
      · rw [if_neg h2, ih]
        constructor
        · intro h n hn
          rcases List.mem_cons.mp hn with rfl | hn
          · refine ⟨?_, h2⟩
            by_contra hc
            push_neg at hc
            exact h1 ⟨by simpa using hc.1, by simpa using hc.2⟩
          · exact h n hn
        · intro h n hn
          exact h n (List.mem_cons_of_mem _ hn)

theorem update_gameEnded (cfg : Config) (dt t : ℚ) (stopped : Bool) (g : Game) :
    (update cfg dt t stopped g).gameEnded =
      if stopped = true ∧ g.gameStarted = true then
        (if checkDone (update cfg dt t stopped g).notes = true then true else g.gameEnded)
      else g.gameEnded := by
  have h1 := (inputPhase_sameInputs cfg t g).2.2.2.1
  have h2 := inputPhase_gameEnded cfg t g
  unfold update
  dsimp only
  rw [h1, h2]

/-- C12: on an update tick of a started, not yet ended session on which playback reports
stopped, the session is flagged ended if and only if, at the end check of that tick, no
note is Pending (every note has `hit` or `missed` set) and no hold note is Holding; with
an empty note list it is flagged ended on the first such tick.  On a tick on which
playback has not stopped it is not flagged. -/
theorem C12_session_end (cfg : Config) (g : Game) (dt t : ℚ)
    (hstart : g.gameStarted = true) (hnot : g.gameEnded = false) :
    ((update cfg dt t true g).gameEnded = true ↔
      ∀ n ∈ (update cfg dt t true g).notes,
        (n.hit = true ∨ n.missed = true) ∧ ¬ (n.isHoldNote = true ∧ n.holding = true)) ∧
    (g.notes = [] → (update cfg dt t true g).gameEnded = true) ∧
    (update cfg dt t false g).gameEnded = false := by
  have hiff : (update cfg dt t true g).gameEnded = true ↔
      checkDone (update cfg dt t true g).notes = true := by
    rw [update_gameEnded, if_pos ⟨rfl, hstart⟩, hnot]
    by_cases hc : checkDone (update cfg dt t true g).notes = true
    · rw [if_pos hc]; exact ⟨fun _ => hc, fun _ => rfl⟩
    · rw [if_neg hc]; exact ⟨fun h => absurd h (by decide), fun h => absurd h hc⟩
  refine ⟨hiff.trans (checkDone_iff _), ?_, ?_⟩
  · intro hempty
    apply hiff.mpr
    have hlen := (update_steps cfg dt t true g).length_eq
    rw [hempty] at hlen
    rw [List.length_eq_zero.mp hlen.symm]
    rfl
  · rw [update_gameEnded, if_neg (by simp), hnot]

/-- C12 at a started session with no note at all. -/
theorem C12_session_end_witness :
    (update Config.manual 0 3 true (Game.start [])).gameEnded = true :=
  (C12_session_end Config.manual (Game.start []) 0 3 rfl rfl).2.1 rfl

/-! ## Auto-play (C13) -/

theorem autoPlayNote_eq (cfg : Config) (t : ℚ) (n : Note) (st : Stats) :
    autoPlayNote cfg t n st =
      if n.autoDue t = true then
        (n.autoJudged,
         { st with score := st.score + 300, combo := st.combo + 1,
                   perfectCount := st.perfectCount + 1,
                   maxCombo := max st.maxCombo (st.combo + 1) })
      else (n, st) := by
  have hh : ({ n with hit := true } : Note).isHoldNote = n.isHoldNote := rfl
  unfold autoPlayNote Note.autoDue Note.autoJudged
  by_cases hp : n.hit = false ∧ n.missed = false
  · rw [if_pos hp]
    dsimp only
    by_cases hd : (t - n.timestamp) * 1000 ≥ -5 ∧ (t - n.timestamp) * 1000 ≤ 5
    · rw [if_pos hd, if_pos (decide_eq_true ⟨hp.1, hp.2, hd⟩), hh]
      split_ifs <;> rfl
    · rw [if_neg hd, if_neg (fun hc => hd (of_decide_eq_true hc).2.2)]
  · rw [if_neg hp, if_neg (fun hc => hp ⟨(of_decide_eq_true hc).1, (of_decide_eq_true hc).2.1⟩)]

/-- The loop of `updateAutoPlay` in closed form: every due note is judged, and the score,
combo and perfectCount rise by 300, 1 and 1 per judged note; the other counters (except
maxCombo) keep their values. -/
theorem autoPlay_eq (cfg : Config) (t : ℚ) :
    ∀ (l : List Note) (st : Stats),
      (forEachNote (autoPlayNote cfg t) l st).1 =
        l.map (fun n => if n.autoDue t = true then n.autoJudged else n) ∧
      (forEachNote (autoPlayNote cfg t) l st).2.score =
        st.score + 300 * (l.filter (Note.autoDue t)).length ∧
      (forEachNote (autoPlayNote cfg t) l st).2.combo =
        st.combo + (l.filter (Note.autoDue t)).length ∧
      (forEachNote (autoPlayNote cfg t) l st).2.perfectCount =
        st.perfectCount + (l.filter (Note.autoDue t)).length ∧
      (forEachNote (autoPlayNote cfg t) l st).2.goodCount = st.goodCount ∧
      (forEachNote (autoPlayNote cfg t) l st).2.missCount = st.missCount ∧
      (forEachNote (autoPlayNote cfg t) l st).2.holdCount = st.holdCount := by
  intro l
  induction l with
  | nil => intro st; simp [forEachNote]
  | cons x xs ih =>
    intro st
    simp only [forEachNote, List.map_cons]
    obtain ⟨i1, i2, i3, i4, i5, i6, i7⟩ := ih (autoPlayNote cfg t x st).2
    rw [i1, i2, i3, i4, i5, i6, i7, autoPlayNote_eq]
    by_cases hx : x.autoDue t = true
    · simp only [hx, if_true, List.filter_cons_of_pos, List.length_cons, Nat.cast_add,
        Nat.cast_one]
      repeat' apply And.intro
      all_goals first | trivial | rfl | ring
    · simp only [hx, if_false, Bool.false_eq_true, List.filter_cons_of_neg hx]
      repeat' apply And.intro
      all_goals trivial

theorem forEachNote_stats_invariant (body : Note → Stats → Note × Stats) (P : Stats → Prop)
    (hbody : ∀ n st, P st → P (body n st).2) :
    ∀ (l : List Note) (st : Stats), P st → P (forEachNote body l st).2 := by
  intro l
  induction l with
  | nil => intro st h; exact h
  | cons x xs ih => intro st h; exact ih _ (hbody x st h)

/-- With the auto-player on, the hold loop never fails a note and never touches
missCount or perfectCount. -/
theorem holdSweepNote_auto (cfg : Config) (kh : Int → Bool) (dt t : ℚ) (m : Note)
    (st : Stats) (ha : cfg.autoPlay = true) :
    ((holdSweepNote cfg kh dt t m st).1 = m ∨ (holdSweepNote cfg kh dt t m st).1 = m.completed) ∧
    (holdSweepNote cfg kh dt t m st).2.missCount = st.missCount ∧
    (holdSweepNote cfg kh dt t m st).2.perfectCount = st.perfectCount := by
  unfold holdSweepNote
  dsimp only
  rw [if_pos ha]
  split_ifs
  · rename_i h; exact absurd h (by decide)
  · exact ⟨Or.inr rfl, rfl, rfl⟩
  · exact ⟨Or.inl rfl, rfl, rfl⟩
  · exact ⟨Or.inl rfl, rfl, rfl⟩

/-- A note the auto-player has just judged is left alone by the hold loop of the same
tick: a hold note judged within 5 ms of its start has not reached its end. -/
theorem holdSweepNote_autoJudged (cfg : Config) (kh : Int → Bool) (dt t : ℚ) (n : Note)
    (st : Stats) (ha : cfg.autoPlay = true) (hd : (t - n.timestamp) * 1000 ≤ 5) :
    (holdSweepNote cfg kh dt t n.autoJudged st).1 = n.autoJudged := by
  rcases (holdSweepNote_auto cfg kh dt t n.autoJudged st ha).1 with h | h
  · exact h
  · -- completion would need `t ≥ endTimestamp`
    unfold holdSweepNote at h ⊢
    dsimp only at h ⊢
    by_cases hact : n.autoJudged.holdActive = true
    · rw [if_pos hact, if_pos ha] at h ⊢
      have hhold : n.autoJudged.isHoldNote = true := by
        simp only [Note.holdActive, Bool.and_eq_true] at hact
        exact hact.1.1.1
      have hts : n.autoJudged.timestamp = n.timestamp ∧
          n.autoJudged.endTimestamp = n.endTimestamp := by
        unfold Note.autoJudged; split_ifs <;> exact ⟨rfl, rfl⟩
      have hend : ¬ t ≥ n.autoJudged.endTimestamp := by
        have h1 : n.autoJudged.endTimestamp > n.autoJudged.timestamp + 1 / 100 := by
          simpa [Note.isHoldNote] using hhold
        rw [hts.1] at h1
        intro hc
        have : t ≥ n.autoJudged.endTimestamp := hc
        linarith
      rw [if_neg (by decide), if_neg hend]
    · rw [if_neg hact]

theorem update_auto_eq (cfg : Config) (dt t : ℚ) (stopped : Bool) (g : Game)
    (ha : cfg.autoPlay = true) :
    (update cfg dt t stopped g).notes =
      (forEachNote (holdSweepNote cfg g.keyHeld dt t)
        (forEachNote (autoPlayNote cfg t) g.notes g.toStats).1
        (forEachNote (autoPlayNote cfg t) g.notes g.toStats).2).1 ∧
    (update cfg dt t stopped g).toStats =
      (forEachNote (holdSweepNote cfg g.keyHeld dt t)
        (forEachNote (autoPlayNote cfg t) g.notes g.toStats).1
        (forEachNote (autoPlayNote cfg t) g.notes g.toStats).2).2 := by
  unfold update inputPhase
  dsimp only
  rw [if_pos ha, if_neg (by rw [ha]; decide)]
  exact ⟨rfl, rfl⟩

/-- C13: with `Config::autoPlay` set, whatever the key state, a tick hits every Pending
note within 5 ms of its start: after the tick the note has `hit` set, and `holding` too
when it is a hold note.  Each such note is judged Perfect: `updateAutoPlay` adds 300 to
the score, 1 to combo and 1 to perfectCount per judged note, and over the whole tick
perfectCount rises by their number while missCount is unchanged.  A Holding note is
treated as held: a tick before its end leaves it Holding, the first tick with
`currentTime ≥ endTime` makes it Completed.  In a session played by the auto-player no
note is ever Missed or Failed and missCount stays 0. -/
theorem C13_auto_play (cfg : Config) (hauto : cfg.autoPlay = true) :
    (∀ (g : Game) (dt t : ℚ) (stopped : Bool) (i : Nat) (n : Note), g.notes[i]? = some n →
      n.hit = false → n.missed = false → |t - n.timestamp| * 1000 ≤ 5 →
      (update cfg dt t stopped g).notes[i]? = some n.autoJudged ∧
      n.autoJudged.hit = true ∧ n.autoJudged.missed = false ∧
      (n.isHoldNote = true → n.autoJudged.holding = true)) ∧
    (∀ (g : Game) (t : ℚ),
      (updateAutoPlay cfg t g).score = g.score + 300 * (g.notes.filter (Note.autoDue t)).length ∧
      (updateAutoPlay cfg t g).combo = g.combo + (g.notes.filter (Note.autoDue t)).length ∧
      (updateAutoPlay cfg t g).perfectCount =
        g.perfectCount + (g.notes.filter (Note.autoDue t)).length) ∧
    (∀ (g : Game) (dt t : ℚ) (stopped : Bool),
      (update cfg dt t stopped g).perfectCount =
        g.perfectCount + (g.notes.filter (Note.autoDue t)).length ∧
      (update cfg dt t stopped g).missCount = g.missCount) ∧
    (∀ (g : Game) (dt t : ℚ) (stopped : Bool) (i : Nat) (n : Note), g.notes[i]? = some n →
      n.isHolding →
      (t < n.endTimestamp → (update cfg dt t stopped g).notes[i]? = some n) ∧
      (t ≥ n.endTimestamp → (update cfg dt t stopped g).notes[i]? = some n.completed)) ∧
    (∀ g : Game, AutoSession g →
      (∀ n ∈ g.notes, n.missed = false ∧ n.holdFailed = false) ∧ g.missCount = 0) := by
  refine ⟨?_, ?_, ?_, ?_, ?_⟩
  · intro g dt t stopped i n hi hhit hmissed hwin
    have hd := abs_le.mp (show |(t - n.timestamp) * 1000| ≤ 5 by
      rw [abs_mul]; simpa using hwin)
    have hdue : n.autoDue t = true := by
      unfold Note.autoDue
      exact decide_eq_true ⟨hhit, hmissed, hd.1, hd.2⟩
    refine ⟨?_, ?_, ?_, ?_⟩
    · rw [(update_auto_eq cfg dt t stopped g hauto).1,
        forEachNote_fst _ _ (fun m st => holdSweepNote_fst cfg _ dt t m st),
        (autoPlay_eq cfg t g.notes g.toStats).1, List.getElem?_map, List.getElem?_map, hi,
        Option.map_some', Option.map_some', if_pos hdue,
        holdSweepNote_autoJudged cfg _ dt t n _ hauto hd.2]
    · unfold Note.autoJudged; split_ifs <;> rfl
    · unfold Note.autoJudged; split_ifs <;> exact hmissed
    · intro hh; unfold Note.autoJudged; rw [if_pos hh]
  · intro g t
    obtain ⟨_, h2, h3, h4, _⟩ := autoPlay_eq cfg t g.notes g.toStats
    exact ⟨h2, h3, h4⟩
  · intro g dt t stopped
    obtain ⟨_, _, _, h4, _, h6, _⟩ := autoPlay_eq cfg t g.notes g.toStats
    have hstats := (update_auto_eq cfg dt t stopped g hauto).2
    constructor
    · show (update cfg dt t stopped g).toStats.perfectCount = _
      rw [hstats, ← h4]
      exact forEachNote_stats_invariant _
        (fun st => st.perfectCount =
          (forEachNote (autoPlayNote cfg t) g.notes g.toStats).2.perfectCount)
        (fun n st h => ((holdSweepNote_auto cfg _ dt t n st hauto).2.2).trans h) _ _ rfl
    · show (update cfg dt t stopped g).toStats.missCount = _
      rw [hstats]
      have h6' : (forEachNote (autoPlayNote cfg t) g.notes g.toStats).2.missCount =
          g.missCount := h6
      exact forEachNote_stats_invariant _ (fun st => st.missCount = g.missCount)
        (fun n st h => ((holdSweepNote_auto cfg _ dt t n st hauto).2.1).trans h) _ _ h6'
  · intro g dt t stopped i n hi hH
    obtain ⟨hsame, hnote⟩ := inputPhase_held cfg g t i n hi hH (Or.inl hauto)
    have hres : (update cfg dt t stopped g).notes[i]? =
        some (holdSweepNote cfg (inputPhase cfg t g).keyHeld dt t n Stats.zero).1 := by
      rw [update_notes_auto cfg dt t stopped g hauto, List.getElem?_map, hnote, Option.map_some']
    refine ⟨fun hlt => ?_, fun hge => ?_⟩
    · rw [hres]
      unfold holdSweepNote
      dsimp only
      rw [if_pos (isHolding_holdActive hH), if_pos hauto, if_neg (by decide),
        if_neg (not_le.mpr hlt)]
    · rw [hres, holdSweepNote_held_to_end cfg _ dt t n _ (isHolding_holdActive hH)
        (Or.inl hauto) hge]
  · intro g hs
    induction hs with
    | init g hfresh h0 => exact ⟨fun n hn => ⟨(hfresh n hn).2.1, (hfresh n hn).2.2.2.2⟩, h0⟩
    | @tick g0 cfg' dt t stopped _ ha ih =>
      obtain ⟨_, _, _, _, _, h6, _⟩ := autoPlay_eq cfg' t g0.notes g0.toStats
      constructor
      · intro n hn
        rw [(update_auto_eq cfg' dt t stopped g0 ha).1,
          forEachNote_fst _ _ (fun m st => holdSweepNote_fst cfg' _ dt t m st),
          (autoPlay_eq cfg' t g0.notes g0.toStats).1, List.mem_map] at hn
        obtain ⟨m, hm, rfl⟩ := hn
        obtain ⟨n0, hn0, rfl⟩ := List.mem_map.mp hm
        have h0 := ih.1 n0 hn0
        have hj : n0.autoJudged.missed = n0.missed ∧ n0.autoJudged.holdFailed = n0.holdFailed := by
          unfold Note.autoJudged; split_ifs <;> exact ⟨rfl, rfl⟩
        have hm' : (if n0.autoDue t = true then n0.autoJudged else n0).missed = false ∧
            (if n0.autoDue t = true then n0.autoJudged else n0).holdFailed = false := by
          split_ifs
          · exact ⟨hj.1.trans h0.1, hj.2.trans h0.2⟩
          · exact h0
        rcases (holdSweepNote_auto cfg' g0.keyHeld dt t
          (if n0.autoDue t = true then n0.autoJudged else n0) Stats.zero ha).1 with h | h
        · rw [h]; exact hm'
        · rw [h]; exact hm'
      · show (update cfg' dt t stopped g0).toStats.missCount = 0
        rw [(update_auto_eq cfg' dt t stopped g0 ha).2]
        have h6' : (forEachNote (autoPlayNote cfg' t) g0.notes g0.toStats).2.missCount = 0 :=
          h6.trans ih.2
        exact forEachNote_stats_invariant _ (fun st => st.missCount = 0)
          (fun n st h => ((holdSweepNote_auto cfg' _ dt t n st ha).2.1).trans h) _ _ h6'
    | keys kp kr kh _ ih => exact ih
    | restart _ _ =>
      constructor
      · intro n hn
        simp only [restartGame, List.mem_map] at hn
        obtain ⟨m, _, rfl⟩ := hn
        exact ⟨rfl, rfl⟩
      · rfl

/-- C13 in auto-play at the hold note of lane 0 (second 1 to 3): the tick at second 1
makes it Holding, whatever the keys. -/
theorem C13_auto_play_witness :
    (update Config.auto 0 1 false (Game.start [holdAt1])).notes[0]? = some holdAt1.autoJudged ∧
    holdAt1.autoJudged.hit = true ∧ holdAt1.autoJudged.missed = false ∧
    (holdAt1.isHoldNote = true → holdAt1.autoJudged.holding = true) :=
  (C13_auto_play Config.auto rfl).1 (Game.start [holdAt1]) 0 1 false 0 holdAt1 rfl rfl rfl
    (by norm_num [holdAt1, Note.create])

/-! ## Restart (C14) -/

/-- C14: `restartGame` resets every note to Pending in one batch (`hit`, `missed`,
`holding`, `holdCompleted`, `holdFailed` all false) and sets score, combo, maxCombo,
perfectCount, goodCount, missCount and holdCount to 0; the number and order of the notes
and each note's timestamp, endTimestamp, lane and intensity are unchanged. -/
theorem C14_restart_resets (g : Game) :
    (restartGame g).notes.length = g.notes.length ∧
    (∀ (i : Nat) (n : Note), g.notes[i]? = some n →
      ∃ n', (restartGame g).notes[i]? = some n' ∧
        n'.hit = false ∧ n'.missed = false ∧ n'.holding = false ∧
        n'.holdCompleted = false ∧ n'.holdFailed = false ∧
        n'.timestamp = n.timestamp ∧ n'.endTimestamp = n.endTimestamp ∧
        n'.lane = n.lane ∧ n'.intensity = n.intensity) ∧
    (restartGame g).score = 0 ∧ (restartGame g).combo = 0 ∧ (restartGame g).maxCombo = 0 ∧
    (restartGame g).perfectCount = 0 ∧ (restartGame g).goodCount = 0 ∧
    (restartGame g).missCount = 0 ∧ (restartGame g).holdCount = 0 := by
  refine ⟨by simp [restartGame], ?_, rfl, rfl, rfl, rfl, rfl, rfl, rfl⟩
  intro i n hi
  refine ⟨{ n with hit := false, missed := false, holding := false, holdCompleted := false,
                   holdFailed := false }, ?_, rfl, rfl, rfl, rfl, rfl, rfl, rfl, rfl, rfl⟩
  simp only [restartGame, List.getElem?_map, hi, Option.map_some']

/-- C14 at the session in which both hold notes of lane 0 are Holding. -/
theorem C14_restart_resets_witness :
    ∃ n', (restartGame twoHolds).notes[1]? = some n' ∧
      n'.hit = false ∧ n'.missed = false ∧ n'.holding = false ∧
      n'.holdCompleted = false ∧ n'.holdFailed = false ∧
      n'.timestamp = ({ holdAt1b with hit := true, holding := true } : Note).timestamp ∧
      n'.endTimestamp = ({ holdAt1b with hit := true, holding := true } : Note).endTimestamp ∧
      n'.lane = ({ holdAt1b with hit := true, holding := true } : Note).lane ∧
      n'.intensity = ({ holdAt1b with hit := true, holding := true } : Note).intensity :=
  (C14_restart_resets twoHolds).2.1 1 { holdAt1b with hit := true, holding := true }
    (by rw [twoHolds_notes]; rfl)

/-! ## The composer, one beat at a time -/

theorem rngMod_lt (r m : Nat) (hm : 0 < m) : rngMod r m < m := Nat.mod_lt _ hm

theorem chanceOf_nonneg (r : Nat) : 0 ≤ chanceOf r := by
  unfold chanceOf
  positivity

theorem selectAnyLane_lt (lastLane : Int) :
    ∀ (draws : List Nat) (lane : Nat) (rest : List Nat),
      selectAnyLane lastLane draws = some (lane, rest) → lane < 4 := by
  intro draws
  induction draws using selectAnyLane.induct lastLane with
  | case1 => intro lane rest h; simp [selectAnyLane] at h
  | case2 r hr => intro lane rest h; simp [selectAnyLane, hr] at h
  | case3 r hr =>
    intro lane rest h
    simp only [selectAnyLane, hr, if_false, Option.some.injEq, Prod.mk.injEq] at h
    rw [← h.1]; exact rngMod_lt r 4 (by norm_num)
  | case4 r r2 rest' hr h3 ih =>
    intro lane rest h
    simp only [selectAnyLane, hr, h3, if_true, ne_eq, not_false_eq_true] at h
    exact ih lane rest h
  | case5 r r2 rest' hr h3 =>
    intro lane rest h
    simp only [selectAnyLane, hr, h3, if_true, if_false, Option.some.injEq,
      Prod.mk.injEq] at h
    rw [← h.1]; exact rngMod_lt r 4 (by norm_num)
  | case6 r r2 rest' hr =>
    intro lane rest h
    simp only [selectAnyLane, hr, if_false, Option.some.injEq, Prod.mk.injEq] at h
    rw [← h.1]; exact rngMod_lt r 4 (by norm_num)

theorem selectLane_spec (beat : BeatInfo) (lastLane : Int) (draws : List Nat) (lane : Nat)
    (rest : List Nat) (h : selectLane beat lastLane draws = some (lane, rest)) :
    lane < 4 ∧ (beat.isBass = true → lane < 2) := by
  unfold selectLane at h
  by_cases hb : beat.isBass = true
  · rw [if_pos hb] at h
    cases draws with
    | nil => simp at h
    | cons r rs =>
      simp only [Option.some.injEq, Prod.mk.injEq] at h
      have := rngMod_lt r 2 (by norm_num)
      rw [← h.1]
      exact ⟨by omega, fun _ => this⟩
  · rw [if_neg hb] at h
    refine ⟨?_, fun hc => absurd hc hb⟩
    by_cases hs : beat.isSnare = true
    · rw [if_pos hs] at h
      cases draws with
      | nil => simp at h
      | cons r rs =>
        simp only [Option.some.injEq, Prod.mk.injEq] at h
        have := rngMod_lt r 2 (by norm_num)
        omega
    · rw [if_neg hs] at h
      by_cases hh : beat.isHiHat = true
      · rw [if_pos hh] at h
        cases draws with
        | nil => simp at h
        | cons r rs =>
          simp only [Option.some.injEq, Prod.mk.injEq] at h
          have := rngMod_lt r 2 (by norm_num)
          omega
      · rw [if_neg hh] at h
        exact selectAnyLane_lt lastLane draws lane rest h

theorem selectSecondLane_spec (lane : Nat) :
    ∀ (draws : List Nat) (sl : Nat) (rest : List Nat),
      selectSecondLane lane draws = some (sl, rest) → sl < 4 ∧ sl ≠ lane := by
  intro draws
  induction draws with
  | nil => intro sl rest h; simp [selectSecondLane] at h
  | cons r rs ih =>
    intro sl rest h
    unfold selectSecondLane at h
    by_cases hr : rngMod r 4 = lane
    · rw [if_pos hr] at h; exact ih sl rest h
    · rw [if_neg hr] at h
      simp only [Option.some.injEq, Prod.mk.injEq] at h
      rw [← h.1]
      exact ⟨rngMod_lt r 4 (by norm_num), hr⟩

/-- The conflict resolution returns the selected lane, or, when that lane violates the
spacing, the lowest lane that satisfies it. -/
theorem resolveLane_cases (lnt : Nat → ℚ) (ts gap : ℚ) (lane : Nat) :
    (resolveLane lnt ts gap lane = lane ∧
      (ts - lnt lane < gap → ∀ l, l < 4 → ¬ ts - lnt l ≥ gap)) ∨
    (ts - lnt lane < gap ∧ resolveLane lnt ts gap lane < 4 ∧
      ts - lnt (resolveLane lnt ts gap lane) ≥ gap ∧
      ∀ l, l < resolveLane lnt ts gap lane → ¬ ts - lnt l ≥ gap) := by
  have hrange : List.range 4 = [0, 1, 2, 3] := by decide
  unfold resolveLane
  by_cases hc : ts - lnt lane < gap
  · rw [if_pos hc, hrange]
    by_cases h0 : ts - lnt 0 ≥ gap
    · have hf : [0, 1, 2, 3].find? (fun l => decide (ts - lnt l ≥ gap)) = some 0 := by
        simp [List.find?, h0]
      rw [hf]
      right
      exact ⟨hc, by norm_num, h0, fun l hl => absurd hl (Nat.not_lt_zero l)⟩
    · by_cases h1 : ts - lnt 1 ≥ gap
      · have hf : [0, 1, 2, 3].find? (fun l => decide (ts - lnt l ≥ gap)) = some 1 := by
          simp [List.find?, h0, h1]
        rw [hf]
        right
        exact ⟨hc, by norm_num, h1, fun l hl => by interval_cases l; exact h0⟩
      · by_cases h2 : ts - lnt 2 ≥ gap
        · have hf : [0, 1, 2, 3].find? (fun l => decide (ts - lnt l ≥ gap)) = some 2 := by
            simp [List.find?, h0, h1, h2]
          rw [hf]
          right
          exact ⟨hc, by norm_num, h2, fun l hl => by interval_cases l <;> assumption⟩
        · by_cases h3 : ts - lnt 3 ≥ gap
          · have hf : [0, 1, 2, 3].find? (fun l => decide (ts - lnt l ≥ gap)) = some 3 := by
              simp [List.find?, h0, h1, h2, h3]
            rw [hf]
            right
            exact ⟨hc, by norm_num, h3, fun l hl => by interval_cases l <;> assumption⟩
          · have hf : [0, 1, 2, 3].find? (fun l => decide (ts - lnt l ≥ gap)) = none := by
              simp [List.find?, h0, h1, h2, h3]
            rw [hf]
            left
            exact ⟨rfl, fun _ l hl => by interval_cases l <;> assumption⟩
  · rw [if_neg hc]
    left
    exact ⟨rfl, fun h => absurd h hc⟩

theorem resolveLane_lt (lnt : Nat → ℚ) (ts gap : ℚ) (lane : Nat) (h : lane < 4) :
    resolveLane lnt ts gap lane < 4 := by
  rcases resolveLane_cases lnt ts gap lane with ⟨h1, _⟩ | ⟨_, h2, _⟩
  · rw [h1]; exact h
  · exact h2

/-- When some lane satisfies the spacing, the lane the note is placed in does. -/
theorem resolveLane_free (lnt : Nat → ℚ) (ts gap : ℚ) (lane : Nat)
    (h : ∃ l, l < 4 ∧ ts - lnt l ≥ gap) : ts - lnt (resolveLane lnt ts gap lane) ≥ gap := by
  rcases resolveLane_cases lnt ts gap lane with ⟨h1, h2⟩ | ⟨_, _, h3, _⟩
  · rw [h1]
    by_contra hc
    obtain ⟨l, hl, hfree⟩ := h
    exact h2 (not_le.mp hc) l hl hfree
  · exact h3

theorem stdClamp_floor (v lo hi : ℚ) :
    0 ≤ (if stdClamp v lo hi < 1 / 4 then 0 else stdClamp v lo hi) := by
  split_ifs with h
  · exact le_refl 0
  · linarith [not_lt.mp h]

theorem hiHatDuration_nonneg (beats : List BeatInfo) (p : DifficultyParams) (i : Nat)
    (beat : BeatInfo) (draws : List Nat) (d : ℚ) (rest : List Nat)
    (hp : 0 ≤ p.maxHoldDuration) (h : hiHatDuration beats p i beat draws = some (d, rest)) :
    0 ≤ d := by
  unfold hiHatDuration at h
  by_cases h1 : beat.isHiHat = true ∧ i + 2 < beats.length
  · rw [if_pos h1] at h
    cases draws with
    | nil => simp at h
    | cons c cs =>
      dsimp only at h
      by_cases h2 : chanceOf c < p.holdNoteChance
      · rw [if_pos h2] at h
        by_cases h3 : (((beats.drop i).take 5).filter (fun b => b.isHiHat)).length ≥ 3
        · rw [if_pos h3] at h
          cases cs with
          | nil => simp at h
          | cons c2 cs2 =>
            cases h
            have := chanceOf_nonneg c2
            exact le_min (by linarith) hp
        · rw [if_neg h3] at h
          cases h
          exact le_refl 0
      · rw [if_neg h2] at h
        cases h
        exact le_refl 0
  · rw [if_neg h1] at h
    cases h
    exact le_refl 0

theorem chooseDuration_nonneg (beats : List BeatInfo) (p : DifficultyParams) (i : Nat)
    (beat : BeatInfo) (draws : List Nat) (d : ℚ) (rest : List Nat)
    (hp : 0 ≤ p.maxHoldDuration) (h : chooseDuration beats p i beat draws = some (d, rest)) :
    0 ≤ d := by
  unfold chooseDuration at h
  by_cases h1 : beat.isBass = true ∧ beat.bassStrength > 2
  · rw [if_pos h1] at h
    cases draws with
    | nil => simp at h
    | cons c cs =>
      dsimp only at h
      by_cases h2 : chanceOf c < p.holdNoteChance * 2
      · rw [if_pos h2] at h
        cases h
        exact stdClamp_floor _ _ _
      · rw [if_neg h2] at h
        exact hiHatDuration_nonneg beats p i beat cs d rest hp h
  · rw [if_neg h1] at h
    exact hiHatDuration_nonneg beats p i beat draws d rest hp h

/-- The five presets have a positive spacing and a hold cap that is not negative. -/
theorem preset_bounds (d : Difficulty) :
    0 < (getDifficultyParams d).minNoteInterval ∧ 0 ≤ (getDifficultyParams d).maxHoldDuration := by
  cases d <;> norm_num [getDifficultyParams]

/-- The shape of one iteration of `generateNotes`: the primary note is placed in the
resolved lane; a double note is a tap in another lane that satisfies the spacing after
the primary note was recorded. -/
theorem composeBeat_spec (beats : List BeatInfo) (p : DifficultyParams) (i : Nat)
    (beat : BeatInfo) (st st' : ComposerState) (e : Emission)
    (h : composeBeat beats p i beat st = some (e, st')) :
    ∃ (lane0 : Nat) (d1 : List Nat) (duration : ℚ) (d2 : List Nat),
      selectLane beat st.lastLane st.draws = some (lane0, d1) ∧
      chooseDuration beats p i beat d1 = some (duration, d2) ∧
      e.primary = Note.create beat.timestamp
        (resolveLane st.lastNoteTime beat.timestamp p.minNoteInterval lane0) duration
        beat.intensity ∧
      st'.lastLane = (resolveLane st.lastNoteTime beat.timestamp p.minNoteInterval lane0 : Nat) ∧
      ((e.double = none ∧
          st'.lastNoteTime = Function.update st.lastNoteTime
            (resolveLane st.lastNoteTime beat.timestamp p.minNoteInterval lane0)
            (beat.timestamp + duration)) ∨
       (∃ sl : Nat, sl < 4 ∧
          sl ≠ resolveLane st.lastNoteTime beat.timestamp p.minNoteInterval lane0 ∧
          p.allowDoubles = true ∧
          beat.timestamp - st.lastNoteTime sl ≥ p.minNoteInterval ∧
          e.double = some (Note.create beat.timestamp sl 0 (beat.intensity * (8 / 10))) ∧
          st'.lastNoteTime = Function.update (Function.update st.lastNoteTime
            (resolveLane st.lastNoteTime beat.timestamp p.minNoteInterval lane0)
            (beat.timestamp + duration)) sl beat.timestamp)) := by
  unfold composeBeat at h
  cases hs : selectLane beat st.lastLane st.draws with
  | none => rw [hs] at h; simp at h
  | some r =>
    obtain ⟨lane0, d1⟩ := r
    rw [hs] at h
    dsimp only at h
    cases hd : chooseDuration beats p i beat d1 with
    | none => rw [hd] at h; simp at h
    | some r2 =>
      obtain ⟨duration, d2⟩ := r2
      rw [hd] at h
      dsimp only at h
      refine ⟨lane0, d1, duration, d2, rfl, hd, ?_⟩
      by_cases ha : p.allowDoubles = true
      · rw [if_pos ha] at h
        cases d2 with
        | nil => simp at h
        | cons c d3 =>
          dsimp only at h
          by_cases hc : chanceOf c < p.doubleChance ∧ beat.intensity > 3 / 2
          · rw [if_pos hc] at h
            cases hsl : selectSecondLane
                (resolveLane st.lastNoteTime beat.timestamp p.minNoteInterval lane0) d3 with
            | none => rw [hsl] at h; simp at h
            | some r3 =>
              obtain ⟨sl, d4⟩ := r3
              rw [hsl] at h
              dsimp only at h
              have hspec := selectSecondLane_spec _ _ _ _ hsl
              by_cases hg : beat.timestamp - Function.update st.lastNoteTime
                  (resolveLane st.lastNoteTime beat.timestamp p.minNoteInterval lane0)
                  (beat.timestamp + duration) sl ≥ p.minNoteInterval
              · rw [if_pos hg] at h
                cases h
                refine ⟨rfl, rfl, Or.inr ⟨sl, hspec.1, hspec.2, ha, ?_, rfl, rfl⟩⟩
                rw [Function.update_noteq hspec.2] at hg
                exact hg
              · rw [if_neg hg] at h
                cases h
                exact ⟨rfl, rfl, Or.inl ⟨rfl, rfl⟩⟩
          · rw [if_neg hc] at h
            cases h
            exact ⟨rfl, rfl, Or.inl ⟨rfl, rfl⟩⟩
      · rw [if_neg ha] at h
        cases h
        exact ⟨rfl, rfl, Or.inl ⟨rfl, rfl⟩⟩

/-- Every note of one iteration lies in a lane `l < 4`. -/
theorem composeBeat_lane (beats : List BeatInfo) (p : DifficultyParams) (i : Nat)
    (beat : BeatInfo) (st st' : ComposerState) (e : Emission)
    (h : composeBeat beats p i beat st = some (e, st')) :
    ∀ n ∈ e.notes, ∃ l : Nat, l < 4 ∧ n.lane = (l : Int) := by
  obtain ⟨lane0, d1, duration, d2, hs, _, hprim, _, hdbl⟩ := composeBeat_spec _ _ _ _ _ _ _ h
  have hl0 : lane0 < 4 := (selectLane_spec _ _ _ _ _ hs).1
  have hL := resolveLane_lt st.lastNoteTime beat.timestamp p.minNoteInterval lane0 hl0
  intro n hn
  unfold Emission.notes at hn
  rcases List.mem_cons.mp hn with hn | hn
  · exact ⟨_, hL, by rw [hn, hprim]; rfl⟩
  · rcases hdbl with ⟨hnone, _⟩ | ⟨sl, hsl, _, _, _, hsome, _⟩
    · rw [hnone] at hn; simp at hn
    · rw [hsome] at hn
      simp only [Option.toList, List.mem_singleton] at hn
      exact ⟨sl, hsl, by rw [hn]; rfl⟩

/-- Every note of one iteration ends no earlier than it starts. -/
theorem composeBeat_end (beats : List BeatInfo) (p : DifficultyParams) (i : Nat)
    (beat : BeatInfo) (st st' : ComposerState) (e : Emission) (hp : 0 ≤ p.maxHoldDuration)
    (h : composeBeat beats p i beat st = some (e, st')) :
    ∀ n ∈ e.notes, n.timestamp ≤ n.endTimestamp := by
  obtain ⟨lane0, d1, duration, d2, _, hd, hprim, _, hdbl⟩ := composeBeat_spec _ _ _ _ _ _ _ h
  have hdur := chooseDuration_nonneg _ _ _ _ _ _ _ hp hd
  intro n hn
  unfold Emission.notes at hn
  rcases List.mem_cons.mp hn with hn | hn
  · rw [hn, hprim]
    simp only [Note.create]
    linarith
  · rcases hdbl with ⟨hnone, _⟩ | ⟨sl, _, _, _, _, hsome, _⟩
    · rw [hnone] at hn; simp at hn
    · rw [hsome] at hn
      simp only [Option.toList, List.mem_singleton] at hn
      rw [hn]
      simp only [Note.create]
      linarith

/-- A property of the notes of every iteration holds for all notes of the loop. -/
theorem composeLoop_forall (beats : List BeatInfo) (p : DifficultyParams) (P : Note → Prop)
    (hstep : ∀ i beat st e st', composeBeat beats p i beat st = some (e, st') →
      ∀ n ∈ e.notes, P n) :
    ∀ (rest : List BeatInfo) (i : Nat) (st : ComposerState) (es : List Emission),
      composeLoop beats p i rest st = some es →
      ∀ n ∈ (es.map Emission.notes).flatten, P n := by
  intro rest
  induction rest with
  | nil =>
    intro i st es h n hn
    simp only [composeLoop, Option.some.injEq] at h
    subst h
    simp at hn
  | cons beat rest ih =>
    intro i st es h n hn
    unfold composeLoop at h
    cases hcb : composeBeat beats p i beat st with
    | none => rw [hcb] at h; simp at h
    | some r =>
      obtain ⟨e, st'⟩ := r
      rw [hcb] at h
      dsimp only at h
      cases hl : composeLoop beats p (i + 1) rest st' with
      | none => rw [hl] at h; simp at h
      | some es' =>
        rw [hl] at h
        simp only [Option.some.injEq] at h
        subst h
        simp only [List.map_cons, List.flatten_cons, List.mem_append] at hn
        rcases hn with hn | hn
        · exact hstep i beat st e st' hcb n hn
        · exact ih (i + 1) st' es' hl n hn

theorem generateNotes_eq (beats : List BeatInfo) (p : DifficultyParams) (draws : List Nat)
    (notes : List Note) (h : generateNotes beats p draws = some notes) :
    ∃ es, composeLoop beats p 0 beats (ComposerState.init draws) = some es ∧
      notes = (es.map Emission.notes).flatten := by
  unfold generateNotes generateEmissions at h
  cases hl : composeLoop beats p 0 beats (ComposerState.init draws) with
  | none => rw [hl] at h; simp at h
  | some es =>
    rw [hl] at h
    simp only [Option.map_some', Option.some.injEq] at h
    exact ⟨es, rfl, h.symm⟩

/-! ## Runs with spacing kept, and the state before a beat -/

theorem spacingKept_cons (beats : List BeatInfo) (p : DifficultyParams) (i : Nat)
    (beat : BeatInfo) (rest : List BeatInfo) (st st' : ComposerState) (e : Emission)
    (lane0 : Nat) (d1 : List Nat)
    (hs : selectLane beat st.lastLane st.draws = some (lane0, d1))
    (hcb : composeBeat beats p i beat st = some (e, st')) :
    spacingKept beats p i (beat :: rest) st =
      (laneFree st.lastNoteTime beat.timestamp p.minNoteInterval
          (resolveLane st.lastNoteTime beat.timestamp p.minNoteInterval lane0) &&
        spacingKept beats p (i + 1) rest st') := by
  rw [spacingKept, hs, hcb]

/-- One iteration whose primary note is placed in a lane that satisfies the spacing: no
entry of `lastNoteTime` decreases, every note of the iteration starts at or after the old
entry of its lane and ends at the new one, and the notes of the iteration lie in
different lanes. -/
theorem composeBeat_spaced (beats : List BeatInfo) (p : DifficultyParams) (i : Nat)
    (beat : BeatInfo) (st st' : ComposerState) (e : Emission)
    (hgap : 0 ≤ p.minNoteInterval) (hp : 0 ≤ p.maxHoldDuration)
    (h : composeBeat beats p i beat st = some (e, st'))
    (hfree : ∀ lane0 d1, selectLane beat st.lastLane st.draws = some (lane0, d1) →
      beat.timestamp - st.lastNoteTime
        (resolveLane st.lastNoteTime beat.timestamp p.minNoteInterval lane0) ≥
          p.minNoteInterval) :
    (∀ l, st.lastNoteTime l ≤ st'.lastNoteTime l) ∧
    (∀ n ∈ e.notes, ∃ l : Nat, n.lane = (l : Int) ∧ st.lastNoteTime l ≤ n.timestamp ∧
      n.endTimestamp ≤ st'.lastNoteTime l) ∧
    e.notes.Pairwise (fun a b => a.lane = b.lane → a.endTimestamp ≤ b.timestamp) := by
  obtain ⟨lane0, d1, duration, d2, hs, hd, hprim, _, hdbl⟩ := composeBeat_spec _ _ _ _ _ _ _ h
  have hdur := chooseDuration_nonneg _ _ _ _ _ _ _ hp hd
  have hf := hfree lane0 d1 hs
  generalize resolveLane st.lastNoteTime beat.timestamp p.minNoteInterval lane0 = L
    at hprim hdbl hf
  have hL : st.lastNoteTime L ≤ beat.timestamp := by linarith
  rcases hdbl with ⟨hnone, hlnt⟩ | ⟨sl, _, hne, _, hfree2, hsome, hlnt⟩
  · have hnotes : e.notes = [e.primary] := by
      unfold Emission.notes
      rw [hnone]
      rfl
    rw [hnotes, hlnt]
    refine ⟨?_, ?_, List.pairwise_singleton _ _⟩
    · intro l
      by_cases hl : l = L
      · subst hl
        rw [Function.update_same]
        linarith
      · rw [Function.update_noteq hl]
    · intro n hn
      rw [List.mem_singleton.mp hn, hprim]
      refine ⟨L, rfl, hL, ?_⟩
      rw [Function.update_same]
      exact le_refl _
  · have hnotes : e.notes =
        [e.primary, Note.create beat.timestamp sl 0 (beat.intensity * (8 / 10))] := by
      unfold Emission.notes
      rw [hsome]
      rfl
    have hS : st.lastNoteTime sl ≤ beat.timestamp := by linarith
    rw [hnotes, hlnt]
    refine ⟨?_, ?_, ?_⟩
    · intro l
      by_cases hl : l = sl
      · subst hl
        rw [Function.update_same]
        exact hS
      · rw [Function.update_noteq hl]
        by_cases hl2 : l = L
        · subst hl2
          rw [Function.update_same]
          linarith
        · rw [Function.update_noteq hl2]
    · intro n hn
      rcases List.mem_cons.mp hn with hn | hn
      · rw [hn, hprim]
        refine ⟨L, rfl, hL, ?_⟩
        rw [Function.update_noteq (Ne.symm hne), Function.update_same]
        exact le_refl _
      · rw [List.mem_singleton.mp hn]
        refine ⟨sl, rfl, hS, ?_⟩
        rw [Function.update_same]
        simp only [Note.create]
        linarith
    · rw [List.pairwise_pair, hprim]
      intro hlane
      exfalso
      simp only [Note.create] at hlane
      exact hne (Nat.cast_injective hlane).symm

/-- A run whose primary notes are all placed in lanes that satisfy the spacing: in the
order of emission, a note ends before any later note of its lane starts, and every note
starts at or after the entry of its lane in the `lastNoteTime` table the run began
with. -/
theorem composeLoop_spaced (beats : List BeatInfo) (p : DifficultyParams)
    (hgap : 0 ≤ p.minNoteInterval) (hp : 0 ≤ p.maxHoldDuration) :
    ∀ (rest : List BeatInfo) (i : Nat) (st : ComposerState) (es : List Emission),
      composeLoop beats p i rest st = some es →
      spacingKept beats p i rest st = true →
      ((es.map Emission.notes).flatten).Pairwise
          (fun a b => a.lane = b.lane → a.endTimestamp ≤ b.timestamp) ∧
        ∀ n ∈ (es.map Emission.notes).flatten,
          ∃ l : Nat, n.lane = (l : Int) ∧ st.lastNoteTime l ≤ n.timestamp := by
  intro rest
  induction rest with
  | nil =>
    intro i st es h _
    simp only [composeLoop, Option.some.injEq] at h
    subst h
    simp
  | cons beat rest ih =>
    intro i st es h hsp
    unfold composeLoop at h
    cases hcb : composeBeat beats p i beat st with
    | none => rw [hcb] at h; simp at h
    | some r =>
      obtain ⟨e, st'⟩ := r
      rw [hcb] at h
      dsimp only at h
      cases hl : composeLoop beats p (i + 1) rest st' with
      | none => rw [hl] at h; simp at h
      | some es' =>
        rw [hl] at h
        simp only [Option.some.injEq] at h
        subst h
        obtain ⟨lane0, d1, _, _, hs, _⟩ := composeBeat_spec _ _ _ _ _ _ _ hcb
        rw [spacingKept_cons beats p i beat rest st st' e lane0 d1 hs hcb,
          Bool.and_eq_true] at hsp
        have hfree : ∀ l0 d, selectLane beat st.lastLane st.draws = some (l0, d) →
            beat.timestamp - st.lastNoteTime
              (resolveLane st.lastNoteTime beat.timestamp p.minNoteInterval l0) ≥
                p.minNoteInterval := by
          intro l0 d hs2
          rw [hs] at hs2
          simp only [Option.some.injEq, Prod.mk.injEq] at hs2
          rw [← hs2.1]
          exact of_decide_eq_true hsp.1
        obtain ⟨hmono, hnotes, hpair⟩ :=
          composeBeat_spaced beats p i beat st st' e hgap hp hcb hfree
        obtain ⟨ihpair, ihstart⟩ := ih (i + 1) st' es' hl hsp.2
        simp only [List.map_cons, List.flatten_cons]
        refine ⟨List.pairwise_append.mpr ⟨hpair, ihpair, ?_⟩, ?_⟩
        · intro a ha b hb hlane
          obtain ⟨la, hla, _, hend⟩ := hnotes a ha
          obtain ⟨lb, hlb, hstart⟩ := ihstart b hb
          have hab : la = lb := by
            apply Nat.cast_injective (R := Int)
            rw [← hla, ← hlb]
            exact hlane
          rw [hab] at hend
          linarith
        · intro n hn
          rcases List.mem_append.mp hn with hn | hn
          · obtain ⟨l, hl1, hl2, _⟩ := hnotes n hn
            exact ⟨l, hl1, hl2⟩
          · obtain ⟨l, hl1, hl2⟩ := ihstart n hn
            exact ⟨l, hl1, le_trans (hmono l) hl2⟩

/-- The state before beat `k` of a run that returns exists, and the emission for that
beat is what the loop body returns in it. -/
theorem composeLoop_stateBefore (beats : List BeatInfo) (p : DifficultyParams) :
    ∀ (rest : List BeatInfo) (k i : Nat) (st : ComposerState) (es : List Emission)
      (beat : BeatInfo),
      composeLoop beats p i rest st = some es → rest[k]? = some beat →
      ∃ (stk stk' : ComposerState) (e : Emission),
        stateBefore beats p k i rest st = some stk ∧ es[k]? = some e ∧
        composeBeat beats p (i + k) beat stk = some (e, stk') := by
  intro rest
  induction rest with
  | nil => intro k i st es beat _ hk; simp at hk
  | cons b rest ih =>
    intro k i st es beat h hk
    unfold composeLoop at h
    cases hcb : composeBeat beats p i b st with
    | none => rw [hcb] at h; simp at h
    | some r =>
      obtain ⟨e, st'⟩ := r
      rw [hcb] at h
      dsimp only at h
      cases hl : composeLoop beats p (i + 1) rest st' with
      | none => rw [hl] at h; simp at h
      | some es' =>
        rw [hl] at h
        simp only [Option.some.injEq] at h
        subst h
        cases k with
        | zero =>
          simp only [List.getElem?_cons_zero, Option.some.injEq] at hk
          subst hk
          exact ⟨st, st', e, rfl, List.getElem?_cons_zero, hcb⟩
        | succ k =>
          simp only [List.getElem?_cons_succ] at hk
          obtain ⟨stk, stk', ek, h1, h2, h3⟩ := ih k (i + 1) st' es' beat hl hk
          refine ⟨stk, stk', ek, ?_, ?_, ?_⟩
          · rw [stateBefore, hcb]
            exact h1
          · simpa using h2
          · rw [← h3]
            congr 1
            omega

/-! ## Sample runs of the composer -/

theorem bassRun_emissions :
    generateEmissions bassRun (getDifficultyParams .EXTREME) mt42 = some bassRunEmissions := by
  norm_num [generateEmissions, composeLoop, composeBeat, bassRun, bassBeat, mt42,
    ComposerState.init, selectLane, rngMod, resolveLane, chooseDuration, hiHatDuration,
    strongBassHoldEnd, stdClamp, chanceOf, getDifficultyParams, List.range, List.range.loop,
    Function.update, bassRunEmissions, bassRunNotes, Note.create, List.find?]

theorem bassRun_notes :
    generateNotes bassRun (getDifficultyParams .EXTREME) mt42 = some bassRunNotes := by
  unfold generateNotes
  rw [bassRun_emissions]
  simp [bassRunEmissions, bassRunNotes, Emission.notes]

theorem slowRun_notes :
    generateNotes slowRun (getDifficultyParams .EXTREME) mt42 = some slowRunNotes := by
  norm_num [generateNotes, generateEmissions, composeLoop, composeBeat, slowRun, bassBeat, mt42,
    ComposerState.init, selectLane, rngMod, resolveLane, chooseDuration, hiHatDuration,
    strongBassHoldEnd, stdClamp, chanceOf, getDifficultyParams, List.range, List.range.loop,
    Function.update, Emission.notes, slowRunNotes, Note.create, List.find?]

theorem slowRun_spacingKept :
    spacingKept slowRun (getDifficultyParams .EXTREME) 0 slowRun (ComposerState.init mt42) =
      true := by
  norm_num [spacingKept, laneFree, composeBeat, slowRun, bassBeat, mt42,
    ComposerState.init, selectLane, rngMod, resolveLane, chooseDuration, hiHatDuration,
    strongBassHoldEnd, stdClamp, chanceOf, getDifficultyParams, List.range, List.range.loop,
    Function.update, Note.create, List.find?]

/-! ## Notes of the composer (C15, C16, C17) -/

/-- C15: whatever the beats, the profile and the random draws, every note returned by
`generateNotes` (primary or double) has its lane in `{0, 1, 2, 3}`; its `endTimestamp` is
at least its `timestamp` for each of the five presets, and for any profile whose
`maxHoldDuration` is not negative. -/
theorem C15_notes_in_lanes_and_end_after_start (p : DifficultyParams)
    (beats : List BeatInfo) (draws : List Nat) (notes : List Note)
    (h : generateNotes beats p draws = some notes) :
    ∀ n ∈ notes, (n.lane = 0 ∨ n.lane = 1 ∨ n.lane = 2 ∨ n.lane = 3) ∧
      (((∃ d, p = getDifficultyParams d) ∨ 0 ≤ p.maxHoldDuration) →
        n.timestamp ≤ n.endTimestamp) := by
  obtain ⟨es, hl, rfl⟩ := generateNotes_eq _ _ _ _ h
  intro n hn
  constructor
  · obtain ⟨l, hl4, hlane⟩ := composeLoop_forall beats p
      (fun n => ∃ l : Nat, l < 4 ∧ n.lane = (l : Int))
      (fun i beat st e st' hcb => composeBeat_lane _ _ _ _ _ _ _ hcb) _ _ _ _ hl n hn
    rw [hlane]
    interval_cases l
    · left; rfl
    · right; left; rfl
    · right; right; left; rfl
    · right; right; right; rfl
  · intro hp
    have hp' : 0 ≤ p.maxHoldDuration := by
      rcases hp with ⟨d, rfl⟩ | hp
      · exact (preset_bounds d).2
      · exact hp
    exact composeLoop_forall beats p (fun n => n.timestamp ≤ n.endTimestamp)
      (fun i beat st e st' hcb => composeBeat_end _ _ _ _ _ _ _ hp' hcb) _ _ _ _ hl n hn

/-- C15 at the run of `bassRun` in the preset EXTREME. -/
theorem C15_notes_in_lanes_and_end_after_start_witness :
    generateNotes bassRun (getDifficultyParams .EXTREME) mt42 = some bassRunNotes ∧
    ∀ n ∈ bassRunNotes, (n.lane = 0 ∨ n.lane = 1 ∨ n.lane = 2 ∨ n.lane = 3) ∧
      (((∃ d, getDifficultyParams .EXTREME = getDifficultyParams d) ∨
          0 ≤ (getDifficultyParams .EXTREME).maxHoldDuration) →
        n.timestamp ≤ n.endTimestamp) :=
  ⟨bassRun_notes,
   C15_notes_in_lanes_and_end_after_start (getDifficultyParams .EXTREME) bassRun mt42
     bassRunNotes bassRun_notes⟩

/-- C16, as stated, fails: in the preset EXTREME with the draws of `std::mt19937 rng(42)`,
six bass beats 50 ms apart give a note list that is already ordered by start time and
whose notes 1 and 5 are hold notes of lane 1 with the intervals `[1/20, 3/10)` and
`[1/4, 11/20)`. -/
theorem C16_counterexample :
    bassRun.Pairwise (fun x y => x.timestamp < y.timestamp) ∧
    generateNotes bassRun (getDifficultyParams .EXTREME) mt42 = some bassRunNotes ∧
    SortedByStart bassRunNotes bassRunNotes ∧
    ∃ a b, bassRunNotes[1]? = some a ∧ bassRunNotes[5]? = some b ∧
      a.lane = 1 ∧ b.lane = 1 ∧ a.isHoldNote = true ∧ b.isHoldNote = true ∧
      Note.overlaps a b := by
  refine ⟨?_, bassRun_notes, ⟨List.Perm.refl _, ?_⟩, ?_⟩
  · norm_num [bassRun, bassBeat]
  · norm_num [bassRunNotes, Note.create]
  · refine ⟨Note.create (1 / 20) 1 (1 / 4) 1, Note.create (1 / 4) 1 (3 / 10) 1, rfl, rfl,
      rfl, rfl, ?_, ?_, ?_⟩
    · norm_num [Note.isHoldNote, Note.create]
    · norm_num [Note.isHoldNote, Note.create]
    · norm_num [Note.overlaps, Note.create]

/-- C16, amended: for every preset, beat list and draws, if no primary note of the run is
left in a lane that violates the spacing constraint, then in the note list ordered by
start time a hold note ends before any later hold note of its lane starts, so their
intervals `[timestamp, endTimestamp)` do not overlap. -/
theorem C16_spaced_holds_do_not_overlap (d : Difficulty) (beats : List BeatInfo)
    (draws : List Nat) (notes sorted : List Note)
    (hgen : generateNotes beats (getDifficultyParams d) draws = some notes)
    (hsp : spacingKept beats (getDifficultyParams d) 0 beats (ComposerState.init draws) = true)
    (hsort : SortedByStart notes sorted) :
    ∀ (i j : Nat) (a b : Note), i < j → sorted[i]? = some a → sorted[j]? = some b →
      a.lane = b.lane → a.isHoldNote = true → b.isHoldNote = true →
      a.endTimestamp ≤ b.timestamp ∧ ¬ Note.overlaps a b := by
  obtain ⟨es, hl, rfl⟩ := generateNotes_eq _ _ _ _ hgen
  obtain ⟨hpair, _⟩ := composeLoop_spaced beats (getDifficultyParams d)
    (le_of_lt (preset_bounds d).1) (preset_bounds d).2 _ _ _ _ hl hsp
  have hsym : ((es.map Emission.notes).flatten).Pairwise (fun a b =>
      (a.lane = b.lane → a.isHoldNote = true → b.isHoldNote = true →
        a.timestamp ≤ b.timestamp → a.endTimestamp ≤ b.timestamp) ∧
      (b.lane = a.lane → b.isHoldNote = true → a.isHoldNote = true →
        b.timestamp ≤ a.timestamp → b.endTimestamp ≤ a.timestamp)) := by
    refine hpair.imp ?_
    intro a b hab
    refine ⟨fun hlane _ _ _ => hab hlane, fun hlane _ ha hle => ?_⟩
    exfalso
    have h1 := hab hlane.symm
    unfold Note.isHoldNote at ha
    have h2 := of_decide_eq_true ha
    linarith
  have hsorted := (List.Perm.pairwise_iff (fun {x y} h => ⟨h.2, h.1⟩) hsort.1).mpr hsym
  have hboth := hsorted.and hsort.2
  intro i j a b hij hi hj hlane ha hb
  obtain ⟨hi', hai⟩ := List.getElem?_eq_some.mp hi
  obtain ⟨hj', hbj⟩ := List.getElem?_eq_some.mp hj
  have hR := List.pairwise_iff_getElem.mp hboth i j hi' hj' hij
  rw [hai, hbj] at hR
  have hend := hR.1.1 hlane ha hb hR.2
  exact ⟨hend, fun hov => absurd hov.2 (not_lt.mpr hend)⟩

/-- C16 (amended) at the run of `slowRun` in the preset EXTREME, whose notes 2 and 4 are
hold notes of lane 0. -/
theorem C16_spaced_holds_do_not_overlap_witness :
    generateNotes slowRun (getDifficultyParams .EXTREME) mt42 = some slowRunNotes ∧
    spacingKept slowRun (getDifficultyParams .EXTREME) 0 slowRun (ComposerState.init mt42) =
      true ∧
    SortedByStart slowRunNotes slowRunNotes ∧
    ∀ (i j : Nat) (a b : Note), i < j → slowRunNotes[i]? = some a →
      slowRunNotes[j]? = some b → a.lane = b.lane → a.isHoldNote = true →
      b.isHoldNote = true → a.endTimestamp ≤ b.timestamp ∧ ¬ Note.overlaps a b :=
  have hsort : SortedByStart slowRunNotes slowRunNotes :=
    ⟨List.Perm.refl _, by norm_num [slowRunNotes, Note.create]⟩
  ⟨slowRun_notes, slowRun_spacingKept, hsort,
   C16_spaced_holds_do_not_overlap .EXTREME slowRun mt42 slowRunNotes slowRunNotes
     slowRun_notes slowRun_spacingKept hsort⟩

/-- C17, as stated, fails: in the run of `bassRun` in the preset EXTREME the beat of index
3 is classified `isBass`, lanes 0 and 1 hold the notes of beats 2 and 1 until 7/20 and
3/10, and the primary note of the beat is placed in lane 2. -/
theorem C17_counterexample :
    ∃ (es : List Emission) (beat : BeatInfo) (e : Emission),
      generateEmissions bassRun (getDifficultyParams .EXTREME) mt42 = some es ∧
      bassRun[3]? = some beat ∧ beat.isBass = true ∧ es[3]? = some e ∧
      e.primary.timestamp = beat.timestamp ∧ e.primary.lane = 2 :=
  ⟨bassRunEmissions, bassBeat (3 / 20) 3, Emission.mk (Note.create (3 / 20) 2 (1 / 4) 1) none,
    bassRun_emissions, rfl, rfl, rfl, rfl, rfl⟩

/-- C17, amended: for a beat classified `isBass` the lane drawn is `rng() % 2`.  The primary
note stays in the drawn lane when that lane satisfies the spacing constraint against the
`lastNoteTime` table of the moment, and when no lane does; otherwise it goes to the
lowest lane of 0..3 that satisfies it.  So it lies in lane 0 or 1 unless both violate the
constraint while lane 2 or 3 satisfies it. -/
theorem C17_bass_lane_after_resolution (p : DifficultyParams) (beats : List BeatInfo)
    (draws : List Nat) (es : List Emission) (k : Nat) (beat : BeatInfo) (e : Emission)
    (hgen : generateEmissions beats p draws = some es)
    (hk : beats[k]? = some beat) (he : es[k]? = some e) (hb : beat.isBass = true) :
    ∃ (st : ComposerState) (r : Nat) (rest : List Nat),
      stateBefore beats p k 0 beats (ComposerState.init draws) = some st ∧
      st.draws = r :: rest ∧
      (laneFree st.lastNoteTime beat.timestamp p.minNoteInterval (rngMod r 2) = true →
        e.primary.lane = (rngMod r 2 : Nat)) ∧
      ((∀ l, l < 4 → laneFree st.lastNoteTime beat.timestamp p.minNoteInterval l = false) →
        e.primary.lane = (rngMod r 2 : Nat)) ∧
      (laneFree st.lastNoteTime beat.timestamp p.minNoteInterval (rngMod r 2) = false →
        ∀ l, l < 4 → laneFree st.lastNoteTime beat.timestamp p.minNoteInterval l = true →
          (∀ l', l' < l →
            laneFree st.lastNoteTime beat.timestamp p.minNoteInterval l' = false) →
          e.primary.lane = (l : Nat)) ∧
      ((e.primary.lane = 0 ∨ e.primary.lane = 1) ∨
        (laneFree st.lastNoteTime beat.timestamp p.minNoteInterval 0 = false ∧
         laneFree st.lastNoteTime beat.timestamp p.minNoteInterval 1 = false ∧
         (e.primary.lane = 2 ∨ e.primary.lane = 3) ∧
         ∃ l : Nat, e.primary.lane = (l : Int) ∧
           laneFree st.lastNoteTime beat.timestamp p.minNoteInterval l = true)) := by
  unfold generateEmissions at hgen
  obtain ⟨st, st', e', hst, he', hcb⟩ :=
    composeLoop_stateBefore beats p beats k 0 (ComposerState.init draws) es beat hgen hk
  rw [he] at he'
  simp only [Option.some.injEq] at he'
  subst he'
  obtain ⟨lane0, d1, duration, d2, hs, _, hprim, _, _⟩ := composeBeat_spec _ _ _ _ _ _ _ hcb
  unfold selectLane at hs
  rw [if_pos hb] at hs
  cases hd : st.draws with
  | nil => rw [hd] at hs; simp at hs
  | cons r rest =>
    rw [hd] at hs
    simp only [Option.some.injEq, Prod.mk.injEq] at hs
    have hlane : e.primary.lane =
        (resolveLane st.lastNoteTime beat.timestamp p.minNoteInterval lane0 : Nat) := by
      rw [hprim]; rfl
    have hl0 : rngMod r 2 < 2 := rngMod_lt r 2 (by norm_num)
    rw [← hs.1] at hlane
    have hfree : ∀ l, laneFree st.lastNoteTime beat.timestamp p.minNoteInterval l = true ↔
        beat.timestamp - st.lastNoteTime l ≥ p.minNoteInterval := by
      intro l
      unfold laneFree
      exact decide_eq_true_iff
    have hnot : ∀ l, laneFree st.lastNoteTime beat.timestamp p.minNoteInterval l = false ↔
        ¬ beat.timestamp - st.lastNoteTime l ≥ p.minNoteInterval := by
      intro l
      unfold laneFree
      exact decide_eq_false_iff_not
    refine ⟨st, r, rest, hst, hd, ?_, ?_, ?_, ?_⟩
    · intro h0
      rcases resolveLane_cases st.lastNoteTime beat.timestamp p.minNoteInterval (rngMod r 2)
        with ⟨h1, _⟩ | ⟨h1, _⟩
      · rw [hlane, h1]
      · exact absurd ((hfree _).mp h0) (not_le.mpr h1)
    · intro hall
      rcases resolveLane_cases st.lastNoteTime beat.timestamp p.minNoteInterval (rngMod r 2)
        with ⟨h1, _⟩ | ⟨_, h2, h3, _⟩
      · rw [hlane, h1]
      · exact absurd h3 ((hnot _).mp (hall _ h2))
    · intro h0 l hl hfl hmin
      rcases resolveLane_cases st.lastNoteTime beat.timestamp p.minNoteInterval (rngMod r 2)
        with ⟨_, h2⟩ | ⟨_, h2, h3, h4⟩
      · exact absurd ((hfree l).mp hfl) (h2 (not_le.mp ((hnot _).mp h0)) l hl)
      · rw [hlane]
        congr 1
        rcases Nat.lt_trichotomy
          (resolveLane st.lastNoteTime beat.timestamp p.minNoteInterval (rngMod r 2)) l
          with hlt | heq | hgt
        · exact absurd h3 ((hnot _).mp (hmin _ hlt))
        · exact heq
        · exact absurd ((hfree l).mp hfl) (h4 l hgt)
    · rcases resolveLane_cases st.lastNoteTime beat.timestamp p.minNoteInterval (rngMod r 2)
        with ⟨h1, _⟩ | ⟨_, h2, h3, h4⟩
      · left
        rw [hlane, h1]
        interval_cases (rngMod r 2)
        · left; rfl
        · right; rfl
      · generalize resolveLane st.lastNoteTime beat.timestamp p.minNoteInterval
          (rngMod r 2) = L at hlane h2 h3 h4
        rw [hlane]
        interval_cases L
        · left; left; rfl
        · left; right; rfl
        · right
          exact ⟨(hnot 0).mpr (h4 0 (by norm_num)), (hnot 1).mpr (h4 1 (by norm_num)),
            Or.inl rfl, 2, rfl, (hfree 2).mpr h3⟩
        · right
          exact ⟨(hnot 0).mpr (h4 0 (by norm_num)), (hnot 1).mpr (h4 1 (by norm_num)),
            Or.inr rfl, 3, rfl, (hfree 3).mpr h3⟩

/-- C17 (amended) at beat 3 of the run of `bassRun` in the preset EXTREME, which is
placed in lane 2. -/
theorem C17_bass_lane_after_resolution_witness :
    generateEmissions bassRun (getDifficultyParams .EXTREME) mt42 = some bassRunEmissions ∧
    bassRun[3]? = some (bassBeat (3 / 20) 3) ∧
    bassRunEmissions[3]? = some (Emission.mk (Note.create (3 / 20) 2 (1 / 4) 1) none) ∧
    (bassBeat (3 / 20) 3).isBass = true ∧
    ∃ (st : ComposerState) (r : Nat) (rest : List Nat),
      stateBefore bassRun (getDifficultyParams .EXTREME) 3 0 bassRun
        (ComposerState.init mt42) = some st ∧
      st.draws = r :: rest ∧
      (laneFree st.lastNoteTime (bassBeat (3 / 20) 3).timestamp
          (getDifficultyParams .EXTREME).minNoteInterval (rngMod r 2) = true →
        (Emission.mk (Note.create (3 / 20) 2 (1 / 4) 1) none).primary.lane =
          (rngMod r 2 : Nat)) ∧
      ((∀ l, l < 4 → laneFree st.lastNoteTime (bassBeat (3 / 20) 3).timestamp
          (getDifficultyParams .EXTREME).minNoteInterval l = false) →
        (Emission.mk (Note.create (3 / 20) 2 (1 / 4) 1) none).primary.lane =
          (rngMod r 2 : Nat)) ∧
      (laneFree st.lastNoteTime (bassBeat (3 / 20) 3).timestamp
          (getDifficultyParams .EXTREME).minNoteInterval (rngMod r 2) = false →
        ∀ l, l < 4 → laneFree st.lastNoteTime (bassBeat (3 / 20) 3).timestamp
            (getDifficultyParams .EXTREME).minNoteInterval l = true →
          (∀ l', l' < l → laneFree st.lastNoteTime (bassBeat (3 / 20) 3).timestamp
            (getDifficultyParams .EXTREME).minNoteInterval l' = false) →
          (Emission.mk (Note.create (3 / 20) 2 (1 / 4) 1) none).primary.lane = (l : Nat)) ∧
      (((Emission.mk (Note.create (3 / 20) 2 (1 / 4) 1) none).primary.lane = 0 ∨
          (Emission.mk (Note.create (3 / 20) 2 (1 / 4) 1) none).primary.lane = 1) ∨
        (laneFree st.lastNoteTime (bassBeat (3 / 20) 3).timestamp
            (getDifficultyParams .EXTREME).minNoteInterval 0 = false ∧
         laneFree st.lastNoteTime (bassBeat (3 / 20) 3).timestamp
            (getDifficultyParams .EXTREME).minNoteInterval 1 = false ∧
         ((Emission.mk (Note.create (3 / 20) 2 (1 / 4) 1) none).primary.lane = 2 ∨
          (Emission.mk (Note.create (3 / 20) 2 (1 / 4) 1) none).primary.lane = 3) ∧
         ∃ l : Nat, (Emission.mk (Note.create (3 / 20) 2 (1 / 4) 1) none).primary.lane =
             (l : Int) ∧
           laneFree st.lastNoteTime (bassBeat (3 / 20) 3).timestamp
             (getDifficultyParams .EXTREME).minNoteInterval l = true)) :=
  ⟨bassRun_emissions, rfl, rfl, rfl,
   C17_bass_lane_after_resolution (getDifficultyParams .EXTREME) bassRun mt42
     bassRunEmissions 3 (bassBeat (3 / 20) 3)
     (Emission.mk (Note.create (3 / 20) 2 (1 / 4) 1) none) bassRun_emissions rfl rfl rfl⟩

/-! ## Beat detection (C18, C19, C20) -/

theorem forRange_eq_nil (start stop step : Nat) (h : stop ≤ start) (hs : 0 < step) :
    forRange start stop step = [] := by
  unfold forRange
  have h0 : (stop - start + step - 1) / step = 0 := by
    rw [Nat.sub_eq_zero_of_le h, Nat.zero_add]
    exact Nat.div_eq_of_lt (by omega)
  rw [h0]
  rfl

/-- A buffer shorter than one frame has no frame start: the loop body of `detectBeats`
does not run. -/
theorem frameStarts_eq_nil (sampleCount channelCount : Nat)
    (h : sampleCount < 1024 * channelCount) : frameStarts sampleCount channelCount = [] := by
  unfold frameStarts
  apply forRange_eq_nil
  · unfold blockSize
    omega
  · unfold hopSize
    omega

theorem generateNotes_nil (p : DifficultyParams) (draws : List Nat) :
    generateNotes [] p draws = some [] := by
  simp [generateNotes, generateEmissions, composeLoop]

theorem foldl_invariant {α β : Type} (f : α → β → α) (I : α → Prop)
    (hstep : ∀ a b, I a → I (f a b)) : ∀ (l : List β) (a : α), I a → I (l.foldl f a) := by
  intro l
  induction l with
  | nil => intro a ha; exact ha
  | cons b l ih => intro a ha; exact ih (f a b) (hstep a b ha)

theorem sampleAt_zero (samples : List Int) (h : ∀ x ∈ samples, x = 0) (idx : Nat) :
    sampleAt samples idx = 0 := by
  unfold sampleAt
  rw [List.getD_eq_getElem?_getD]
  cases hget : samples[idx]? with
  | none => rfl
  | some x => exact h x (List.getElem?_mem hget)

theorem sum_map_eq_zero {α : Type} (l : List α) (f : α → ℚ) (h : ∀ a ∈ l, f a = 0) :
    (l.map f).sum = 0 := by
  induction l with
  | nil => rfl
  | cons a l ih =>
    rw [List.map_cons, List.sum_cons, h a (List.mem_cons_self a l),
      ih (fun b hb => h b (List.mem_cons_of_mem a hb)), add_zero]

theorem bassEnergyOf_zero (samples : List Int) (h : ∀ x ∈ samples, x = 0)
    (channelCount i : Nat) : bassEnergyOf samples channelCount i = 0 := by
  unfold bassEnergyOf
  rw [sum_map_eq_zero]
  · exact zero_div _
  · intro j _
    dsimp only
    rw [sum_map_eq_zero]
    · simp
    · intro k _
      rw [sampleAt_zero samples h]
      simp

theorem midEnergyOf_zero (samples : List Int) (h : ∀ x ∈ samples, x = 0)
    (channelCount i : Nat) : midEnergyOf samples channelCount i = 0 := by
  unfold midEnergyOf
  rw [sum_map_eq_zero]
  · exact zero_div _
  · intro j _
    dsimp only
    rw [sampleAt_zero samples h, sampleAt_zero samples h]
    simp

theorem highEnergyOf_zero (samples : List Int) (h : ∀ x ∈ samples, x = 0)
    (channelCount i : Nat) : highEnergyOf samples channelCount i = 0 := by
  unfold highEnergyOf
  rw [sum_map_eq_zero]
  · exact zero_div _
  · intro j _
    dsimp only
    rw [sampleAt_zero samples h, sampleAt_zero samples h, sampleAt_zero samples h]
    simp

theorem average_zero (hist : List ℚ) (h : ∀ x ∈ hist, x = 0) : average hist = 0 := by
  unfold average
  have hs : hist.sum = 0 := by
    have := sum_map_eq_zero hist id (fun a ha => h a ha)
    simpa using this
  rw [hs, zero_div]

/-- One frame of `detectBeats`: either no beat is appended and `lastBeatTime` is kept, or
one beat is appended whose timestamp is the new `lastBeatTime`, lies at least
`minNoteInterval * 0.5` after the old one, and one of the four absolute floors is
exceeded. -/
theorem detectFrame_cases (samples : List Int) (sampleRate channelCount : Nat)
    (p : DifficultyParams) (st : DetectState) (i : Nat) :
    ((detectFrame samples sampleRate channelCount p st i).beats = st.beats ∧
      (detectFrame samples sampleRate channelCount p st i).lastBeatTime = st.lastBeatTime) ∨
    (∃ b : BeatInfo,
      (detectFrame samples sampleRate channelCount p st i).beats = st.beats ++ [b] ∧
      (detectFrame samples sampleRate channelCount p st i).lastBeatTime = b.timestamp ∧
      b.timestamp - st.lastBeatTime ≥ p.minNoteInterval * (1 / 2) ∧
      (bassEnergyOf samples channelCount i > 1 / 1000 ∨
       midEnergyOf samples channelCount i > 5 / 10000 ∨
       highEnergyOf samples channelCount i > 1 / 10000 ∨
       average (detectFrame samples sampleRate channelCount p st i).totalHistory >
         5 / 10000)) := by
  unfold detectFrame
  dsimp only
  split_ifs
  all_goals first
    | exact Or.inl ⟨rfl, rfl⟩
    | (rename_i h
       refine Or.inr ⟨_, rfl, rfl, h.2, ?_⟩
       have h1 := h.1
       simp only [Bool.or_eq_true, decide_eq_true_eq] at h1
       rcases h1 with ((hb | hs) | hh) | ha
       · exact Or.inl hb.2
       · exact Or.inr (Or.inl hs.2)
       · exact Or.inr (Or.inr (Or.inl hh.2))
       · exact Or.inr (Or.inr (Or.inr ha.2)))

/-- The entries of `totalHistory` after a frame are old entries or the total energy of
the frame. -/
theorem detectFrame_totalHistory (samples : List Int) (sampleRate channelCount : Nat)
    (p : DifficultyParams) (st : DetectState) (i : Nat) :
    ∀ x ∈ (detectFrame samples sampleRate channelCount p st i).totalHistory,
      x ∈ st.totalHistory ∨
      x = bassEnergyOf samples channelCount i + midEnergyOf samples channelCount i * (1 / 2) +
        highEnergyOf samples channelCount i * (3 / 10) := by
  have key : ∀ (hist : List ℚ) (v x : ℚ), (x ∈ (hist ++ [v]).tail ∨ x ∈ hist ++ [v]) →
      x ∈ hist ∨ x = v := by
    intro hist v x hx
    have hmem : x ∈ hist ++ [v] := by
      rcases hx with hx | hx
      · exact List.mem_of_mem_tail hx
      · exact hx
    rcases List.mem_append.mp hmem with h | h
    · exact Or.inl h
    · exact Or.inr (List.mem_singleton.mp h)
  intro x hx
  unfold detectFrame at hx
  dsimp only at hx
  split_ifs at hx
  all_goals first
    | exact key _ _ _ (Or.inl hx)
    | exact key _ _ _ (Or.inr hx)

/-- Silence: every band energy is 0 and no frame appends a beat. -/
theorem detectFrame_silent (samples : List Int) (h : ∀ x ∈ samples, x = 0)
    (sampleRate channelCount : Nat) (p : DifficultyParams) (st : DetectState) (i : Nat)
    (hst : st.beats = [] ∧ ∀ x ∈ st.totalHistory, x = 0) :
    (detectFrame samples sampleRate channelCount p st i).beats = [] ∧
      ∀ x ∈ (detectFrame samples sampleRate channelCount p st i).totalHistory, x = 0 := by
  have hb := bassEnergyOf_zero samples h channelCount i
  have hm := midEnergyOf_zero samples h channelCount i
  have hh := highEnergyOf_zero samples h channelCount i
  have hhist : ∀ x ∈ (detectFrame samples sampleRate channelCount p st i).totalHistory,
      x = 0 := by
    intro x hx
    rcases detectFrame_totalHistory samples sampleRate channelCount p st i x hx with h1 | h1
    · exact hst.2 x h1
    · rw [h1, hb, hm, hh]
      norm_num
  refine ⟨?_, hhist⟩
  rcases detectFrame_cases samples sampleRate channelCount p st i with ⟨h1, _⟩ |
    ⟨b, _, _, _, hfloor⟩
  · rw [h1]
    exact hst.1
  · exfalso
    rw [hb, hm, hh, average_zero _ hhist] at hfloor
    norm_num at hfloor

theorem detectBeats_silent (samples : List Int) (h : ∀ x ∈ samples, x = 0)
    (sampleRate channelCount : Nat) (p : DifficultyParams) :
    detectBeats samples sampleRate channelCount p = [] := by
  unfold detectBeats
  exact (foldl_invariant (detectFrame samples sampleRate channelCount p)
    (fun st => st.beats = [] ∧ ∀ x ∈ st.totalHistory, x = 0)
    (fun st i hst => detectFrame_silent samples h sampleRate channelCount p st i hst)
    _ DetectState.init ⟨rfl, by simp [DetectState.init]⟩).1

/-- The invariant of the frame loop behind C20. -/
theorem detectFrame_spaced (samples : List Int) (sampleRate channelCount : Nat)
    (p : DifficultyParams) (hgap : 0 < p.minNoteInterval) (st : DetectState) (i : Nat)
    (hst : st.beats.Pairwise (fun a b => a.timestamp < b.timestamp ∧
        b.timestamp - a.timestamp ≥ p.minNoteInterval * (1 / 2)) ∧
      ∀ b ∈ st.beats, b.timestamp ≤ st.lastBeatTime) :
    (detectFrame samples sampleRate channelCount p st i).beats.Pairwise
        (fun a b => a.timestamp < b.timestamp ∧
          b.timestamp - a.timestamp ≥ p.minNoteInterval * (1 / 2)) ∧
      ∀ b ∈ (detectFrame samples sampleRate channelCount p st i).beats,
        b.timestamp ≤ (detectFrame samples sampleRate channelCount p st i).lastBeatTime := by
  rcases detectFrame_cases samples sampleRate channelCount p st i with ⟨h1, h2⟩ |
    ⟨b, h1, h2, h3, _⟩
  · rw [h1, h2]
    exact hst
  · rw [h1, h2]
    constructor
    · refine List.pairwise_append.mpr ⟨hst.1, List.pairwise_singleton _ _, ?_⟩
      intro a ha b' hb'
      rw [List.mem_singleton.mp hb']
      have := hst.2 a ha
      constructor <;> linarith
    · intro b' hb'
      rcases List.mem_append.mp hb' with hb' | hb'
      · have := hst.2 b' hb'
        linarith
      · rw [List.mem_singleton.mp hb']

theorem detectBeats_spaced (samples : List Int) (sampleRate channelCount : Nat)
    (p : DifficultyParams) (hgap : 0 < p.minNoteInterval) :
    (detectBeats samples sampleRate channelCount p).Pairwise
      (fun a b => a.timestamp < b.timestamp ∧
        b.timestamp - a.timestamp ≥ p.minNoteInterval * (1 / 2)) := by
  unfold detectBeats
  exact (foldl_invariant (detectFrame samples sampleRate channelCount p)
    (fun st => st.beats.Pairwise (fun a b => a.timestamp < b.timestamp ∧
        b.timestamp - a.timestamp ≥ p.minNoteInterval * (1 / 2)) ∧
      ∀ b ∈ st.beats, b.timestamp ≤ st.lastBeatTime)
    (fun st i hst => detectFrame_spaced samples sampleRate channelCount p hgap st i hst)
    _ DetectState.init ⟨by simp [DetectState.init], by simp [DetectState.init]⟩).1

/-- C18: for an all-zero buffer of any length, a sample rate above 0, at least one channel
and any preset, every band energy of every frame is 0, `detectBeats` returns no beat and
`analyze` returns no note, whatever the random draws. -/
theorem C18_silence_yields_no_beats_and_no_notes (samples : List Int)
    (sampleRate channelCount : Nat) (d : Difficulty) (draws : List Nat)
    (hzero : ∀ x ∈ samples, x = 0) (_hrate : 0 < sampleRate) (_hchan : 1 ≤ channelCount) :
    (∀ i, bassEnergyOf samples channelCount i = 0 ∧ midEnergyOf samples channelCount i = 0 ∧
      highEnergyOf samples channelCount i = 0) ∧
    detectBeats samples sampleRate channelCount (getDifficultyParams d) = [] ∧
    analyze samples sampleRate channelCount d draws = some [] := by
  refine ⟨fun i => ⟨bassEnergyOf_zero samples hzero channelCount i,
    midEnergyOf_zero samples hzero channelCount i,
    highEnergyOf_zero samples hzero channelCount i⟩,
    detectBeats_silent samples hzero sampleRate channelCount _, ?_⟩
  unfold analyze
  rw [detectBeats_silent samples hzero sampleRate channelCount _]
  exact generateNotes_nil _ _

/-- C18 at three seconds of stereo silence at 44100 Hz in the preset MEDIUM. -/
theorem C18_silence_yields_no_beats_and_no_notes_witness :
    (∀ x ∈ List.replicate 264600 (0 : Int), x = 0) ∧ 0 < 44100 ∧ 1 ≤ 2 ∧
    ((∀ i, bassEnergyOf (List.replicate 264600 0) 2 i = 0 ∧
        midEnergyOf (List.replicate 264600 0) 2 i = 0 ∧
        highEnergyOf (List.replicate 264600 0) 2 i = 0) ∧
      detectBeats (List.replicate 264600 0) 44100 2 (getDifficultyParams .MEDIUM) = [] ∧
      analyze (List.replicate 264600 0) 44100 2 .MEDIUM mt42 = some []) :=
  ⟨fun _ hx => List.eq_of_mem_replicate hx, by norm_num, by norm_num,
   C18_silence_yields_no_beats_and_no_notes (List.replicate 264600 0) 44100 2 .MEDIUM mt42
     (fun _ hx => List.eq_of_mem_replicate hx) (by norm_num) (by norm_num)⟩

/-- C19: when the buffer holds fewer samples than one frame (`sampleCount < 1024 *
channelCount`, the empty buffer included), the frame loop of `detectBeats`, the only code
that reads samples, runs for no frame; `detectBeats` returns no beat and `analyze`
returns no note, whatever the samples, the preset and the random draws. -/
theorem C19_short_buffer_yields_nothing (samples : List Int) (sampleRate channelCount : Nat)
    (d : Difficulty) (draws : List Nat) (hshort : samples.length < 1024 * channelCount) :
    frameStarts samples.length channelCount = [] ∧
    detectBeats samples sampleRate channelCount (getDifficultyParams d) = [] ∧
    analyze samples sampleRate channelCount d draws = some [] := by
  have hframes := frameStarts_eq_nil samples.length channelCount hshort
  have hbeats : detectBeats samples sampleRate channelCount (getDifficultyParams d) = [] := by
    unfold detectBeats
    rw [hframes]
    rfl
  refine ⟨hframes, hbeats, ?_⟩
  unfold analyze
  rw [hbeats]
  exact generateNotes_nil _ _

/-- C19 at a mono buffer of 1023 loud samples. -/
theorem C19_short_buffer_yields_nothing_witness :
    (List.replicate 1023 (20000 : Int)).length < 1024 * 1 ∧
    frameStarts (List.replicate 1023 (20000 : Int)).length 1 = [] ∧
    detectBeats (List.replicate 1023 20000) 44100 1 (getDifficultyParams .HARD) = [] ∧
    analyze (List.replicate 1023 20000) 44100 1 .HARD mt42 = some [] :=
  ⟨by rw [List.length_replicate]; norm_num,
   C19_short_buffer_yields_nothing (List.replicate 1023 20000) 44100 1 .HARD mt42
     (by rw [List.length_replicate]; norm_num)⟩

/-- C20: for every buffer with at least one channel and every preset, the beats returned
by `detectBeats` have strictly increasing timestamps, any two of them (consecutive ones
in particular) being at least `minNoteInterval * 0.5` apart. -/
theorem C20_beats_increasing_and_spaced (samples : List Int) (sampleRate channelCount : Nat)
    (d : Difficulty) (_hchan : 1 ≤ channelCount) :
    (detectBeats samples sampleRate channelCount (getDifficultyParams d)).Pairwise
      (fun a b => a.timestamp < b.timestamp ∧
        b.timestamp - a.timestamp ≥ (getDifficultyParams d).minNoteInterval * (1 / 2)) ∧
    ∀ (k : Nat) (a b : BeatInfo),
      (detectBeats samples sampleRate channelCount (getDifficultyParams d))[k]? = some a →
      (detectBeats samples sampleRate channelCount (getDifficultyParams d))[k + 1]? = some b →
      a.timestamp < b.timestamp ∧
        b.timestamp - a.timestamp ≥ (getDifficultyParams d).minNoteInterval * (1 / 2) := by
  have hpair := detectBeats_spaced samples sampleRate channelCount (getDifficultyParams d)
    (preset_bounds d).1
  refine ⟨hpair, ?_⟩
  intro k a b ha hb
  obtain ⟨hk, hak⟩ := List.getElem?_eq_some.mp ha
  obtain ⟨hk1, hbk⟩ := List.getElem?_eq_some.mp hb
  have hR := List.pairwise_iff_getElem.mp hpair k (k + 1) hk hk1 (Nat.lt_succ_self k)
  rw [hak, hbk] at hR
  exact hR

/-! ## One primary note per beat -/

theorem composeLoop_length (beats : List BeatInfo) (p : DifficultyParams) :
    ∀ (rest : List BeatInfo) (i : Nat) (st : ComposerState) (es : List Emission),
      composeLoop beats p i rest st = some es → es.length = rest.length := by
  intro rest
  induction rest with
  | nil =>
    intro i st es h
    simp only [composeLoop, Option.some.injEq] at h
    subst h
    rfl
  | cons beat rest ih =>
    intro i st es h
    unfold composeLoop at h
    cases hcb : composeBeat beats p i beat st with
    | none => rw [hcb] at h; simp at h
    | some r =>
      obtain ⟨e, st'⟩ := r
      rw [hcb] at h
      dsimp only at h
      cases hl : composeLoop beats p (i + 1) rest st' with
      | none => rw [hl] at h; simp at h
      | some es' =>
        rw [hl] at h
        simp only [Option.some.injEq] at h
        subst h
        rw [List.length_cons, List.length_cons, ih (i + 1) st' es' hl]

/-- A property of every iteration of the loop holds for every emission of the run. -/
theorem composeLoop_forall_emission (beats : List BeatInfo) (p : DifficultyParams)
    (P : Emission → Prop)
    (hstep : ∀ i beat st e st', composeBeat beats p i beat st = some (e, st') → P e) :
    ∀ (rest : List BeatInfo) (i : Nat) (st : ComposerState) (es : List Emission),
      composeLoop beats p i rest st = some es → ∀ e ∈ es, P e := by
  intro rest
  induction rest with
  | nil =>
    intro i st es h e he
    simp only [composeLoop, Option.some.injEq] at h
    subst h
    simp at he
  | cons beat rest ih =>
    intro i st es h e he
    unfold composeLoop at h
    cases hcb : composeBeat beats p i beat st with
    | none => rw [hcb] at h; simp at h
    | some r =>
      obtain ⟨e0, st'⟩ := r
      rw [hcb] at h
      dsimp only at h
      cases hl : composeLoop beats p (i + 1) rest st' with
      | none => rw [hl] at h; simp at h
      | some es' =>
        rw [hl] at h
        simp only [Option.some.injEq] at h
        subst h
        rcases List.mem_cons.mp he with he | he
        · rw [he]; exact hstep i beat st e0 st' hcb
        · exact ih (i + 1) st' es' hl e he

theorem flatten_notes_length (es : List Emission) :
    es.length ≤ ((es.map Emission.notes).flatten).length ∧
    ((es.map Emission.notes).flatten).length ≤ 2 * es.length ∧
    ((∀ e ∈ es, e.double = none) →
      (es.map Emission.notes).flatten = es.map Emission.primary) := by
  induction es with
  | nil => simp
  | cons e es ih =>
    obtain ⟨h1, h2, h3⟩ := ih
    have hlen : (Emission.notes e).length = 1 ∨ (Emission.notes e).length = 2 := by
      unfold Emission.notes
      cases e.double <;> simp
    simp only [List.map_cons, List.flatten_cons, List.length_append, List.length_cons]
    refine ⟨by omega, by omega, ?_⟩
    intro hnone
    rw [h3 (fun e' he' => hnone e' (List.mem_cons_of_mem e he'))]
    have := hnone e (List.mem_cons_self e es)
    unfold Emission.notes
    rw [this]
    rfl

theorem selectLane_total (beat : BeatInfo) (lastLane : Int) (r : Nat) (rest : List Nat)
    (hcl : beat.isBass = true ∨ beat.isSnare = true ∨ beat.isHiHat = true) :
    ∃ lane, selectLane beat lastLane (r :: rest) = some (lane, rest) := by
  unfold selectLane
  by_cases hb : beat.isBass = true
  · rw [if_pos hb]; exact ⟨_, rfl⟩
  · rw [if_neg hb]
    by_cases hs : beat.isSnare = true
    · rw [if_pos hs]; exact ⟨_, rfl⟩
    · rw [if_neg hs]
      have hh : beat.isHiHat = true := by
        rcases hcl with h | h | h
        · exact absurd h hb
        · exact absurd h hs
        · exact h
      rw [if_pos hh]; exact ⟨_, rfl⟩

theorem hiHatDuration_total (beats : List BeatInfo) (p : DifficultyParams) (i : Nat)
    (beat : BeatInfo) (draws : List Nat) (h : 2 ≤ draws.length) :
    ∃ d rest, hiHatDuration beats p i beat draws = some (d, rest) ∧
      draws.length ≤ rest.length + 2 := by
  unfold hiHatDuration
  by_cases h1 : beat.isHiHat = true ∧ i + 2 < beats.length
  · rw [if_pos h1]
    match draws, h with
    | c :: c2 :: rest, _ =>
      dsimp only
      by_cases h2 : chanceOf c < p.holdNoteChance
      · rw [if_pos h2]
        by_cases h3 : (((beats.drop i).take 5).filter (fun b => b.isHiHat)).length ≥ 3
        · rw [if_pos h3]
          exact ⟨_, _, rfl, by simp⟩
        · rw [if_neg h3]
          exact ⟨_, _, rfl, by simp⟩
      · rw [if_neg h2]
        exact ⟨_, _, rfl, by simp⟩
  · rw [if_neg h1]
    exact ⟨_, _, rfl, by omega⟩

theorem chooseDuration_total (beats : List BeatInfo) (p : DifficultyParams) (i : Nat)
    (beat : BeatInfo) (draws : List Nat) (h : 3 ≤ draws.length) :
    ∃ d rest, chooseDuration beats p i beat draws = some (d, rest) ∧
      draws.length ≤ rest.length + 3 := by
  unfold chooseDuration
  by_cases h1 : beat.isBass = true ∧ beat.bassStrength > 2
  · rw [if_pos h1]
    match draws, h with
    | c :: rest, h =>
      dsimp only
      by_cases h2 : chanceOf c < p.holdNoteChance * 2
      · rw [if_pos h2]
        exact ⟨_, _, rfl, by simp⟩
      · rw [if_neg h2]
        have h3 : 2 ≤ rest.length := by
          simp only [List.length_cons] at h
          omega
        obtain ⟨d, r, hr, hlen⟩ := hiHatDuration_total beats p i beat rest h3
        exact ⟨d, r, hr, by simp only [List.length_cons]; omega⟩
  · rw [if_neg h1]
    obtain ⟨d, r, hr, hlen⟩ := hiHatDuration_total beats p i beat draws (by omega)
    exact ⟨d, r, hr, by omega⟩

/-- One iteration on a classified beat that cannot get a double note returns when five
draws are left, and consumes at most five. -/
theorem composeBeat_total (beats : List BeatInfo) (p : DifficultyParams) (i : Nat)
    (beat : BeatInfo) (st : ComposerState)
    (hcl : beat.isBass = true ∨ beat.isSnare = true ∨ beat.isHiHat = true)
    (hdb : p.allowDoubles = true → beat.intensity ≤ 3 / 2)
    (h : 5 ≤ st.draws.length) :
    ∃ e st', composeBeat beats p i beat st = some (e, st') ∧
      st.draws.length ≤ st'.draws.length + 5 := by
  unfold composeBeat
  match hd : st.draws, h with
  | r :: d1, h =>
    obtain ⟨lane0, hs⟩ := selectLane_total beat st.lastLane r d1 hcl
    rw [hs]
    dsimp only
    have h4 : 4 ≤ d1.length := by simpa using h
    obtain ⟨dur, d2, hdur, hlen⟩ := chooseDuration_total beats p i beat d1 (by omega)
    rw [hdur]
    dsimp only
    by_cases ha : p.allowDoubles = true
    · rw [if_pos ha]
      match d2, hlen with
      | c :: d3, hlen =>
        dsimp only
        have hc : ¬ (chanceOf c < p.doubleChance ∧ beat.intensity > 3 / 2) := by
          intro hc
          exact absurd hc.2 (not_lt.mpr (hdb ha))
        rw [if_neg hc]
        refine ⟨_, _, rfl, ?_⟩
        simp only [List.length_cons] at hlen ⊢
        omega
      | [], hlen =>
        exfalso
        simp only [List.length_nil] at hlen
        omega
    · rw [if_neg ha]
      refine ⟨_, _, rfl, ?_⟩
      simp only [List.length_cons]
      omega

theorem composeLoop_total (beats : List BeatInfo) (p : DifficultyParams) :
    ∀ (rest : List BeatInfo) (i : Nat) (st : ComposerState),
      (∀ b ∈ rest, (b.isBass = true ∨ b.isSnare = true ∨ b.isHiHat = true) ∧
        (p.allowDoubles = true → b.intensity ≤ 3 / 2)) →
      5 * rest.length ≤ st.draws.length →
      ∃ es, composeLoop beats p i rest st = some es := by
  intro rest
  induction rest with
  | nil => intro i st _ _; exact ⟨[], rfl⟩
  | cons beat rest ih =>
    intro i st hcl hlen
    have hb := hcl beat (List.mem_cons_self beat rest)
    simp only [List.length_cons] at hlen
    obtain ⟨e, st', hcb, hd⟩ := composeBeat_total beats p i beat st hb.1 hb.2 (by omega)
    obtain ⟨es, hes⟩ := ih (i + 1) st'
      (fun b hb' => hcl b (List.mem_cons_of_mem beat hb')) (by omega)
    refine ⟨e :: es, ?_⟩
    rw [composeLoop, hcb]
    dsimp only
    rw [hes]

/-- The primary note of one iteration carries the timestamp and the intensity of its
beat; without `allowDoubles` there is no double note. -/
theorem composeBeat_primary (beats : List BeatInfo) (p : DifficultyParams) (i : Nat)
    (beat : BeatInfo) (st st' : ComposerState) (e : Emission)
    (h : composeBeat beats p i beat st = some (e, st')) :
    e.primary.timestamp = beat.timestamp ∧ e.primary.intensity = beat.intensity ∧
      (p.allowDoubles = false → e.double = none) := by
  obtain ⟨lane0, d1, duration, d2, _, _, hprim, _, hdbl⟩ := composeBeat_spec _ _ _ _ _ _ _ h
  refine ⟨by rw [hprim]; rfl, by rw [hprim]; rfl, ?_⟩
  intro ha
  rcases hdbl with ⟨hnone, _⟩ | ⟨sl, _, _, ha', _⟩
  · exact hnone
  · rw [ha] at ha'
    exact absurd ha' (by decide)

/-! ## The table of last end times and conflict resolution (C22) -/

/-- After one iteration every entry of `lastNoteTime` is the end time of the last note the
iteration emitted in that lane, or the old entry. -/
theorem composeBeat_lastNoteTime (beats : List BeatInfo) (p : DifficultyParams) (i : Nat)
    (beat : BeatInfo) (st st' : ComposerState) (e : Emission)
    (h : composeBeat beats p i beat st = some (e, st')) (l : Nat) :
    st'.lastNoteTime l = lastEndFrom (st.lastNoteTime l) e.notes l := by
  obtain ⟨lane0, d1, duration, d2, _, _, hprim, _, hdbl⟩ := composeBeat_spec _ _ _ _ _ _ _ h
  generalize resolveLane st.lastNoteTime beat.timestamp p.minNoteInterval lane0 = L
    at hprim hdbl
  have hcast : ∀ a b : Nat, ((a : Int) = (b : Int)) ↔ a = b := fun a b => Nat.cast_inj
  rcases hdbl with ⟨hnone, hlnt⟩ | ⟨sl, _, hne, _, _, hsome, hlnt⟩
  · have hnotes : e.notes = [e.primary] := by
      unfold Emission.notes
      rw [hnone]
      rfl
    rw [hnotes, hlnt, hprim]
    simp only [lastEndFrom, List.foldl_cons, List.foldl_nil, Note.create, hcast]
    by_cases hl : l = L
    · subst hl
      rw [Function.update_same, if_pos rfl]
    · rw [Function.update_noteq hl, if_neg (fun h' => hl h'.symm)]
  · have hnotes : e.notes =
        [e.primary, Note.create beat.timestamp sl 0 (beat.intensity * (8 / 10))] := by
      unfold Emission.notes
      rw [hsome]
      rfl
    rw [hnotes, hlnt, hprim]
    simp only [lastEndFrom, List.foldl_cons, List.foldl_nil, Note.create, hcast, add_zero]
    by_cases hl : l = sl
    · subst hl
      rw [Function.update_same, if_pos rfl]
    · rw [Function.update_noteq hl, if_neg (fun h' => hl h'.symm)]
      by_cases hl2 : l = L
      · subst hl2
        rw [Function.update_same, if_pos rfl]
      · rw [Function.update_noteq hl2, if_neg (fun h' => hl2 h'.symm)]

theorem lastEndFrom_append (start : ℚ) (l1 l2 : List Note) (l : Nat) :
    lastEndFrom start (l1 ++ l2) l = lastEndFrom (lastEndFrom start l1 l) l2 l := by
  unfold lastEndFrom
  rw [List.foldl_append]

/-- The `lastNoteTime` table before beat `k` holds, per lane, the end time of the last note
emitted for the beats before `k`. -/
theorem stateBefore_lastNoteTime (beats : List BeatInfo) (p : DifficultyParams) :
    ∀ (rest : List BeatInfo) (k i : Nat) (st stk : ComposerState) (es : List Emission),
      composeLoop beats p i rest st = some es →
      stateBefore beats p k i rest st = some stk →
      ∀ l, stk.lastNoteTime l =
        lastEndFrom (st.lastNoteTime l) ((es.take k).map Emission.notes).flatten l := by
  intro rest
  induction rest with
  | nil =>
    intro k i st stk es h hst l
    cases k with
    | zero =>
      simp only [stateBefore, Option.some.injEq] at hst
      subst hst
      simp [lastEndFrom]
    | succ k => simp [stateBefore] at hst
  | cons b rest ih =>
    intro k i st stk es h hst l
    cases k with
    | zero =>
      simp only [stateBefore, Option.some.injEq] at hst
      subst hst
      simp [lastEndFrom]
    | succ k =>
      unfold composeLoop at h
      cases hcb : composeBeat beats p i b st with
      | none => rw [hcb] at h; simp at h
      | some r =>
        obtain ⟨e, st'⟩ := r
        rw [hcb] at h
        dsimp only at h
        cases hl : composeLoop beats p (i + 1) rest st' with
        | none => rw [hl] at h; simp at h
        | some es' =>
          rw [hl] at h
          simp only [Option.some.injEq] at h
          subst h
          rw [stateBefore, hcb] at hst
          dsimp only at hst
          rw [ih k (i + 1) st' stk es' hl hst l, List.take_succ_cons, List.map_cons,
            List.flatten_cons, lastEndFrom_append,
            composeBeat_lastNoteTime beats p i b st st' e hcb l]

/-- C22: before each beat the table `lastNoteTime` holds, per lane, the end time of the
last note emitted so far (-1 for a lane without a note).  If the lane selected for the
beat satisfies `beat.timestamp - lastNoteTime[lane] >= minNoteInterval`, the primary note
is placed in it; otherwise it is placed in the lowest lane of 0..3 that satisfies the
test, and in the selected lane when no lane does.  So the primary note violates the
spacing in its lane only when all four lanes violate it. -/
theorem C22_conflict_resolution (p : DifficultyParams) (beats : List BeatInfo)
    (draws : List Nat) (es : List Emission) (k : Nat) (beat : BeatInfo) (e : Emission)
    (hgen : generateEmissions beats p draws = some es)
    (hk : beats[k]? = some beat) (he : es[k]? = some e) :
    ∃ (st : ComposerState) (lane0 : Nat) (d1 : List Nat),
      stateBefore beats p k 0 beats (ComposerState.init draws) = some st ∧
      (∀ l, st.lastNoteTime l = lastEndTime ((es.take k).map Emission.notes).flatten l) ∧
      selectLane beat st.lastLane st.draws = some (lane0, d1) ∧ lane0 < 4 ∧
      (beat.timestamp - st.lastNoteTime lane0 ≥ p.minNoteInterval →
        e.primary.lane = (lane0 : Nat)) ∧
      (beat.timestamp - st.lastNoteTime lane0 < p.minNoteInterval →
        (∀ l, l < 4 → beat.timestamp - st.lastNoteTime l ≥ p.minNoteInterval →
          (∀ l', l' < l → beat.timestamp - st.lastNoteTime l' < p.minNoteInterval) →
          e.primary.lane = (l : Nat)) ∧
        ((∀ l, l < 4 → beat.timestamp - st.lastNoteTime l < p.minNoteInterval) →
          e.primary.lane = (lane0 : Nat))) ∧
      (∀ L : Nat, e.primary.lane = (L : Int) →
        beat.timestamp - st.lastNoteTime L < p.minNoteInterval →
        ∀ l, l < 4 → beat.timestamp - st.lastNoteTime l < p.minNoteInterval) := by
  unfold generateEmissions at hgen
  obtain ⟨st, st', e', hst, he', hcb⟩ :=
    composeLoop_stateBefore beats p beats k 0 (ComposerState.init draws) es beat hgen hk
  rw [he] at he'
  simp only [Option.some.injEq] at he'
  subst he'
  obtain ⟨lane0, d1, duration, d2, hs, _, hprim, _, _⟩ := composeBeat_spec _ _ _ _ _ _ _ hcb
  have hlane : e.primary.lane =
      (resolveLane st.lastNoteTime beat.timestamp p.minNoteInterval lane0 : Nat) := by
    rw [hprim]; rfl
  have hl0 : lane0 < 4 := (selectLane_spec _ _ _ _ _ hs).1
  have htable := stateBefore_lastNoteTime beats p beats k 0 (ComposerState.init draws) st es
    hgen hst
  have hcases := resolveLane_cases st.lastNoteTime beat.timestamp p.minNoteInterval lane0
  refine ⟨st, lane0, d1, hst, fun l => htable l, hs, hl0, ?_, ?_, ?_⟩
  · intro hfree
    rcases hcases with ⟨h1, _⟩ | ⟨h1, _⟩
    · rw [hlane, h1]
    · exact absurd hfree (not_le.mpr h1)
  · intro hbusy
    constructor
    · intro l hl hfl hmin
      rcases hcases with ⟨_, h2⟩ | ⟨_, _, h3, h4⟩
      · exact absurd hfl (h2 hbusy l hl)
      · rw [hlane]
        congr 1
        rcases Nat.lt_trichotomy
          (resolveLane st.lastNoteTime beat.timestamp p.minNoteInterval lane0) l
          with hlt | heq | hgt
        · exact absurd h3 (not_le.mpr (hmin _ hlt))
        · exact heq
        · exact absurd hfl (h4 l hgt)
    · intro hall
      rcases hcases with ⟨h1, _⟩ | ⟨_, h2, h3, _⟩
      · rw [hlane, h1]
      · exact absurd h3 (not_le.mpr (hall _ h2))
  · intro L hL hbusy l hl
    have hLeq : resolveLane st.lastNoteTime beat.timestamp p.minNoteInterval lane0 = L := by
      apply Nat.cast_injective (R := Int)
      rw [← hlane, hL]
    by_contra hfree
    have := resolveLane_free st.lastNoteTime beat.timestamp p.minNoteInterval lane0
      ⟨l, hl, not_lt.mp hfree⟩
    rw [hLeq] at this
    exact absurd this (not_le.mpr hbusy)

/-- C22 at beat 3 of the run of `bassRun` in the preset EXTREME: lanes 0 and 1 are busy
and the note goes to lane 2. -/
theorem C22_conflict_resolution_witness :
    generateEmissions bassRun (getDifficultyParams .EXTREME) mt42 = some bassRunEmissions ∧
    bassRun[3]? = some (bassBeat (3 / 20) 3) ∧
    bassRunEmissions[3]? = some (Emission.mk (Note.create (3 / 20) 2 (1 / 4) 1) none) ∧
    ∃ (st : ComposerState) (lane0 : Nat) (d1 : List Nat),
      stateBefore bassRun (getDifficultyParams .EXTREME) 3 0 bassRun
        (ComposerState.init mt42) = some st ∧
      (∀ l, st.lastNoteTime l =
        lastEndTime ((bassRunEmissions.take 3).map Emission.notes).flatten l) ∧
      selectLane (bassBeat (3 / 20) 3) st.lastLane st.draws = some (lane0, d1) ∧ lane0 < 4 ∧
      ((bassBeat (3 / 20) 3).timestamp - st.lastNoteTime lane0 ≥
          (getDifficultyParams .EXTREME).minNoteInterval →
        (Emission.mk (Note.create (3 / 20) 2 (1 / 4) 1) none).primary.lane = (lane0 : Nat)) ∧
      ((bassBeat (3 / 20) 3).timestamp - st.lastNoteTime lane0 <
          (getDifficultyParams .EXTREME).minNoteInterval →
        (∀ l, l < 4 → (bassBeat (3 / 20) 3).timestamp - st.lastNoteTime l ≥
            (getDifficultyParams .EXTREME).minNoteInterval →
          (∀ l', l' < l → (bassBeat (3 / 20) 3).timestamp - st.lastNoteTime l' <
            (getDifficultyParams .EXTREME).minNoteInterval) →
          (Emission.mk (Note.create (3 / 20) 2 (1 / 4) 1) none).primary.lane = (l : Nat)) ∧
        ((∀ l, l < 4 → (bassBeat (3 / 20) 3).timestamp - st.lastNoteTime l <
            (getDifficultyParams .EXTREME).minNoteInterval) →
          (Emission.mk (Note.create (3 / 20) 2 (1 / 4) 1) none).primary.lane =
            (lane0 : Nat))) ∧
      (∀ L : Nat, (Emission.mk (Note.create (3 / 20) 2 (1 / 4) 1) none).primary.lane =
          (L : Int) →
        (bassBeat (3 / 20) 3).timestamp - st.lastNoteTime L <
          (getDifficultyParams .EXTREME).minNoteInterval →
        ∀ l, l < 4 → (bassBeat (3 / 20) 3).timestamp - st.lastNoteTime l <
          (getDifficultyParams .EXTREME).minNoteInterval) :=
  ⟨bassRun_emissions, rfl, rfl,
   C22_conflict_resolution (getDifficultyParams .EXTREME) bassRun mt42 bassRunEmissions 3
     (bassBeat (3 / 20) 3) (Emission.mk (Note.create (3 / 20) 2 (1 / 4) 1) none)
     bassRun_emissions rfl rfl⟩

/-! ## The strong-bass hold branch (C23, C24) -/

theorem farRun_emissions :
    generateEmissions farRun (getDifficultyParams .MEDIUM) mt42 = some farRunEmissions := by
  norm_num [generateEmissions, composeLoop, composeBeat, farRun, bassBeat, mt42,
    ComposerState.init, selectLane, rngMod, resolveLane, chooseDuration, hiHatDuration,
    strongBassHoldEnd, stdClamp, chanceOf, getDifficultyParams, List.range, List.range.loop,
    Function.update, farRunEmissions, farRunNotes, Note.create, List.find?]

/-- The state before beat `k` and the state after it, for a run that returns. -/
theorem composeLoop_stateAfter (beats : List BeatInfo) (p : DifficultyParams) :
    ∀ (rest : List BeatInfo) (k i : Nat) (st : ComposerState) (es : List Emission)
      (beat : BeatInfo),
      composeLoop beats p i rest st = some es → rest[k]? = some beat →
      ∃ (stk stk' : ComposerState) (e : Emission),
        stateBefore beats p k i rest st = some stk ∧
        stateBefore beats p (k + 1) i rest st = some stk' ∧ es[k]? = some e ∧
        composeBeat beats p (i + k) beat stk = some (e, stk') := by
  intro rest
  induction rest with
  | nil => intro k i st es beat _ hk; simp at hk
  | cons b rest ih =>
    intro k i st es beat h hk
    unfold composeLoop at h
    cases hcb : composeBeat beats p i b st with
    | none => rw [hcb] at h; simp at h
    | some r =>
      obtain ⟨e, st'⟩ := r
      rw [hcb] at h
      dsimp only at h
      cases hl : composeLoop beats p (i + 1) rest st' with
      | none => rw [hl] at h; simp at h
      | some es' =>
        rw [hl] at h
        simp only [Option.some.injEq] at h
        subst h
        cases k with
        | zero =>
          simp only [List.getElem?_cons_zero, Option.some.injEq] at hk
          subst hk
          refine ⟨st, st', e, rfl, ?_, List.getElem?_cons_zero, hcb⟩
          rw [stateBefore, hcb]
          rfl
        | succ k =>
          simp only [List.getElem?_cons_succ] at hk
          obtain ⟨stk, stk', ek, h1, h1', h2, h3⟩ := ih k (i + 1) st' es' beat hl hk
          refine ⟨stk, stk', ek, ?_, ?_, ?_, ?_⟩
          · rw [stateBefore, hcb]
            exact h1
          · rw [stateBefore, hcb]
            exact h1'
          · simpa using h2
          · rw [← h3]
            congr 1
            omega

/-- One iteration on a strong bass beat draws the lane and then the chance of a hold; when
the chance passes, the duration of the primary note is the clamped span. -/
theorem composeBeat_strongBass (beats : List BeatInfo) (p : DifficultyParams) (i : Nat)
    (beat : BeatInfo) (st st' : ComposerState) (e : Emission)
    (h : composeBeat beats p i beat st = some (e, st'))
    (hb : beat.isBass = true) (hs : beat.bassStrength > 2) :
    ∃ (r c : Nat) (rest : List Nat), st.draws = r :: c :: rest ∧
      (chanceOf c < p.holdNoteChance * 2 →
        e.primary.endTimestamp = beat.timestamp +
          clampedHold (strongBassHoldEnd beats i beat - beat.timestamp) p.maxHoldDuration) := by
  obtain ⟨lane0, d1, duration, d2, hsel, hd, hprim, _, _⟩ := composeBeat_spec _ _ _ _ _ _ _ h
  unfold selectLane at hsel
  rw [if_pos hb] at hsel
  cases hdr : st.draws with
  | nil => rw [hdr] at hsel; simp at hsel
  | cons r d1' =>
    rw [hdr] at hsel
    simp only [Option.some.injEq, Prod.mk.injEq] at hsel
    obtain ⟨_, rfl⟩ := hsel
    unfold chooseDuration at hd
    rw [if_pos ⟨hb, hs⟩] at hd
    cases d1' with
    | nil => simp at hd
    | cons c rest =>
      dsimp only at hd
      refine ⟨r, c, rest, rfl, ?_⟩
      intro hch
      rw [if_pos hch] at hd
      simp only [Option.some.injEq, Prod.mk.injEq] at hd
      rw [hprim, ← hd.1]
      rfl

/-- The value of `duration` at the end of the strong-bass branch, for a cap of at least
0.25: the span clamped into `[0.25, cap]`, never below 0.25. -/
theorem clampedHold_spec (span cap : ℚ) (hcap : 1 / 4 ≤ cap) :
    clampedHold span cap = max (1 / 4) (min span cap) ∧
      1 / 4 ≤ clampedHold span cap ∧ clampedHold span cap ≤ cap ∧
      (span < 1 / 4 → clampedHold span cap = 1 / 4) := by
  have hlo : ¬ min (max span (1 / 4)) cap < 1 / 4 :=
    not_lt.mpr (le_min (le_max_right _ _) hcap)
  have heq : clampedHold span cap = min (max span (1 / 4)) cap := by
    unfold clampedHold stdClamp
    rw [if_neg hlo]
  rw [heq]
  refine ⟨?_, not_lt.mp hlo, min_le_right _ _, fun h => ?_⟩
  · rw [max_comm span (1 / 4), max_min_distrib_left, max_eq_right hcap]
  · rw [max_eq_right (le_of_lt h), min_eq_left hcap]

/-- A preset that can enter the strong-bass branch has a hold cap of at least 0.25. -/
theorem preset_hold_cap (d : Difficulty) (c : Nat)
    (h : chanceOf c < (getDifficultyParams d).holdNoteChance * 2) :
    1 / 4 ≤ (getDifficultyParams d).maxHoldDuration := by
  have hc := chanceOf_nonneg c
  cases d <;> simp only [getDifficultyParams] at h ⊢ <;> linarith

/-- The result of `find?` is the first element that satisfies the test. -/
theorem find?_first {α : Type} (q : α → Bool) :
    ∀ (l : List α),
      (∀ (j : Nat) (b : α), l[j]? = some b → q b = true →
        (∀ (j' : Nat) (b' : α), j' < j → l[j']? = some b' → q b' = false) →
        l.find? q = some b) ∧
      ((∀ (j : Nat) (b : α), l[j]? = some b → q b = false) → l.find? q = none) := by
  intro l
  induction l with
  | nil =>
    constructor
    · intro j b hj; simp at hj
    · intro _; rfl
  | cons a l ih =>
    constructor
    · intro j b hj hq hmin
      cases j with
      | zero =>
        simp only [List.getElem?_cons_zero, Option.some.injEq] at hj
        subst hj
        simp [List.find?, hq]
      | succ j =>
        have ha : q a = false := hmin 0 a (Nat.succ_pos j) List.getElem?_cons_zero
        simp only [List.getElem?_cons_succ] at hj
        rw [List.find?, ha]
        exact ih.1 j b hj hq (fun j' b' hj' hb' =>
          hmin (j' + 1) b' (Nat.succ_lt_succ hj') (by simpa using hb'))
    · intro hall
      have ha : q a = false := hall 0 a List.getElem?_cons_zero
      rw [List.find?, ha]
      exact ih.2 (fun j b hj => hall (j + 1) b (by simpa using hj))

/-- The search loop of the strong-bass branch looks at the beats `i + 1 .. i + 9`. -/
theorem strongBassHoldEnd_spec (beats : List BeatInfo) (i : Nat) (beat : BeatInfo) :
    (∀ (j : Nat) (b : BeatInfo), i < j → j < i + 10 → beats[j]? = some b →
      b.strongBass = true →
      (∀ (j' : Nat) (b' : BeatInfo), i < j' → j' < j → beats[j']? = some b' →
        b'.strongBass = false) →
      strongBassHoldEnd beats i beat = b.timestamp - 1 / 20) ∧
    ((∀ (j : Nat) (b : BeatInfo), i < j → j < i + 10 → beats[j]? = some b →
        b.strongBass = false) →
      strongBassHoldEnd beats i beat = beat.timestamp + 3 / 10) := by
  have hget : ∀ (m : Nat) (b : BeatInfo),
      ((beats.drop (i + 1)).take (i + 10 - (i + 1)))[m]? = some b →
      m < 9 ∧ beats[i + 1 + m]? = some b := by
    intro m b hm
    rw [List.getElem?_take] at hm
    split_ifs at hm with h9
    · rw [List.getElem?_drop] at hm
      exact ⟨by omega, hm⟩
  have hget' : ∀ (m : Nat) (b : BeatInfo), m < 9 → beats[i + 1 + m]? = some b →
      ((beats.drop (i + 1)).take (i + 10 - (i + 1)))[m]? = some b := by
    intro m b hm hb
    rw [List.getElem?_take, if_pos (by omega), List.getElem?_drop]
    exact hb
  have hf := find?_first (fun b : BeatInfo => b.isBass && decide (b.bassStrength > 3 / 2))
    ((beats.drop (i + 1)).take (i + 10 - (i + 1)))
  constructor
  · intro j b hij hj hb hq hmin
    unfold strongBassHoldEnd
    have hjm : i + 1 + (j - (i + 1)) = j := by omega
    rw [hf.1 (j - (i + 1)) b (hget' _ b (by omega) (by rw [hjm]; exact hb)) hq
      (fun j' b' hj' hb' => by
        obtain ⟨h9, hb''⟩ := hget j' b' hb'
        exact hmin (i + 1 + j') b' (by omega) (by omega) hb'')]
  · intro hall
    unfold strongBassHoldEnd
    rw [hf.2 (fun m b hm => by
      obtain ⟨h9, hb⟩ := hget m b hm
      exact hall (i + 1 + m) b (by omega) (by omega) hb)]

theorem bassRun_draws_before_1 :
    (stateBefore bassRun (getDifficultyParams .EXTREME) 1 0 bassRun
      (ComposerState.init mt42)).map ComposerState.draws = some (mt42.drop 2) := by
  norm_num [stateBefore, composeBeat, bassRun, bassBeat, mt42,
    ComposerState.init, selectLane, rngMod, resolveLane, chooseDuration, hiHatDuration,
    strongBassHoldEnd, stdClamp, chanceOf, getDifficultyParams, List.range, List.range.loop,
    Function.update, Note.create, List.find?]

theorem farRun_draws_before_2 :
    (stateBefore farRun (getDifficultyParams .MEDIUM) 2 0 farRun
      (ComposerState.init mt42)).map ComposerState.draws = some (mt42.drop 2) := by
  norm_num [stateBefore, composeBeat, farRun, bassBeat, mt42,
    ComposerState.init, selectLane, rngMod, resolveLane, chooseDuration, hiHatDuration,
    strongBassHoldEnd, stdClamp, chanceOf, getDifficultyParams, List.range, List.range.loop,
    Function.update, Note.create, List.find?]

/-- C23, as stated, fails: in the run of `bassRun` in the preset EXTREME, beat 1 is a strong
bass beat whose chance draw 787846414 passes, its span `holdEnd - beat.timestamp` is
`(1/10 - 1/20) - 1/20 = 0`, below 0.25, and its note is not a tap: `std::clamp` raises the
duration to 0.25 and the note is a hold from 1/20 to 3/10. -/
theorem C23_counterexample :
    ∃ (beat : BeatInfo) (e : Emission) (st : ComposerState),
      generateEmissions bassRun (getDifficultyParams .EXTREME) mt42 = some bassRunEmissions ∧
      bassRun[1]? = some beat ∧ bassRunEmissions[1]? = some e ∧
      beat.isBass = true ∧ beat.bassStrength > 2 ∧
      stateBefore bassRun (getDifficultyParams .EXTREME) 1 0 bassRun
        (ComposerState.init mt42) = some st ∧
      st.draws = 4083286876 :: 787846414 :: mt42.drop 4 ∧
      chanceOf 787846414 < (getDifficultyParams .EXTREME).holdNoteChance * 2 ∧
      strongBassHoldEnd bassRun 1 beat - beat.timestamp = 0 ∧
      e.primary.timestamp = 1 / 20 ∧ e.primary.endTimestamp = 3 / 10 ∧
      e.primary.isHoldNote = true := by
  have hdraws := bassRun_draws_before_1
  cases hst : stateBefore bassRun (getDifficultyParams .EXTREME) 1 0 bassRun
      (ComposerState.init mt42) with
  | none => rw [hst] at hdraws; simp at hdraws
  | some st =>
    rw [hst] at hdraws
    simp only [Option.map_some', Option.some.injEq] at hdraws
    refine ⟨bassBeat (1 / 20) 3, Emission.mk (Note.create (1 / 20) 1 (1 / 4) 1) none, st,
      bassRun_emissions, rfl, rfl, rfl, ?_, rfl, ?_, ?_, ?_, rfl, ?_, ?_⟩
    · norm_num [bassBeat]
    · rw [hdraws]; rfl
    · norm_num [chanceOf, getDifficultyParams]
    · norm_num [strongBassHoldEnd, bassRun, bassBeat, List.find?]
    · norm_num [Note.create]
    · norm_num [Note.isHoldNote, Note.create]

/-- C23, amended: for a strong bass beat (`isBass`, `bassStrength > 2`) the run draws the
lane and then the chance of a hold; when the chance passes, the note lasts
`std::clamp(holdEnd - beat.timestamp, 0.25, maxHoldDuration)`, set to 0 if that value is
below 0.25.  With `maxHoldDuration >= 0.25`, which holds in every preset that can take the
branch, the duration lies in `[0.25, maxHoldDuration]`: the test after the clamp does not
fire, and a span below 0.25 s gives a hold of 0.25 s, not a tap. -/
theorem C23_strong_bass_duration_is_clamped (p : DifficultyParams) (beats : List BeatInfo)
    (draws : List Nat) (es : List Emission) (k : Nat) (beat : BeatInfo) (e : Emission)
    (hgen : generateEmissions beats p draws = some es)
    (hk : beats[k]? = some beat) (he : es[k]? = some e)
    (hb : beat.isBass = true) (hs : beat.bassStrength > 2) :
    ∃ (st : ComposerState) (r c : Nat) (rest : List Nat),
      stateBefore beats p k 0 beats (ComposerState.init draws) = some st ∧
      st.draws = r :: c :: rest ∧
      (chanceOf c < p.holdNoteChance * 2 →
        e.primary.endTimestamp = beat.timestamp +
          clampedHold (strongBassHoldEnd beats k beat - beat.timestamp) p.maxHoldDuration ∧
        ((1 / 4 ≤ p.maxHoldDuration ∨ ∃ d, p = getDifficultyParams d) →
          e.primary.endTimestamp = beat.timestamp +
            max (1 / 4) (min (strongBassHoldEnd beats k beat - beat.timestamp)
              p.maxHoldDuration) ∧
          1 / 4 ≤ e.primary.endTimestamp - e.primary.timestamp ∧
          e.primary.endTimestamp - e.primary.timestamp ≤ p.maxHoldDuration ∧
          e.primary.isHoldNote = true ∧
          e.primary.endTimestamp ≠ e.primary.timestamp ∧
          (strongBassHoldEnd beats k beat - beat.timestamp < 1 / 4 →
            e.primary.endTimestamp = e.primary.timestamp + 1 / 4))) := by
  unfold generateEmissions at hgen
  obtain ⟨st, st', e', hst, he', hcb⟩ :=
    composeLoop_stateBefore beats p beats k 0 (ComposerState.init draws) es beat hgen hk
  rw [he] at he'
  simp only [Option.some.injEq] at he'
  subst he'
  rw [Nat.zero_add] at hcb
  obtain ⟨r, c, rest, hdraws, hdur⟩ := composeBeat_strongBass _ _ _ _ _ _ _ hcb hb hs
  have hts : e.primary.timestamp = beat.timestamp := (composeBeat_primary _ _ _ _ _ _ _ hcb).1
  refine ⟨st, r, c, rest, hst, hdraws, ?_⟩
  intro hch
  have hend := hdur hch
  refine ⟨hend, ?_⟩
  intro hcap
  have hcap' : 1 / 4 ≤ p.maxHoldDuration := by
    rcases hcap with hcap | ⟨d, rfl⟩
    · exact hcap
    · exact preset_hold_cap d c hch
  obtain ⟨h1, h2, h3, h4⟩ := clampedHold_spec
    (strongBassHoldEnd beats k beat - beat.timestamp) p.maxHoldDuration hcap'
  refine ⟨by rw [hend, h1], by rw [hend, hts]; linarith, by rw [hend, hts]; linarith,
    ?_, ?_, ?_⟩
  · unfold Note.isHoldNote
    rw [hend, hts]
    exact decide_eq_true (by linarith)
  · rw [hend, hts]
    intro hc
    linarith
  · intro hspan
    rw [hend, hts, h4 hspan]

/-- C23 (amended) at beat 1 of the run of `bassRun` in the preset EXTREME. -/
theorem C23_strong_bass_duration_is_clamped_witness :
    generateEmissions bassRun (getDifficultyParams .EXTREME) mt42 = some bassRunEmissions ∧
    bassRun[1]? = some (bassBeat (1 / 20) 3) ∧
    bassRunEmissions[1]? = some (Emission.mk (Note.create (1 / 20) 1 (1 / 4) 1) none) ∧
    (bassBeat (1 / 20) 3).isBass = true ∧ (bassBeat (1 / 20) 3).bassStrength > 2 ∧
    ∃ (st : ComposerState) (r c : Nat) (rest : List Nat),
      stateBefore bassRun (getDifficultyParams .EXTREME) 1 0 bassRun
        (ComposerState.init mt42) = some st ∧
      st.draws = r :: c :: rest ∧
      (chanceOf c < (getDifficultyParams .EXTREME).holdNoteChance * 2 →
        (Emission.mk (Note.create (1 / 20) 1 (1 / 4) 1) none).primary.endTimestamp =
          (bassBeat (1 / 20) 3).timestamp +
          clampedHold (strongBassHoldEnd bassRun 1 (bassBeat (1 / 20) 3) -
            (bassBeat (1 / 20) 3).timestamp) (getDifficultyParams .EXTREME).maxHoldDuration ∧
        ((1 / 4 ≤ (getDifficultyParams .EXTREME).maxHoldDuration ∨
            ∃ d, getDifficultyParams .EXTREME = getDifficultyParams d) →
          (Emission.mk (Note.create (1 / 20) 1 (1 / 4) 1) none).primary.endTimestamp =
            (bassBeat (1 / 20) 3).timestamp +
            max (1 / 4) (min (strongBassHoldEnd bassRun 1 (bassBeat (1 / 20) 3) -
              (bassBeat (1 / 20) 3).timestamp)
              (getDifficultyParams .EXTREME).maxHoldDuration) ∧
          1 / 4 ≤ (Emission.mk (Note.create (1 / 20) 1 (1 / 4) 1) none).primary.endTimestamp -
            (Emission.mk (Note.create (1 / 20) 1 (1 / 4) 1) none).primary.timestamp ∧
          (Emission.mk (Note.create (1 / 20) 1 (1 / 4) 1) none).primary.endTimestamp -
            (Emission.mk (Note.create (1 / 20) 1 (1 / 4) 1) none).primary.timestamp ≤
            (getDifficultyParams .EXTREME).maxHoldDuration ∧
          (Emission.mk (Note.create (1 / 20) 1 (1 / 4) 1) none).primary.isHoldNote = true ∧
          (Emission.mk (Note.create (1 / 20) 1 (1 / 4) 1) none).primary.endTimestamp ≠
            (Emission.mk (Note.create (1 / 20) 1 (1 / 4) 1) none).primary.timestamp ∧
          (strongBassHoldEnd bassRun 1 (bassBeat (1 / 20) 3) -
              (bassBeat (1 / 20) 3).timestamp < 1 / 4 →
            (Emission.mk (Note.create (1 / 20) 1 (1 / 4) 1) none).primary.endTimestamp =
              (Emission.mk (Note.create (1 / 20) 1 (1 / 4) 1) none).primary.timestamp +
                1 / 4))) :=
  ⟨bassRun_emissions, rfl, rfl, rfl, by norm_num [bassBeat],
   C23_strong_bass_duration_is_clamped (getDifficultyParams .EXTREME) bassRun mt42
     bassRunEmissions 1 (bassBeat (1 / 20) 3)
     (Emission.mk (Note.create (1 / 20) 1 (1 / 4) 1) none) bassRun_emissions rfl rfl rfl
     (by norm_num [bassBeat])⟩

/-- C24, as stated, fails: in the run of `farRun` in the preset MEDIUM, beat 2 is a strong
bass beat whose chance draw 787846414 passes; the first strong bass beat after it is beat
12, the tenth beat after it, at 6/5.  The search loop stops at beat 11, so the hold end is
`1/5 + 3/10 = 1/2` and not `6/5 - 1/20`, and the note lasts 0.3 s instead of 0.95 s. -/
theorem C24_counterexample :
    ∃ (beat far : BeatInfo) (e : Emission) (st : ComposerState),
      generateEmissions farRun (getDifficultyParams .MEDIUM) mt42 = some farRunEmissions ∧
      farRun[2]? = some beat ∧ farRunEmissions[2]? = some e ∧
      beat.isBass = true ∧ beat.bassStrength > 2 ∧
      stateBefore farRun (getDifficultyParams .MEDIUM) 2 0 farRun
        (ComposerState.init mt42) = some st ∧
      st.draws = 4083286876 :: 787846414 :: mt42.drop 4 ∧
      chanceOf 787846414 < (getDifficultyParams .MEDIUM).holdNoteChance * 2 ∧
      farRun[2 + 10]? = some far ∧ far.strongBass = true ∧
      (∀ (j : Nat) (b : BeatInfo), 2 < j → j < 2 + 10 → farRun[j]? = some b →
        b.strongBass = false) ∧
      far.timestamp - 1 / 20 = 23 / 20 ∧
      strongBassHoldEnd farRun 2 beat = 1 / 2 ∧
      e.primary.timestamp = 1 / 5 ∧ e.primary.endTimestamp = 1 / 2 := by
  have hdraws := farRun_draws_before_2
  cases hst : stateBefore farRun (getDifficultyParams .MEDIUM) 2 0 farRun
      (ComposerState.init mt42) with
  | none => rw [hst] at hdraws; simp at hdraws
  | some st =>
    rw [hst] at hdraws
    simp only [Option.map_some', Option.some.injEq] at hdraws
    refine ⟨bassBeat (1 / 5) 3, bassBeat (6 / 5) 3,
      Emission.mk (Note.create (1 / 5) 0 (3 / 10) 1) none, st,
      farRun_emissions, rfl, rfl, rfl, ?_, rfl, ?_, ?_, rfl, ?_, ?_, ?_, ?_, rfl, ?_⟩
    · norm_num [bassBeat]
    · rw [hdraws]; rfl
    · norm_num [chanceOf, getDifficultyParams]
    · norm_num [BeatInfo.strongBass, bassBeat]
    · intro j b h1 h2 hb
      interval_cases j <;>
        (simp only [farRun, List.getElem?_cons_succ, List.getElem?_cons_zero,
          Option.some.injEq] at hb
         subst hb
         norm_num [BeatInfo.strongBass, bassBeat])
    · norm_num [bassBeat]
    · norm_num [strongBassHoldEnd, farRun, bassBeat, List.find?]
    · norm_num [Note.create]

/-- C24, amended: in the strong-bass hold branch for beat `i` the note lasts the clamped
span `holdEnd - beat.timestamp`, where the unclamped `holdEnd` is
`beats[j].timestamp - 0.05` for the first bass beat `j` with `bassStrength > 1.5` among the
next nine beats, `j` in `i+1 .. i+9` (the loop runs while `j < i + 10`), and
`beat.timestamp + 0.3` when none of those nine beats qualifies. -/
theorem C24_hold_end_search_window (p : DifficultyParams) (beats : List BeatInfo)
    (draws : List Nat) (es : List Emission) (k : Nat) (beat : BeatInfo) (e : Emission)
    (hgen : generateEmissions beats p draws = some es)
    (hk : beats[k]? = some beat) (he : es[k]? = some e)
    (hb : beat.isBass = true) (hs : beat.bassStrength > 2) :
    (∃ (st : ComposerState) (r c : Nat) (rest : List Nat),
      stateBefore beats p k 0 beats (ComposerState.init draws) = some st ∧
      st.draws = r :: c :: rest ∧
      (chanceOf c < p.holdNoteChance * 2 →
        e.primary.endTimestamp = beat.timestamp +
          clampedHold (strongBassHoldEnd beats k beat - beat.timestamp) p.maxHoldDuration)) ∧
    (∀ (j : Nat) (b : BeatInfo), k < j → j < k + 10 → beats[j]? = some b →
      b.strongBass = true →
      (∀ (j' : Nat) (b' : BeatInfo), k < j' → j' < j → beats[j']? = some b' →
        b'.strongBass = false) →
      strongBassHoldEnd beats k beat = b.timestamp - 1 / 20) ∧
    ((∀ (j : Nat) (b : BeatInfo), k < j → j < k + 10 → beats[j]? = some b →
        b.strongBass = false) →
      strongBassHoldEnd beats k beat = beat.timestamp + 3 / 10) := by
  refine ⟨?_, (strongBassHoldEnd_spec beats k beat).1, (strongBassHoldEnd_spec beats k beat).2⟩
  unfold generateEmissions at hgen
  obtain ⟨st, st', e', hst, he', hcb⟩ :=
    composeLoop_stateBefore beats p beats k 0 (ComposerState.init draws) es beat hgen hk
  rw [he] at he'
  simp only [Option.some.injEq] at he'
  subst he'
  rw [Nat.zero_add] at hcb
  obtain ⟨r, c, rest, hdraws, hdur⟩ := composeBeat_strongBass _ _ _ _ _ _ _ hcb hb hs
  exact ⟨st, r, c, rest, hst, hdraws, hdur⟩

/-- C24 (amended) at beat 2 of the run of `farRun` in the preset MEDIUM, where no beat of
3..11 qualifies. -/
theorem C24_hold_end_search_window_witness :
    generateEmissions farRun (getDifficultyParams .MEDIUM) mt42 = some farRunEmissions ∧
    farRun[2]? = some (bassBeat (1 / 5) 3) ∧
    farRunEmissions[2]? = some (Emission.mk (Note.create (1 / 5) 0 (3 / 10) 1) none) ∧
    (bassBeat (1 / 5) 3).isBass = true ∧ (bassBeat (1 / 5) 3).bassStrength > 2 ∧
    ((∃ (st : ComposerState) (r c : Nat) (rest : List Nat),
      stateBefore farRun (getDifficultyParams .MEDIUM) 2 0 farRun
        (ComposerState.init mt42) = some st ∧
      st.draws = r :: c :: rest ∧
      (chanceOf c < (getDifficultyParams .MEDIUM).holdNoteChance * 2 →
        (Emission.mk (Note.create (1 / 5) 0 (3 / 10) 1) none).primary.endTimestamp =
          (bassBeat (1 / 5) 3).timestamp +
          clampedHold (strongBassHoldEnd farRun 2 (bassBeat (1 / 5) 3) -
            (bassBeat (1 / 5) 3).timestamp) (getDifficultyParams .MEDIUM).maxHoldDuration)) ∧
    (∀ (j : Nat) (b : BeatInfo), 2 < j → j < 2 + 10 → farRun[j]? = some b →
      b.strongBass = true →
      (∀ (j' : Nat) (b' : BeatInfo), 2 < j' → j' < j → farRun[j']? = some b' →
        b'.strongBass = false) →
      strongBassHoldEnd farRun 2 (bassBeat (1 / 5) 3) = b.timestamp - 1 / 20) ∧
    ((∀ (j : Nat) (b : BeatInfo), 2 < j → j < 2 + 10 → farRun[j]? = some b →
        b.strongBass = false) →
      strongBassHoldEnd farRun 2 (bassBeat (1 / 5) 3) =
        (bassBeat (1 / 5) 3).timestamp + 3 / 10)) :=
  ⟨farRun_emissions, rfl, rfl, rfl, by norm_num [bassBeat],
   C24_hold_end_search_window (getDifficultyParams .MEDIUM) farRun mt42 farRunEmissions 2
     (bassBeat (1 / 5) 3) (Emission.mk (Note.create (1 / 5) 0 (3 / 10) 1) none)
     farRun_emissions rfl rfl rfl (by norm_num [bassBeat])⟩

/-! ## Double notes (C25) -/

theorem loudRun_emissions :
    generateEmissions loudRun (getDifficultyParams .EXTREME) mt42 = some loudRunEmissions := by
  norm_num [generateEmissions, composeLoop, composeBeat, loudRun, bassBeat, mt42,
    ComposerState.init, selectLane, selectSecondLane, rngMod, resolveLane, chooseDuration,
    hiHatDuration, strongBassHoldEnd, stdClamp, chanceOf, getDifficultyParams, List.range,
    List.range.loop, Function.update, loudRunEmissions, Note.create, List.find?]

/-- A double note is emitted only for a beat with intensity above 1.5, after a chance draw
below `doubleChance`. -/
theorem composeBeat_double (beats : List BeatInfo) (p : DifficultyParams) (i : Nat)
    (beat : BeatInfo) (st st' : ComposerState) (e : Emission) (dn : Note)
    (h : composeBeat beats p i beat st = some (e, st')) (hdn : e.double = some dn) :
    beat.intensity > 3 / 2 ∧ ∃ c, chanceOf c < p.doubleChance := by
  unfold composeBeat at h
  cases hs : selectLane beat st.lastLane st.draws with
  | none => rw [hs] at h; simp at h
  | some r =>
    obtain ⟨lane0, d1⟩ := r
    rw [hs] at h
    dsimp only at h
    cases hd : chooseDuration beats p i beat d1 with
    | none => rw [hd] at h; simp at h
    | some r2 =>
      obtain ⟨duration, d2⟩ := r2
      rw [hd] at h
      dsimp only at h
      by_cases ha : p.allowDoubles = true
      · rw [if_pos ha] at h
        cases d2 with
        | nil => simp at h
        | cons c d3 =>
          dsimp only at h
          by_cases hc : chanceOf c < p.doubleChance ∧ beat.intensity > 3 / 2
          · exact ⟨hc.2, c, hc.1⟩
          · rw [if_neg hc] at h
            cases h
            simp at hdn
      · rw [if_neg ha] at h
        cases h
        simp at hdn

/-- C25: a double note is emitted for a beat only if the profile has `allowDoubles` and
the beat's intensity is above 1.5.  When emitted it is a tap with the timestamp of the
beat and of the primary note and 0.8 times the beat's intensity, in a lane of 0..3 other
than the final lane of the primary note, whose entry of `lastNoteTime` (which the primary
note did not touch) satisfies `beat.timestamp - lastNoteTime[secondLane] >=
minNoteInterval`; after the beat that entry is the beat's timestamp. -/
theorem C25_double_note (p : DifficultyParams) (beats : List BeatInfo)
    (draws : List Nat) (es : List Emission) (k : Nat) (beat : BeatInfo) (e : Emission)
    (dn : Note)
    (hgen : generateEmissions beats p draws = some es)
    (hk : beats[k]? = some beat) (he : es[k]? = some e) (hdn : e.double = some dn) :
    p.allowDoubles = true ∧ beat.intensity > 3 / 2 ∧
    dn.timestamp = beat.timestamp ∧ dn.timestamp = e.primary.timestamp ∧
    dn.endTimestamp = dn.timestamp ∧ dn.isHoldNote = false ∧
    dn.intensity = beat.intensity * (8 / 10) ∧ dn.lane ≠ e.primary.lane ∧
    ∃ (sl L : Nat) (st st' : ComposerState), sl < 4 ∧ dn.lane = (sl : Int) ∧
      e.primary.lane = (L : Int) ∧ sl ≠ L ∧
      stateBefore beats p k 0 beats (ComposerState.init draws) = some st ∧
      stateBefore beats p (k + 1) 0 beats (ComposerState.init draws) = some st' ∧
      beat.timestamp - st.lastNoteTime sl ≥ p.minNoteInterval ∧
      beat.timestamp - Function.update st.lastNoteTime L e.primary.endTimestamp sl ≥
        p.minNoteInterval ∧
      st'.lastNoteTime sl = beat.timestamp ∧
      st'.lastNoteTime L = e.primary.endTimestamp := by
  unfold generateEmissions at hgen
  obtain ⟨st, st', e', hst, hst', he', hcb⟩ :=
    composeLoop_stateAfter beats p beats k 0 (ComposerState.init draws) es beat hgen hk
  rw [he] at he'
  simp only [Option.some.injEq] at he'
  subst he'
  obtain ⟨hint, _⟩ := composeBeat_double _ _ _ _ _ _ _ dn hcb hdn
  obtain ⟨lane0, d1, duration, d2, _, _, hprim, _, hdbl⟩ := composeBeat_spec _ _ _ _ _ _ _ hcb
  generalize resolveLane st.lastNoteTime beat.timestamp p.minNoteInterval lane0 = L
    at hprim hdbl
  rcases hdbl with ⟨hnone, _⟩ | ⟨sl, hsl, hne, ha, hfree, hsome, hlnt⟩
  · rw [hnone] at hdn
    simp at hdn
  · rw [hsome] at hdn
    simp only [Option.some.injEq] at hdn
    subst hdn
    have hlaneNe : ((sl : Nat) : Int) ≠ ((L : Nat) : Int) := fun h => hne (Nat.cast_injective h)
    refine ⟨ha, hint, rfl, by rw [hprim]; rfl, by simp [Note.create], ?_, rfl,
      by rw [hprim]; exact hlaneNe, sl, L, st, st', hsl, rfl, by rw [hprim]; rfl, hne, hst,
      hst', hfree, ?_, ?_, ?_⟩
    · norm_num [Note.isHoldNote, Note.create]
    · rw [Function.update_noteq hne]
      exact hfree
    · rw [hlnt, Function.update_same]
    · rw [hlnt, Function.update_noteq (Ne.symm hne), Function.update_same, hprim]
      rfl

/-- C25 at beat 1 of the run of `loudRun` in the preset EXTREME, which gets a double note
in lane 2. -/
theorem C25_double_note_witness :
    generateEmissions loudRun (getDifficultyParams .EXTREME) mt42 = some loudRunEmissions ∧
    (getDifficultyParams .EXTREME).allowDoubles = true ∧
    (({ bassBeat 1 1 with intensity := 2 } : BeatInfo)).intensity > 3 / 2 ∧
    (Note.create 1 2 0 (8 / 5)).timestamp =
      (({ bassBeat 1 1 with intensity := 2 } : BeatInfo)).timestamp ∧
    (Note.create 1 2 0 (8 / 5)).timestamp = (Note.create 1 0 0 2).timestamp ∧
    (Note.create 1 2 0 (8 / 5)).endTimestamp = (Note.create 1 2 0 (8 / 5)).timestamp ∧
    (Note.create 1 2 0 (8 / 5)).isHoldNote = false ∧
    (Note.create 1 2 0 (8 / 5)).intensity =
      (({ bassBeat 1 1 with intensity := 2 } : BeatInfo)).intensity * (8 / 10) ∧
    (Note.create 1 2 0 (8 / 5)).lane ≠ (Note.create 1 0 0 2).lane :=
  have h := C25_double_note (getDifficultyParams .EXTREME) loudRun mt42 loudRunEmissions 1
    { bassBeat 1 1 with intensity := 2 }
    (Emission.mk (Note.create 1 0 0 2) (some (Note.create 1 2 0 (8 / 5))))
    (Note.create 1 2 0 (8 / 5)) loudRun_emissions rfl rfl rfl
  ⟨loudRun_emissions, h.1, h.2.1, h.2.2.1, h.2.2.2.1, h.2.2.2.2.1, h.2.2.2.2.2.1,
   h.2.2.2.2.2.2.1, h.2.2.2.2.2.2.2.1⟩

/-! ## Active holds of one lane (C26) -/

theorem sameShape_refl (n : Note) : n.sameShape n := ⟨rfl, rfl, rfl⟩

theorem sameShape_trans {a b c : Note} (h1 : a.sameShape b) (h2 : b.sameShape c) :
    a.sameShape c :=
  ⟨h2.1.trans h1.1, h2.2.1.trans h1.2.1, h2.2.2.trans h1.2.2⟩

theorem sameShape_isHoldNote {a b : Note} (h : a.sameShape b) : b.isHoldNote = a.isHoldNote := by
  unfold Note.isHoldNote
  rw [h.1, h.2.1]

theorem heldSince_refl (t : ℚ) (n : Note) : n.heldSince t n :=
  ⟨sameShape_refl n, fun h => Or.inl h⟩

theorem heldSince_trans {t : ℚ} {a b c : Note} (h1 : a.heldSince t b) (h2 : b.heldSince t c) :
    a.heldSince t c := by
  refine ⟨sameShape_trans h1.1 h2.1, ?_⟩
  intro hc
  rcases h2.2 hc with hb | hb
  · exact h1.2 hb
  · right
    rw [← h1.1.1]
    exact hb

theorem forall₂_comp {R1 R2 R3 : Note → Note → Prop}
    (h : ∀ a b c, R1 a b → R2 b c → R3 a c) :
    ∀ {l1 l2 l3 : List Note}, List.Forall₂ R1 l1 l2 → List.Forall₂ R2 l2 l3 →
      List.Forall₂ R3 l1 l3 := by
  intro l1 l2 l3 h12
  induction h12 generalizing l3 with
  | nil => intro h23; cases h23; exact List.Forall₂.nil
  | cons hab _ ih =>
    intro h23
    cases h23 with
    | cons hbc hrest => exact List.Forall₂.cons (h _ _ _ hab hbc) (ih hrest)

theorem forEachNote_rel (R : Note → Note → Prop) (body : Note → Stats → Note × Stats)
    (hbody : ∀ n st, R n (body n st).1) :
    ∀ (l : List Note) (st : Stats), List.Forall₂ R l (forEachNote body l st).1 := by
  intro l
  induction l with
  | nil => intro st; exact List.Forall₂.nil
  | cons n rest ih =>
    intro st
    rw [forEachNote]
    exact List.Forall₂.cons (hbody n st) (ih _)

theorem judgePress_heldSince (cfg : Config) (t : ℚ) (n : Note) (st : Stats) :
    n.heldSince t (judgePress cfg (offsetMs t n) n st).1 := by
  rw [judgePress_note]
  have hnear : offsetMs t n ≤ 100 → (n.timestamp - t) * 1000 ≤ 100 := by
    intro h
    rw [offsetMs_eq] at h
    have := neg_abs_le (t - n.timestamp)
    linarith
  by_cases hh : n.isHoldNote = true
  · rw [if_pos hh]
    by_cases hd : offsetMs t n ≤ 100
    · rw [if_pos hd]
      exact ⟨⟨rfl, rfl, rfl⟩, fun _ => Or.inr (hnear hd)⟩
    · rw [if_neg hd]
      refine ⟨⟨rfl, rfl, rfl⟩, fun h => ?_⟩
      exfalso
      simp [Note.holdActive] at h
  · rw [if_neg hh]
    refine ⟨⟨rfl, rfl, rfl⟩, fun h => ?_⟩
    exfalso
    have h1 : n.isHoldNote = true := by
      simp only [Note.holdActive, Note.isHoldNote, Bool.and_eq_true] at h
      unfold Note.isHoldNote
      exact h.1.1.1
    exact hh h1

theorem forall₂_heldSince_refl (t : ℚ) (l : List Note) :
    List.Forall₂ (Note.heldSince t) l l :=
  List.forall₂_same.mpr (fun n _ => heldSince_refl t n)

theorem processLaneInput_heldSince (cfg : Config) (L : Int) (t : ℚ) (g : Game) :
    List.Forall₂ (Note.heldSince t) g.notes (processLaneInput cfg L t g).notes := by
  rcases processLaneInput_cases cfg L t g with ⟨_, heq⟩ | ⟨k, n, hk, _, _, _, _, heq⟩
  · rw [heq]
    exact forall₂_heldSince_refl t _
  · rw [heq]
    exact forall₂_set_of_rel (heldSince_refl t) g.notes k n _ hk
      (judgePress_heldSince cfg t n g.toStats)

theorem releaseLoop_heldSince (lane : Int) (t : ℚ) :
    ∀ (l : List Note) (st : Stats),
      List.Forall₂ (Note.heldSince t) l (releaseLoop lane t l st).1 := by
  intro l
  induction l with
  | nil => intro st; exact List.Forall₂.nil
  | cons n rest ih =>
    intro st
    unfold releaseLoop
    by_cases hx : n.lane = lane ∧ n.holdActive = true
    · rw [if_pos hx]
      dsimp only
      split_ifs
      · refine List.Forall₂.cons ⟨⟨rfl, rfl, rfl⟩, fun h => ?_⟩ (forall₂_heldSince_refl t rest)
        exfalso
        simp [Note.holdActive] at h
      · refine List.Forall₂.cons ⟨⟨rfl, rfl, rfl⟩, fun h => ?_⟩ (forall₂_heldSince_refl t rest)
        exfalso
        simp [Note.holdActive] at h
      · exact forall₂_heldSince_refl t _
    · rw [if_neg hx]
      exact List.Forall₂.cons (heldSince_refl t n) (ih st)

theorem autoPlayNote_heldSince (cfg : Config) (t : ℚ) (n : Note) (st : Stats) :
    n.heldSince t (autoPlayNote cfg t n st).1 := by
  unfold autoPlayNote
  by_cases hp : n.hit = false ∧ n.missed = false
  · rw [if_pos hp]
    dsimp only
    by_cases hd : (t - n.timestamp) * 1000 ≥ -5 ∧ (t - n.timestamp) * 1000 ≤ 5
    · rw [if_pos hd]
      dsimp only
      have hnear : (n.timestamp - t) * 1000 ≤ 100 := by linarith [hd.1]
      split_ifs
      · exact ⟨⟨rfl, rfl, rfl⟩, fun _ => Or.inr hnear⟩
      · exact ⟨⟨rfl, rfl, rfl⟩, fun _ => Or.inr hnear⟩
    · rw [if_neg hd]
      exact heldSince_refl t n
  · rw [if_neg hp]
    exact heldSince_refl t n

theorem inputPhase_heldSince (cfg : Config) (t : ℚ) (g : Game) :
    List.Forall₂ (Note.heldSince t) g.notes (inputPhase cfg t g).notes := by
  unfold inputPhase
  by_cases ha : cfg.autoPlay = true
  · rw [if_pos ha]
    exact forEachNote_rel _ _ (autoPlayNote_heldSince cfg t) g.notes g.toStats
  · rw [if_neg ha]
    apply laneFold_invariant cfg t
      (fun g' => List.Forall₂ (Note.heldSince t) g.notes g'.notes) _ _ g
      (forall₂_heldSince_refl t _)
    intro g1 x hP
    unfold laneStep
    dsimp only
    have h1 : List.Forall₂ (Note.heldSince t) g.notes
        (if g1.keyPressed x = true then processLaneInput cfg x t g1 else g1).notes := by
      split_ifs
      · exact forall₂_comp (fun a b c (hab : a.heldSince t b) (hbc : b.heldSince t c) =>
          heldSince_trans hab hbc) hP
          (processLaneInput_heldSince cfg x t g1)
      · exact hP
    generalize (if g1.keyPressed x = true then processLaneInput cfg x t g1 else g1) = g2
      at h1 ⊢
    by_cases hr : g2.keyReleased x = true
    · rw [if_pos hr]
      exact forall₂_comp (fun a b c (hab : a.heldSince t b) (hbc : b.heldSince t c) =>
          heldSince_trans hab hbc) h1
        (releaseLoop_heldSince x t g2.notes g2.toStats)
    · rw [if_neg hr]
      exact h1

theorem holdSweepNote_through (cfg : Config) (kh : Int → Bool) (dt t : ℚ) (n : Note)
    (st : Stats) :
    n.sameShape (holdSweepNote cfg kh dt t n st).1 ∧
    ((holdSweepNote cfg kh dt t n st).1.holdActive = true →
      n.holdActive = true ∧ t < (holdSweepNote cfg kh dt t n st).1.endTimestamp) := by
  unfold holdSweepNote
  by_cases ha : n.holdActive = true
  · rw [if_pos ha]
    dsimp only
    by_cases hh : (if cfg.autoPlay = true then true else kh n.lane) = false
    · rw [if_pos hh]
      refine ⟨⟨rfl, rfl, rfl⟩, fun h => ?_⟩
      exfalso
      simp [Note.holdActive] at h
    · rw [if_neg hh]
      by_cases he : t ≥ n.endTimestamp
      · rw [if_pos he]
        refine ⟨⟨rfl, rfl, rfl⟩, fun h => ?_⟩
        exfalso
        simp [Note.holdActive] at h
      · rw [if_neg he]
        exact ⟨⟨rfl, rfl, rfl⟩, fun _ => ⟨ha, not_le.mp he⟩⟩
  · rw [if_neg ha]
    exact ⟨⟨rfl, rfl, rfl⟩, fun h => absurd h ha⟩

theorem missSweepNote_through (t : ℚ) (n : Note) (st : Stats) :
    n.sameShape (missSweepNote t n st).1 ∧
    (missSweepNote t n st).1.holdActive = n.holdActive := by
  unfold missSweepNote
  by_cases hp : n.hit = false ∧ n.missed = false
  · rw [if_pos hp]
    dsimp only
    by_cases hd : (t - n.timestamp) * 1000 > MISS_WINDOW
    · rw [if_pos hd]
      exact ⟨⟨rfl, rfl, rfl⟩, rfl⟩
    · rw [if_neg hd]
      exact ⟨⟨rfl, rfl, rfl⟩, rfl⟩
  · rw [if_neg hp]
    exact ⟨⟨rfl, rfl, rfl⟩, rfl⟩

/-- Note by note, a tick at `t` leaves a hold active only if it was active before or its
start is no later than 100 ms after `t`, and only if it ends after `t`. -/
theorem update_heldThrough (cfg : Config) (dt t : ℚ) (stopped : Bool) (g : Game) :
    List.Forall₂ (Note.heldThrough t) g.notes (update cfg dt t stopped g).notes := by
  have h1 := inputPhase_heldSince cfg t g
  have h2 := forEachNote_rel
    (fun n m => n.sameShape m ∧ (m.holdActive = true → n.holdActive = true ∧
      t < m.endTimestamp))
    (holdSweepNote cfg (inputPhase cfg t g).keyHeld dt t)
    (holdSweepNote_through cfg _ dt t) (inputPhase cfg t g).notes (inputPhase cfg t g).toStats
  have h12 : List.Forall₂ (Note.heldThrough t) g.notes
      (forEachNote (holdSweepNote cfg (inputPhase cfg t g).keyHeld dt t)
        (inputPhase cfg t g).notes (inputPhase cfg t g).toStats).1 := by
    refine forall₂_comp ?_ h1 h2
    intro a b c hab hbc
    refine ⟨sameShape_trans hab.1 hbc.1, fun hc => ?_⟩
    obtain ⟨hb, hend⟩ := hbc.2 hc
    exact ⟨hab.2 hb, hend⟩
  unfold update
  dsimp only
  by_cases ha : cfg.autoPlay = false
  · rw [if_pos ha]
    have h3 := forEachNote_rel
      (fun n m => n.sameShape m ∧ m.holdActive = n.holdActive)
      (missSweepNote t) (missSweepNote_through t)
      (forEachNote (holdSweepNote cfg (inputPhase cfg t g).keyHeld dt t)
        (inputPhase cfg t g).notes (inputPhase cfg t g).toStats).1
      (forEachNote (holdSweepNote cfg (inputPhase cfg t g).keyHeld dt t)
        (inputPhase cfg t g).notes (inputPhase cfg t g).toStats).2
    refine forall₂_comp ?_ h12 h3
    intro a b c hab hbc
    refine ⟨sameShape_trans hab.1 hbc.1, fun hc => ?_⟩
    rw [hbc.2] at hc
    obtain ⟨h, hend⟩ := hab.2 hc
    exact ⟨h, by rw [hbc.1.2.1]; exact hend⟩
  · rw [if_neg ha]
    exact h12

/-- Frames of a non-decreasing clock: the fields that nothing writes are kept, and when at
least one frame ran there is a time (that of the last frame) that every active hold
contains in the interval from 100 ms before its start to its end. -/
theorem runFrames_heldThrough (cfg : Config) :
    ∀ (frames : List Frame) (g : Game) (T : ℚ),
      (∀ n ∈ g.notes, n.holdActive = true → (n.timestamp - T) * 1000 ≤ 100) →
      (∀ f ∈ frames, T ≤ f.t) → frames.Pairwise (fun a b => a.t ≤ b.t) →
      List.Forall₂ Note.sameShape g.notes (runFrames cfg frames g).notes ∧
      (frames ≠ [] → ∃ t, ∀ n ∈ (runFrames cfg frames g).notes, n.holdActive = true →
        (n.timestamp - t) * 1000 ≤ 100 ∧ t < n.endTimestamp) := by
  intro frames
  induction frames with
  | nil =>
    intro g T _ _ _
    exact ⟨List.forall₂_same.mpr (fun n _ => sameShape_refl n), fun h => absurd rfl h⟩
  | cons f rest ih =>
    intro g T hT hle hmono
    have hstep : List.Forall₂ (Note.heldThrough f.t) g.notes (runFrame cfg g f).notes :=
      update_heldThrough cfg f.dt f.t f.soundStopped
        { g with keyPressed := f.keyPressed, keyReleased := f.keyReleased,
                 keyHeld := f.keyHeld }
    have hTf : T ≤ f.t := hle f (List.mem_cons_self f rest)
    have hstrong : ∀ n ∈ (runFrame cfg g f).notes, n.holdActive = true →
        (n.timestamp - f.t) * 1000 ≤ 100 ∧ f.t < n.endTimestamp := by
      intro m hm hact
      obtain ⟨k, hk⟩ := List.getElem?_of_mem hm
      have hlen := hstep.length_eq
      have hklt : k < g.notes.length := by
        rw [hlen]
        exact (List.getElem?_eq_some.mp hk).1
      obtain ⟨m', hm', hrel⟩ := forall₂_getElem? hstep k g.notes[k]
        (List.getElem?_eq_getElem hklt)
      rw [hk] at hm'
      simp only [Option.some.injEq] at hm'
      subst hm'
      obtain ⟨hor, hend⟩ := hrel.2 hact
      refine ⟨?_, hend⟩
      rw [hrel.1.1]
      rcases hor with hb | hb
      · have := hT _ (List.getElem_mem hklt) hb
        linarith
      · exact hb
    obtain ⟨hshape, hex⟩ := ih (runFrame cfg g f) f.t (fun n hn ha => (hstrong n hn ha).1)
      (fun f' hf' => (List.pairwise_cons.mp hmono).1 f' hf') (List.pairwise_cons.mp hmono).2
    refine ⟨?_, fun _ => ?_⟩
    · have hs : List.Forall₂ Note.sameShape g.notes (runFrame cfg g f).notes :=
        List.Forall₂.imp (fun _ _ h => h.1) hstep
      exact forall₂_comp (fun a b c (hab : a.sameShape b) (hbc : b.sameShape c) =>
          sameShape_trans hab hbc) hs hshape
    · by_cases hr : rest = []
      · subst hr
        exact ⟨f.t, hstrong⟩
      · exact hex hr

theorem fresh_not_holdActive {n : Note} (h : n.fresh) : n.holdActive = false := by
  unfold Note.holdActive
  rw [h.2.2.1]
  simp

theorem holdActive_isHoldNote {n : Note} (h : n.holdActive = true) : n.isHoldNote = true := by
  unfold Note.holdActive at h
  simp only [Bool.and_eq_true] at h
  exact h.1.1.1

/-- Two active holds of one lane at different places of the list contradict `holdsApart`
when some time lies in both intervals from 100 ms before the start to the end. -/
theorem apart_excludes (l0 l : List Note) (hshape : List.Forall₂ Note.sameShape l0 l)
    (hapart : l0.Pairwise Note.holdsApart) (T : ℚ)
    (hT : ∀ n ∈ l, n.holdActive = true → (n.timestamp - T) * 1000 ≤ 100 ∧ T < n.endTimestamp)
    (i j : Nat) (a b : Note) (hij : i < j) (hi : l[i]? = some a) (hj : l[j]? = some b)
    (ha : a.holdActive = true) (hb : b.holdActive = true) (hlane : a.lane = b.lane) :
    False := by
  have hlen := hshape.length_eq
  obtain ⟨hi', hai⟩ := List.getElem?_eq_some.mp hi
  obtain ⟨hj', hbj⟩ := List.getElem?_eq_some.mp hj
  have hi0 : i < l0.length := by rw [hlen]; exact hi'
  have hj0 : j < l0.length := by rw [hlen]; exact hj'
  obtain ⟨a', ha', hsa⟩ := forall₂_getElem? hshape i l0[i] (List.getElem?_eq_getElem hi0)
  obtain ⟨b', hb', hsb⟩ := forall₂_getElem? hshape j l0[j] (List.getElem?_eq_getElem hj0)
  rw [hi] at ha'
  rw [hj] at hb'
  simp only [Option.some.injEq] at ha' hb'
  subst ha' hb'
  have hap := List.pairwise_iff_getElem.mp hapart i j hi0 hj0 hij
  have h1 := hT a (List.getElem?_mem hi) ha
  have h2 := hT b (List.getElem?_mem hj) hb
  have hA : l0[i].isHoldNote = true := by
    rw [← sameShape_isHoldNote hsa]; exact holdActive_isHoldNote ha
  have hB : l0[j].isHoldNote = true := by
    rw [← sameShape_isHoldNote hsb]; exact holdActive_isHoldNote hb
  have hL : l0[i].lane = l0[j].lane := by
    rw [← hsa.2.2, ← hsb.2.2]; exact hlane
  rcases hap hL hA hB with h | h
  · rw [← hsa.2.1, ← hsb.1] at h
    linarith [h1.1, h1.2, h2.1, h2.2]
  · rw [← hsb.2.1, ← hsa.1] at h
    linarith [h1.1, h1.2, h2.1, h2.2]

/-- C26, as stated, fails: two hold notes of lane 0 that overlap (second 1 to 3 and second
1.1 to 3.1), pressed on time in two frames with the key down, are both Holding after the
second frame; the state is reachable from the all-Pending list by key changes and update
ticks. -/
theorem C26_counterexample :
    (∀ n ∈ (Game.start [holdAt1, holdAt1b]).notes, n.fresh) ∧
    Reachable (runFrames Config.manual [Frame.pressLane0 1, Frame.pressLane0 (11 / 10)]
      (Game.start [holdAt1, holdAt1b])) ∧
    (runFrames Config.manual [Frame.pressLane0 1, Frame.pressLane0 (11 / 10)]
      (Game.start [holdAt1, holdAt1b])).notes =
      [{ holdAt1 with hit := true, holding := true },
       { holdAt1b with hit := true, holding := true }] ∧
    ({ holdAt1 with hit := true, holding := true } : Note).isHolding ∧
    ({ holdAt1b with hit := true, holding := true } : Note).isHolding ∧
    ({ holdAt1 with hit := true, holding := true } : Note).lane = 0 ∧
    ({ holdAt1b with hit := true, holding := true } : Note).lane = 0 := by
  refine ⟨?_, ?_, ?_, ?_, ?_, rfl, rfl⟩
  · intro n hn
    simp only [Game.start, List.mem_cons, List.mem_singleton, List.not_mem_nil, or_false]
      at hn
    rcases hn with rfl | rfl <;> exact ⟨rfl, rfl, rfl, rfl, rfl⟩
  · have h0 : Reachable (Game.start [holdAt1, holdAt1b]) := by
      apply Reachable.init
      intro n hn
      simp only [Game.start, List.mem_cons, List.mem_singleton, List.not_mem_nil, or_false]
        at hn
      rcases hn with rfl | rfl <;> exact ⟨rfl, rfl, rfl, rfl, rfl⟩
    have hframe : ∀ (g : Game) (f : Frame), Reachable g → Reachable (runFrame Config.manual g f) :=
      fun g f hg => Reachable.step
        (Reachable.step hg (EngineStep.keys f.keyPressed f.keyReleased f.keyHeld g))
        (EngineStep.tick Config.manual f.dt f.t f.soundStopped _)
    exact hframe _ _ (hframe _ _ h0)
  · simp only [runFrames, List.foldl, runFrame, Frame.pressLane0, update, inputPhase,
      Config.manual]
    norm_num [laneStep, NUM_LANES, List.range, List.range.loop, Game.start, forEachNote,
      holdSweepNote, missSweepNote, processLaneInput, findClosest, judgePress, fabs,
      holdAt1, holdAt1b, Note.create, Note.holdActive, Note.isHoldNote,
      MISS_WINDOW, PERFECT_WINDOW, GOOD_WINDOW, Stats.zero]
  · norm_num [Note.isHolding, Note.isHoldNote, holdAt1, Note.create]
  · norm_num [Note.isHolding, Note.isHoldNote, holdAt1b, Note.create]

/-- C26, amended: start from an all-Pending note list in which any two hold notes of one
lane keep apart by 100 ms (`GOOD_WINDOW`: one ends at least that long before the other
starts), and run any number of frames (`processEvents`, then `update`) of a non-decreasing
clock, in manual play or auto-play.  Then each lane holds at most one active hold (and so
at most one Holding note), and a call of `processLaneRelease` for the lane of an active
hold acts on that note and on no other. -/
theorem C26_one_active_hold_per_lane (cfg : Config) (g0 : Game) (frames : List Frame)
    (hfresh : ∀ n ∈ g0.notes, n.fresh)
    (hmono : frames.Pairwise (fun a b => a.t ≤ b.t))
    (hapart : g0.notes.Pairwise Note.holdsApart) :
    (∀ (i j : Nat) (a b : Note), (runFrames cfg frames g0).notes[i]? = some a →
      (runFrames cfg frames g0).notes[j]? = some b →
      a.holdActive = true → b.holdActive = true → a.lane = b.lane → i = j) ∧
    (∀ (i : Nat) (a : Note) (t : ℚ), (runFrames cfg frames g0).notes[i]? = some a →
      a.holdActive = true →
      (processLaneRelease cfg a.lane t (runFrames cfg frames g0)).notes =
        if fabs (t - a.endTimestamp) * 1000 ≤ GOOD_WINDOW then
          (runFrames cfg frames g0).notes.set i a.completed
        else if t < a.endTimestamp then (runFrames cfg frames g0).notes.set i a.failed
        else (runFrames cfg frames g0).notes) := by
  have huniq : ∀ (i j : Nat) (a b : Note), (runFrames cfg frames g0).notes[i]? = some a →
      (runFrames cfg frames g0).notes[j]? = some b →
      a.holdActive = true → b.holdActive = true → a.lane = b.lane → i = j := by
    cases frames with
    | nil =>
      intro i j a b hi _ ha _ _
      exfalso
      have := fresh_not_holdActive (hfresh a (List.getElem?_mem hi))
      rw [this] at ha
      exact absurd ha (by decide)
    | cons f rest =>
      obtain ⟨hshape, hex⟩ := runFrames_heldThrough cfg (f :: rest) g0 f.t
        (fun n hn ha => by
          exfalso
          rw [fresh_not_holdActive (hfresh n hn)] at ha
          exact absurd ha (by decide))
        (fun f' hf' => by
          rcases List.mem_cons.mp hf' with h | h
          · rw [h]
          · exact (List.pairwise_cons.mp hmono).1 f' h)
        hmono
      obtain ⟨T, hT⟩ := hex (List.cons_ne_nil f rest)
      intro i j a b hi hj ha hb hlane
      rcases Nat.lt_trichotomy i j with hlt | heq | hgt
      · exact (apart_excludes _ _ hshape hapart T hT i j a b hlt hi hj ha hb hlane).elim
      · exact heq
      · exact (apart_excludes _ _ hshape hapart T hT j i b a hgt hj hi hb ha hlane.symm).elim
  refine ⟨huniq, ?_⟩
  intro i a t hi ha
  have hfirst := releaseLoop_first a.lane t (runFrames cfg frames g0).notes
    (runFrames cfg frames g0).toStats i a hi rfl ha
    (fun j m hj hjm hlane => by
      cases hm : m.holdActive with
      | false => rfl
      | true =>
        exfalso
        have := huniq j i m a hjm hi hm ha hlane
        omega)
  unfold processLaneRelease
  dsimp only
  rw [hfirst]
  split_ifs <;> rfl

/-- C26 (amended) at two hold notes of lane 0 that keep apart (second 1 to 3 and second 4
to 6), each pressed on time with the key down. -/
theorem C26_one_active_hold_per_lane_witness :
    (∀ n ∈ (Game.start [holdAt1, holdAt4]).notes, n.fresh) ∧
    [Frame.pressLane0 1, Frame.pressLane0 4].Pairwise (fun a b => a.t ≤ b.t) ∧
    (Game.start [holdAt1, holdAt4]).notes.Pairwise Note.holdsApart ∧
    (∀ (i j : Nat) (a b : Note),
      (runFrames Config.manual [Frame.pressLane0 1, Frame.pressLane0 4]
        (Game.start [holdAt1, holdAt4])).notes[i]? = some a →
      (runFrames Config.manual [Frame.pressLane0 1, Frame.pressLane0 4]
        (Game.start [holdAt1, holdAt4])).notes[j]? = some b →
      a.holdActive = true → b.holdActive = true → a.lane = b.lane → i = j) :=
  have hfresh : ∀ n ∈ (Game.start [holdAt1, holdAt4]).notes, n.fresh := by
    intro n hn
    simp only [Game.start, List.mem_cons, List.mem_singleton, List.not_mem_nil, or_false]
      at hn
    rcases hn with rfl | rfl <;> exact ⟨rfl, rfl, rfl, rfl, rfl⟩
  have hmono : [Frame.pressLane0 1, Frame.pressLane0 4].Pairwise (fun a b => a.t ≤ b.t) := by
    norm_num [Frame.pressLane0]
  have hapart : (Game.start [holdAt1, holdAt4]).notes.Pairwise Note.holdsApart := by
    simp only [Game.start, List.pairwise_cons, List.mem_singleton, List.not_mem_nil,
      forall_eq, List.Pairwise.nil, and_true, IsEmpty.forall_iff, implies_true]
    intro _ _ _
    left
    norm_num [holdAt1, holdAt4, Note.create]
  ⟨hfresh, hmono, hapart,
   (C26_one_active_hold_per_lane Config.manual (Game.start [holdAt1, holdAt4])
     [Frame.pressLane0 1, Frame.pressLane0 4] hfresh hmono hapart).1⟩

/-! ## Notes skipped by auto-play (C28) -/

/-- An auto-play tick later than 5 ms after the start of a Pending note leaves it Pending
(unchanged unless it carries an active hold), and does not flag the end of the session. -/
theorem update_auto_skipped (cfg : Config) (hauto : cfg.autoPlay = true) (g : Game)
    (dt t : ℚ) (stopped : Bool) (i : Nat) (n : Note)
    (hi : g.notes[i]? = some n) (hh : n.hit = false) (hm : n.missed = false)
    (hlate : (t - n.timestamp) * 1000 > 5) :
    (∃ n', (update cfg dt t stopped g).notes[i]? = some n' ∧ n'.hit = false ∧
      n'.missed = false ∧ n'.timestamp = n.timestamp ∧
      (n.holdActive = false → n' = n)) ∧
    checkDone (update cfg dt t stopped g).notes = false ∧
    (update cfg dt t stopped g).gameEnded = g.gameEnded := by
  have hdue : ¬ n.autoDue t = true := by
    intro hd
    have := (of_decide_eq_true hd).2.2.2
    linarith
  have hinput : (inputPhase cfg t g).notes[i]? = some n := by
    unfold inputPhase
    rw [if_pos hauto]
    unfold updateAutoPlay
    dsimp only
    rw [(autoPlay_eq cfg t g.notes g.toStats).1, List.getElem?_map, hi, Option.map_some',
      if_neg hdue]
  have hnote : ∃ n', (update cfg dt t stopped g).notes[i]? = some n' ∧ n'.hit = false ∧
      n'.missed = false ∧ n'.timestamp = n.timestamp ∧ (n.holdActive = false → n' = n) := by
    rw [update_notes_auto cfg dt t stopped g hauto, List.getElem?_map, hinput,
      Option.map_some']
    refine ⟨_, rfl, ?_, ?_, ?_, ?_⟩
    · rcases holdSweepNote_fst_cases cfg (inputPhase cfg t g).keyHeld dt t n Stats.zero
        with h | h | h <;> rw [h] <;> exact hh
    · rcases holdSweepNote_fst_cases cfg (inputPhase cfg t g).keyHeld dt t n Stats.zero
        with h | h | h <;> rw [h] <;> exact hm
    · rcases holdSweepNote_fst_cases cfg (inputPhase cfg t g).keyHeld dt t n Stats.zero
        with h | h | h <;> rw [h] <;> rfl
    · intro hina
      rw [holdSweepNote_inactive cfg _ dt t n Stats.zero hina]
  obtain ⟨n', hn', hh', hm', _, _⟩ := hnote
  have hdone : checkDone (update cfg dt t stopped g).notes = false := by
    cases hc : checkDone (update cfg dt t stopped g).notes with
    | false => rfl
    | true =>
      exfalso
      have := ((checkDone_iff _).mp hc n' (List.getElem?_mem hn')).1
      rcases this with h | h
      · rw [hh'] at h; exact absurd h (by decide)
      · rw [hm'] at h; exact absurd h (by decide)
  refine ⟨⟨n', hn', hh', hm', by assumption, by assumption⟩, hdone, ?_⟩
  rw [update_gameEnded, hdone]
  split_ifs <;> first | rfl | (rename_i h; exact absurd h (by decide))

theorem runFrames_auto_skipped (cfg : Config) (hauto : cfg.autoPlay = true) (i : Nat)
    (n : Note) :
    ∀ (frames : List Frame) (g : Game) (n0 : Note), g.notes[i]? = some n0 →
      n0.hit = false → n0.missed = false → n0.timestamp = n.timestamp →
      (n.holdActive = false → n0 = n) →
      (∀ f ∈ frames, (f.t - n.timestamp) * 1000 > 5) →
      (∃ n', (runFrames cfg frames g).notes[i]? = some n' ∧ n'.hit = false ∧
        n'.missed = false ∧ n'.timestamp = n.timestamp ∧
        (n.holdActive = false → n' = n)) ∧
      (runFrames cfg frames g).gameEnded = g.gameEnded ∧
      (frames ≠ [] → checkDone (runFrames cfg frames g).notes = false) := by
  intro frames
  induction frames with
  | nil =>
    intro g n0 hi h1 h2 h3 h4 _
    exact ⟨⟨n0, hi, h1, h2, h3, h4⟩, rfl, fun h => absurd rfl h⟩
  | cons f rest ih =>
    intro g n0 hi h1 h2 h3 h4 hlate
    have hf := hlate f (List.mem_cons_self f rest)
    rw [← h3] at hf
    obtain ⟨⟨n1, hn1, hh1, hm1, hts1, hsame1⟩, hdone1, hend1⟩ :=
      update_auto_skipped cfg hauto
        { g with keyPressed := f.keyPressed, keyReleased := f.keyReleased,
                 keyHeld := f.keyHeld } f.dt f.t f.soundStopped i n0 hi h1 h2 hf
    have hkeep : n.holdActive = false → n1 = n := by
      intro hina
      have h0 := h4 hina
      rw [h0] at hsame1
      rw [hsame1 hina]
    obtain ⟨hnote, hended, hdone⟩ := ih (runFrame cfg g f) n1 hn1 hh1 hm1 (hts1.trans h3) hkeep
      (fun f' hf' => hlate f' (List.mem_cons_of_mem f hf'))
    refine ⟨hnote, ?_, ?_⟩
    · show (runFrames cfg rest (runFrame cfg g f)).gameEnded = g.gameEnded
      rw [hended]
      exact hend1
    · intro _
      show checkDone (runFrames cfg rest (runFrame cfg g f)).notes = false
      by_cases hr : rest = []
      · subst hr
        exact hdone1
      · exact hdone hr

/-- C28: in auto-play, take a Pending note and frames of a non-decreasing clock whose first
tick already lies more than 5 ms after the note's start.  After these frames, however
many, the note is still Pending: `hit` and `missed` are false (the note is unchanged
unless its `holding` flag was set), the scan of the end check finds a Pending note, and
`gameEnded` has the value it had before. -/
theorem C28_skipped_note_stays_pending (cfg : Config) (hauto : cfg.autoPlay = true)
    (g : Game) (frames : List Frame) (i : Nat) (n : Note)
    (hi : g.notes[i]? = some n) (hh : n.hit = false) (hm : n.missed = false)
    (hmono : frames.Pairwise (fun a b => a.t ≤ b.t))
    (hfirst : ∀ f ∈ frames.head?, (f.t - n.timestamp) * 1000 > 5) :
    (∃ n', (runFrames cfg frames g).notes[i]? = some n' ∧ n'.hit = false ∧
      n'.missed = false ∧ n'.timestamp = n.timestamp ∧ (n.holdActive = false → n' = n)) ∧
    (runFrames cfg frames g).gameEnded = g.gameEnded ∧
    (frames ≠ [] → checkDone (runFrames cfg frames g).notes = false) := by
  have hlate : ∀ f ∈ frames, (f.t - n.timestamp) * 1000 > 5 := by
    cases frames with
    | nil => intro f hf; simp at hf
    | cons f0 rest =>
      have h0 := hfirst f0 (by simp)
      intro f hf
      rcases List.mem_cons.mp hf with hf | hf
      · rw [hf]; exact h0
      · have := (List.pairwise_cons.mp hmono).1 f hf
        linarith
  exact runFrames_auto_skipped cfg hauto i n frames g n hi hh hm rfl (fun _ => rfl) hlate

/-- C28 at the tap note of lane 2 (second 1): auto-play frames at seconds 2 and 3 leave it
Pending, and the session is not flagged ended although playback has stopped. -/
theorem C28_skipped_note_stays_pending_witness :
    Config.auto.autoPlay = true ∧ (Game.start [tapAt1]).notes[0]? = some tapAt1 ∧
    tapAt1.hit = false ∧ tapAt1.missed = false ∧
    [Frame.idle 2, Frame.idle 3].Pairwise (fun a b => a.t ≤ b.t) ∧
    (∀ f ∈ [Frame.idle 2, Frame.idle 3].head?, (f.t - tapAt1.timestamp) * 1000 > 5) ∧
    (∃ n', (runFrames Config.auto [Frame.idle 2, Frame.idle 3]
        (Game.start [tapAt1])).notes[0]? = some n' ∧ n'.hit = false ∧
      n'.missed = false ∧ n'.timestamp = tapAt1.timestamp ∧
      (tapAt1.holdActive = false → n' = tapAt1)) ∧
    (runFrames Config.auto [Frame.idle 2, Frame.idle 3] (Game.start [tapAt1])).gameEnded =
      (Game.start [tapAt1]).gameEnded ∧
    ([Frame.idle 2, Frame.idle 3] ≠ [] →
      checkDone (runFrames Config.auto [Frame.idle 2, Frame.idle 3]
        (Game.start [tapAt1])).notes = false) :=
  have hmono : [Frame.idle 2, Frame.idle 3].Pairwise (fun a b => a.t ≤ b.t) := by
    norm_num [Frame.idle]
  have hfirst : ∀ f ∈ [Frame.idle 2, Frame.idle 3].head?,
      (f.t - tapAt1.timestamp) * 1000 > 5 := by
    intro f hf
    simp only [List.head?_cons, Option.mem_def, Option.some.injEq] at hf
    subst hf
    norm_num [Frame.idle, tapAt1, Note.create]
  ⟨rfl, rfl, rfl, rfl, hmono, hfirst,
   C28_skipped_note_stays_pending Config.auto rfl (Game.start [tapAt1])
     [Frame.idle 2, Frame.idle 3] 0 tapAt1 rfl rfl rfl hmono hfirst⟩

/-! ## The combo counters (C29) -/

theorem judgePress_combo (cfg : Config) (d : ℚ) (n : Note) (st : Stats) (m : Int)
    (h : st.comboOk ∧ m ≤ st.maxCombo) :
    (judgePress cfg d n st).2.comboOk ∧ m ≤ (judgePress cfg d n st).2.maxCombo := by
  obtain ⟨⟨h0, h1⟩, h2⟩ := h
  unfold judgePress Stats.comboOk
  dsimp only
  split_ifs <;> dsimp only <;> omega

theorem processLaneInput_combo (cfg : Config) (L : Int) (t : ℚ) (g : Game) (m : Int)
    (h : g.toStats.comboOk ∧ m ≤ g.maxCombo) :
    (processLaneInput cfg L t g).toStats.comboOk ∧ m ≤ (processLaneInput cfg L t g).maxCombo := by
  rcases processLaneInput_cases cfg L t g with ⟨_, heq⟩ | ⟨k, n, _, _, _, _, _, heq⟩
  · rw [heq]; exact h
  · rw [heq]
    exact judgePress_combo cfg _ n g.toStats m h

theorem releaseLoop_combo (lane : Int) (t : ℚ) (m : Int) :
    ∀ (l : List Note) (st : Stats), (st.comboOk ∧ m ≤ st.maxCombo) →
      (releaseLoop lane t l st).2.comboOk ∧ m ≤ (releaseLoop lane t l st).2.maxCombo := by
  intro l
  induction l with
  | nil => intro st h; exact h
  | cons n rest ih =>
    intro st h
    obtain ⟨⟨h0, h1⟩, h2⟩ := h
    unfold releaseLoop
    by_cases hx : n.lane = lane ∧ n.holdActive = true
    · rw [if_pos hx]
      dsimp only
      unfold Stats.comboOk
      split_ifs <;> dsimp only <;> omega
    · rw [if_neg hx]
      exact ih st ⟨⟨h0, h1⟩, h2⟩

theorem processLaneRelease_combo (cfg : Config) (L : Int) (t : ℚ) (g : Game) (m : Int)
    (h : g.toStats.comboOk ∧ m ≤ g.maxCombo) :
    (processLaneRelease cfg L t g).toStats.comboOk ∧
      m ≤ (processLaneRelease cfg L t g).maxCombo :=
  releaseLoop_combo L t m g.notes g.toStats h

theorem autoPlayNote_combo (cfg : Config) (t : ℚ) (n : Note) (st : Stats) (m : Int)
    (h : st.comboOk ∧ m ≤ st.maxCombo) :
    (autoPlayNote cfg t n st).2.comboOk ∧ m ≤ (autoPlayNote cfg t n st).2.maxCombo := by
  obtain ⟨⟨h0, h1⟩, h2⟩ := h
  unfold autoPlayNote Stats.comboOk
  by_cases hp : n.hit = false ∧ n.missed = false
  · rw [if_pos hp]
    dsimp only
    by_cases hd : (t - n.timestamp) * 1000 ≥ -5 ∧ (t - n.timestamp) * 1000 ≤ 5
    · rw [if_pos hd]
      dsimp only
      omega
    · rw [if_neg hd]
      exact ⟨⟨h0, h1⟩, h2⟩
  · rw [if_neg hp]
    exact ⟨⟨h0, h1⟩, h2⟩

theorem holdSweepNote_combo (cfg : Config) (kh : Int → Bool) (dt t : ℚ) (n : Note)
    (st : Stats) (m : Int) (h : st.comboOk ∧ m ≤ st.maxCombo) :
    (holdSweepNote cfg kh dt t n st).2.comboOk ∧
      m ≤ (holdSweepNote cfg kh dt t n st).2.maxCombo := by
  obtain ⟨⟨h0, h1⟩, h2⟩ := h
  unfold holdSweepNote Stats.comboOk
  by_cases ha : n.holdActive = true
  · rw [if_pos ha]
    dsimp only
    by_cases hh : (if cfg.autoPlay = true then true else kh n.lane) = false
    · rw [if_pos hh]
      dsimp only
      omega
    · rw [if_neg hh]
      by_cases he : t ≥ n.endTimestamp
      · rw [if_pos he]
        dsimp only
        omega
      · rw [if_neg he]
        exact ⟨⟨h0, h1⟩, h2⟩
  · rw [if_neg ha]
    exact ⟨⟨h0, h1⟩, h2⟩

theorem missSweepNote_combo (t : ℚ) (n : Note) (st : Stats) (m : Int)
    (h : st.comboOk ∧ m ≤ st.maxCombo) :
    (missSweepNote t n st).2.comboOk ∧ m ≤ (missSweepNote t n st).2.maxCombo := by
  obtain ⟨⟨h0, h1⟩, h2⟩ := h
  unfold missSweepNote Stats.comboOk
  by_cases hp : n.hit = false ∧ n.missed = false
  · rw [if_pos hp]
    dsimp only
    by_cases hd : (t - n.timestamp) * 1000 > MISS_WINDOW
    · rw [if_pos hd]
      dsimp only
      omega
    · rw [if_neg hd]
      exact ⟨⟨h0, h1⟩, h2⟩
  · rw [if_neg hp]
    exact ⟨⟨h0, h1⟩, h2⟩

theorem updateAutoPlay_combo (cfg : Config) (t : ℚ) (g : Game) (m : Int)
    (h : g.toStats.comboOk ∧ m ≤ g.maxCombo) :
    (updateAutoPlay cfg t g).toStats.comboOk ∧ m ≤ (updateAutoPlay cfg t g).maxCombo :=
  forEachNote_stats_invariant (autoPlayNote cfg t) (fun st => st.comboOk ∧ m ≤ st.maxCombo)
    (fun n st hst => autoPlayNote_combo cfg t n st m hst) g.notes g.toStats h

theorem inputPhase_combo (cfg : Config) (t : ℚ) (g : Game) (m : Int)
    (h : g.toStats.comboOk ∧ m ≤ g.maxCombo) :
    (inputPhase cfg t g).toStats.comboOk ∧ m ≤ (inputPhase cfg t g).maxCombo := by
  unfold inputPhase
  by_cases ha : cfg.autoPlay = true
  · rw [if_pos ha]
    exact updateAutoPlay_combo cfg t g m h
  · rw [if_neg ha]
    apply laneFold_invariant cfg t (fun g' => g'.toStats.comboOk ∧ m ≤ g'.maxCombo) _ _ g h
    intro g1 x hP
    unfold laneStep
    dsimp only
    have h1 : (if g1.keyPressed x = true then processLaneInput cfg x t g1
        else g1).toStats.comboOk ∧
        m ≤ (if g1.keyPressed x = true then processLaneInput cfg x t g1 else g1).maxCombo := by
      split_ifs
      · exact processLaneInput_combo cfg x t g1 m hP
      · exact hP
    generalize (if g1.keyPressed x = true then processLaneInput cfg x t g1 else g1) = g2
      at h1 ⊢
    by_cases hr : g2.keyReleased x = true
    · rw [if_pos hr]
      exact processLaneRelease_combo cfg x t g2 m h1
    · rw [if_neg hr]
      exact h1

theorem update_combo (cfg : Config) (dt t : ℚ) (stopped : Bool) (g : Game) (m : Int)
    (h : g.toStats.comboOk ∧ m ≤ g.maxCombo) :
    (update cfg dt t stopped g).toStats.comboOk ∧ m ≤ (update cfg dt t stopped g).maxCombo := by
  have h1 := inputPhase_combo cfg t g m h
  have h2 := forEachNote_stats_invariant (holdSweepNote cfg (inputPhase cfg t g).keyHeld dt t)
    (fun st => st.comboOk ∧ m ≤ st.maxCombo)
    (fun n st hst => holdSweepNote_combo cfg _ dt t n st m hst)
    (inputPhase cfg t g).notes (inputPhase cfg t g).toStats h1
  unfold update
  dsimp only
  by_cases ha : cfg.autoPlay = false
  · rw [if_pos ha]
    exact forEachNote_stats_invariant (missSweepNote t)
      (fun st => st.comboOk ∧ m ≤ st.maxCombo)
      (fun n st hst => missSweepNote_combo t n st m hst) _ _ h2
  · rw [if_neg ha]
    exact h2

/-- C29: `0 <= combo <= maxCombo` holds for the counters of a new session and after
`restartGame`, and every engine operation keeps it and does not lower maxCombo:
`processLaneInput`, `processLaneRelease`, `updateAutoPlay`, the whole `update` tick (input
block, hold completion and failure, passive miss), and event polling, at any times and in
any order. -/
theorem C29_combo_bounded_by_maxCombo :
    Stats.zero.comboOk ∧
    (∀ notes : List Note, (Game.start notes).toStats.comboOk) ∧
    (∀ g : Game, (restartGame g).toStats.comboOk) ∧
    (∀ (cfg : Config) (L : Int) (t : ℚ) (g : Game), g.toStats.comboOk →
      (processLaneInput cfg L t g).toStats.comboOk ∧
        g.maxCombo ≤ (processLaneInput cfg L t g).maxCombo) ∧
    (∀ (cfg : Config) (L : Int) (t : ℚ) (g : Game), g.toStats.comboOk →
      (processLaneRelease cfg L t g).toStats.comboOk ∧
        g.maxCombo ≤ (processLaneRelease cfg L t g).maxCombo) ∧
    (∀ (cfg : Config) (t : ℚ) (g : Game), g.toStats.comboOk →
      (updateAutoPlay cfg t g).toStats.comboOk ∧
        g.maxCombo ≤ (updateAutoPlay cfg t g).maxCombo) ∧
    (∀ (cfg : Config) (dt t : ℚ) (stopped : Bool) (g : Game), g.toStats.comboOk →
      (update cfg dt t stopped g).toStats.comboOk ∧
        g.maxCombo ≤ (update cfg dt t stopped g).maxCombo) ∧
    (∀ g g' : Game, EngineStep g g' → g.toStats.comboOk →
      g'.toStats.comboOk ∧ g.maxCombo ≤ g'.maxCombo) := by
  have hzero : Stats.zero.comboOk := ⟨le_refl 0, le_refl 0⟩
  refine ⟨hzero, fun _ => hzero, fun _ => hzero,
    fun cfg L t g h => processLaneInput_combo cfg L t g g.maxCombo ⟨h, le_refl _⟩,
    fun cfg L t g h => processLaneRelease_combo cfg L t g g.maxCombo ⟨h, le_refl _⟩,
    fun cfg t g h => updateAutoPlay_combo cfg t g g.maxCombo ⟨h, le_refl _⟩,
    fun cfg dt t stopped g h => update_combo cfg dt t stopped g g.maxCombo ⟨h, le_refl _⟩, ?_⟩
  intro g g' hstep h
  cases hstep with
  | press cfg L t => exact processLaneInput_combo cfg L t g g.maxCombo ⟨h, le_refl _⟩
  | release cfg L t => exact processLaneRelease_combo cfg L t g g.maxCombo ⟨h, le_refl _⟩
  | tick cfg dt t stopped => exact update_combo cfg dt t stopped g g.maxCombo ⟨h, le_refl _⟩
  | autoTick cfg t => exact updateAutoPlay_combo cfg t g g.maxCombo ⟨h, le_refl _⟩
  | keys kp kr kh => exact ⟨h, le_refl _⟩

/-- C29 at the session with one hold note pressed on time (combo 1, maxCombo 1): the tick
that fails the hold resets combo to 0 and keeps maxCombo at 1. -/
theorem C29_combo_bounded_by_maxCombo_witness :
    holdingGame.toStats.comboOk ∧
    (update Config.manual 0 2 false holdingGame).toStats.comboOk ∧
    holdingGame.maxCombo ≤ (update Config.manual 0 2 false holdingGame).maxCombo :=
  have h : holdingGame.toStats.comboOk := by
    rw [holdingGame_eq]
    exact ⟨by decide, by decide⟩
  ⟨h, C29_combo_bounded_by_maxCombo.2.2.2.2.2.2.1 Config.manual 0 2 false holdingGame h⟩

/-! ## Range of the beat strengths (C30) -/

theorem sum_map_nonneg {α : Type} (l : List α) (f : α → ℚ) (h : ∀ a ∈ l, 0 ≤ f a) :
    0 ≤ (l.map f).sum := by
  induction l with
  | nil => simp
  | cons a l ih =>
    rw [List.map_cons, List.sum_cons]
    exact add_nonneg (h a (List.mem_cons_self a l))
      (ih (fun b hb => h b (List.mem_cons_of_mem a hb)))

theorem bassEnergyOf_nonneg (samples : List Int) (channelCount i : Nat) :
    0 ≤ bassEnergyOf samples channelCount i := by
  unfold bassEnergyOf
  apply div_nonneg
  · apply sum_map_nonneg
    intro j _
    exact mul_self_nonneg _
  · exact Nat.cast_nonneg _

theorem midEnergyOf_nonneg (samples : List Int) (channelCount i : Nat) :
    0 ≤ midEnergyOf samples channelCount i := by
  unfold midEnergyOf
  apply div_nonneg
  · apply sum_map_nonneg
    intro j _
    exact mul_self_nonneg _
  · exact Nat.cast_nonneg _

theorem highEnergyOf_nonneg (samples : List Int) (channelCount i : Nat) :
    0 ≤ highEnergyOf samples channelCount i := by
  unfold highEnergyOf
  apply div_nonneg
  · apply sum_map_nonneg
    intro j _
    exact mul_self_nonneg _
  · exact Nat.cast_nonneg _

/-- A history of at most 43 entries, none negative, that holds `e`: the ratio of `e` to
the floored average is between 0 and 43. -/
theorem ratio_le_length (hist : List ℚ) (e : ℚ) (hmem : e ∈ hist)
    (hnn : ∀ x ∈ hist, 0 ≤ x) (hlen : hist.length ≤ 43) :
    0 ≤ e / max (average hist) (1 / 1000) ∧ e / max (average hist) (1 / 1000) ≤ 43 := by
  have he : 0 ≤ e := hnn e hmem
  have hpos : (0 : ℚ) < max (average hist) (1 / 1000) :=
    lt_of_lt_of_le (by norm_num) (le_max_right _ _)
  have hlen0 : 0 < hist.length := List.length_pos_of_mem hmem
  have hlenq : (0 : ℚ) < (hist.length : ℚ) := by exact_mod_cast hlen0
  have hsum : e ≤ hist.sum := List.single_le_sum hnn e hmem
  have havg : hist.sum = (hist.length : ℚ) * average hist := by
    unfold average
    field_simp
  have havg0 : 0 ≤ average hist := by
    unfold average
    exact div_nonneg (le_trans he hsum) (le_of_lt hlenq)
  have hlen43 : (hist.length : ℚ) ≤ 43 := by exact_mod_cast hlen
  refine ⟨div_nonneg he (le_of_lt hpos), ?_⟩
  rw [div_le_iff₀ hpos]
  calc e ≤ (hist.length : ℚ) * average hist := by rw [← havg]; exact hsum
    _ ≤ 43 * average hist := mul_le_mul_of_nonneg_right hlen43 havg0
    _ ≤ 43 * max (average hist) (1 / 1000) :=
        mul_le_mul_of_nonneg_left (le_max_left _ _) (by norm_num)

/-- The history after `push_back(e)` and the `pop_front()` that keeps it from growing
beyond 43 entries. -/
theorem pushed_history (hist : List ℚ) (e : ℚ) (n : Nat) (hlen : hist.length = n)
    (hn : n ≤ 43) (hnn : ∀ x ∈ hist, 0 ≤ x) (he : 0 ≤ e) :
    (if decide (n + 1 > historySize) = true then (hist ++ [e]).tail
      else hist ++ [e]).length =
        (if decide (n + 1 > historySize) = true then n else n + 1) ∧
    (if decide (n + 1 > historySize) = true then n else n + 1) ≤ 43 ∧
    e ∈ (if decide (n + 1 > historySize) = true then (hist ++ [e]).tail else hist ++ [e]) ∧
    ∀ x ∈ (if decide (n + 1 > historySize) = true then (hist ++ [e]).tail
      else hist ++ [e]), 0 ≤ x := by
  have hall : ∀ x ∈ hist ++ [e], 0 ≤ x := by
    intro x hx
    rcases List.mem_append.mp hx with h | h
    · exact hnn x h
    · rw [List.mem_singleton.mp h]; exact he
  by_cases hp : n + 1 > historySize
  · rw [if_pos (decide_eq_true hp), if_pos (decide_eq_true hp)]
    unfold historySize at hp
    cases hist with
    | nil => simp at hlen; omega
    | cons a rest =>
      simp only [List.cons_append, List.tail_cons]
      refine ⟨?_, hn, by simp, ?_⟩
      · simp only [List.length_append, List.length_cons, List.length_nil] at hlen ⊢
        omega
      · intro x hx
        exact hall x (List.mem_cons_of_mem a hx)
  · have hp' : ¬ decide (n + 1 > historySize) = true := fun h => hp (of_decide_eq_true h)
    rw [if_neg hp', if_neg hp']
    unfold historySize at hp
    refine ⟨by simp [hlen], by omega, by simp, hall⟩

/-- One frame keeps the histories in shape, and a beat it appends has bounded strengths. -/
theorem detectFrame_bounded (samples : List Int) (sampleRate channelCount : Nat)
    (p : DifficultyParams) (st : DetectState) (i : Nat) (hst : st.historiesOk) :
    (detectFrame samples sampleRate channelCount p st i).historiesOk ∧
    ((detectFrame samples sampleRate channelCount p st i).beats = st.beats ∨
      ∃ b : BeatInfo, (detectFrame samples sampleRate channelCount p st i).beats =
        st.beats ++ [b] ∧ b.bounded) := by
  obtain ⟨hlen, hml, hhl, htl, hbn, hmn, hhn, htn⟩ := hst
  have heb := bassEnergyOf_nonneg samples channelCount i
  have hem := midEnergyOf_nonneg samples channelCount i
  have heh := highEnergyOf_nonneg samples channelCount i
  have het : 0 ≤ bassEnergyOf samples channelCount i +
      midEnergyOf samples channelCount i * (1 / 2) +
      highEnergyOf samples channelCount i * (3 / 10) := by positivity
  have hL : (st.bassHistory ++ [bassEnergyOf samples channelCount i]).length =
      st.bassHistory.length + 1 := by simp
  obtain ⟨hB1, hB2, hB3, hB4⟩ := pushed_history st.bassHistory
    (bassEnergyOf samples channelCount i) st.bassHistory.length rfl hlen hbn heb
  obtain ⟨hM1, _, hM3, hM4⟩ := pushed_history st.midHistory
    (midEnergyOf samples channelCount i) st.bassHistory.length hml hlen hmn hem
  obtain ⟨hH1, _, hH3, hH4⟩ := pushed_history st.highHistory
    (highEnergyOf samples channelCount i) st.bassHistory.length hhl hlen hhn heh
  obtain ⟨hT1, _, hT3, hT4⟩ := pushed_history st.totalHistory
    (bassEnergyOf samples channelCount i + midEnergyOf samples channelCount i * (1 / 2) +
      highEnergyOf samples channelCount i * (3 / 10)) st.bassHistory.length htl hlen htn het
  unfold detectFrame
  dsimp only
  rw [hL]
  generalize (if decide (st.bassHistory.length + 1 > historySize) = true then
      (st.bassHistory ++ [bassEnergyOf samples channelCount i]).tail
    else st.bassHistory ++ [bassEnergyOf samples channelCount i]) = B at hB1 hB3 hB4 ⊢
  generalize (if decide (st.bassHistory.length + 1 > historySize) = true then
      (st.midHistory ++ [midEnergyOf samples channelCount i]).tail
    else st.midHistory ++ [midEnergyOf samples channelCount i]) = M at hM1 hM3 hM4 ⊢
  generalize (if decide (st.bassHistory.length + 1 > historySize) = true then
      (st.highHistory ++ [highEnergyOf samples channelCount i]).tail
    else st.highHistory ++ [highEnergyOf samples channelCount i]) = H at hH1 hH3 hH4 ⊢
  generalize (if decide (st.bassHistory.length + 1 > historySize) = true then
      (st.totalHistory ++ [bassEnergyOf samples channelCount i +
        midEnergyOf samples channelCount i * (1 / 2) +
        highEnergyOf samples channelCount i * (3 / 10)]).tail
    else st.totalHistory ++ [bassEnergyOf samples channelCount i +
        midEnergyOf samples channelCount i * (1 / 2) +
        highEnergyOf samples channelCount i * (3 / 10)]) = T at hT1 hT3 hT4 ⊢
  have hok : B.length ≤ 43 ∧ M.length = B.length ∧ H.length = B.length ∧
      T.length = B.length ∧ (∀ x ∈ B, 0 ≤ x) ∧ (∀ x ∈ M, 0 ≤ x) ∧ (∀ x ∈ H, 0 ≤ x) ∧
      (∀ x ∈ T, 0 ≤ x) :=
    ⟨by rw [hB1]; exact hB2, by rw [hM1, hB1], by rw [hH1, hB1], by rw [hT1, hB1],
      hB4, hM4, hH4, hT4⟩
  have hBlen : B.length ≤ 43 := hok.1
  split_ifs
  · exact ⟨hok, Or.inl rfl⟩
  · refine ⟨hok, Or.inr ⟨_, rfl, ?_, ?_, ?_, ?_⟩⟩
    · exact ratio_le_length T _ hT3 hT4 (by rw [hok.2.2.2.1]; exact hBlen)
    · exact ratio_le_length B _ hB3 hB4 hBlen
    · exact ratio_le_length M _ hM3 hM4 (by rw [hok.2.1]; exact hBlen)
    · exact ratio_le_length H _ hH3 hH4 (by rw [hok.2.2.1]; exact hBlen)
  · exact ⟨hok, Or.inl rfl⟩

theorem detectBeats_bounded (samples : List Int) (sampleRate channelCount : Nat)
    (p : DifficultyParams) :
    ∀ b ∈ detectBeats samples sampleRate channelCount p, b.bounded := by
  unfold detectBeats
  have hinv := foldl_invariant (detectFrame samples sampleRate channelCount p)
    (fun st => st.historiesOk ∧ ∀ b ∈ st.beats, b.bounded)
    (fun st i hst => by
      obtain ⟨hok, hbeats⟩ := detectFrame_bounded samples sampleRate channelCount p st i hst.1
      refine ⟨hok, ?_⟩
      rcases hbeats with h | ⟨b, h, hb⟩
      · rw [h]; exact hst.2
      · rw [h]
        intro b' hb'
        rcases List.mem_append.mp hb' with h' | h'
        · exact hst.2 b' h'
        · rw [List.mem_singleton.mp h']; exact hb)
    (frameStarts samples.length channelCount) DetectState.init
    ⟨⟨by simp [DetectState.init], rfl, rfl, rfl, by simp [DetectState.init],
      by simp [DetectState.init], by simp [DetectState.init], by simp [DetectState.init]⟩,
     by simp [DetectState.init]⟩
  exact hinv.2

theorem mem_forRange (start stop step x : Nat) (hs : 0 < step)
    (h : x ∈ forRange start stop step) : start ≤ x ∧ x < stop := by
  unfold forRange at h
  obtain ⟨m, hm, rfl⟩ := List.mem_map.mp h
  have hm' := List.mem_range.mp hm
  have h1 : (m + 1) * step ≤ stop - start + step - 1 :=
    (Nat.le_div_iff_mul_le hs).mp hm'
  have h2 : (m + 1) * step = m * step + step := by ring
  constructor
  · omega
  · omega

/-- A frame whose window holds only zeros has band energies 0. -/
theorem energies_zero_window (samples : List Int) (channelCount i : Nat)
    (hc : 0 < channelCount)
    (h : ∀ idx, i ≤ idx → idx < i + blockSize * channelCount → sampleAt samples idx = 0) :
    bassEnergyOf samples channelCount i = 0 ∧ midEnergyOf samples channelCount i = 0 ∧
      highEnergyOf samples channelCount i = 0 := by
  refine ⟨?_, ?_, ?_⟩
  · unfold bassEnergyOf
    rw [sum_map_eq_zero]
    · exact zero_div _
    · intro j hj
      dsimp only
      rw [sum_map_eq_zero]
      · simp
      · intro k hk
        have hk' := List.mem_takeWhile_imp hk
        have hlt := of_decide_eq_true hk'
        rw [h (i + j + k) (by omega) (by omega)]
        simp
  · unfold midEnergyOf
    rw [sum_map_eq_zero]
    · exact zero_div _
    · intro j hj
      obtain ⟨h1, h2⟩ := mem_forRange _ _ _ j hc hj
      dsimp only
      rw [h (i + j) (by omega) (by omega), h (i + j - channelCount) (by omega) (by omega)]
      simp
  · unfold highEnergyOf
    rw [sum_map_eq_zero]
    · exact zero_div _
    · intro j hj
      obtain ⟨h1, h2⟩ := mem_forRange _ _ _ j hc hj
      dsimp only
      rw [h (i + j) (by omega) (by omega), h (i + j - channelCount) (by omega) (by omega),
        h (i + j - 2 * channelCount) (by omega) (by omega)]
      simp

theorem replicate_snoc_zero (k : Nat) :
    List.replicate k (0 : ℚ) ++ [0] = List.replicate (k + 1) 0 := by
  rw [List.replicate_succ']

/-- A frame of silence takes the state after `k` frames of silence to the state after
`k + 1`, as long as the histories are not full. -/
theorem detectFrame_silent_step (samples : List Int) (sampleRate channelCount : Nat)
    (p : DifficultyParams) (i k : Nat) (hk : k < 43)
    (hb : bassEnergyOf samples channelCount i = 0)
    (hm : midEnergyOf samples channelCount i = 0)
    (hh : highEnergyOf samples channelCount i = 0) :
    detectFrame samples sampleRate channelCount p (DetectState.silent k) i =
      DetectState.silent (k + 1) := by
  have hpop : ¬ decide ((List.replicate k (0 : ℚ) ++ [0]).length > historySize) = true := by
    intro hc
    have := of_decide_eq_true hc
    simp only [List.length_append, List.length_replicate, List.length_singleton] at this
    unfold historySize at this
    omega
  have havg : average (List.replicate (k + 1) (0 : ℚ)) = 0 :=
    average_zero _ (fun x hx => List.eq_of_mem_replicate hx)
  unfold detectFrame DetectState.silent
  dsimp only
  rw [hb, hm, hh]
  norm_num only [zero_mul, add_zero, mul_zero]
  rw [if_neg hpop, replicate_snoc_zero, havg]
  split_ifs with h1 h2
  · rfl
  · exfalso
    obtain ⟨hor, _⟩ := h2
    norm_num at hor
  · rfl

theorem sampleAt_clickBuffer (idx : Nat) :
    sampleAt clickBuffer idx = if idx = 11263 then 32767 else 0 := by
  unfold sampleAt clickBuffer
  rw [List.getD_eq_getElem?_getD]
  by_cases h1 : idx < 11263
  · rw [List.getElem?_append_left (by rw [List.length_replicate]; exact h1),
      if_neg (by omega), List.getElem?_replicate, if_pos h1]
    rfl
  · rw [List.getElem?_append_right (by rw [List.length_replicate]; omega),
      List.length_replicate]
    by_cases h2 : idx = 11263
    · rw [if_pos h2, h2]
      rfl
    · rw [if_neg h2]
      have h3 : idx - 11263 = (idx - 11264) + 1 := by omega
      rw [h3]
      rfl

theorem clickBuffer_silent_prefix :
    ∀ k, k ≤ 20 →
      ((List.range k).map (fun m => 0 + m * (hopSize * 1))).foldl
        (detectFrame clickBuffer 44100 1 (getDifficultyParams .MEDIUM)) DetectState.init =
      DetectState.silent k := by
  intro k
  induction k with
  | zero => intro _; rfl
  | succ k ih =>
    intro hk
    rw [List.range_succ, List.map_append, List.foldl_append, ih (by omega)]
    simp only [List.map_cons, List.map_nil, List.foldl_cons, List.foldl_nil]
    obtain ⟨hb, hm, hh⟩ := energies_zero_window clickBuffer 1 (0 + k * (hopSize * 1))
      (by norm_num) (fun idx _ h2 => by
        rw [sampleAt_clickBuffer, if_neg]
        unfold hopSize blockSize at h2
        omega)
    exact detectFrame_silent_step clickBuffer 44100 1 _ _ k (by omega) hb hm hh

theorem clickBuffer_frameStarts :
    frameStarts clickBuffer.length 1 =
      (List.range 20).map (fun m => 0 + m * (hopSize * 1)) ++ [0 + 20 * (hopSize * 1)] := by
  have hlen : clickBuffer.length = 11264 := by
    unfold clickBuffer
    rw [List.length_append, List.length_replicate]
    rfl
  unfold frameStarts forRange
  rw [hlen]
  have h21 : (11264 + 1 - blockSize * 1 - 0 + hopSize * 1 - 1) / (hopSize * 1) = 20 + 1 := by
    norm_num [blockSize, hopSize]
  rw [h21, List.range_succ, List.map_append]
  rfl

theorem clickBuffer_mid :
    midEnergyOf clickBuffer 1 (0 + 20 * (hopSize * 1)) > 5 / 10000 := by
  have hmem : (1023 : Nat) ∈ forRange 1 (blockSize * 1) 1 := by
    unfold forRange
    exact List.mem_map.mpr ⟨1022, List.mem_range.mpr (by norm_num [blockSize]), by norm_num⟩
  have hterm := List.single_le_sum
    (l := (forRange 1 (blockSize * 1) 1).map (fun j =>
      (((sampleAt clickBuffer (0 + 20 * (hopSize * 1) + j)
        - sampleAt clickBuffer (0 + 20 * (hopSize * 1) + j - 1) : Int) : ℚ) / 32768) *
      (((sampleAt clickBuffer (0 + 20 * (hopSize * 1) + j)
        - sampleAt clickBuffer (0 + 20 * (hopSize * 1) + j - 1) : Int) : ℚ) / 32768)))
    (fun x hx => by
      obtain ⟨j, _, rfl⟩ := List.mem_map.mp hx
      exact mul_self_nonneg _)
    _ (List.mem_map.mpr ⟨1023, hmem, rfl⟩)
  have h1 : sampleAt clickBuffer (0 + 20 * (hopSize * 1) + 1023) = 32767 := by
    rw [sampleAt_clickBuffer, if_pos (by norm_num [hopSize])]
  have h2 : sampleAt clickBuffer (0 + 20 * (hopSize * 1) + 1023 - 1) = 0 := by
    rw [sampleAt_clickBuffer, if_neg (by norm_num [hopSize])]
  rw [h1, h2] at hterm
  unfold midEnergyOf
  dsimp only
  have hbs : ((blockSize : Nat) : ℚ) = 1024 := by norm_num [blockSize]
  rw [hbs, gt_iff_lt, lt_div_iff₀ (by norm_num)]
  refine lt_of_lt_of_le ?_ hterm
  norm_num

theorem average_snoc_zeros (k : Nat) (e : ℚ) :
    average (List.replicate k 0 ++ [e]) = e / ((k : ℚ) + 1) := by
  unfold average
  simp

theorem detectFrame_silent_fires (samples : List Int) (sampleRate channelCount : Nat)
    (p : DifficultyParams) (i : Nat)
    (hmid : midEnergyOf samples channelCount i > 5 / 10000)
    (hthr : p.beatThreshold < 21)
    (hts : ((i / channelCount : Nat) : ℚ) / (sampleRate : ℚ) - -(1 / 10) ≥
      p.minNoteInterval * (1 / 2)) :
    (detectFrame samples sampleRate channelCount p (DetectState.silent 20) i).beats ≠ [] := by
  have hb := bassEnergyOf_nonneg samples channelCount i
  have hh := highEnergyOf_nonneg samples channelCount i
  unfold detectFrame DetectState.silent
  dsimp only
  generalize bassEnergyOf samples channelCount i = eB at hb ⊢
  generalize midEnergyOf samples channelCount i = eM at hmid ⊢
  generalize highEnergyOf samples channelCount i = eH at hh ⊢
  have hpop : ¬ decide ((List.replicate 20 (0 : ℚ) ++ [eB]).length > historySize) = true := by
    intro hc
    have := of_decide_eq_true hc
    simp only [List.length_append, List.length_replicate, List.length_singleton] at this
    unfold historySize at this
    omega
  simp only [if_neg hpop]
  have hwarm : ¬ (List.replicate 20 (0 : ℚ) ++ [eB + eM * (1 / 2) + eH * (3 / 10)]).length <
      historySize / 2 := by
    simp only [List.length_append, List.length_replicate, List.length_singleton]
    unfold historySize
    omega
  rw [if_neg hwarm]
  have hsnare : decide (eM > average (List.replicate 20 0 ++ [eM]) *
      p.beatThreshold ∧ eM > 5 / 10000) = true := by
    apply decide_eq_true
    refine ⟨?_, hmid⟩
    rw [average_snoc_zeros]
    have h0 : (0 : ℚ) < eM := lt_trans (by norm_num) hmid
    have h1 : eM / (((20 : Nat) : ℚ) + 1) * p.beatThreshold = eM * (p.beatThreshold / 21) := by
      push_cast
      ring
    rw [h1, gt_iff_lt]
    have h2 : p.beatThreshold / 21 < 1 := by
      rw [div_lt_one (by norm_num)]
      exact hthr
    calc eM * (p.beatThreshold / 21) < eM * 1 := mul_lt_mul_of_pos_left h2 h0
      _ = eM := mul_one eM
  rw [if_pos ⟨by rw [hsnare]; simp, hts⟩]
  simp

theorem detectBeats_has_beat (samples : List Int) (sampleRate channelCount : Nat)
    (p : DifficultyParams) (s : DetectState)
    (h : (frameStarts samples.length channelCount).foldl
      (detectFrame samples sampleRate channelCount p) DetectState.init = s)
    (hs : s.beats ≠ []) :
    ∃ b, b ∈ detectBeats samples sampleRate channelCount p := by
  unfold detectBeats
  rw [h]
  exact List.exists_mem_of_ne_nil _ hs

theorem clickBuffer_fold :
    (frameStarts clickBuffer.length 1).foldl
      (detectFrame clickBuffer 44100 1 (getDifficultyParams .MEDIUM)) DetectState.init =
      detectFrame clickBuffer 44100 1 (getDifficultyParams .MEDIUM) (DetectState.silent 20)
        (0 + 20 * (hopSize * 1)) := by
  rw [clickBuffer_frameStarts, List.foldl_append, clickBuffer_silent_prefix 20 (le_refl 20),
    List.foldl_cons, List.foldl_nil]

/-- The click at the end of `clickBuffer` is flagged as a beat. -/
theorem clickBuffer_has_beat :
    ∃ b, b ∈ detectBeats clickBuffer 44100 1 (getDifficultyParams .MEDIUM) :=
  detectBeats_has_beat clickBuffer 44100 1 (getDifficultyParams .MEDIUM) _ clickBuffer_fold
    (detectFrame_silent_fires clickBuffer 44100 1 (getDifficultyParams .MEDIUM)
      (0 + 20 * (hopSize * 1)) clickBuffer_mid
      (by norm_num [getDifficultyParams]) (by norm_num [hopSize, getDifficultyParams]))

/-- C30: for every input buffer, sample rate, channel count and preset, every beat
returned by `detectBeats` (in exact arithmetic) has its intensity, bass strength, mid
strength and high strength in the range `[0, 43]`: each energy is the last entry of a
history of at most 43 non-negative entries when its average is taken. -/
theorem C30_beat_strengths_bounded (samples : List Int) (sampleRate channelCount : Nat)
    (p : DifficultyParams) :
    ∀ b ∈ detectBeats samples sampleRate channelCount p,
      (0 ≤ b.intensity ∧ b.intensity ≤ 43) ∧ (0 ≤ b.bassStrength ∧ b.bassStrength ≤ 43) ∧
      (0 ≤ b.midStrength ∧ b.midStrength ≤ 43) ∧ (0 ≤ b.highStrength ∧ b.highStrength ≤ 43) :=
  fun b hb => detectBeats_bounded samples sampleRate channelCount p b hb

/-- C30 at a mono buffer of silence that ends in one full-scale sample: the beat detected
in its last frame has all four strengths in `[0, 43]`. -/
theorem C30_beat_strengths_bounded_witness :
    ∃ b, b ∈ detectBeats clickBuffer 44100 1 (getDifficultyParams .MEDIUM) ∧
      ((0 ≤ b.intensity ∧ b.intensity ≤ 43) ∧ (0 ≤ b.bassStrength ∧ b.bassStrength ≤ 43) ∧
      (0 ≤ b.midStrength ∧ b.midStrength ≤ 43) ∧ (0 ≤ b.highStrength ∧ b.highStrength ≤ 43)) :=
  clickBuffer_has_beat.elim (fun b hb =>
    ⟨b, hb, C30_beat_strengths_bounded clickBuffer 44100 1 (getDifficultyParams .MEDIUM) b hb⟩)

/-! ## Exit of the lane loops, and one primary note per beat (C21) -/

theorem loopsExitWithin_suffix (k : Nat) (draws s : List Nat)
    (h : loopsExitWithin k draws = true) (hs : s <:+ draws) :
    loopsExitWithin k s = true := by
  unfold loopsExitWithin at h ⊢
  rw [List.all_eq_true] at h ⊢
  intro t ht
  exact h t ((List.mem_tails t draws).mpr (((List.mem_tails t s).mp ht).trans hs))

theorem loopsExitWithin_head (k : Nat) (s : List Nat) (h : loopsExitWithin k s = true)
    (hk : k ≤ s.length) (lane : Nat) (hl : lane < 4) :
    (selectAnyLane (lane : Int) (s.take k)).isSome = true ∧
      (selectSecondLane lane (s.take k)).isSome = true := by
  unfold loopsExitWithin at h
  rw [List.all_eq_true] at h
  have h1 := h s ((List.mem_tails s s).mpr (List.suffix_refl s))
  rw [Bool.or_eq_true, List.all_eq_true] at h1
  rcases h1 with h1 | h1
  · exact absurd (of_decide_eq_true h1) (by omega)
  · have h2 := h1 lane (List.mem_range.mpr hl)
    rw [Bool.and_eq_true] at h2
    exact h2

/-- A run of the loop of `selectAnyLane` that exits on a list exits the same way on every
extension of the list, and returns a suffix of it. -/
theorem selectAnyLane_append (lastLane : Int) (b : List Nat) :
    ∀ (a : List Nat) (x : Nat) (r : List Nat),
      selectAnyLane lastLane a = some (x, r) →
      selectAnyLane lastLane (a ++ b) = some (x, r ++ b) ∧ r <:+ a := by
  intro a
  induction a using selectAnyLane.induct lastLane with
  | case1 => intro x r h; simp [selectAnyLane] at h
  | case2 r0 hr => intro x r h; simp [selectAnyLane, hr] at h
  | case3 r0 hr =>
    intro x r h
    simp only [selectAnyLane, hr, if_false, Option.some.injEq, Prod.mk.injEq] at h
    rw [← h.1, ← h.2]
    constructor
    · cases b with
      | nil => simp [selectAnyLane, hr]
      | cons b0 bs => simp [selectAnyLane, hr]
    · exact List.nil_suffix
  | case4 r0 r2 rest hr h3 ih =>
    intro x r h
    simp only [selectAnyLane, hr, h3, if_true, ne_eq, not_false_eq_true] at h
    obtain ⟨h1, h2⟩ := ih x r h
    constructor
    · simp only [List.cons_append, selectAnyLane, hr, h3, if_true, ne_eq, not_false_eq_true]
      exact h1
    · exact h2.trans ((List.suffix_cons r2 rest).trans (List.suffix_cons r0 _))
  | case5 r0 r2 rest hr h3 =>
    intro x r h
    simp only [selectAnyLane, hr, h3, if_true, ne_eq, not_true_eq_false, if_false,
      Option.some.injEq, Prod.mk.injEq] at h
    rw [← h.1, ← h.2]
    constructor
    · simp [selectAnyLane, hr, h3]
    · exact (List.suffix_cons r2 rest).trans (List.suffix_cons r0 _)
  | case6 r0 r2 rest hr =>
    intro x r h
    simp only [selectAnyLane, hr, if_false, Option.some.injEq, Prod.mk.injEq] at h
    rw [← h.1, ← h.2]
    constructor
    · simp [selectAnyLane, hr]
    · exact List.suffix_cons r0 _

theorem selectSecondLane_append (lane : Nat) (b : List Nat) :
    ∀ (a : List Nat) (x : Nat) (r : List Nat),
      selectSecondLane lane a = some (x, r) →
      selectSecondLane lane (a ++ b) = some (x, r ++ b) ∧ r <:+ a := by
  intro a
  induction a with
  | nil => intro x r h; simp [selectSecondLane] at h
  | cons r0 rs ih =>
    intro x r h
    unfold selectSecondLane at h
    rw [List.cons_append, selectSecondLane]
    by_cases hr : rngMod r0 4 = lane
    · rw [if_pos hr] at h ⊢
      obtain ⟨h1, h2⟩ := ih x r h
      exact ⟨h1, h2.trans (List.suffix_cons r0 rs)⟩
    · rw [if_neg hr] at h ⊢
      simp only [Option.some.injEq, Prod.mk.injEq] at h
      rw [← h.1, ← h.2]
      exact ⟨rfl, List.suffix_cons r0 rs⟩

theorem suffix_append_drop (r s : List Nat) (k : Nat) (h : r <:+ s.take k) :
    r ++ s.drop k <:+ s ∧ s.length ≤ (r ++ s.drop k).length + k := by
  obtain ⟨t, ht⟩ := h
  refine ⟨⟨t, ?_⟩, ?_⟩
  · rw [← List.append_assoc, ht, List.take_append_drop]
  · rw [List.length_append, List.length_drop]
    omega

/-- The loop of `selectAnyLane` exits on `s` when it exits on the first `k` draws of `s`,
and consumes at most `k` draws. -/
theorem selectAnyLane_take (lastLane : Int) (k : Nat) (s : List Nat)
    (h : (selectAnyLane lastLane (s.take k)).isSome = true) :
    ∃ x rest, selectAnyLane lastLane s = some (x, rest) ∧ rest <:+ s ∧
      s.length ≤ rest.length + k := by
  obtain ⟨⟨x, r⟩, hxr⟩ := Option.isSome_iff_exists.mp h
  obtain ⟨h1, h2⟩ := selectAnyLane_append lastLane (s.drop k) (s.take k) x r hxr
  rw [List.take_append_drop] at h1
  obtain ⟨h3, h4⟩ := suffix_append_drop r s k h2
  exact ⟨x, _, h1, h3, h4⟩

theorem selectSecondLane_take (lane : Nat) (k : Nat) (s : List Nat)
    (h : (selectSecondLane lane (s.take k)).isSome = true) :
    ∃ x rest, selectSecondLane lane s = some (x, rest) ∧ rest <:+ s ∧
      s.length ≤ rest.length + k := by
  obtain ⟨⟨x, r⟩, hxr⟩ := Option.isSome_iff_exists.mp h
  obtain ⟨h1, h2⟩ := selectSecondLane_append lane (s.drop k) (s.take k) x r hxr
  rw [List.take_append_drop] at h1
  obtain ⟨h3, h4⟩ := suffix_append_drop r s k h2
  exact ⟨x, _, h1, h3, h4⟩

/-- The lane selection returns when the loops exit within `k` draws and `k` draws are
left; it consumes at most `k` draws. -/
theorem selectLane_exits (beat : BeatInfo) (lastLane : Int) (k : Nat) (s : List Nat)
    (hk : 1 ≤ k) (hlen : k ≤ s.length) (h : loopsExitWithin k s = true) :
    ∃ lane rest, selectLane beat lastLane s = some (lane, rest) ∧ rest <:+ s ∧
      s.length ≤ rest.length + k := by
  match s, hlen with
  | [], hlen =>
    exfalso
    simp only [List.length_nil] at hlen
    omega
  | r :: rs, hlen =>
    have hone : ∀ lane : Nat, ∃ lane' rest,
        (some (lane, rs) : Option (Nat × List Nat)) = some (lane', rest) ∧
          rest <:+ r :: rs ∧ (r :: rs).length ≤ rest.length + k :=
      fun lane => ⟨lane, rs, rfl, List.suffix_cons r rs, by simp only [List.length_cons]; omega⟩
    unfold selectLane
    by_cases hb : beat.isBass = true
    · rw [if_pos hb]; exact hone _
    · rw [if_neg hb]
      by_cases hs : beat.isSnare = true
      · rw [if_pos hs]; exact hone _
      · rw [if_neg hs]
        by_cases hh : beat.isHiHat = true
        · rw [if_pos hh]; exact hone _
        · rw [if_neg hh]
          by_cases hr : (rngMod r 4 : Int) = lastLane
          · have hex := (loopsExitWithin_head k (r :: rs) h hlen (rngMod r 4)
              (rngMod_lt r 4 (by norm_num))).1
            rw [hr] at hex
            exact selectAnyLane_take lastLane k (r :: rs) hex
          · cases rs with
            | nil =>
              refine ⟨rngMod r 4, [], ?_, List.suffix_cons r [], by
                simp only [List.length_cons, List.length_nil]; omega⟩
              simp [selectAnyLane, hr]
            | cons r2 rest =>
              refine ⟨rngMod r 4, r2 :: rest, ?_, List.suffix_cons r _, by
                simp only [List.length_cons]; omega⟩
              simp [selectAnyLane, hr]

theorem hiHatDuration_suffix (beats : List BeatInfo) (p : DifficultyParams) (i : Nat)
    (beat : BeatInfo) (draws : List Nat) (d : ℚ) (rest : List Nat)
    (h : hiHatDuration beats p i beat draws = some (d, rest)) : rest <:+ draws := by
  unfold hiHatDuration at h
  by_cases h1 : beat.isHiHat = true ∧ i + 2 < beats.length
  · rw [if_pos h1] at h
    cases draws with
    | nil => simp at h
    | cons c cs =>
      dsimp only at h
      by_cases h2 : chanceOf c < p.holdNoteChance
      · rw [if_pos h2] at h
        by_cases h3 : (((beats.drop i).take 5).filter (fun b => b.isHiHat)).length ≥ 3
        · rw [if_pos h3] at h
          cases cs with
          | nil => simp at h
          | cons c2 cs2 =>
            simp only [Option.some.injEq, Prod.mk.injEq] at h
            rw [← h.2]
            exact (List.suffix_cons c2 cs2).trans (List.suffix_cons c _)
        · rw [if_neg h3] at h
          simp only [Option.some.injEq, Prod.mk.injEq] at h
          rw [← h.2]
          exact List.suffix_cons c cs
      · rw [if_neg h2] at h
        simp only [Option.some.injEq, Prod.mk.injEq] at h
        rw [← h.2]
        exact List.suffix_cons c cs
  · rw [if_neg h1] at h
    simp only [Option.some.injEq, Prod.mk.injEq] at h
    rw [← h.2]

theorem chooseDuration_suffix (beats : List BeatInfo) (p : DifficultyParams) (i : Nat)
    (beat : BeatInfo) (draws : List Nat) (d : ℚ) (rest : List Nat)
    (h : chooseDuration beats p i beat draws = some (d, rest)) : rest <:+ draws := by
  unfold chooseDuration at h
  by_cases h1 : beat.isBass = true ∧ beat.bassStrength > 2
  · rw [if_pos h1] at h
    cases draws with
    | nil => simp at h
    | cons c cs =>
      dsimp only at h
      by_cases h2 : chanceOf c < p.holdNoteChance * 2
      · rw [if_pos h2] at h
        simp only [Option.some.injEq, Prod.mk.injEq] at h
        rw [← h.2]
        exact List.suffix_cons c cs
      · rw [if_neg h2] at h
        exact (hiHatDuration_suffix beats p i beat cs d rest h).trans (List.suffix_cons c cs)
  · rw [if_neg h1] at h
    exact hiHatDuration_suffix beats p i beat draws d rest h

/-- One iteration returns when the loops exit within `k` draws and `2 * k + 4` draws are
left; it consumes at most that many and leaves a suffix of the draws. -/
theorem composeBeat_exits (beats : List BeatInfo) (p : DifficultyParams) (i : Nat)
    (beat : BeatInfo) (st : ComposerState) (k : Nat) (hk : 1 ≤ k)
    (hex : loopsExitWithin k st.draws = true) (hlen : 2 * k + 4 ≤ st.draws.length) :
    ∃ e st', composeBeat beats p i beat st = some (e, st') ∧ st'.draws <:+ st.draws ∧
      st.draws.length ≤ st'.draws.length + (2 * k + 4) := by
  obtain ⟨lane0, d1, hsel, hsuf1, hlen1⟩ :=
    selectLane_exits beat st.lastLane k st.draws hk (by omega) hex
  obtain ⟨dur, d2, hdur, hlen2⟩ := chooseDuration_total beats p i beat d1 (by omega)
  have hsuf2 := chooseDuration_suffix beats p i beat d1 dur d2 hdur
  have hlane : resolveLane st.lastNoteTime beat.timestamp p.minNoteInterval lane0 < 4 :=
    resolveLane_lt _ _ _ _ (selectLane_spec beat st.lastLane st.draws lane0 d1 hsel).1
  unfold composeBeat
  rw [hsel]
  dsimp only
  rw [hdur]
  dsimp only
  by_cases ha : p.allowDoubles = true
  · rw [if_pos ha]
    match d2, hlen2, hsuf2 with
    | [], hlen2, _ =>
      exfalso
      simp only [List.length_nil] at hlen2
      omega
    | c :: d3, hlen2, hsuf2 =>
      dsimp only
      have hsuf3 : d3 <:+ st.draws := ((List.suffix_cons c d3).trans hsuf2).trans hsuf1
      have hlen3 : st.draws.length ≤ d3.length + (k + 4) := by
        simp only [List.length_cons] at hlen2
        omega
      by_cases hc : chanceOf c < p.doubleChance ∧ beat.intensity > 3 / 2
      · rw [if_pos hc]
        have hex3 := (loopsExitWithin_head k d3 (loopsExitWithin_suffix k _ _ hex hsuf3)
          (by omega) _ hlane).2
        obtain ⟨sl, d4, hsl, hsuf4, hlen4⟩ := selectSecondLane_take _ k d3 hex3
        rw [hsl]
        dsimp only
        by_cases hgap : beat.timestamp -
            Function.update st.lastNoteTime
              (resolveLane st.lastNoteTime beat.timestamp p.minNoteInterval lane0)
              (beat.timestamp + dur) sl ≥ p.minNoteInterval
        · rw [if_pos hgap]
          exact ⟨_, _, rfl, hsuf4.trans hsuf3, by dsimp only; omega⟩
        · rw [if_neg hgap]
          exact ⟨_, _, rfl, hsuf4.trans hsuf3, by dsimp only; omega⟩
      · rw [if_neg hc]
        exact ⟨_, _, rfl, hsuf3, by dsimp only; omega⟩
  · rw [if_neg ha]
    exact ⟨_, _, rfl, hsuf2.trans hsuf1, by dsimp only; omega⟩

/-- The loop returns when its `do ... while` loops exit within `k` draws and `2 * k + 4`
draws per beat are left. -/
theorem composeLoop_exits (beats : List BeatInfo) (p : DifficultyParams) (k : Nat)
    (hk : 1 ≤ k) :
    ∀ (rest : List BeatInfo) (i : Nat) (st : ComposerState),
      loopsExitWithin k st.draws = true →
      (2 * k + 4) * rest.length ≤ st.draws.length →
      ∃ es, composeLoop beats p i rest st = some es := by
  intro rest
  induction rest with
  | nil => intro i st _ _; exact ⟨[], rfl⟩
  | cons beat rest ih =>
    intro i st hex hlen
    simp only [List.length_cons] at hlen
    have hlen0 : 2 * k + 4 ≤ st.draws.length := by nlinarith
    obtain ⟨e, st', hcb, hsuf, hd⟩ := composeBeat_exits beats p i beat st k hk hex hlen0
    obtain ⟨es, hes⟩ := ih (i + 1) st' (loopsExitWithin_suffix k _ _ hex hsuf) (by nlinarith)
    refine ⟨e :: es, ?_⟩
    rw [composeLoop, hcb]
    dsimp only
    rw [hes]

theorem mixedRun_emissions :
    generateEmissions mixedRun (getDifficultyParams .EXTREME) mt42x =
      some mixedRunEmissions := by
  norm_num [generateEmissions, composeLoop, composeBeat, mixedRun, mt42x, mt42,
    ComposerState.init, selectLane, selectAnyLane, selectSecondLane, rngMod, resolveLane,
    chooseDuration, hiHatDuration, strongBassHoldEnd, stdClamp, chanceOf,
    getDifficultyParams, List.range, List.range.loop, Function.update, mixedRunEmissions,
    Note.create, List.find?]

/-- C21: `generateNotes` returns as soon as its two `do ... while` loops exit within `k`
draws wherever they start and `2 * k + 4` draws per beat are supplied (and also, whatever
the draws, when every beat is classified and none can get a double note, with five draws
per beat).  A run that returns has one emission per beat, in beat order, whose primary
note carries the beat's timestamp and intensity; the note list has at least as many notes
as beats and at most twice as many, and exactly the primary notes when `allowDoubles` is
false.  On the empty beat list it returns the empty list. -/
theorem C21_one_primary_note_per_beat (p : DifficultyParams) (beats : List BeatInfo)
    (draws : List Nat) :
    (∀ k : Nat, 1 ≤ k → loopsExitWithin k draws = true →
      (2 * k + 4) * beats.length ≤ draws.length →
      ∃ es, generateEmissions beats p draws = some es ∧
        generateNotes beats p draws = some (es.map Emission.notes).flatten) ∧
    ((∀ b ∈ beats, (b.isBass = true ∨ b.isSnare = true ∨ b.isHiHat = true) ∧
        (p.allowDoubles = true → b.intensity ≤ 3 / 2)) →
      5 * beats.length ≤ draws.length →
      ∃ notes, generateNotes beats p draws = some notes) ∧
    (∀ es, generateEmissions beats p draws = some es →
      es.length = beats.length ∧
      (∀ (k : Nat) (beat : BeatInfo), beats[k]? = some beat →
        ∃ e, es[k]? = some e ∧ e.primary.timestamp = beat.timestamp ∧
          e.primary.intensity = beat.intensity) ∧
      generateNotes beats p draws = some (es.map Emission.notes).flatten ∧
      (∀ e ∈ es, e.primary ∈ (es.map Emission.notes).flatten) ∧
      beats.length ≤ ((es.map Emission.notes).flatten).length ∧
      ((es.map Emission.notes).flatten).length ≤ 2 * beats.length ∧
      (p.allowDoubles = false →
        (es.map Emission.notes).flatten = es.map Emission.primary ∧
        ((es.map Emission.notes).flatten).length = beats.length)) ∧
    generateNotes [] p draws = some [] := by
  refine ⟨?_, ?_, ?_, generateNotes_nil p draws⟩
  · intro k hk hex hlen
    obtain ⟨es, hes⟩ := composeLoop_exits beats p k hk beats 0 (ComposerState.init draws)
      hex hlen
    refine ⟨es, hes, ?_⟩
    unfold generateNotes generateEmissions
    rw [hes]
    rfl
  · intro hcl hlen
    obtain ⟨es, hes⟩ := composeLoop_total beats p beats 0 (ComposerState.init draws) hcl hlen
    refine ⟨(es.map Emission.notes).flatten, ?_⟩
    unfold generateNotes generateEmissions
    rw [hes]
    rfl
  · intro es hgen
    have hgen' := hgen
    unfold generateEmissions at hgen'
    have hlen := composeLoop_length beats p beats 0 (ComposerState.init draws) es hgen'
    obtain ⟨h1, h2, h3⟩ := flatten_notes_length es
    refine ⟨hlen, ?_, ?_, ?_, by omega, by omega, ?_⟩
    · intro k beat hk
      obtain ⟨stk, stk', e, _, he, hcb⟩ :=
        composeLoop_stateBefore beats p beats k 0 (ComposerState.init draws) es beat hgen' hk
      obtain ⟨ht, hi, _⟩ := composeBeat_primary _ _ _ _ _ _ _ hcb
      exact ⟨e, he, ht, hi⟩
    · unfold generateNotes
      rw [hgen]
      rfl
    · intro e he
      rw [List.mem_flatten]
      exact ⟨e.notes, List.mem_map.mpr ⟨e, he, rfl⟩, List.mem_cons_self _ _⟩
    · intro ha
      have hnone : ∀ e ∈ es, e.double = none :=
        composeLoop_forall_emission beats p (fun e => e.double = none)
          (fun i beat st e st' hcb => (composeBeat_primary _ _ _ _ _ _ _ hcb).2.2 ha)
          beats 0 (ComposerState.init draws) es hgen'
      have heq := h3 hnone
      refine ⟨heq, ?_⟩
      rw [heq, List.length_map, hlen]

/-- C21 at the run of `mixedRun` in the preset EXTREME with the first 40 outputs of the
generator, in which every loop exits within 7 draws: the run returns, with two emissions
for two beats and three notes, the loop for the second lane having run twice. -/
theorem C21_one_primary_note_per_beat_witness :
    1 ≤ 7 ∧ loopsExitWithin 7 mt42x = true ∧
    (2 * 7 + 4) * mixedRun.length ≤ mt42x.length ∧
    (∃ es, generateEmissions mixedRun (getDifficultyParams .EXTREME) mt42x = some es ∧
      generateNotes mixedRun (getDifficultyParams .EXTREME) mt42x =
        some (es.map Emission.notes).flatten) ∧
    generateEmissions mixedRun (getDifficultyParams .EXTREME) mt42x =
      some mixedRunEmissions ∧
    mixedRunEmissions.length = mixedRun.length ∧
    (∀ (k : Nat) (beat : BeatInfo), mixedRun[k]? = some beat →
      ∃ e, mixedRunEmissions[k]? = some e ∧ e.primary.timestamp = beat.timestamp ∧
        e.primary.intensity = beat.intensity) ∧
    generateNotes mixedRun (getDifficultyParams .EXTREME) mt42x =
      some (mixedRunEmissions.map Emission.notes).flatten ∧
    (∀ e ∈ mixedRunEmissions, e.primary ∈ (mixedRunEmissions.map Emission.notes).flatten) ∧
    mixedRun.length ≤ ((mixedRunEmissions.map Emission.notes).flatten).length ∧
    ((mixedRunEmissions.map Emission.notes).flatten).length ≤ 2 * mixedRun.length ∧
    ((getDifficultyParams .EXTREME).allowDoubles = false →
      (mixedRunEmissions.map Emission.notes).flatten =
        mixedRunEmissions.map Emission.primary ∧
      ((mixedRunEmissions.map Emission.notes).flatten).length = mixedRun.length) :=
  ⟨by decide, by decide, by decide,
   (C21_one_primary_note_per_beat (getDifficultyParams .EXTREME) mixedRun mt42x).1 7
     (by decide) (by decide) (by decide),
   mixedRun_emissions,
   (C21_one_primary_note_per_beat (getDifficultyParams .EXTREME) mixedRun mt42x).2.2.1
     mixedRunEmissions mixedRun_emissions⟩

/-! ## A buffer with two beats (C20) -/

theorem frameState_succ (samples : List Int) (sampleRate channelCount : Nat)
    (p : DifficultyParams) (k : Nat) :
    frameState samples sampleRate channelCount p (k + 1) =
      detectFrame samples sampleRate channelCount p
        (frameState samples sampleRate channelCount p k) (0 + k * (hopSize * channelCount)) := by
  unfold frameState
  rw [List.range_succ, List.map_append, List.foldl_append]
  rfl

theorem detectBeats_eq_frameState (samples : List Int) (sampleRate channelCount : Nat)
    (p : DifficultyParams) (k : Nat)
    (hk : (samples.length + 1 - blockSize * channelCount - 0 + hopSize * channelCount - 1) /
      (hopSize * channelCount) = k) :
    detectBeats samples sampleRate channelCount p =
      (frameState samples sampleRate channelCount p k).beats := by
  unfold detectBeats frameStarts forRange frameState
  rw [hk]

/-- The histories after a frame: the energies of the frame are appended, and the oldest
entries dropped when that makes more than 43 entries. -/
theorem detectFrame_histories (samples : List Int) (sampleRate channelCount : Nat)
    (p : DifficultyParams) (st : DetectState) (i : Nat) :
    (detectFrame samples sampleRate channelCount p st i).bassHistory =
      (if decide ((st.bassHistory ++ [bassEnergyOf samples channelCount i]).length >
          historySize) = true
        then (st.bassHistory ++ [bassEnergyOf samples channelCount i]).tail
        else st.bassHistory ++ [bassEnergyOf samples channelCount i]) ∧
    (detectFrame samples sampleRate channelCount p st i).midHistory =
      (if decide ((st.bassHistory ++ [bassEnergyOf samples channelCount i]).length >
          historySize) = true
        then (st.midHistory ++ [midEnergyOf samples channelCount i]).tail
        else st.midHistory ++ [midEnergyOf samples channelCount i]) ∧
    (detectFrame samples sampleRate channelCount p st i).highHistory =
      (if decide ((st.bassHistory ++ [bassEnergyOf samples channelCount i]).length >
          historySize) = true
        then (st.highHistory ++ [highEnergyOf samples channelCount i]).tail
        else st.highHistory ++ [highEnergyOf samples channelCount i]) ∧
    (detectFrame samples sampleRate channelCount p st i).totalHistory =
      (if decide ((st.bassHistory ++ [bassEnergyOf samples channelCount i]).length >
          historySize) = true
        then (st.totalHistory ++ [bassEnergyOf samples channelCount i +
          midEnergyOf samples channelCount i * (1 / 2) +
          highEnergyOf samples channelCount i * (3 / 10)]).tail
        else st.totalHistory ++ [bassEnergyOf samples channelCount i +
          midEnergyOf samples channelCount i * (1 / 2) +
          highEnergyOf samples channelCount i * (3 / 10)]) := by
  unfold detectFrame
  dsimp only
  split_ifs <;> exact ⟨rfl, rfl, rfl, rfl⟩

/-- One frame of `detectBeats`, with the test that appended the beat: either no beat is
appended and `lastBeatTime` is kept, or a beat with the timestamp of the frame is appended,
the frame lies `minNoteInterval * 0.5` after the last beat, and one of the four tests on
the energies holds. -/
theorem detectFrame_tests (samples : List Int) (sampleRate channelCount : Nat)
    (p : DifficultyParams) (st : DetectState) (i : Nat) :
    ((detectFrame samples sampleRate channelCount p st i).beats = st.beats ∧
      (detectFrame samples sampleRate channelCount p st i).lastBeatTime = st.lastBeatTime) ∨
    ((∃ b : BeatInfo,
        (detectFrame samples sampleRate channelCount p st i).beats = st.beats ++ [b] ∧
        b.timestamp = ((i / channelCount : Nat) : ℚ) / (sampleRate : ℚ)) ∧
      (detectFrame samples sampleRate channelCount p st i).lastBeatTime =
        ((i / channelCount : Nat) : ℚ) / (sampleRate : ℚ) ∧
      ((i / channelCount : Nat) : ℚ) / (sampleRate : ℚ) - st.lastBeatTime ≥
        p.minNoteInterval * (1 / 2) ∧
      (bassEnergyOf samples channelCount i > 1 / 1000 ∨
       midEnergyOf samples channelCount i > 5 / 10000 ∨
       highEnergyOf samples channelCount i > 1 / 10000 ∨
       (bassEnergyOf samples channelCount i + midEnergyOf samples channelCount i * (1 / 2) +
          highEnergyOf samples channelCount i * (3 / 10) >
          average (detectFrame samples sampleRate channelCount p st i).totalHistory *
            p.beatThreshold ∧
        average (detectFrame samples sampleRate channelCount p st i).totalHistory >
          5 / 10000))) := by
  unfold detectFrame
  dsimp only
  split_ifs
  all_goals first
    | exact Or.inl ⟨rfl, rfl⟩
    | (rename_i h
       refine Or.inr ⟨⟨_, rfl, rfl⟩, rfl, h.2, ?_⟩
       have h1 := h.1
       simp only [Bool.or_eq_true, decide_eq_true_eq] at h1
       rcases h1 with ((hb | hs) | hh) | ha
       · exact Or.inl hb.2
       · exact Or.inr (Or.inl hs.2)
       · exact Or.inr (Or.inr (Or.inl hh.2))
       · exact Or.inr (Or.inr (Or.inr ha)))

/-- A frame with band energies 0 appends no beat. -/
theorem detectFrame_zero_keeps (samples : List Int) (sampleRate channelCount : Nat)
    (p : DifficultyParams) (st : DetectState) (i : Nat) (hthr : 0 < p.beatThreshold)
    (hb : bassEnergyOf samples channelCount i = 0)
    (hm : midEnergyOf samples channelCount i = 0)
    (hh : highEnergyOf samples channelCount i = 0) :
    (detectFrame samples sampleRate channelCount p st i).beats = st.beats ∧
      (detectFrame samples sampleRate channelCount p st i).lastBeatTime = st.lastBeatTime := by
  rcases detectFrame_tests samples sampleRate channelCount p st i with h | ⟨_, _, _, h⟩
  · exact h
  · exfalso
    rw [hb, hm, hh] at h
    rcases h with h | h | h | ⟨h1, h2⟩
    · norm_num at h
    · norm_num at h
    · norm_num at h
    · have : 0 < average (detectFrame samples sampleRate channelCount p st i).totalHistory *
          p.beatThreshold := mul_pos (lt_trans (by norm_num) h2) hthr
      norm_num at h1
      linarith

/-- A frame less than `minNoteInterval * 0.5` after the last beat appends no beat. -/
theorem detectFrame_soon_keeps (samples : List Int) (sampleRate channelCount : Nat)
    (p : DifficultyParams) (st : DetectState) (i : Nat)
    (hsoon : ((i / channelCount : Nat) : ℚ) / (sampleRate : ℚ) - st.lastBeatTime <
      p.minNoteInterval * (1 / 2)) :
    (detectFrame samples sampleRate channelCount p st i).beats = st.beats ∧
      (detectFrame samples sampleRate channelCount p st i).lastBeatTime = st.lastBeatTime := by
  rcases detectFrame_tests samples sampleRate channelCount p st i with h | ⟨_, _, h, _⟩
  · exact h
  · exact absurd h (not_le.mpr hsoon)

theorem zerosFrom_push (q q' n : Nat) (h : List ℚ) (v : ℚ) (hlen : h.length = n)
    (hz : zerosFrom q h) (hq : q ≤ q') (hv : v = 0 ∨ n < q') :
    zerosFrom q' (h ++ [v]) := by
  intro j hj
  rw [List.getD_eq_getElem?_getD]
  by_cases h1 : j < h.length
  · rw [List.getElem?_append_left h1, ← List.getD_eq_getElem?_getD]
    exact hz j (le_trans hq hj)
  · rw [List.getElem?_append_right (not_lt.mp h1)]
    by_cases h2 : j = h.length
    · rw [h2, Nat.sub_self]
      rcases hv with hv | hv
      · rw [hv]; rfl
      · omega
    · have h3 : j - h.length = (j - h.length - 1) + 1 := by omega
      rw [h3]
      rfl

theorem zerosFrom_tail (q : Nat) (h : List ℚ) (hz : zerosFrom q h) :
    zerosFrom (q - 1) h.tail := by
  intro j hj
  cases h with
  | nil => rfl
  | cons a t =>
    have := hz (j + 1) (by omega)
    rw [List.getD_cons_succ] at this
    exact this

theorem zerosFrom_zero (h : List ℚ) (hz : zerosFrom 0 h) : ∀ x ∈ h, x = 0 := by
  intro x hx
  obtain ⟨j, hj, rfl⟩ := List.getElem_of_mem hx
  have := hz j (Nat.zero_le j)
  rw [List.getD_eq_getElem?_getD, List.getElem?_eq_getElem hj] at this
  exact this

/-- The histories after a frame keep their shape: with zero energies, or when the zeros
are only claimed from the new entry on, `q` is kept while the histories grow and drops
by one when the oldest entries are dropped. -/
theorem detectFrame_quiet_step (samples : List Int) (sampleRate channelCount : Nat)
    (p : DifficultyParams) (st : DetectState) (i : Nat) (q q' n : Nat)
    (hst : st.quietFrom q n) (hq : q ≤ q')
    (hz : (bassEnergyOf samples channelCount i = 0 ∧ midEnergyOf samples channelCount i = 0 ∧
      highEnergyOf samples channelCount i = 0) ∨ n < q') :
    (detectFrame samples sampleRate channelCount p st i).quietFrom
      (if n + 1 > historySize then q' - 1 else q') (if n + 1 > historySize then n else n + 1) := by
  obtain ⟨hB, hM, hH, hT⟩ := detectFrame_histories samples sampleRate channelCount p st i
  obtain ⟨⟨hb1, hb2⟩, ⟨hm1, hm2⟩, ⟨hh1, hh2⟩, ⟨ht1, ht2⟩⟩ := hst
  have hlenB : (st.bassHistory ++ [bassEnergyOf samples channelCount i]).length = n + 1 := by
    rw [List.length_append, hb1]; rfl
  rw [hlenB] at hB hM hH hT
  have hzt : bassEnergyOf samples channelCount i + midEnergyOf samples channelCount i * (1 / 2)
      + highEnergyOf samples channelCount i * (3 / 10) = 0 ∨ n < q' := by
    rcases hz with ⟨h1, h2, h3⟩ | h
    · left; rw [h1, h2, h3]; norm_num
    · right; exact h
  have hzb : bassEnergyOf samples channelCount i = 0 ∨ n < q' := hz.imp (fun h => h.1) id
  have hzm : midEnergyOf samples channelCount i = 0 ∨ n < q' := hz.imp (fun h => h.2.1) id
  have hzh : highEnergyOf samples channelCount i = 0 ∨ n < q' := hz.imp (fun h => h.2.2) id
  have key : ∀ (h : List ℚ) (v : ℚ), h.length = n → zerosFrom q h → (v = 0 ∨ n < q') →
      ((if decide (n + 1 > historySize) = true then (h ++ [v]).tail else h ++ [v]).length =
        (if n + 1 > historySize then n else n + 1) ∧
       zerosFrom (if n + 1 > historySize then q' - 1 else q')
        (if decide (n + 1 > historySize) = true then (h ++ [v]).tail else h ++ [v])) := by
    intro h v hl hzf hv
    have hpush := zerosFrom_push q q' n h v hl hzf hq hv
    by_cases hc : n + 1 > historySize
    · rw [if_pos (decide_eq_true hc), if_pos hc, if_pos hc]
      refine ⟨?_, zerosFrom_tail q' _ hpush⟩
      rw [List.length_tail, List.length_append, hl]
      rfl
    · rw [if_neg (by simpa using hc), if_neg hc, if_neg hc]
      refine ⟨?_, hpush⟩
      rw [List.length_append, hl]
      rfl
  unfold DetectState.quietFrom
  rw [hB, hM, hH, hT]
  exact ⟨key _ _ hb1 hb2 hzb, key _ _ hm1 hm2 hzm, key _ _ hh1 hh2 hzh, key _ _ ht1 ht2 hzt⟩

theorem average_after_zeros (h : List ℚ) (v : ℚ) (hz : ∀ x ∈ h, x = 0) :
    average (h ++ [v]) = v / ((h.length : ℚ) + 1) ∧
      (h ≠ [] → average (h ++ [v]).tail = v / (h.length : ℚ)) := by
  have hrep : h = List.replicate h.length 0 := List.eq_replicate_iff.mpr ⟨rfl, hz⟩
  constructor
  · rw [hrep]
    simpa using average_snoc_zeros h.length v
  · intro hne
    cases h with
    | nil => exact absurd rfl hne
    | cons a t =>
      have ht : t = List.replicate t.length 0 :=
        List.eq_replicate_iff.mpr ⟨rfl, fun x hx => hz x (List.mem_cons_of_mem a hx)⟩
      rw [List.cons_append, List.tail_cons, ht]
      have := average_snoc_zeros t.length v
      simpa using this

/-- A frame fires on its mid energy when the mid history holds only zeros, at least 20 of
them, the threshold is below 20, and the last beat is far enough back. -/
theorem detectFrame_fires (samples : List Int) (sampleRate channelCount : Nat)
    (p : DifficultyParams) (st : DetectState) (i n : Nat)
    (hmid : midEnergyOf samples channelCount i > 5 / 10000)
    (hthr : p.beatThreshold < 20) (hn : 20 ≤ n)
    (hlenB : st.bassHistory.length = n) (hlenM : st.midHistory.length = n)
    (hlenT : st.totalHistory.length = n)
    (hzero : ∀ x ∈ st.midHistory, x = 0)
    (hts : ((i / channelCount : Nat) : ℚ) / (sampleRate : ℚ) - st.lastBeatTime ≥
      p.minNoteInterval * (1 / 2)) :
    (∃ b : BeatInfo,
      (detectFrame samples sampleRate channelCount p st i).beats = st.beats ++ [b] ∧
      b.timestamp = ((i / channelCount : Nat) : ℚ) / (sampleRate : ℚ)) ∧
    (detectFrame samples sampleRate channelCount p st i).lastBeatTime =
      ((i / channelCount : Nat) : ℚ) / (sampleRate : ℚ) := by
  have hpos : (0 : ℚ) < midEnergyOf samples channelCount i := lt_trans (by norm_num) hmid
  have hne : st.midHistory ≠ [] := by
    intro hc
    rw [hc] at hlenM
    simp only [List.length_nil] at hlenM
    omega
  obtain ⟨ha1, ha2⟩ := average_after_zeros st.midHistory (midEnergyOf samples channelCount i) hzero
  have hn' : (20 : ℚ) ≤ (n : ℚ) := by exact_mod_cast hn
  have hlt : ∀ L : ℚ, 20 ≤ L →
      midEnergyOf samples channelCount i / L * p.beatThreshold <
        midEnergyOf samples channelCount i := by
    intro L hL
    have hL0 : 0 < L := by linarith
    rw [div_mul_eq_mul_div, div_lt_iff₀ hL0]
    nlinarith
  unfold detectFrame
  dsimp only
  generalize bassEnergyOf samples channelCount i = eB
  generalize highEnergyOf samples channelCount i = eH
  generalize midEnergyOf samples channelCount i = eM at hmid hpos ha1 ha2 hlt ⊢
  have hlen1 : (st.bassHistory ++ [eB]).length = n + 1 := by
    rw [List.length_append, hlenB]; rfl
  rw [hlen1]
  by_cases hpop : n + 1 > historySize
  · simp only [if_pos (decide_eq_true hpop)]
    have hwarm : ¬ (st.totalHistory ++ [eB + eM * (1 / 2) + eH * (3 / 10)]).tail.length <
        historySize / 2 := by
      rw [List.length_tail, List.length_append, hlenT]
      unfold historySize at hpop ⊢
      simp only [List.length_singleton]
      omega
    rw [if_neg hwarm]
    have hsnare : decide (eM > average (st.midHistory ++ [eM]).tail * p.beatThreshold ∧
        eM > 5 / 10000) = true := by
      apply decide_eq_true
      refine ⟨?_, hmid⟩
      rw [ha2 hne, hlenM]
      exact hlt _ hn'
    rw [if_pos ⟨by rw [hsnare]; simp, hts⟩]
    exact ⟨⟨_, rfl, rfl⟩, rfl⟩
  · simp only [if_neg (show ¬ decide (n + 1 > historySize) = true by simpa using hpop)]
    have hwarm : ¬ (st.totalHistory ++ [eB + eM * (1 / 2) + eH * (3 / 10)]).length <
        historySize / 2 := by
      rw [List.length_append, hlenT]
      unfold historySize
      simp only [List.length_singleton]
      omega
    rw [if_neg hwarm]
    have hsnare : decide (eM > average (st.midHistory ++ [eM]) * p.beatThreshold ∧
        eM > 5 / 10000) = true := by
      apply decide_eq_true
      refine ⟨?_, hmid⟩
      rw [ha1, hlenM]
      exact hlt _ (by linarith)
    rw [if_pos ⟨by rw [hsnare]; simp, hts⟩]
    exact ⟨⟨_, rfl, rfl⟩, rfl⟩

/-- A mono frame whose last sample is full scale after a zero sample has a mid energy
above the floor of the snare test. -/
theorem mid_of_final_click (samples : List Int) (i : Nat)
    (h1 : sampleAt samples (i + 1023) = 32767) (h2 : sampleAt samples (i + 1023 - 1) = 0) :
    midEnergyOf samples 1 i > 5 / 10000 := by
  have hmem : (1023 : Nat) ∈ forRange 1 (blockSize * 1) 1 := by
    unfold forRange
    exact List.mem_map.mpr ⟨1022, List.mem_range.mpr (by norm_num [blockSize]), by norm_num⟩
  have hterm := List.single_le_sum
    (l := (forRange 1 (blockSize * 1) 1).map (fun j =>
      (((sampleAt samples (i + j) - sampleAt samples (i + j - 1) : Int) : ℚ) / 32768) *
      (((sampleAt samples (i + j) - sampleAt samples (i + j - 1) : Int) : ℚ) / 32768)))
    (fun x hx => by
      obtain ⟨j, _, rfl⟩ := List.mem_map.mp hx
      exact mul_self_nonneg _)
    _ (List.mem_map.mpr ⟨1023, hmem, rfl⟩)
  rw [h1, h2] at hterm
  unfold midEnergyOf
  dsimp only
  have hbs : ((blockSize : Nat) : ℚ) = 1024 := by norm_num [blockSize]
  rw [hbs, gt_iff_lt, lt_div_iff₀ (by norm_num)]
  refine lt_of_lt_of_le ?_ hterm
  norm_num

theorem zerosFrom_replicate (q k : Nat) : zerosFrom q (List.replicate k (0 : ℚ)) := by
  intro j _
  rw [List.getD_eq_getElem?_getD, List.getElem?_replicate]
  split_ifs <;> rfl

theorem silent_quietFrom (k : Nat) : (DetectState.silent k).quietFrom k k := by
  unfold DetectState.quietFrom DetectState.silent
  dsimp only
  exact ⟨⟨List.length_replicate _ _, zerosFrom_replicate k k⟩,
    ⟨List.length_replicate _ _, zerosFrom_replicate k k⟩,
    ⟨List.length_replicate _ _, zerosFrom_replicate k k⟩,
    ⟨List.length_replicate _ _, zerosFrom_replicate k k⟩⟩

/-- A mono buffer of 66 frames at 44100 Hz that is silent except for a full-scale sample
at the end of frame 20 and one at the end of frame 65 yields two beats, at the starts of
these two frames. -/
theorem detectBeats_two_clicks (samples : List Int) (p : DifficultyParams)
    (hlen : samples.length = 34304)
    (h1 : sampleAt samples 11263 = 32767) (h2 : sampleAt samples 34303 = 32767)
    (h0 : ∀ idx, idx ≠ 11263 → idx ≠ 34303 → sampleAt samples idx = 0)
    (hthr0 : 0 < p.beatThreshold) (hthr : p.beatThreshold < 20)
    (hgap1 : (512 : ℚ) / 44100 < p.minNoteInterval * (1 / 2))
    (hgap2 : p.minNoteInterval * (1 / 2) ≤ 3 / 10) :
    ∃ b1 b2 : BeatInfo, detectBeats samples 44100 1 p = [b1, b2] ∧
      b1.timestamp = 10240 / 44100 ∧ b2.timestamp = 33280 / 44100 := by
  have hzero : ∀ k : Nat, (k ≤ 19 ∨ (22 ≤ k ∧ k ≤ 64)) →
      bassEnergyOf samples 1 (0 + k * (hopSize * 1)) = 0 ∧
      midEnergyOf samples 1 (0 + k * (hopSize * 1)) = 0 ∧
      highEnergyOf samples 1 (0 + k * (hopSize * 1)) = 0 := by
    intro k hk
    refine energies_zero_window samples 1 _ (by norm_num) (fun idx h3 h4 => h0 idx ?_ ?_)
    · unfold hopSize at h3 h4; unfold blockSize at h4; omega
    · unfold hopSize at h3 h4; unfold blockSize at h4; omega
  have hA : ∀ k, k ≤ 20 → frameState samples 44100 1 p k = DetectState.silent k := by
    intro k
    induction k with
    | zero => intro _; rfl
    | succ k ih =>
      intro hk
      rw [frameState_succ, ih (by omega)]
      obtain ⟨hb, hm, hh⟩ := hzero k (Or.inl (by omega))
      exact detectFrame_silent_step samples 44100 1 p _ k (by omega) hb hm hh
  have hts : ∀ k : Nat, (((0 + k * (hopSize * 1)) / 1 : Nat) : ℚ) / ((44100 : Nat) : ℚ) =
      (k : ℚ) * 512 / 44100 := by
    intro k
    unfold hopSize
    rw [Nat.div_one]
    push_cast
    ring
  -- frame 20 fires
  have hm20 : midEnergyOf samples 1 (0 + 20 * (hopSize * 1)) > 5 / 10000 :=
    mid_of_final_click samples _ (by unfold hopSize; exact h1)
      (by unfold hopSize; exact h0 _ (by norm_num) (by norm_num))
  obtain ⟨⟨b1, hb1, hb1t⟩, hl21⟩ := detectFrame_fires samples 44100 1 p (DetectState.silent 20)
    (0 + 20 * (hopSize * 1)) 20 hm20 hthr (le_refl 20) (List.length_replicate _ _)
    (List.length_replicate _ _) (List.length_replicate _ _)
    (fun x hx => (List.mem_replicate.mp hx).2)
    (by
      rw [hts 20]
      show (20 : ℚ) * 512 / 44100 - -(1 / 10) ≥ _
      linarith)
  have hq21 : (detectFrame samples 44100 1 p (DetectState.silent 20)
      (0 + 20 * (hopSize * 1))).quietFrom 21 21 := by
    simpa [historySize] using detectFrame_quiet_step samples 44100 1 p (DetectState.silent 20)
      (0 + 20 * (hopSize * 1)) 20 21 20 (silent_quietFrom 20) (by omega) (Or.inr (by omega))
  have hS21 := frameState_succ samples 44100 1 p 20
  rw [hA 20 (le_refl 20)] at hS21
  rw [← hS21] at hb1 hl21 hq21
  rw [hts 20] at hb1t hl21
  have hb1' : (frameState samples 44100 1 p 21).beats = [b1] := hb1
  -- frame 21 is too close to the beat
  have hS22 := frameState_succ samples 44100 1 p 21
  have hk22 := detectFrame_soon_keeps samples 44100 1 p (frameState samples 44100 1 p 21)
    (0 + 21 * (hopSize * 1)) (by
      rw [hts 21, hl21]
      push_cast
      linarith)
  have hq22 : (detectFrame samples 44100 1 p (frameState samples 44100 1 p 21)
      (0 + 21 * (hopSize * 1))).quietFrom 22 22 := by
    simpa [historySize] using detectFrame_quiet_step samples 44100 1 p
      (frameState samples 44100 1 p 21) (0 + 21 * (hopSize * 1)) 21 22 21 hq21 (by omega)
      (Or.inr (by omega))
  rw [← hS22] at hk22 hq22
  -- frames 22 to 64 are silent and flush the histories
  have hD : ∀ k, 22 ≤ k → k ≤ 65 →
      (frameState samples 44100 1 p k).beats = [b1] ∧
      (frameState samples 44100 1 p k).lastBeatTime = (20 : ℚ) * 512 / 44100 ∧
      (frameState samples 44100 1 p k).quietFrom (if k ≤ 43 then 22 else 65 - k)
        (min k 43) := by
    intro k hk
    induction k, hk using Nat.le_induction with
    | base =>
      intro _
      exact ⟨hk22.1.trans hb1', hk22.2.trans hl21, hq22⟩
    | succ k hk ih =>
      intro hk65
      obtain ⟨ihb, ihl, ihq⟩ := ih (by omega)
      obtain ⟨hb, hm, hh⟩ := hzero k (Or.inr ⟨hk, by omega⟩)
      have hkeep := detectFrame_zero_keeps samples 44100 1 p
        (frameState samples 44100 1 p k) (0 + k * (hopSize * 1)) hthr0 hb hm hh
      have hq := detectFrame_quiet_step samples 44100 1 p
        (frameState samples 44100 1 p k) (0 + k * (hopSize * 1)) _ _ _ ihq (le_refl _)
        (Or.inl ⟨hb, hm, hh⟩)
      rw [← frameState_succ] at hkeep hq
      have e1 : (if min k 43 + 1 > historySize then (if k ≤ 43 then 22 else 65 - k) - 1
          else (if k ≤ 43 then 22 else 65 - k)) = (if k + 1 ≤ 43 then 22 else 65 - (k + 1)) := by
        unfold historySize
        split_ifs <;> omega
      have e2 : (if min k 43 + 1 > historySize then min k 43 else min k 43 + 1) =
          min (k + 1) 43 := by
        unfold historySize
        split_ifs <;> omega
      rw [e1, e2] at hq
      exact ⟨hkeep.1.trans ihb, hkeep.2.trans ihl, hq⟩
  obtain ⟨hb65, hl65, hq65⟩ := hD 65 (by omega) (le_refl 65)
  rw [if_neg (by omega), Nat.sub_self] at hq65
  have hmin : min 65 43 = 43 := by omega
  rw [hmin] at hq65
  -- frame 65 fires
  have hm65 : midEnergyOf samples 1 (0 + 65 * (hopSize * 1)) > 5 / 10000 :=
    mid_of_final_click samples _ (by unfold hopSize; exact h2)
      (by unfold hopSize; exact h0 _ (by norm_num) (by norm_num))
  obtain ⟨⟨b2, hb2, hb2t⟩, _⟩ := detectFrame_fires samples 44100 1 p
    (frameState samples 44100 1 p 65) (0 + 65 * (hopSize * 1)) 43 hm65 hthr (by omega)
    hq65.1.1 hq65.2.1.1 hq65.2.2.2.1 (zerosFrom_zero _ hq65.2.1.2)
    (by
      rw [hts 65, hl65]
      push_cast
      linarith)
  rw [← frameState_succ, hb65] at hb2
  rw [hts 65] at hb2t
  refine ⟨b1, b2, ?_, by rw [hb1t]; norm_num, by rw [hb2t]; norm_num⟩
  rw [detectBeats_eq_frameState samples 44100 1 p 66 (by
    rw [hlen]
    norm_num [blockSize, hopSize])]
  exact hb2

theorem sampleAt_twoClicks (idx : Nat) :
    sampleAt twoClicks idx = if idx = 11263 ∨ idx = 34303 then 32767 else 0 := by
  have hlen : clickBuffer.length = 11264 := by
    unfold clickBuffer
    rw [List.length_append, List.length_replicate]
    rfl
  by_cases h1 : idx < 11264
  · have hleft : sampleAt twoClicks idx = sampleAt clickBuffer idx := by
      unfold sampleAt twoClicks
      rw [List.getD_eq_getElem?_getD, List.getD_eq_getElem?_getD,
        List.getElem?_append_left (by rw [hlen]; exact h1)]
    rw [hleft, sampleAt_clickBuffer]
    by_cases h2 : idx = 11263
    · rw [if_pos h2, if_pos (Or.inl h2)]
    · rw [if_neg h2, if_neg (by omega)]
  · unfold sampleAt twoClicks
    rw [List.getD_eq_getElem?_getD, List.getElem?_append_right (by rw [hlen]; omega), hlen]
    by_cases h2 : idx - 11264 < 23039
    · rw [List.getElem?_append_left (by rw [List.length_replicate]; exact h2),
        List.getElem?_replicate, if_pos h2, if_neg (by omega)]
      rfl
    · rw [List.getElem?_append_right (by rw [List.length_replicate]; omega),
        List.length_replicate]
      by_cases h3 : idx = 34303
      · rw [if_pos (Or.inr h3), h3]
        rfl
      · rw [if_neg (by omega)]
        have h4 : idx - 11264 - 23039 = (idx - 11264 - 23039 - 1) + 1 := by omega
        rw [h4]
        rfl

theorem twoClicks_length : twoClicks.length = 34304 := by
  unfold twoClicks clickBuffer
  simp only [List.length_append, List.length_replicate, List.length_singleton]

/-- The buffer `twoClicks` yields two beats in the preset MEDIUM. -/
theorem twoClicks_beats :
    ∃ b1 b2 : BeatInfo,
      detectBeats twoClicks 44100 1 (getDifficultyParams .MEDIUM) = [b1, b2] ∧
      b1.timestamp = 10240 / 44100 ∧ b2.timestamp = 33280 / 44100 :=
  detectBeats_two_clicks twoClicks (getDifficultyParams .MEDIUM) twoClicks_length
    (by rw [sampleAt_twoClicks, if_pos (Or.inl rfl)])
    (by rw [sampleAt_twoClicks, if_pos (Or.inr rfl)])
    (fun idx h1 h2 => by rw [sampleAt_twoClicks, if_neg (by omega)])
    (by norm_num [getDifficultyParams]) (by norm_num [getDifficultyParams])
    (by norm_num [getDifficultyParams]) (by norm_num [getDifficultyParams])

/-- C20 at a mono buffer with two clicks in the preset MEDIUM: the beat list has two beats,
at frames 20 and 65, and they are 0.52 s apart. -/
theorem C20_beats_increasing_and_spaced_witness :
    1 ≤ 1 ∧
    (∃ b1 b2 : BeatInfo,
      detectBeats twoClicks 44100 1 (getDifficultyParams .MEDIUM) = [b1, b2] ∧
      b1.timestamp = 10240 / 44100 ∧ b2.timestamp = 33280 / 44100) ∧
    ((detectBeats twoClicks 44100 1 (getDifficultyParams .MEDIUM)).Pairwise
      (fun a b => a.timestamp < b.timestamp ∧
        b.timestamp - a.timestamp ≥ (getDifficultyParams .MEDIUM).minNoteInterval * (1 / 2)) ∧
    ∀ (k : Nat) (a b : BeatInfo),
      (detectBeats twoClicks 44100 1 (getDifficultyParams .MEDIUM))[k]? = some a →
      (detectBeats twoClicks 44100 1 (getDifficultyParams .MEDIUM))[k + 1]? = some b →
      a.timestamp < b.timestamp ∧
        b.timestamp - a.timestamp ≥ (getDifficultyParams .MEDIUM).minNoteInterval * (1 / 2)) :=
  ⟨le_refl 1, twoClicks_beats,
   C20_beats_increasing_and_spaced twoClicks 44100 1 .MEDIUM (le_refl 1)⟩

/-! ## Rounding to `float` -/

theorem roundHalfEven_cases (q : ℚ) :
    roundHalfEven q = ⌊q⌋ ∧ q - ⌊q⌋ ≤ 1 / 2 ∨ roundHalfEven q = ⌊q⌋ + 1 ∧ 1 / 2 ≤ q - ⌊q⌋ := by
  unfold roundHalfEven
  by_cases h1 : q - ⌊q⌋ < 1 / 2
  · rw [if_pos h1]; exact Or.inl ⟨rfl, le_of_lt h1⟩
  · rw [if_neg h1]
    by_cases h2 : 1 / 2 < q - ⌊q⌋
    · rw [if_pos h2]; exact Or.inr ⟨rfl, le_of_lt h2⟩
    · rw [if_neg h2]
      by_cases h3 : ⌊q⌋ % 2 = 0
      · rw [if_pos h3]; exact Or.inl ⟨rfl, not_lt.mp h2⟩
      · rw [if_neg h3]; exact Or.inr ⟨rfl, not_lt.mp h1⟩

theorem roundHalfEven_eq (q : ℚ) (m : Int) (h1 : (m : ℚ) - 1 / 2 < q) (h2 : q < m + 1 / 2) :
    roundHalfEven q = m := by
  have hfl1 := Int.floor_le q
  have hfl2 := Int.lt_floor_add_one q
  rcases roundHalfEven_cases q with ⟨h, hd⟩ | ⟨h, hd⟩
  · rw [h]
    have a1 : ((⌊q⌋ : Int) : ℚ) < m + 1 := by linarith
    have a2 : (m : ℚ) < ⌊q⌋ + 1 := by linarith
    have b1 : ⌊q⌋ < m + 1 := by exact_mod_cast a1
    have b2 : m < ⌊q⌋ + 1 := by exact_mod_cast a2
    omega
  · rw [h]
    have a1 : ((⌊q⌋ : Int) : ℚ) < m := by linarith
    have a2 : (m : ℚ) - 1 < ⌊q⌋ + 1 := by linarith
    have b1 : ⌊q⌋ < m := by exact_mod_cast a1
    have b2 : m - 1 < ⌊q⌋ + 1 := by exact_mod_cast a2
    omega

theorem roundHalfEven_intCast (m : Int) : roundHalfEven (m : ℚ) = m :=
  roundHalfEven_eq _ m (by linarith) (by linarith)

theorem roundHalfEven_mono {q q' : ℚ} (h : q ≤ q') : roundHalfEven q ≤ roundHalfEven q' := by
  have hfl : ⌊q⌋ ≤ ⌊q'⌋ := Int.floor_mono h
  by_cases hlt : ⌊q⌋ < ⌊q'⌋
  · have h1 : roundHalfEven q ≤ ⌊q⌋ + 1 := by
      rcases roundHalfEven_cases q with ⟨h1, _⟩ | ⟨h1, _⟩ <;> (rw [h1]; try omega)
    have h2 : ⌊q'⌋ ≤ roundHalfEven q' := by
      rcases roundHalfEven_cases q' with ⟨h1, _⟩ | ⟨h1, _⟩ <;> (rw [h1]; try omega)
    omega
  · have heq : ⌊q⌋ = ⌊q'⌋ := le_antisymm hfl (not_lt.mp hlt)
    unfold roundHalfEven
    rw [heq]
    have hd : q - ⌊q'⌋ ≤ q' - ⌊q'⌋ := by linarith
    by_cases a1 : q - ⌊q'⌋ < 1 / 2
    · rw [if_pos a1]
      split_ifs <;> omega
    · rw [if_neg a1]
      have b1 : ¬ q' - ⌊q'⌋ < 1 / 2 := by linarith
      rw [if_neg b1]
      by_cases a2 : 1 / 2 < q - ⌊q'⌋
      · have b2 : 1 / 2 < q' - ⌊q'⌋ := by linarith
        rw [if_pos a2, if_pos b2]
      · rw [if_neg a2]
        split_ifs <;> omega

theorem roundHalfEven_neg (q : ℚ) : roundHalfEven (-q) = -roundHalfEven q := by
  have hfl1 := Int.floor_le q
  have hfl2 := Int.lt_floor_add_one q
  by_cases hint : (⌊q⌋ : ℚ) = q
  · rw [← hint, ← Int.cast_neg, roundHalfEven_intCast, roundHalfEven_intCast]
  · have hlt : (⌊q⌋ : ℚ) < q := lt_of_le_of_ne hfl1 hint
    have hfn : ⌊-q⌋ = -⌊q⌋ - 1 := by
      rw [Int.floor_eq_iff]
      push_cast
      constructor <;> linarith
    unfold roundHalfEven
    rw [hfn]
    push_cast
    by_cases a1 : q - ⌊q⌋ < 1 / 2
    · rw [if_pos a1, if_neg (by linarith), if_pos (by linarith)]
      ring
    · rw [if_neg a1]
      by_cases a2 : 1 / 2 < q - ⌊q⌋
      · rw [if_pos a2, if_pos (by linarith)]
        ring
      · rw [if_neg a2, if_neg (by linarith), if_neg (by linarith)]
        by_cases a3 : ⌊q⌋ % 2 = 0
        · rw [if_pos a3, if_neg (by omega)]
          ring
        · rw [if_neg a3, if_pos (by omega)]
          ring

theorem f32Exp_neg (x : ℚ) : f32Exp (-x) = f32Exp x := by
  unfold f32Exp
  rw [abs_neg]

theorem f32_neg (x : ℚ) : f32 (-x) = -f32 x := by
  unfold f32
  rw [f32Exp_neg, neg_div, roundHalfEven_neg]
  push_cast
  ring

theorem f32_zero : f32 0 = 0 := by
  unfold f32
  rw [zero_div]
  have : roundHalfEven 0 = 0 := by
    have := roundHalfEven_intCast 0
    simpa using this
  rw [this]
  simp

theorem two_zpow_pos (e : Int) : (0 : ℚ) < 2 ^ e := zpow_pos (by norm_num) e

theorem f32_nonneg {x : ℚ} (h : 0 ≤ x) : 0 ≤ f32 x := by
  unfold f32
  have hu := two_zpow_pos (f32Exp x - 23)
  have h0 : roundHalfEven 0 ≤ roundHalfEven (x / 2 ^ (f32Exp x - 23)) :=
    roundHalfEven_mono (div_nonneg h (le_of_lt hu))
  have h00 : roundHalfEven 0 = 0 := by
    have := roundHalfEven_intCast 0
    simpa using this
  rw [h00] at h0
  have : (0 : ℚ) ≤ (roundHalfEven (x / 2 ^ (f32Exp x - 23)) : ℚ) := by exact_mod_cast h0
  exact mul_nonneg this (le_of_lt hu)

/-- The rounding of a value of a known binade: any exponent `e` with
`2^e <= |x| < 2^(e+1)`, or `e = -126` below that. -/
theorem f32Exp_eq (x : ℚ) (e : Int) (he : -126 ≤ e) (h2 : |x| < 2 ^ (e + 1))
    (h1 : 2 ^ e ≤ |x| ∨ (e = -126 ∧ x ≠ 0)) : f32Exp x = e := by
  unfold f32Exp
  by_cases hx : |x| = 0
  · rw [hx] at h1
    rcases h1 with h1 | h1
    · exact absurd h1 (not_le.mpr (two_zpow_pos e))
    · exact absurd (abs_eq_zero.mp hx) h1.2
  · have hpos : 0 < |x| := lt_of_le_of_ne (abs_nonneg x) (Ne.symm hx)
    have hlt : Int.log 2 |x| < e + 1 := (Int.lt_zpow_iff_log_lt (by norm_num) hpos).mp (by exact_mod_cast h2)
    rcases h1 with h1 | h1
    · have hle : e ≤ Int.log 2 |x| := (Int.zpow_le_iff_le_log (by norm_num) hpos).mp (by exact_mod_cast h1)
      have : Int.log 2 |x| = e := by omega
      rw [this]
      exact max_eq_left he
    · rw [h1.1] at hlt ⊢
      exact max_eq_right (by omega)

theorem f32_eq (x : ℚ) (e m : Int) (he : -126 ≤ e) (h2 : |x| < 2 ^ (e + 1))
    (h1 : 2 ^ e ≤ |x| ∨ (e = -126 ∧ x ≠ 0))
    (hm1 : (m : ℚ) - 1 / 2 < x / 2 ^ (e - 23)) (hm2 : x / 2 ^ (e - 23) < m + 1 / 2) :
    f32 x = m * 2 ^ (e - 23) := by
  unfold f32
  rw [f32Exp_eq x e he h2 h1, roundHalfEven_eq _ m hm1 hm2]

theorem f32_le_binade_top (x : ℚ) : f32 x ≤ 2 ^ (f32Exp x + 1) := by
  have hu := two_zpow_pos (f32Exp x - 23)
  have hpow : (2 : ℚ) ^ (f32Exp x + 1) = ((16777216 : Int) : ℚ) * 2 ^ (f32Exp x - 23) := by
    rw [show f32Exp x + 1 = 24 + (f32Exp x - 23) by ring, zpow_add₀ (by norm_num)]
    norm_num
  have hlt : x < 2 ^ (f32Exp x + 1) := by
    have h1 : |x| < (2 : ℚ) ^ (Int.log 2 |x| + 1) := by
      exact_mod_cast Int.lt_zpow_succ_log_self (by norm_num : 1 < 2) |x|
    have h2 : (2 : ℚ) ^ (Int.log 2 |x| + 1) ≤ 2 ^ (f32Exp x + 1) :=
      zpow_le_zpow_right₀ (by norm_num) (by unfold f32Exp; omega)
    exact lt_of_le_of_lt (le_abs_self x) (lt_of_lt_of_le h1 h2)
  have hq : x / 2 ^ (f32Exp x - 23) ≤ ((16777216 : Int) : ℚ) := by
    rw [div_le_iff₀ hu, ← hpow]
    exact le_of_lt hlt
  have hr := roundHalfEven_mono hq
  rw [roundHalfEven_intCast] at hr
  unfold f32
  rw [hpow]
  exact mul_le_mul_of_nonneg_right (by exact_mod_cast hr) (le_of_lt hu)

theorem f32_ge_binade_bottom (y : ℚ) (hy : 0 < y) (he : -126 < f32Exp y) :
    2 ^ f32Exp y ≤ f32 y := by
  have hv := two_zpow_pos (f32Exp y - 23)
  have hlog : f32Exp y = Int.log 2 |y| := by
    unfold f32Exp at he ⊢
    omega
  have hpow : (2 : ℚ) ^ f32Exp y = ((8388608 : Int) : ℚ) * 2 ^ (f32Exp y - 23) := by
    nth_rewrite 1 [show f32Exp y = 23 + (f32Exp y - 23) by ring]
    rw [zpow_add₀ (by norm_num)]
    norm_num
  have hle : (2 : ℚ) ^ f32Exp y ≤ y := by
    rw [hlog, abs_of_pos hy]
    exact_mod_cast Int.zpow_log_le_self (by norm_num : 1 < 2) hy
  have hq : ((8388608 : Int) : ℚ) ≤ y / 2 ^ (f32Exp y - 23) := by
    rw [le_div_iff₀ hv, ← hpow]
    exact hle
  have hr := roundHalfEven_mono hq
  rw [roundHalfEven_intCast] at hr
  unfold f32
  rw [hpow]
  exact mul_le_mul_of_nonneg_right (by exact_mod_cast hr) (le_of_lt hv)

theorem f32_mono_pos {x y : ℚ} (hx : 0 < x) (h : x ≤ y) : f32 x ≤ f32 y := by
  have hy : 0 < y := lt_of_lt_of_le hx h
  have hexp : f32Exp x ≤ f32Exp y := by
    unfold f32Exp
    have := Int.log_mono_right (b := 2) (by rw [abs_of_pos hx]; exact hx)
      (show |x| ≤ |y| by rw [abs_of_pos hx, abs_of_pos hy]; exact h)
    omega
  by_cases heq : f32Exp x = f32Exp y
  · unfold f32
    rw [heq]
    have hv := two_zpow_pos (f32Exp y - 23)
    have hq : x / 2 ^ (f32Exp y - 23) ≤ y / 2 ^ (f32Exp y - 23) :=
      div_le_div_of_nonneg_right h (le_of_lt hv)
    exact mul_le_mul_of_nonneg_right (by exact_mod_cast roundHalfEven_mono hq) (le_of_lt hv)
  · have hlt : f32Exp x + 1 ≤ f32Exp y := by omega
    have hmin : -126 ≤ f32Exp x := by unfold f32Exp; omega
    calc f32 x ≤ 2 ^ (f32Exp x + 1) := f32_le_binade_top x
      _ ≤ 2 ^ f32Exp y := zpow_le_zpow_right₀ (by norm_num) hlt
      _ ≤ f32 y := f32_ge_binade_bottom y hy (by omega)

/-- Rounding to `float` is monotone. -/
theorem f32_mono {x y : ℚ} (h : x ≤ y) : f32 x ≤ f32 y := by
  rcases lt_trichotomy x 0 with hx | hx | hx
  · rcases le_or_lt 0 y with hy | hy
    · have h1 : 0 ≤ f32 (-x) := f32_nonneg (by linarith)
      rw [f32_neg] at h1
      have h2 := f32_nonneg hy
      linarith
    · have h1 : f32 (-y) ≤ f32 (-x) := f32_mono_pos (by linarith) (by linarith)
      rw [f32_neg, f32_neg] at h1
      linarith
  · rw [hx, f32_zero]
    exact f32_nonneg (by linarith)
  · exact f32_mono_pos hx h

theorem f32_abs (x : ℚ) : |f32 x| = f32 |x| := by
  rcases le_or_lt 0 x with hx | hx
  · rw [abs_of_nonneg hx, abs_of_nonneg (f32_nonneg hx)]
  · have h1 : 0 ≤ f32 (-x) := f32_nonneg (by linarith)
    rw [abs_of_neg hx]
    rw [f32_neg] at h1 ⊢
    rw [abs_of_nonpos (by linarith)]

/-- The error of rounding to `float` in the normal range: at most `2^-24` of the value. -/
theorem f32_rel_error (x : ℚ) (hx : 2 ^ (-126 : Int) ≤ |x|) :
    |f32 x - x| ≤ |x| / 2 ^ 24 := by
  have hpos : 0 < |x| := lt_of_lt_of_le (two_zpow_pos _) hx
  have hlog : -126 ≤ Int.log 2 |x| :=
    (Int.zpow_le_iff_le_log (by norm_num) hpos).mp (by exact_mod_cast hx)
  have he : f32Exp x = Int.log 2 |x| := by unfold f32Exp; omega
  have hle : (2 : ℚ) ^ f32Exp x ≤ |x| := by
    rw [he]
    exact_mod_cast Int.zpow_log_le_self (by norm_num : 1 < 2) hpos
  have hu := two_zpow_pos (f32Exp x - 23)
  have hpow : (2 : ℚ) ^ f32Exp x = 8388608 * 2 ^ (f32Exp x - 23) := by
    nth_rewrite 1 [show f32Exp x = 23 + (f32Exp x - 23) by ring]
    rw [zpow_add₀ (by norm_num)]
    norm_num
  have hr : |(roundHalfEven (x / 2 ^ (f32Exp x - 23)) : ℚ) - x / 2 ^ (f32Exp x - 23)| ≤ 1 / 2 := by
    have hfl1 := Int.floor_le (x / 2 ^ (f32Exp x - 23))
    have hfl2 := Int.lt_floor_add_one (x / 2 ^ (f32Exp x - 23))
    rw [abs_le]
    rcases roundHalfEven_cases (x / 2 ^ (f32Exp x - 23)) with ⟨h, hd⟩ | ⟨h, hd⟩
    · rw [h]; constructor <;> linarith
    · rw [h]; push_cast; constructor <;> linarith
  have hdiff : f32 x - x = ((roundHalfEven (x / 2 ^ (f32Exp x - 23)) : ℚ) -
      x / 2 ^ (f32Exp x - 23)) * 2 ^ (f32Exp x - 23) := by
    rw [sub_mul, div_mul_cancel₀ x (ne_of_gt hu)]
    rfl
  rw [hdiff, abs_mul, abs_of_pos hu]
  have h1 : |(roundHalfEven (x / 2 ^ (f32Exp x - 23)) : ℚ) - x / 2 ^ (f32Exp x - 23)| *
      2 ^ (f32Exp x - 23) ≤ 1 / 2 * 2 ^ (f32Exp x - 23) :=
    mul_le_mul_of_nonneg_right hr (le_of_lt hu)
  have h2 : (1 : ℚ) / 2 * 2 ^ (f32Exp x - 23) ≤ |x| / 2 ^ 24 := by
    rw [le_div_iff₀ (by norm_num)]
    rw [hpow] at hle
    nlinarith
  exact le_trans h1 h2

theorem absMs32_eq (t ts : ℚ) : absMs32 t ts = f32 (f32 |t - ts| * 1000) := by
  unfold absMs32
  rw [fabs_eq_abs, f32_abs]

theorem f32_sec_45 : f32 (9 / 200) = 3019899 / 67108864 := by
  rw [f32_eq (9 / 200) (-5) 12079596 (by norm_num)
    (by rw [abs_of_nonneg (by norm_num)]; norm_num)
    (Or.inl (by rw [abs_of_nonneg (by norm_num)]; norm_num)) (by norm_num) (by norm_num)]
  norm_num

theorem f32_ms_45 : f32 (377487375 / 8388608) = 45 := by
  rw [f32_eq (377487375 / 8388608) (5) 11796480 (by norm_num)
    (by rw [abs_of_nonneg (by norm_num)]; norm_num)
    (Or.inl (by rw [abs_of_nonneg (by norm_num)]; norm_num)) (by norm_num) (by norm_num)]
  norm_num

theorem f32_sec_45_up : f32 (450001 / 10000000) = 6039811 / 134217728 := by
  rw [f32_eq (450001 / 10000000) (-5) 12079622 (by norm_num)
    (by rw [abs_of_nonneg (by norm_num)]; norm_num)
    (Or.inl (by rw [abs_of_nonneg (by norm_num)]; norm_num)) (by norm_num) (by norm_num)]
  norm_num

theorem f32_ms_45_up : f32 (754976375 / 16777216) = 5898253 / 131072 := by
  rw [f32_eq (754976375 / 16777216) (5) 11796506 (by norm_num)
    (by rw [abs_of_nonneg (by norm_num)]; norm_num)
    (Or.inl (by rw [abs_of_nonneg (by norm_num)]; norm_num)) (by norm_num) (by norm_num)]
  norm_num

theorem f32_sec_100 : f32 (1 / 10) = 13421773 / 134217728 := by
  rw [f32_eq (1 / 10) (-4) 13421773 (by norm_num)
    (by rw [abs_of_nonneg (by norm_num)]; norm_num)
    (Or.inl (by rw [abs_of_nonneg (by norm_num)]; norm_num)) (by norm_num) (by norm_num)]
  norm_num

theorem f32_ms_100 : f32 (1677721625 / 16777216) = 100 := by
  rw [f32_eq (1677721625 / 16777216) (6) 13107200 (by norm_num)
    (by rw [abs_of_nonneg (by norm_num)]; norm_num)
    (Or.inl (by rw [abs_of_nonneg (by norm_num)]; norm_num)) (by norm_num) (by norm_num)]
  norm_num

theorem f32_sec_100_up : f32 (1000001 / 10000000) = 6710893 / 67108864 := by
  rw [f32_eq (1000001 / 10000000) (-4) 13421786 (by norm_num)
    (by rw [abs_of_nonneg (by norm_num)]; norm_num)
    (Or.inl (by rw [abs_of_nonneg (by norm_num)]; norm_num)) (by norm_num) (by norm_num)]
  norm_num

theorem f32_ms_100_up : f32 (838861625 / 8388608) = 13107213 / 131072 := by
  rw [f32_eq (838861625 / 8388608) (6) 13107213 (by norm_num)
    (by rw [abs_of_nonneg (by norm_num)]; norm_num)
    (Or.inl (by rw [abs_of_nonneg (by norm_num)]; norm_num)) (by norm_num) (by norm_num)]
  norm_num

theorem f32_sec_150 : f32 (3 / 20) = 5033165 / 33554432 := by
  rw [f32_eq (3 / 20) (-3) 10066330 (by norm_num)
    (by rw [abs_of_nonneg (by norm_num)]; norm_num)
    (Or.inl (by rw [abs_of_nonneg (by norm_num)]; norm_num)) (by norm_num) (by norm_num)]
  norm_num

theorem f32_ms_150 : f32 (629145625 / 4194304) = 150 := by
  rw [f32_eq (629145625 / 4194304) (7) 9830400 (by norm_num)
    (by rw [abs_of_nonneg (by norm_num)]; norm_num)
    (Or.inl (by rw [abs_of_nonneg (by norm_num)]; norm_num)) (by norm_num) (by norm_num)]
  norm_num

theorem f32_sec_150_up : f32 (1500001 / 10000000) = 314573 / 2097152 := by
  rw [f32_eq (1500001 / 10000000) (-3) 10066336 (by norm_num)
    (by rw [abs_of_nonneg (by norm_num)]; norm_num)
    (Or.inl (by rw [abs_of_nonneg (by norm_num)]; norm_num)) (by norm_num) (by norm_num)]
  norm_num

theorem f32_ms_150_up : f32 (39321625 / 262144) = 4915203 / 32768 := by
  rw [f32_eq (39321625 / 262144) (7) 9830406 (by norm_num)
    (by rw [abs_of_nonneg (by norm_num)]; norm_num)
    (Or.inl (by rw [abs_of_nonneg (by norm_num)]; norm_num)) (by norm_num) (by norm_num)]
  norm_num

theorem f32_ten_sixtieth : f32 (44739245 / 268435456) = 11184811 / 67108864 := by
  rw [f32_eq (44739245 / 268435456) (-3) 11184811 (by norm_num)
    (by rw [abs_of_nonneg (by norm_num)]; norm_num)
    (Or.inl (by rw [abs_of_nonneg (by norm_num)]; norm_num)) (by norm_num) (by norm_num)]
  norm_num

theorem f32_hundred_sixtieth : f32 (55924055 / 33554432) = 6990507 / 4194304 := by
  rw [f32_eq (55924055 / 33554432) (0) 13981014 (by norm_num)
    (by rw [abs_of_nonneg (by norm_num)]; norm_num)
    (Or.inl (by rw [abs_of_nonneg (by norm_num)]; norm_num)) (by norm_num) (by norm_num)]
  norm_num

theorem f32_ten_eleven : f32 (36909875 / 33554432) = 9227469 / 8388608 := by
  rw [f32_eq (36909875 / 33554432) (0) 9227469 (by norm_num)
    (by rw [abs_of_nonneg (by norm_num)]; norm_num)
    (Or.inl (by rw [abs_of_nonneg (by norm_num)]; norm_num)) (by norm_num) (by norm_num)]
  norm_num

theorem f32_hundred_eleven : f32 (46137345 / 4194304) = 11 := by
  rw [f32_eq (46137345 / 4194304) (3) 11534336 (by norm_num)
    (by rw [abs_of_nonneg (by norm_num)]; norm_num)
    (Or.inl (by rw [abs_of_nonneg (by norm_num)]; norm_num)) (by norm_num) (by norm_num)]
  norm_num

theorem f32_clock_179 : f32 (179 / 1000) = 12012487 / 67108864 := by
  rw [f32_eq (179 / 1000) (-3) 12012487 (by norm_num)
    (by rw [abs_of_nonneg (by norm_num)]; norm_num)
    (Or.inl (by rw [abs_of_nonneg (by norm_num)]; norm_num)) (by norm_num) (by norm_num)]
  norm_num

theorem f32_frame21_48k : f32 (28 / 125) = 7516193 / 33554432 := by
  rw [f32_eq (28 / 125) (-3) 15032386 (by norm_num)
    (by rw [abs_of_nonneg (by norm_num)]; norm_num)
    (Or.inl (by rw [abs_of_nonneg (by norm_num)]; norm_num)) (by norm_num) (by norm_num)]
  norm_num

theorem f32_clock_349229 : f32 (349229 / 1000000) = 11718181 / 33554432 := by
  rw [f32_eq (349229 / 1000000) (-2) 11718181 (by norm_num)
    (by rw [abs_of_nonneg (by norm_num)]; norm_num)
    (Or.inl (by rw [abs_of_nonneg (by norm_num)]; norm_num)) (by norm_num) (by norm_num)]
  norm_num

theorem f32_frame43_44k : f32 (5504 / 11025) = 8375673 / 16777216 := by
  rw [f32_eq (5504 / 11025) (-2) 16751346 (by norm_num)
    (by rw [abs_of_nonneg (by norm_num)]; norm_num)
    (Or.inl (by rw [abs_of_nonneg (by norm_num)]; norm_num)) (by norm_num) (by norm_num)]
  norm_num

theorem f32_clock_374 : f32 (187 / 500) = 6274679 / 16777216 := by
  rw [f32_eq (187 / 500) (-2) 12549358 (by norm_num)
    (by rw [abs_of_nonneg (by norm_num)]; norm_num)
    (Or.inl (by rw [abs_of_nonneg (by norm_num)]; norm_num)) (by norm_num) (by norm_num)]
  norm_num

theorem f32_edge_45 : f32 (3019899 / 67108864) = 3019899 / 67108864 := by
  rw [f32_eq (3019899 / 67108864) (-5) 12079596 (by norm_num)
    (by rw [abs_of_nonneg (by norm_num)]; norm_num)
    (Or.inl (by rw [abs_of_nonneg (by norm_num)]; norm_num)) (by norm_num) (by norm_num)]
  norm_num

theorem f32_edge_150 : f32 (5033165 / 33554432) = 5033165 / 33554432 := by
  rw [f32_eq (5033165 / 33554432) (-3) 10066330 (by norm_num)
    (by rw [abs_of_nonneg (by norm_num)]; norm_num)
    (Or.inl (by rw [abs_of_nonneg (by norm_num)]; norm_num)) (by norm_num) (by norm_num)]
  norm_num

theorem f32_dt_sixtieth : f32 (1 / 60) = 8947849 / 536870912 := by
  rw [f32_eq (1 / 60) (-6) 8947849 (by norm_num)
    (by rw [abs_of_nonneg (by norm_num)]; norm_num)
    (Or.inl (by rw [abs_of_nonneg (by norm_num)]; norm_num)) (by norm_num) (by norm_num)]
  norm_num

theorem f32_dt_eleven : f32 (11 / 100) = 7381975 / 67108864 := by
  rw [f32_eq (11 / 100) (-4) 14763950 (by norm_num)
    (by rw [abs_of_nonneg (by norm_num)]; norm_num)
    (Or.inl (by rw [abs_of_nonneg (by norm_num)]; norm_num)) (by norm_num) (by norm_num)]
  norm_num

theorem f32_cent : f32 (1 / 100) = 5368709 / 536870912 := by
  rw [f32_eq (1 / 100) (-7) 10737418 (by norm_num)
    (by rw [abs_of_nonneg (by norm_num)]; norm_num)
    (Or.inl (by rw [abs_of_nonneg (by norm_num)]; norm_num)) (by norm_num) (by norm_num)]
  norm_num

theorem f32_hold_one : f32 (542239621 / 536870912) = 4236247 / 4194304 := by
  rw [f32_eq (542239621 / 536870912) (0) 8472494 (by norm_num)
    (by rw [abs_of_nonneg (by norm_num)]; norm_num)
    (Or.inl (by rw [abs_of_nonneg (by norm_num)]; norm_num)) (by norm_num) (by norm_num)]
  norm_num

theorem f32_hold_edgeTap : f32 (125627797 / 536870912) = 15703475 / 67108864 := by
  rw [f32_eq (125627797 / 536870912) (-3) 15703475 (by norm_num)
    (by rw [abs_of_nonneg (by norm_num)]; norm_num)
    (Or.inl (by rw [abs_of_nonneg (by norm_num)]; norm_num)) (by norm_num) (by norm_num)]
  norm_num

theorem f32_hold_edgeTap2 : f32 (273390245 / 536870912) = 8543445 / 16777216 := by
  rw [f32_eq (273390245 / 536870912) (-1) 8543445 (by norm_num)
    (by rw [abs_of_nonneg (by norm_num)]; norm_num)
    (Or.inl (by rw [abs_of_nonneg (by norm_num)]; norm_num)) (by norm_num) (by norm_num)]
  norm_num

/-- The sum `timestamp + 0.01f` of `isHoldNote` at second 1. -/
theorem hold_test_one : f32 (1 + f32 (1 / 100)) = 4236247 / 4194304 := by
  rw [f32_cent]
  norm_num
  exact f32_hold_one

theorem hold_test_edgeTap :
    f32 (7516193 / 33554432 + f32 (1 / 100)) = 15703475 / 67108864 := by
  rw [f32_cent]
  norm_num
  exact f32_hold_edgeTap

theorem hold_test_edgeTap2 :
    f32 (8375673 / 16777216 + f32 (1 / 100)) = 8543445 / 16777216 := by
  rw [f32_cent]
  norm_num
  exact f32_hold_edgeTap2

theorem floatMs_le (x c r : ℚ) (hc : f32 (f32 c * 1000) = r) (h : x ≤ c) :
    f32 (f32 x * 1000) ≤ r := by
  rw [← hc]
  exact f32_mono (mul_le_mul_of_nonneg_right (f32_mono h) (by norm_num))

theorem floatMs_ge (x c r : ℚ) (hc : f32 (f32 c * 1000) = r) (h : c ≤ x) :
    r ≤ f32 (f32 x * 1000) := by
  rw [← hc]
  exact f32_mono (mul_le_mul_of_nonneg_right (f32_mono h) (by norm_num))

/-- Where the rounding of `x * 1000.0f` can change a comparison with a window: an exact
product up to the window stays within it, and an exact product 0.0001 ms beyond the
window stays beyond it. -/
theorem floatMs_edges (x : ℚ) :
    (x * 1000 ≤ 45 → f32 (f32 x * 1000) ≤ 45) ∧
    (450001 / 10000 ≤ x * 1000 → 45 < f32 (f32 x * 1000)) ∧
    (x * 1000 ≤ 100 → f32 (f32 x * 1000) ≤ 100) ∧
    (1000001 / 10000 ≤ x * 1000 → 100 < f32 (f32 x * 1000)) ∧
    (x * 1000 ≤ 150 → f32 (f32 x * 1000) ≤ 150) ∧
    (1500001 / 10000 ≤ x * 1000 → 150 < f32 (f32 x * 1000)) := by
  have e45 : f32 (f32 (9 / 200) * 1000) = 45 := by
    rw [f32_sec_45]; norm_num; exact f32_ms_45
  have e100 : f32 (f32 (1 / 10) * 1000) = 100 := by
    rw [f32_sec_100]; norm_num; exact f32_ms_100
  have e150 : f32 (f32 (3 / 20) * 1000) = 150 := by
    rw [f32_sec_150]; norm_num; exact f32_ms_150
  have u45 : f32 (f32 (450001 / 10000000) * 1000) = 5898253 / 131072 := by
    rw [f32_sec_45_up]; norm_num; exact f32_ms_45_up
  have u100 : f32 (f32 (1000001 / 10000000) * 1000) = 13107213 / 131072 := by
    rw [f32_sec_100_up]; norm_num; exact f32_ms_100_up
  have u150 : f32 (f32 (1500001 / 10000000) * 1000) = 4915203 / 32768 := by
    rw [f32_sec_150_up]; norm_num; exact f32_ms_150_up
  refine ⟨fun h => floatMs_le x _ _ e45 (by linarith), fun h => ?_,
    fun h => floatMs_le x _ _ e100 (by linarith), fun h => ?_,
    fun h => floatMs_le x _ _ e150 (by linarith), fun h => ?_⟩
  · exact lt_of_lt_of_le (by norm_num) (floatMs_ge x _ _ u45 (by linarith))
  · exact lt_of_lt_of_le (by norm_num) (floatMs_ge x _ _ u100 (by linarith))
  · exact lt_of_lt_of_le (by norm_num) (floatMs_ge x _ _ u150 (by linarith))

/-! ## Press judgment in `float` (C1, C3) -/

/-- The counters after a Perfect press. -/
theorem judgePress32_perfect (cfg : Config) (d : ℚ) (n : Note) (st : Stats) (h : d ≤ 45) :
    (judgePress32 cfg d n st).2 =
      { st with score := st.score + 300, combo := st.combo + 1,
                perfectCount := st.perfectCount + 1,
                maxCombo := max st.maxCombo (st.combo + 1) } := by
  have h' : d ≤ PERFECT_WINDOW := h
  unfold judgePress32
  simp only [h', if_true, PERFECT_SCORE]
  split_ifs <;> rfl

/-- The counters after a Good press. -/
theorem judgePress32_good (cfg : Config) (d : ℚ) (n : Note) (st : Stats)
    (h1 : 45 < d) (h2 : d ≤ 100) :
    (judgePress32 cfg d n st).2 =
      { st with score := st.score + 100, combo := st.combo + 1,
                goodCount := st.goodCount + 1,
                maxCombo := max st.maxCombo (st.combo + 1) } := by
  have h1' : ¬ d ≤ PERFECT_WINDOW := not_le.mpr h1
  have h2' : d ≤ GOOD_WINDOW := h2
  unfold judgePress32
  simp only [h1', h2', if_true, if_false, GOOD_SCORE]
  split_ifs <;> rfl

/-- The counters after a press judged Miss. -/
theorem judgePress32_miss (cfg : Config) (d : ℚ) (n : Note) (st : Stats) (h : 100 < d) :
    (judgePress32 cfg d n st).2 =
      { st with combo := 0, missCount := st.missCount + 1,
                maxCombo := max st.maxCombo 0 } := by
  have h1' : ¬ d ≤ PERFECT_WINDOW := not_le.mpr (lt_trans (by norm_num [PERFECT_WINDOW]) h)
  have h2' : ¬ d ≤ GOOD_WINDOW := not_le.mpr h
  unfold judgePress32
  simp only [h1', h2', if_false]

/-- The note after a press: `hit` is set, plus `holding` (Perfect or Good) or
`holdFailed` (Miss) when it is a hold note. -/
theorem judgePress32_note (cfg : Config) (d : ℚ) (n : Note) (st : Stats) :
    (judgePress32 cfg d n st).1 =
      if n.isHoldNote32 = true then
        (if d ≤ 100 then { n with hit := true, holding := true }
         else { n with hit := true, holdFailed := true })
      else { n with hit := true } := by
  have hh : ({ n with hit := true } : Note).isHoldNote32 = n.isHoldNote32 := rfl
  unfold judgePress32
  simp only [hh, PERFECT_WINDOW, GOOD_WINDOW]
  by_cases h1 : d ≤ 45
  · have h2 : d ≤ 100 := le_trans h1 (by norm_num)
    simp only [h1, h2, if_true]
    split_ifs <;> rfl
  · by_cases h2 : d ≤ 100
    · simp only [h1, h2, if_true, if_false]
      split_ifs <;> rfl
    · simp only [h1, h2, if_false]

theorem judgePress32_fields (cfg : Config) (d : ℚ) (n : Note) (st : Stats) :
    (judgePress32 cfg d n st).1.timestamp = n.timestamp ∧
    (judgePress32 cfg d n st).1.lane = n.lane ∧
    (judgePress32 cfg d n st).1.missed = n.missed := by
  rw [judgePress32_note]
  split_ifs <;> exact ⟨rfl, rfl, rfl⟩

theorem judgePress32_hit (cfg : Config) (d : ℚ) (n : Note) (st : Stats) :
    (judgePress32 cfg d n st).1.hit = true := by
  rw [judgePress32_note]
  split_ifs <;> rfl

/-- Loop invariant of the search loop in `float`: either the accumulator is returned
untouched and no remaining note improves on it, or the result is the first note of minimal
offset among the remaining candidates. -/
theorem findClosest32_spec (lane : Int) (t : ℚ) (l : List Note) :
    ∀ (i : Nat) (acc : Option Nat × ℚ),
      (findClosest32 lane t l i acc = acc ∧
        ∀ n ∈ l, n.pendingIn lane →
          ¬ (absMs32 t n.timestamp < acc.2 ∧ absMs32 t n.timestamp ≤ MISS_WINDOW)) ∨
      (∃ k n, l[k]? = some n ∧
        findClosest32 lane t l i acc = (some (i + k), absMs32 t n.timestamp) ∧
        n.pendingIn lane ∧ absMs32 t n.timestamp < acc.2 ∧
        absMs32 t n.timestamp ≤ MISS_WINDOW ∧
        (∀ m ∈ l, m.pendingIn lane → absMs32 t n.timestamp ≤ absMs32 t m.timestamp) ∧
        (∀ j m, j < k → l[j]? = some m → m.pendingIn lane →
          absMs32 t n.timestamp < absMs32 t m.timestamp)) := by
  induction l with
  | nil =>
    intro i acc
    left
    exact ⟨rfl, fun n hn => absurd hn (List.not_mem_nil n)⟩
  | cons a rest ih =>
    intro i acc
    by_cases hcand : a.pendingIn lane ∧ absMs32 t a.timestamp < acc.2 ∧ absMs32 t a.timestamp ≤ MISS_WINDOW
    · -- the head becomes the new closest
      obtain ⟨hp, hlt, hle⟩ := hcand
      have hstep : findClosest32 lane t (a :: rest) i acc =
          findClosest32 lane t rest (i + 1) (some i, absMs32 t a.timestamp) := by
        have hp' : a.lane = lane ∧ a.hit = false ∧ a.missed = false := hp
        have hc : absMs32 t a.timestamp < acc.2 ∧
            absMs32 t a.timestamp ≤ MISS_WINDOW := ⟨hlt, hle⟩
        simp only [findClosest32, hp', hc, and_self, if_true]
      right
      rcases ih (i + 1) (some i, absMs32 t a.timestamp) with ⟨heq, hall⟩ | ⟨k, n, hk, heq, hpn, hltn, hlen, hmin, hfirst⟩
      · refine ⟨0, a, by simp, ?_, hp, hlt, hle, ?_, ?_⟩
        · rw [hstep, heq]; simp
        · intro m hm hpm
          rcases List.mem_cons.mp hm with rfl | hm
          · exact le_refl _
          · have := hall m hm hpm
            by_contra hcon
            exact this ⟨not_le.mp hcon, le_trans (le_of_lt (not_le.mp hcon)) hle⟩
        · intro j m hj; exact absurd hj (Nat.not_lt_zero j)
      · refine ⟨k + 1, n, by simpa using hk, ?_, hpn, lt_trans hltn hlt, hlen, ?_, ?_⟩
        · rw [hstep, heq]; congr 2; omega
        · intro m hm hpm
          rcases List.mem_cons.mp hm with rfl | hm
          · exact le_of_lt hltn
          · exact hmin m hm hpm
        · intro j m hj hjm hpm
          cases j with
          | zero =>
            simp at hjm; subst hjm; exact hltn
          | succ j =>
            exact hfirst j m (by omega) (by simpa using hjm) hpm
    · -- the head is skipped
      have hstep : findClosest32 lane t (a :: rest) i acc =
          findClosest32 lane t rest (i + 1) acc := by
        by_cases hp : a.lane = lane ∧ a.hit = false ∧ a.missed = false
        · have hc : ¬ (absMs32 t a.timestamp < acc.2 ∧
              absMs32 t a.timestamp ≤ MISS_WINDOW) := fun h => hcand ⟨hp, h⟩
          simp only [findClosest32, hp, hc, and_self, if_true, if_false]
        · simp only [findClosest32, hp, if_false]
      rcases ih (i + 1) acc with ⟨heq, hall⟩ | ⟨k, n, hk, heq, hpn, hltn, hlen, hmin, hfirst⟩
      · left
        refine ⟨by rw [hstep, heq], ?_⟩
        intro m hm hpm
        rcases List.mem_cons.mp hm with rfl | hm
        · exact fun h => hcand ⟨hpm, h⟩
        · exact hall m hm hpm
      · right
        have ha : a.pendingIn lane → absMs32 t n.timestamp < absMs32 t a.timestamp := by
          intro hpa
          by_contra hcon
          have h1 : absMs32 t a.timestamp ≤ absMs32 t n.timestamp := not_lt.mp hcon
          exact hcand ⟨hpa, lt_of_le_of_lt h1 hltn, le_trans h1 hlen⟩
        refine ⟨k + 1, n, by simpa using hk, ?_, hpn, hltn, hlen, ?_, ?_⟩
        · rw [hstep, heq]; congr 2; omega
        · intro m hm hpm
          rcases List.mem_cons.mp hm with rfl | hm
          · exact le_of_lt (ha hpm)
          · exact hmin m hm hpm
        · intro j m hj hjm hpm
          cases j with
          | zero =>
            simp at hjm; subst hjm; exact ha hpm
          | succ j =>
            exact hfirst j m (by omega) (by simpa using hjm) hpm

/-- The two outcomes of `processLaneInput32`: no candidate within the miss window (the call
returns the state untouched), or the first candidate of minimal offset is judged. -/
theorem processLaneInput32_cases (cfg : Config) (lane : Int) (t : ℚ) (g : Game) :
    ((∀ n ∈ g.notes, n.pendingIn lane → MISS_WINDOW < absMs32 t n.timestamp) ∧
        processLaneInput32 cfg lane t g = g) ∨
    (∃ k n, g.notes[k]? = some n ∧ n.pendingIn lane ∧
        absMs32 t n.timestamp ≤ MISS_WINDOW ∧
        (∀ m ∈ g.notes, m.pendingIn lane →
          absMs32 t n.timestamp ≤ absMs32 t m.timestamp) ∧
        (∀ j m, j < k → g.notes[j]? = some m → m.pendingIn lane →
          absMs32 t n.timestamp < absMs32 t m.timestamp) ∧
        processLaneInput32 cfg lane t g =
          { g with
            toStats := (judgePress32 cfg (absMs32 t n.timestamp) n g.toStats).2,
            notes :=
              g.notes.set k (judgePress32 cfg (absMs32 t n.timestamp) n g.toStats).1 }) := by
  rcases findClosest32_spec lane t g.notes 0 (none, MISS_WINDOW + 1) with
    ⟨heq, hall⟩ | ⟨k, n, hk, heq, hpn, _, hlen, hmin, hfirst⟩
  · left
    refine ⟨?_, ?_⟩
    · intro n hn hpn
      have h := hall n hn hpn
      by_contra hcon
      have hle : absMs32 t n.timestamp ≤ MISS_WINDOW := not_lt.mp hcon
      exact h ⟨lt_of_le_of_lt hle (lt_add_one _), hle⟩
    · simp only [processLaneInput32, heq]
  · right
    refine ⟨k, n, hk, hpn, hlen, hmin, hfirst, ?_⟩
    simp only [processLaneInput32, heq, Nat.zero_add, hk]

theorem edgeTap_press : absMs32 (12012487 / 67108864) (7516193 / 33554432) = 45 := by
  rw [absMs32_eq]
  have h : |(12012487 : ℚ) / 67108864 - 7516193 / 33554432| = 3019899 / 67108864 := by
    rw [abs_of_nonpos (by norm_num)]; norm_num
  rw [h, f32_edge_45]
  norm_num
  exact f32_ms_45

theorem edgeTap2_press : absMs32 (11718181 / 33554432) (8375673 / 16777216) = 150 := by
  rw [absMs32_eq]
  have h : |(11718181 : ℚ) / 33554432 - 8375673 / 16777216| = 5033165 / 33554432 := by
    rw [abs_of_nonpos (by norm_num)]; norm_num
  rw [h, f32_edge_150]
  norm_num
  exact f32_ms_150

/-- C1, as stated, fails: the tap note of lane 2 starts at the `float` of 0.224 s (frame 21
of a 48 kHz track) and the key goes down at the `float` of 0.179 s (clock reading
179000 us).  The offset is 45.0000018 ms, more than 45 and at most 100, and it is the
minimal one; the `float` product `std::abs(currentTime - timestamp) * 1000.0f` is 45.0, and
the press is judged Perfect: the score rises by 300 and perfectCount by 1, goodCount stays
0. -/
theorem C1_counterexample :
    f32 (179 / 1000) = 12012487 / 67108864 ∧ f32 (21 * 512 / 48000) = edgeTap.timestamp ∧
    (∃ n ∈ (Game.start [edgeTap]).notes, n.pendingIn 2 ∧
      |12012487 / 67108864 - n.timestamp| * 1000 = 377487375 / 8388608) ∧
    (45 : ℚ) < 377487375 / 8388608 ∧ (377487375 : ℚ) / 8388608 ≤ 100 ∧
    (∀ m ∈ (Game.start [edgeTap]).notes, m.pendingIn 2 →
      |12012487 / 67108864 - m.timestamp| * 1000 ≤ 150 →
      (377487375 : ℚ) / 8388608 ≤ |12012487 / 67108864 - m.timestamp| * 1000) ∧
    (processLaneInput32 Config.manual 2 (12012487 / 67108864) (Game.start [edgeTap])).score =
      (Game.start [edgeTap]).score + 300 ∧
    (processLaneInput32 Config.manual 2 (12012487 / 67108864)
      (Game.start [edgeTap])).perfectCount = (Game.start [edgeTap]).perfectCount + 1 ∧
    (processLaneInput32 Config.manual 2 (12012487 / 67108864)
      (Game.start [edgeTap])).goodCount = (Game.start [edgeTap]).goodCount := by
  have hoff : |(12012487 : ℚ) / 67108864 - edgeTap.timestamp| * 1000 = 377487375 / 8388608 := by
    have : edgeTap.timestamp = 7516193 / 33554432 := rfl
    rw [this, abs_of_nonpos (by norm_num)]
    norm_num
  have hrun : processLaneInput32 Config.manual 2 (12012487 / 67108864) (Game.start [edgeTap]) =
      { Game.start [edgeTap] with
        toStats := (judgePress32 Config.manual 45 edgeTap Stats.zero).2,
        notes := [(judgePress32 Config.manual 45 edgeTap Stats.zero).1] } := by
    simp only [processLaneInput32, findClosest32, Game.start, edgeTap, Note.create,
      edgeTap_press, MISS_WINDOW]
    norm_num
  refine ⟨f32_clock_179, ?_, ⟨edgeTap, List.mem_singleton_self _, ⟨rfl, rfl, rfl⟩, hoff⟩,
    by norm_num, by norm_num, ?_, ?_, ?_, ?_⟩
  · have : ((21 : ℚ) * 512 / 48000) = 28 / 125 := by norm_num
    rw [this, f32_frame21_48k]
    rfl
  · intro m hm _ _
    rw [show m = edgeTap from List.mem_singleton.mp hm, hoff]
  · rw [hrun]
    show (judgePress32 Config.manual 45 edgeTap Stats.zero).2.score = _
    rw [judgePress32_perfect Config.manual 45 edgeTap Stats.zero (by norm_num)]
    rfl
  · rw [hrun]
    show (judgePress32 Config.manual 45 edgeTap Stats.zero).2.perfectCount = _
    rw [judgePress32_perfect Config.manual 45 edgeTap Stats.zero (by norm_num)]
    rfl
  · rw [hrun]
    show (judgePress32 Config.manual 45 edgeTap Stats.zero).2.goodCount = _
    rw [judgePress32_perfect Config.manual 45 edgeTap Stats.zero (by norm_num)]
    rfl

/-- C1, amended: if some Pending note of lane `L` lies within 150 ms of `t`, and `d` is the
minimal offset `|t - startTime|` in milliseconds over those notes, then `processLaneInput`
judges by the `float` value of `d`, the product
`std::abs(currentTime - timestamp) * 1000.0f`: Perfect (300 points, combo and
perfectCount up by 1) when that value is at most 45, Good (100 points, combo and goodCount
up by 1) when it is above 45 and at most 100, Miss (score unchanged, combo 0, missCount up
by 1) when it is above 100.  In terms of `d` itself: Perfect for `d <= 45`, Good for
`45.0001 <= d <= 100`, Miss for `100.0001 <= d <= 150`; between 45 and 45.0001 and between
100 and 100.0001 the rounding of the product decides. -/
theorem C1_press_judged_by_minimal_offset (cfg : Config) (g : Game) (L : Int) (t d : ℚ)
    (hex : ∃ n ∈ g.notes, n.pendingIn L ∧ |t - n.timestamp| * 1000 = d)
    (hd : d ≤ 150)
    (hmin : ∀ m ∈ g.notes, m.pendingIn L → |t - m.timestamp| * 1000 ≤ 150 →
      d ≤ |t - m.timestamp| * 1000) :
    ((f32 (f32 (d / 1000) * 1000) ≤ 45 →
      (processLaneInput32 cfg L t g).score = g.score + 300 ∧
      (processLaneInput32 cfg L t g).combo = g.combo + 1 ∧
      (processLaneInput32 cfg L t g).perfectCount = g.perfectCount + 1) ∧
    (45 < f32 (f32 (d / 1000) * 1000) → f32 (f32 (d / 1000) * 1000) ≤ 100 →
      (processLaneInput32 cfg L t g).score = g.score + 100 ∧
      (processLaneInput32 cfg L t g).combo = g.combo + 1 ∧
      (processLaneInput32 cfg L t g).goodCount = g.goodCount + 1) ∧
    (100 < f32 (f32 (d / 1000) * 1000) →
      (processLaneInput32 cfg L t g).score = g.score ∧
      (processLaneInput32 cfg L t g).combo = 0 ∧
      (processLaneInput32 cfg L t g).missCount = g.missCount + 1)) ∧
    ((d ≤ 45 →
      (processLaneInput32 cfg L t g).score = g.score + 300 ∧
      (processLaneInput32 cfg L t g).combo = g.combo + 1 ∧
      (processLaneInput32 cfg L t g).perfectCount = g.perfectCount + 1) ∧
    (450001 / 10000 ≤ d → d ≤ 100 →
      (processLaneInput32 cfg L t g).score = g.score + 100 ∧
      (processLaneInput32 cfg L t g).combo = g.combo + 1 ∧
      (processLaneInput32 cfg L t g).goodCount = g.goodCount + 1) ∧
    (1000001 / 10000 ≤ d →
      (processLaneInput32 cfg L t g).score = g.score ∧
      (processLaneInput32 cfg L t g).combo = 0 ∧
      (processLaneInput32 cfg L t g).missCount = g.missCount + 1)) := by
  obtain ⟨n, hn, hpn, hnd⟩ := hex
  have hval : ∀ m : Note, absMs32 t m.timestamp =
      f32 (f32 (|t - m.timestamp| * 1000 / 1000) * 1000) := by
    intro m
    rw [absMs32_eq, mul_div_cancel_right₀ _ (by norm_num : (1000 : ℚ) ≠ 0)]
  have hle_all : ∀ m ∈ g.notes, m.pendingIn L → d ≤ |t - m.timestamp| * 1000 := by
    intro m hm hpm
    by_cases h150 : |t - m.timestamp| * 1000 ≤ 150
    · exact hmin m hm hpm h150
    · linarith
  obtain ⟨e45, u45, e100, u100, e150, _⟩ := floatMs_edges (d / 1000)
  rw [div_mul_cancel₀ d (by norm_num : (1000 : ℚ) ≠ 0)] at e45 u45 e100 u100 e150
  have hfloat : (f32 (f32 (d / 1000) * 1000) ≤ 45 →
      (processLaneInput32 cfg L t g).score = g.score + 300 ∧
      (processLaneInput32 cfg L t g).combo = g.combo + 1 ∧
      (processLaneInput32 cfg L t g).perfectCount = g.perfectCount + 1) ∧
    (45 < f32 (f32 (d / 1000) * 1000) → f32 (f32 (d / 1000) * 1000) ≤ 100 →
      (processLaneInput32 cfg L t g).score = g.score + 100 ∧
      (processLaneInput32 cfg L t g).combo = g.combo + 1 ∧
      (processLaneInput32 cfg L t g).goodCount = g.goodCount + 1) ∧
    (100 < f32 (f32 (d / 1000) * 1000) →
      (processLaneInput32 cfg L t g).score = g.score ∧
      (processLaneInput32 cfg L t g).combo = 0 ∧
      (processLaneInput32 cfg L t g).missCount = g.missCount + 1) := by
    rcases processLaneInput32_cases cfg L t g with
      ⟨hnone, _⟩ | ⟨k, n0, hk, hp0, hle0, hmin0, _, heq⟩
    · have h1 := hnone n hn hpn
      rw [hval, hnd] at h1
      exact absurd (e150 hd) (not_le.mpr h1)
    · have hoff : absMs32 t n0.timestamp = f32 (f32 (d / 1000) * 1000) := by
        apply le_antisymm
        · have := hmin0 n hn hpn
          rwa [hval n, hnd] at this
        · rw [hval n0]
          exact f32_mono (mul_le_mul_of_nonneg_right (f32_mono
            (div_le_div_of_nonneg_right (hle_all n0 (List.getElem?_mem hk) hp0)
              (by norm_num))) (by norm_num))
      rw [heq, hoff]
      refine ⟨fun h => ?_, fun h1 h2 => ?_, fun h => ?_⟩
      · simp only [judgePress32_perfect cfg _ n0 g.toStats h, and_self]
      · simp only [judgePress32_good cfg _ n0 g.toStats h1 h2, and_self]
      · simp only [judgePress32_miss cfg _ n0 g.toStats h, and_self]
  exact ⟨hfloat, fun h => hfloat.1 (e45 h), fun h1 h2 => hfloat.2.1 (u45 h1) (e100 h2),
    fun h => hfloat.2.2 (u100 h)⟩

/-- C1 (amended) at a tap note in lane 2 at second 1, pressed 40 ms late. -/
theorem C1_press_judged_by_minimal_offset_witness :
    (processLaneInput32 Config.manual 2 (26 / 25) (Game.start [tapAt1])).score = 300 ∧
    (processLaneInput32 Config.manual 2 (26 / 25) (Game.start [tapAt1])).combo = 1 ∧
    (processLaneInput32 Config.manual 2 (26 / 25) (Game.start [tapAt1])).perfectCount = 1 :=
  (C1_press_judged_by_minimal_offset Config.manual (Game.start [tapAt1]) 2 (26 / 25) 40
    ⟨tapAt1, List.mem_singleton_self _, ⟨rfl, rfl, rfl⟩,
      by norm_num [tapAt1, Note.create, abs_of_nonneg]⟩
    (by norm_num)
    (by
      intro m hm _ _
      rw [show m = tapAt1 from List.mem_singleton.mp hm]
      norm_num [tapAt1, Note.create, abs_of_nonneg])).2.1 (by norm_num)

/-- C3, as stated, fails: the tap note of lane 2 starts at the `float` of 22016/44100 s
(frame 43 of a 44.1 kHz track) and the key goes down at the `float` of 0.349229 s.  The
note is 150.000006 ms away, so no Pending note of the lane lies within 150 ms; the `float`
product is 150.0, which passes `diff <= MISS_WINDOW`: the note is hit and judged Miss,
missCount rises by 1. -/
theorem C3_counterexample :
    f32 (349229 / 1000000) = 11718181 / 33554432 ∧
    f32 (22016 / 44100) = edgeTap2.timestamp ∧
    (∀ n ∈ (Game.start [edgeTap2]).notes, n.pendingIn 2 →
      ¬ |11718181 / 33554432 - n.timestamp| * 1000 ≤ 150) ∧
    (processLaneInput32 Config.manual 2 (11718181 / 33554432) (Game.start [edgeTap2])).notes =
      [{ edgeTap2 with hit := true }] ∧
    (processLaneInput32 Config.manual 2 (11718181 / 33554432)
      (Game.start [edgeTap2])).missCount = (Game.start [edgeTap2]).missCount + 1 ∧
    processLaneInput32 Config.manual 2 (11718181 / 33554432) (Game.start [edgeTap2]) ≠
      Game.start [edgeTap2] := by
  have hrun : processLaneInput32 Config.manual 2 (11718181 / 33554432)
      (Game.start [edgeTap2]) =
      { Game.start [edgeTap2] with
        toStats := (judgePress32 Config.manual 150 edgeTap2 Stats.zero).2,
        notes := [(judgePress32 Config.manual 150 edgeTap2 Stats.zero).1] } := by
    simp only [processLaneInput32, findClosest32, Game.start, edgeTap2, Note.create,
      edgeTap2_press, MISS_WINDOW]
    norm_num
  have hnote : (judgePress32 Config.manual 150 edgeTap2 Stats.zero).1 =
      { edgeTap2 with hit := true } := by
    rw [judgePress32_note]
    norm_num [Note.isHoldNote32, edgeTap2, Note.create, hold_test_edgeTap2]
  have hmiss : (processLaneInput32 Config.manual 2 (11718181 / 33554432)
      (Game.start [edgeTap2])).missCount = (Game.start [edgeTap2]).missCount + 1 := by
    rw [hrun]
    show (judgePress32 Config.manual 150 edgeTap2 Stats.zero).2.missCount = _
    rw [judgePress32_miss Config.manual 150 edgeTap2 Stats.zero (by norm_num)]
    rfl
  refine ⟨f32_clock_349229, ?_, ?_, ?_, hmiss, ?_⟩
  · have : ((22016 : ℚ) / 44100) = 5504 / 11025 := by norm_num
    rw [this, f32_frame43_44k]
    rfl
  · intro n hn _
    rw [show n = edgeTap2 from List.mem_singleton.mp hn]
    have : edgeTap2.timestamp = 8375673 / 16777216 := rfl
    rw [this, abs_of_nonpos (by norm_num)]
    norm_num
  · rw [hrun]
    show [(judgePress32 Config.manual 150 edgeTap2 Stats.zero).1] = _
    rw [hnote]
  · intro hc
    rw [hc] at hmiss
    exact absurd hmiss (by omega)

/-- C3, amended: when no Pending note of lane `L` has a `float` product
`std::abs(currentTime - timestamp) * 1000.0f` of at most 150, in particular when every
Pending note of the lane is at least 150.0001 ms away from `t`, `processLaneInput` returns
the state it was given: every note, the score, combo, maxCombo and all counters are
unchanged. -/
theorem C3_press_without_candidate_is_noop (cfg : Config) (g : Game) (L : Int) (t : ℚ) :
    ((∀ n ∈ g.notes, n.pendingIn L → ¬ absMs32 t n.timestamp ≤ 150) →
      processLaneInput32 cfg L t g = g) ∧
    ((∀ n ∈ g.notes, n.pendingIn L → 1500001 / 10000 ≤ |t - n.timestamp| * 1000) →
      processLaneInput32 cfg L t g = g) := by
  have hfloat : (∀ n ∈ g.notes, n.pendingIn L → ¬ absMs32 t n.timestamp ≤ 150) →
      processLaneInput32 cfg L t g = g := by
    intro hnone
    rcases processLaneInput32_cases cfg L t g with ⟨_, heq⟩ | ⟨k, n0, hk, hp0, hle0, _, _, _⟩
    · exact heq
    · exact absurd hle0 (hnone n0 (List.getElem?_mem hk) hp0)
  refine ⟨hfloat, fun hfar => hfloat (fun n hn hp => ?_)⟩
  rw [absMs32_eq]
  exact not_le.mpr ((floatMs_edges |t - n.timestamp|).2.2.2.2.2 (hfar n hn hp))

/-- C3 (amended) at a press one second after a tap note, and at a press in another
lane. -/
theorem C3_press_without_candidate_is_noop_witness :
    processLaneInput32 Config.manual 2 2 (Game.start [tapAt1]) = Game.start [tapAt1] ∧
    processLaneInput32 Config.manual 3 1 (Game.start [tapAt1]) = Game.start [tapAt1] :=
  ⟨(C3_press_without_candidate_is_noop Config.manual (Game.start [tapAt1]) 2 2).2 (by
      intro n hn _
      rw [show n = tapAt1 from List.mem_singleton.mp hn]
      norm_num [tapAt1, Note.create]),
   (C3_press_without_candidate_is_noop Config.manual (Game.start [tapAt1]) 3 1).2 (by
      intro n hn hp
      rw [show n = tapAt1 from List.mem_singleton.mp hn] at hp
      exact absurd hp.1 (by decide))⟩

/-! ## The miss check in `float` (C11) -/

theorem diffMs32_le_absMs32 (t ts : ℚ) : diffMs32 t ts ≤ absMs32 t ts := by
  rw [absMs32_eq]
  unfold diffMs32
  exact f32_mono (mul_le_mul_of_nonneg_right (f32_mono (le_abs_self _)) (by norm_num))

theorem forEachNote_length (body : Note → Stats → Note × Stats) :
    ∀ (l : List Note) (st : Stats), (forEachNote body l st).1.length = l.length := by
  intro l
  induction l with
  | nil => intro st; rfl
  | cons x xs ih =>
    intro st
    simp only [forEachNote, List.length_cons, ih]

theorem releaseLoop32_length (lane : Int) (t : ℚ) :
    ∀ (l : List Note) (st : Stats), (releaseLoop32 lane t l st).1.length = l.length := by
  intro l
  induction l with
  | nil => intro st; rfl
  | cons x xs ih =>
    intro st
    unfold releaseLoop32
    dsimp only
    split_ifs <;> simp only [List.length_cons, ih]

theorem processLaneInput32_length (cfg : Config) (L : Int) (t : ℚ) (g : Game) :
    (processLaneInput32 cfg L t g).notes.length = g.notes.length := by
  rcases processLaneInput32_cases cfg L t g with ⟨_, heq⟩ | ⟨k, n0, _, _, _, _, _, heq⟩
  · rw [heq]
  · rw [heq]
    exact List.length_set _ _ _

theorem laneFold32_invariant (cfg : Config) (t : ℚ) (P : Game → Prop)
    (hstep : ∀ g1 x, P g1 → P (laneStep32 cfg t g1 x)) :
    ∀ (lanes : List Int) (g : Game), P g → P (lanes.foldl (laneStep32 cfg t) g) := by
  intro lanes
  induction lanes with
  | nil => intro g hg; exact hg
  | cons x xs ih => intro g hg; exact ih _ (hstep g x hg)

/-- What a release does to the note at one index: nothing, or the resolution of an
active hold of the released lane by the timing of the release. -/
theorem releaseLoop32_getElem? (lane : Int) (t : ℚ) :
    ∀ (l : List Note) (st : Stats) (i : Nat) (n : Note), l[i]? = some n →
      (releaseLoop32 lane t l st).1[i]? = some n ∨
      (n.lane = lane ∧ n.holdActive32 = true ∧
        ((absMs32 t n.endTimestamp ≤ GOOD_WINDOW ∧
            (releaseLoop32 lane t l st).1[i]? = some n.completed) ∨
         (¬ absMs32 t n.endTimestamp ≤ GOOD_WINDOW ∧ t < n.endTimestamp ∧
            (releaseLoop32 lane t l st).1[i]? = some n.failed))) := by
  intro l
  induction l with
  | nil => intro st i n hi; simp at hi
  | cons x xs ih =>
    intro st i n hi
    unfold releaseLoop32
    by_cases hx : x.lane = lane ∧ x.holdActive32 = true
    · rw [if_pos hx]
      dsimp only
      cases i with
      | zero =>
        simp at hi; subst hi
        split_ifs with h1 h2
        · right; exact ⟨hx.1, hx.2, Or.inl ⟨h1, by simp [Note.completed]⟩⟩
        · right; exact ⟨hx.1, hx.2, Or.inr ⟨h1, h2, by simp [Note.failed]⟩⟩
        · left; simp
      | succ i =>
        left
        split_ifs <;> simpa using hi
    · rw [if_neg hx]
      cases i with
      | zero => left; simpa using hi
      | succ i =>
        have := ih st i n (by simpa using hi)
        simpa using this

theorem processLaneInput32_sameInputs (cfg : Config) (L : Int) (t : ℚ) (g : Game) :
    g.sameInputs (processLaneInput32 cfg L t g) := by
  rcases processLaneInput32_cases cfg L t g with ⟨_, heq⟩ | ⟨k, n0, _, _, _, _, _, heq⟩ <;>
    rw [heq] <;> exact ⟨rfl, rfl, rfl, rfl, rfl⟩

theorem processLaneRelease32_sameInputs (cfg : Config) (L : Int) (t : ℚ) (g : Game) :
    g.sameInputs (processLaneRelease32 cfg L t g) := ⟨rfl, rfl, rfl, rfl, rfl⟩

theorem missSweepNote32_eq (t : ℚ) (x : Note) (st : Stats) :
    missSweepNote32 t x st =
      if x.overdue32 t = true then
        ({ x with missed := true }, { st with combo := 0, missCount := st.missCount + 1 })
      else (x, st) := by
  unfold missSweepNote32 Note.overdue32
  by_cases hp : x.hit = false ∧ x.missed = false
  · rw [if_pos hp]
    dsimp only
    by_cases hd : diffMs32 t x.timestamp > MISS_WINDOW
    · rw [if_pos hd, if_pos (by simpa using ⟨hp.1, hp.2, hd⟩)]
    · rw [if_neg hd, if_neg (by
        intro hc
        exact hd (of_decide_eq_true hc).2.2)]
  · rw [if_neg hp, if_neg (by
      intro hc
      exact hp ⟨(of_decide_eq_true hc).1, (of_decide_eq_true hc).2.1⟩)]

/-- The loop "Check missed notes" in closed form: every overdue note is marked, missCount
rises by their number, and combo is reset when there is at least one. -/
theorem missSweep32_eq (t : ℚ) :
    ∀ (l : List Note) (st : Stats),
      forEachNote (missSweepNote32 t) l st =
        (l.map (fun n => if n.overdue32 t = true then { n with missed := true } else n),
         { st with combo := if (l.filter (Note.overdue32 t)).length = 0 then st.combo else 0,
                   missCount := st.missCount + (l.filter (Note.overdue32 t)).length }) := by
  intro l
  induction l with
  | nil => intro st; simp [forEachNote]
  | cons x xs ih =>
    intro st
    simp only [forEachNote, missSweepNote32_eq, ih]
    by_cases hx : x.overdue32 t = true
    · simp only [hx, if_true, List.map_cons, List.filter_cons_of_pos, List.length_cons]
      refine Prod.ext rfl ?_
      simp only [Nat.succ_ne_zero, if_false, ite_self, Nat.cast_add, Nat.cast_one]
      congr 1
      ring
    · simp only [hx, if_false, List.map_cons, Bool.false_eq_true, List.filter_cons_of_neg hx]

theorem processLaneInput32_getElem? (cfg : Config) (L : Int) (t : ℚ) (g : Game) (i : Nat)
    (m : Note) (hi : g.notes[i]? = some m) :
    (processLaneInput32 cfg L t g).notes[i]? = some m ∨
    (m.pendingIn L ∧ absMs32 t m.timestamp ≤ MISS_WINDOW ∧
      (processLaneInput32 cfg L t g).notes[i]? =
        some (judgePress32 cfg (absMs32 t m.timestamp) m g.toStats).1) := by
  rcases processLaneInput32_cases cfg L t g with ⟨_, heq⟩ | ⟨k, n0, hk, hp0, hle0, _, _, heq⟩
  · left; rw [heq, hi]
  · have hklt : k < g.notes.length := (List.getElem?_eq_some.mp hk).1
    by_cases hki : k = i
    · right
      rw [hki, hi] at hk
      cases hk
      refine ⟨hp0, hle0, ?_⟩
      rw [heq, ← hki]
      exact List.getElem?_set_self hklt
    · left
      rw [heq]
      show (g.notes.set k _)[i]? = some m
      rw [List.getElem?_set_ne hki, hi]

theorem holdSweepNote32_fst (cfg : Config) (kh : Int → Bool) (dt t : ℚ) (m : Note)
    (st : Stats) :
    (holdSweepNote32 cfg kh dt t m st).1 = (holdSweepNote32 cfg kh dt t m Stats.zero).1 := by
  unfold holdSweepNote32
  dsimp only
  split_ifs <;> rfl

theorem holdSweepNote32_inactive (cfg : Config) (kh : Int → Bool) (dt t : ℚ) (m : Note)
    (st : Stats) (h : m.holdActive32 = false) : holdSweepNote32 cfg kh dt t m st = (m, st) := by
  unfold holdSweepNote32
  rw [if_neg (by rw [h]; decide)]

theorem holdSweepNote32_fst_cases (cfg : Config) (kh : Int → Bool) (dt t : ℚ) (m : Note)
    (st : Stats) :
    (holdSweepNote32 cfg kh dt t m st).1 = m ∨ (holdSweepNote32 cfg kh dt t m st).1 = m.failed ∨
      (holdSweepNote32 cfg kh dt t m st).1 = m.completed := by
  unfold holdSweepNote32
  dsimp only
  split_ifs <;> first
    | (left; rfl)
    | (right; left; rfl)
    | (right; right; rfl)

theorem afterInput32_refl (g : Game) (t : ℚ) (n : Note) : n.afterInput32 g t n :=
  ⟨rfl, rfl, rfl, id, Or.inl⟩

theorem afterInput32_hold {g : Game} {t : ℚ} {n m m' : Note} (h : n.afterInput32 g t m)
    (hm : m' = m ∨ m' = m.failed ∨ m' = m.completed) : n.afterInput32 g t m' := by
  rcases hm with rfl | rfl | rfl <;> exact h

/-- In manual play, what the input block and the hold loop of a tick do to the note at one
index. -/
theorem holdPhase32_getElem? (cfg : Config) (g : Game) (dt t : ℚ) (i : Nat) (n : Note)
    (hm : cfg.autoPlay = false) (hi : g.notes[i]? = some n) :
    ∃ m, (holdPhase32 cfg dt t g).1[i]? = some m ∧ n.afterInput32 g t m := by
  have hin : g.sameInputs (inputPhase32 cfg t g) ∧
      ∃ m, (inputPhase32 cfg t g).notes[i]? = some m ∧ n.afterInput32 g t m := by
    unfold inputPhase32
    rw [if_neg (by rw [hm]; decide)]
    apply laneFold32_invariant cfg t
      (fun g' => g.sameInputs g' ∧ ∃ m, g'.notes[i]? = some m ∧ n.afterInput32 g t m)
    · intro g1 x hP
      have hstepP : ∀ g2 : Game, (g.sameInputs g2 ∧
          ∃ m, g2.notes[i]? = some m ∧ n.afterInput32 g t m) → g2.keyPressed x = true →
          (g.sameInputs (processLaneInput32 cfg x t g2) ∧
            ∃ m, (processLaneInput32 cfg x t g2).notes[i]? = some m ∧ n.afterInput32 g t m) := by
        intro g2 h2 hx
        obtain ⟨hs, m, hmi, hQ⟩ := h2
        refine ⟨sameInputs_trans hs (processLaneInput32_sameInputs cfg x t g2), ?_⟩
        rcases processLaneInput32_getElem? cfg x t g2 i m hmi with h | ⟨hp, hle, h⟩
        · exact ⟨m, h, hQ⟩
        · refine ⟨_, h, ?_⟩
          obtain ⟨q1, q2, q3, q4, _⟩ := hQ
          obtain ⟨j1, j2, j3⟩ := judgePress32_fields cfg (absMs32 t m.timestamp) m g2.toStats
          refine ⟨j1.trans q1, j2.trans q2, j3.trans q3,
            fun _ => judgePress32_hit cfg _ m _, fun _ => Or.inr ⟨?_, ?_, ?_⟩⟩
          · rw [← hs.1, ← q2, hp.1]; exact hx
          · rw [← q3]; exact hp.2.2
          · rw [← q1]; exact hle
      have hstepR : ∀ g2 : Game, (g.sameInputs g2 ∧
          ∃ m, g2.notes[i]? = some m ∧ n.afterInput32 g t m) →
          (g.sameInputs (processLaneRelease32 cfg x t g2) ∧
            ∃ m, (processLaneRelease32 cfg x t g2).notes[i]? = some m ∧ n.afterInput32 g t m) := by
        intro g2 h2
        obtain ⟨hs, m, hmi, hQ⟩ := h2
        refine ⟨sameInputs_trans hs (processLaneRelease32_sameInputs cfg x t g2), ?_⟩
        rcases releaseLoop32_getElem? x t g2.notes g2.toStats i m hmi with
          h | ⟨_, _, ⟨_, h⟩ | ⟨_, _, h⟩⟩
        · exact ⟨m, h, hQ⟩
        · exact ⟨_, h, afterInput32_hold hQ (Or.inr (Or.inr rfl))⟩
        · exact ⟨_, h, afterInput32_hold hQ (Or.inr (Or.inl rfl))⟩
      unfold laneStep32
      dsimp only
      split_ifs with h1 h2 h3
      · exact hstepR _ (hstepP g1 hP h1)
      · exact hstepP g1 hP h1
      · exact hstepR g1 hP
      · exact hP
    · exact ⟨⟨rfl, rfl, rfl, rfl, rfl⟩, n, hi, afterInput32_refl g t n⟩
  obtain ⟨_, m, hmi, hQ⟩ := hin
  refine ⟨(holdSweepNote32 cfg (inputPhase32 cfg t g).keyHeld dt t m Stats.zero).1, ?_,
    afterInput32_hold hQ (holdSweepNote32_fst_cases cfg _ dt t m _)⟩
  unfold holdPhase32
  rw [forEachNote_fst _ _ (fun m st => holdSweepNote32_fst cfg _ dt t m st), List.getElem?_map,
    hmi, Option.map_some']

theorem update32_manual_eq (cfg : Config) (dt t : ℚ) (stopped : Bool) (g : Game)
    (hm : cfg.autoPlay = false) :
    (update32 cfg dt t stopped g).notes =
      (forEachNote (missSweepNote32 t) (holdPhase32 cfg dt t g).1 (holdPhase32 cfg dt t g).2).1 ∧
    (update32 cfg dt t stopped g).toStats =
      (forEachNote (missSweepNote32 t) (holdPhase32 cfg dt t g).1 (holdPhase32 cfg dt t g).2).2 := by
  unfold update32 holdPhase32
  dsimp only
  rw [if_pos hm]
  exact ⟨rfl, rfl⟩

theorem holdPhase32_length (cfg : Config) (g : Game) (dt t : ℚ) (hm : cfg.autoPlay = false) :
    (holdPhase32 cfg dt t g).1.length = g.notes.length := by
  unfold holdPhase32
  rw [forEachNote_length]
  unfold inputPhase32
  rw [if_neg (by rw [hm]; decide)]
  apply laneFold32_invariant cfg t (fun g' => g'.notes.length = g.notes.length)
  · intro g1 x h
    unfold laneStep32
    dsimp only
    split_ifs
    · exact (releaseLoop32_length x t _ _).trans ((processLaneInput32_length cfg x t g1).trans h)
    · exact (processLaneInput32_length cfg x t g1).trans h
    · exact (releaseLoop32_length x t _ _).trans h
    · exact h
  · rfl

theorem overdue32_of_afterInput32 {g : Game} {t : ℚ} {n m : Note} (h : n.afterInput32 g t m) :
    m.overdue32 t = n.overdue32 t := by
  obtain ⟨q1, _, q3, q4, q5⟩ := h
  by_cases hn : n.overdue32 t = true
  · rw [hn]
    have hn' := of_decide_eq_true hn
    have hmhit : m.hit = false := by
      by_contra hc
      rcases q5 (by simpa using hc) with h1 | ⟨_, _, h3⟩
      · rw [hn'.1] at h1; exact absurd h1 (by decide)
      · exact absurd (lt_of_lt_of_le hn'.2.2 (le_trans (diffMs32_le_absMs32 t n.timestamp) h3))
          (lt_irrefl _)
    unfold Note.overdue32
    exact decide_eq_true ⟨hmhit, q3.trans hn'.2.1, by rw [q1]; exact hn'.2.2⟩
  · have hn0 : n.overdue32 t = false := by simpa using hn
    rw [hn0]
    by_contra hc
    have hm' := of_decide_eq_true (show m.overdue32 t = true by simpa using hc)
    apply hn
    unfold Note.overdue32
    refine decide_eq_true ⟨?_, q3 ▸ hm'.2.1, by rw [← q1]; exact hm'.2.2⟩
    by_contra hh
    have := q4 (by simpa using hh)
    rw [hm'.1] at this
    exact absurd this (by decide)

theorem holdPhase32_overdue (cfg : Config) (g : Game) (dt t : ℚ) (hm : cfg.autoPlay = false) :
    (holdPhase32 cfg dt t g).1.map (Note.overdue32 t) = g.notes.map (Note.overdue32 t) := by
  apply List.ext_getElem?
  intro i
  rw [List.getElem?_map, List.getElem?_map]
  cases hi : g.notes[i]? with
  | none =>
    have hlen : g.notes.length ≤ i := by
      by_contra hc
      rw [List.getElem?_eq_getElem (not_le.mp hc)] at hi
      exact absurd hi (by simp)
    rw [List.getElem?_eq_none (by rw [holdPhase32_length cfg g dt t hm]; exact hlen)]
  | some n =>
    obtain ⟨m, hmi, hQ⟩ := holdPhase32_getElem? cfg g dt t i n hm hi
    rw [hmi, Option.map_some', Option.map_some', overdue32_of_afterInput32 hQ]

theorem inputPhase32_idle (cfg : Config) (t : ℚ) (g : Game) (hm : cfg.autoPlay = false)
    (hkeys : ∀ x, g.keyPressed x = false ∧ g.keyReleased x = false) :
    inputPhase32 cfg t g = g := by
  unfold inputPhase32
  rw [if_neg (by rw [hm]; decide)]
  apply laneFold32_invariant cfg t (fun g' => g' = g) _ _ g rfl
  intro g1 x h
  subst h
  unfold laneStep32
  dsimp only
  have h1 : ¬ g1.keyPressed x = true := by rw [(hkeys x).1]; decide
  have h2 : ¬ g1.keyReleased x = true := by rw [(hkeys x).2]; decide
  rw [if_neg h1, if_neg h2]

/-- With no key event in this frame and no hold in progress, the first two blocks of a
manual tick change nothing. -/
theorem holdPhase32_idle (cfg : Config) (g : Game) (dt t : ℚ) (hm : cfg.autoPlay = false)
    (hkeys : ∀ x, g.keyPressed x = false ∧ g.keyReleased x = false)
    (hidle : ∀ n ∈ g.notes, n.holdActive32 = false) :
    holdPhase32 cfg dt t g = (g.notes, g.toStats) := by
  have hin : inputPhase32 cfg t g = g := by
    unfold inputPhase32
    rw [if_neg (by rw [hm]; decide)]
    apply laneFold32_invariant cfg t (fun g' => g' = g)
    · intro g1 x h
      subst h
      unfold laneStep32
      dsimp only
      have h1 : ¬ g1.keyPressed x = true := by rw [(hkeys x).1]; decide
      have h2 : ¬ g1.keyReleased x = true := by rw [(hkeys x).2]; decide
      rw [if_neg h1, if_neg h2]
    · rfl
  unfold holdPhase32
  rw [hin]
  exact forEachNote_id _ _ _ (fun m hmem st' => holdSweepNote32_inactive cfg _ dt t m st'
    (hidle m hmem))

theorem edgeTap_late : diffMs32 (6274679 / 16777216) (7516193 / 33554432) = 150 := by
  unfold diffMs32
  have h : (6274679 : ℚ) / 16777216 - 7516193 / 33554432 = 5033165 / 33554432 := by norm_num
  rw [h, f32_edge_150]
  norm_num
  exact f32_ms_150

/-- A manual tick with no key event and no hold in progress is the miss check alone. -/
theorem update32_idle (cfg : Config) (g : Game) (dt t : ℚ) (stopped : Bool)
    (hm : cfg.autoPlay = false)
    (hkeys : ∀ x, g.keyPressed x = false ∧ g.keyReleased x = false)
    (hidle : ∀ n ∈ g.notes, n.holdActive32 = false) :
    (update32 cfg dt t stopped g).notes =
      g.notes.map (fun n => if n.overdue32 t = true then { n with missed := true } else n) ∧
    (update32 cfg dt t stopped g).missCount =
      g.missCount + (g.notes.filter (Note.overdue32 t)).length := by
  obtain ⟨hnotes, hstats⟩ := update32_manual_eq cfg dt t stopped g hm
  rw [missSweep32_eq, holdPhase32_idle cfg g dt t hm hkeys hidle] at hnotes hstats
  refine ⟨hnotes, ?_⟩
  show (update32 cfg dt t stopped g).toStats.missCount = _
  rw [hstats]

/-- C11, as stated, fails: the tap note of lane 2 starts at the `float` of 0.224 s (frame 21
of a 48 kHz track) and is Pending; a manual tick with no key event runs at the `float` of
0.374 s (clock reading 374000 us).  The lateness `(currentTime - startTime) * 1000` is
150.000006, more than 150, but the `float` product is 150.0: the note stays Pending on this
tick and missCount stays 0. -/
theorem C11_counterexample :
    f32 (374 / 1000) = 6274679 / 16777216 ∧ f32 (21 * 512 / 48000) = edgeTap.timestamp ∧
    (Game.start [edgeTap]).notes = [edgeTap] ∧ edgeTap.hit = false ∧ edgeTap.missed = false ∧
    (6274679 / 16777216 - edgeTap.timestamp) * 1000 > 150 ∧
    diffMs32 (6274679 / 16777216) edgeTap.timestamp = 150 ∧
    (update32 Config.manual (8947849 / 536870912) (6274679 / 16777216) false
      (Game.start [edgeTap])).notes = [edgeTap] ∧
    (update32 Config.manual (8947849 / 536870912) (6274679 / 16777216) false
      (Game.start [edgeTap])).missCount = 0 := by
  have hts : edgeTap.timestamp = 7516193 / 33554432 := rfl
  have hov : edgeTap.overdue32 (6274679 / 16777216) = false := by
    unfold Note.overdue32
    rw [hts, edgeTap_late]
    apply decide_eq_false
    intro h
    exact absurd h.2.2 (by norm_num [MISS_WINDOW])
  have hrun := update32_idle Config.manual (Game.start [edgeTap]) (8947849 / 536870912)
    (6274679 / 16777216) false rfl (fun _ => ⟨rfl, rfl⟩) (by
      intro n hn
      rw [show n = edgeTap from List.mem_singleton.mp hn]
      norm_num [Note.holdActive32, Note.isHoldNote32, edgeTap, Note.create, hold_test_edgeTap])
  refine ⟨?_, ?_, rfl, rfl, rfl, ?_, ?_, ?_, ?_⟩
  · have : ((374 : ℚ) / 1000) = 187 / 500 := by norm_num
    rw [this, f32_clock_374]
  · have : ((21 : ℚ) * 512 / 48000) = 28 / 125 := by norm_num
    rw [this, f32_frame21_48k]
    rfl
  · rw [hts]; norm_num
  · rw [hts]; exact edgeTap_late
  · rw [hrun.1]
    show [if edgeTap.overdue32 (6274679 / 16777216) = true then _ else edgeTap] = [edgeTap]
    rw [hov]
    rfl
  · rw [hrun.2]
    show (0 : Int) + ((([edgeTap] : List Note).filter
      (Note.overdue32 (6274679 / 16777216))).length : Int) = 0
    rw [List.filter_cons_of_neg (by rw [hov]; decide)]
    rfl

/-- C11, amended: in manual play, an update tick at `currentTime` turns every note that was
Pending and for which the `float` product `(currentTime - timestamp) * 1000.0f` exceeds 150
into Missed (and then combo is 0 after the tick), and marks no other note: a Pending note
for which the product is at most 150 stays unmissed, and Pending unless a press of its
lane in this very tick hit it; a note already hit keeps `hit` and its `missed` flag.  In
terms of the lateness `(currentTime - startTime) * 1000` itself: a Pending note that is at
least 150.0001 ms late is marked Missed, one that is at most 150 ms late is not; between
150 and 150.0001 the rounding of the product decides.  The miss check adds 1 to missCount
per note it marks and resets combo when there is one: after the tick missCount is the
value the input and hold blocks of the tick left, plus the number of notes marked; on a
tick with no key event and no hold in progress that value is the one before the tick. -/
theorem C11_passive_miss (cfg : Config) (g : Game) (dt t : ℚ) (stopped : Bool)
    (hm : cfg.autoPlay = false) :
    (∀ (i : Nat) (n : Note), g.notes[i]? = some n → n.hit = false → n.missed = false →
      (diffMs32 t n.timestamp > 150 →
        ∃ n', (update32 cfg dt t stopped g).notes[i]? = some n' ∧ n'.missed = true ∧
          n'.hit = false ∧ (update32 cfg dt t stopped g).combo = 0) ∧
      (diffMs32 t n.timestamp ≤ 150 →
        ∃ n', (update32 cfg dt t stopped g).notes[i]? = some n' ∧ n'.missed = false ∧
          (g.keyPressed n.lane = false → n'.hit = false)) ∧
      (1500001 / 10000 ≤ (t - n.timestamp) * 1000 →
        ∃ n', (update32 cfg dt t stopped g).notes[i]? = some n' ∧ n'.missed = true ∧
          n'.hit = false ∧ (update32 cfg dt t stopped g).combo = 0) ∧
      ((t - n.timestamp) * 1000 ≤ 150 →
        ∃ n', (update32 cfg dt t stopped g).notes[i]? = some n' ∧ n'.missed = false ∧
          (g.keyPressed n.lane = false → n'.hit = false))) ∧
    (∀ (i : Nat) (n : Note), g.notes[i]? = some n → n.hit = true →
      ∃ n', (update32 cfg dt t stopped g).notes[i]? = some n' ∧ n'.hit = true ∧
        n'.missed = n.missed) ∧
    (update32 cfg dt t stopped g).missCount =
      (holdPhase32 cfg dt t g).2.missCount + (g.notes.filter (Note.overdue32 t)).length ∧
    (update32 cfg dt t stopped g).combo =
      (if (g.notes.filter (Note.overdue32 t)).length = 0 then (holdPhase32 cfg dt t g).2.combo
       else 0) ∧
    ((∀ x, g.keyPressed x = false ∧ g.keyReleased x = false) →
      (∀ n ∈ g.notes, n.holdActive32 = false) →
      (update32 cfg dt t stopped g).missCount =
        g.missCount + (g.notes.filter (Note.overdue32 t)).length ∧
      (update32 cfg dt t stopped g).score = g.score) := by
  obtain ⟨hnotes, hstats⟩ := update32_manual_eq cfg dt t stopped g hm
  rw [missSweep32_eq] at hnotes hstats
  have hcount := filter_length_congr _ _ (holdPhase32_overdue cfg g dt t hm)
  rw [hcount] at hstats
  have hmiss : (update32 cfg dt t stopped g).missCount =
      (holdPhase32 cfg dt t g).2.missCount + (g.notes.filter (Note.overdue32 t)).length := by
    show (update32 cfg dt t stopped g).toStats.missCount = _
    rw [hstats]
  have hcombo : (update32 cfg dt t stopped g).combo =
      (if (g.notes.filter (Note.overdue32 t)).length = 0 then (holdPhase32 cfg dt t g).2.combo
       else 0) := by
    show (update32 cfg dt t stopped g).toStats.combo = _
    rw [hstats]
  have hget : ∀ (i : Nat) (n : Note), g.notes[i]? = some n →
      ∃ m, n.afterInput32 g t m ∧ (update32 cfg dt t stopped g).notes[i]? =
        some (if m.overdue32 t = true then { m with missed := true } else m) := by
    intro i n hi
    obtain ⟨m, hmi, hQ⟩ := holdPhase32_getElem? cfg g dt t i n hm hi
    exact ⟨m, hQ, by rw [hnotes, List.getElem?_map, hmi, Option.map_some']⟩
  refine ⟨?_, ?_, hmiss, hcombo, ?_⟩
  · intro i n hi hhit hmissed
    obtain ⟨m, hQ, hres⟩ := hget i n hi
    have hov := overdue32_of_afterInput32 hQ
    have hedge := floatMs_edges (t - n.timestamp)
    have hlate : diffMs32 t n.timestamp > 150 →
        ∃ n', (update32 cfg dt t stopped g).notes[i]? = some n' ∧ n'.missed = true ∧
          n'.hit = false ∧ (update32 cfg dt t stopped g).combo = 0 := by
      intro hd
      have hn : n.overdue32 t = true := by
        unfold Note.overdue32
        exact decide_eq_true ⟨hhit, hmissed, hd⟩
      have hmo : m.overdue32 t = true := hov.trans hn
      rw [if_pos hmo] at hres
      have hpos : (g.notes.filter (Note.overdue32 t)).length ≠ 0 := by
        have hmem : n ∈ g.notes.filter (Note.overdue32 t) :=
          List.mem_filter.mpr ⟨List.getElem?_mem hi, hn⟩
        exact fun h0 => absurd hmem (by rw [List.length_eq_zero.mp h0]; exact List.not_mem_nil n)
      exact ⟨_, hres, rfl, (of_decide_eq_true hmo).1, by rw [hcombo, if_neg hpos]⟩
    have hnear : diffMs32 t n.timestamp ≤ 150 →
        ∃ n', (update32 cfg dt t stopped g).notes[i]? = some n' ∧ n'.missed = false ∧
          (g.keyPressed n.lane = false → n'.hit = false) := by
      intro hd
      have hn : ¬ n.overdue32 t = true := by
        intro hc
        exact absurd (of_decide_eq_true hc).2.2 (not_lt.mpr hd)
      have hmo : ¬ m.overdue32 t = true := by rw [hov]; exact hn
      rw [if_neg hmo] at hres
      refine ⟨m, hres, hQ.2.2.1.trans hmissed, fun hkp => ?_⟩
      by_contra hc
      rcases hQ.2.2.2.2 (by simpa using hc) with h1 | ⟨h2, _, _⟩
      · rw [hhit] at h1; exact absurd h1 (by decide)
      · rw [hkp] at h2; exact absurd h2 (by decide)
    exact ⟨hlate, hnear, fun hd => hlate (hedge.2.2.2.2.2 hd),
      fun hd => hnear (hedge.2.2.2.2.1 hd)⟩
  · intro i n hi hhit
    obtain ⟨m, hQ, hres⟩ := hget i n hi
    have hmhit : m.hit = true := hQ.2.2.2.1 hhit
    have hmo : ¬ m.overdue32 t = true := by
      intro hc
      have := (of_decide_eq_true hc).1
      rw [hmhit] at this
      exact absurd this (by decide)
    rw [if_neg hmo] at hres
    exact ⟨m, hres, hmhit, hQ.2.2.1⟩
  · intro hkeys hidle
    have hidle' := holdPhase32_idle cfg g dt t hm hkeys hidle
    refine ⟨by rw [hmiss, hidle'], ?_⟩
    show (update32 cfg dt t stopped g).toStats.score = g.score
    rw [hstats, hidle']

/-- C11 (amended) at the tap note of lane 2 (second 1): a tick at second 2 marks it Missed
and resets combo; missCount goes from 0 to 1. -/
theorem C11_passive_miss_witness :
    Config.manual.autoPlay = false ∧ (1500001 : ℚ) / 10000 ≤ (2 - tapAt1.timestamp) * 1000 ∧
    (∃ n', (update32 Config.manual 0 2 false (Game.start [tapAt1])).notes[0]? = some n' ∧
      n'.missed = true ∧ n'.hit = false ∧
      (update32 Config.manual 0 2 false (Game.start [tapAt1])).combo = 0) ∧
    (update32 Config.manual 0 2 false (Game.start [tapAt1])).missCount =
      (Game.start [tapAt1]).missCount +
        ((Game.start [tapAt1]).notes.filter (Note.overdue32 2)).length :=
  have h := C11_passive_miss Config.manual (Game.start [tapAt1]) 0 2 false rfl
  ⟨rfl, by norm_num [tapAt1, Note.create],
   (h.1 0 tapAt1 rfl rfl rfl).2.2.1 (by norm_num [tapAt1, Note.create]),
   (h.2.2.2.2 (fun _ => ⟨rfl, rfl⟩) (by
      intro n hn
      rw [show n = tapAt1 from List.mem_singleton.mp hn]
      norm_num [Note.holdActive32, Note.isHoldNote32, tapAt1, Note.create, hold_test_one])).1⟩

/-! ## Score of the hold tick (C27) -/

theorem holdSweepNote32_score (cfg : Config) (kh : Int → Bool) (dt t : ℚ) (n : Note)
    (st : Stats) :
    (holdSweepNote32 cfg kh dt t n st).2.score = st.score + holdAccrual32 cfg kh dt t n := by
  unfold holdSweepNote32 holdAccrual32
  by_cases ha : n.holdActive32 = true
  · rw [if_pos ha]
    dsimp only
    by_cases hheld : cfg.autoPlay = true ∨ kh n.lane = true
    · have hcond : n.holdActive32 = true ∧ (cfg.autoPlay = true ∨ kh n.lane = true) :=
        ⟨ha, hheld⟩
      have hnot : ¬ (if cfg.autoPlay = true then true else kh n.lane) = false := by
        rcases hheld with h | h
        · rw [if_pos h]; decide
        · split_ifs
          · decide
          · rw [h]; decide
      rw [if_neg hnot, if_pos hcond]
      by_cases he : t ≥ n.endTimestamp
      · rw [if_pos he, if_pos he]
        dsimp only
        ring
      · rw [if_neg he, if_neg he]
        dsimp only
        ring
    · have hcond : ¬ (n.holdActive32 = true ∧ (cfg.autoPlay = true ∨ kh n.lane = true)) :=
        fun h => hheld h.2
      have hunheld : (if cfg.autoPlay = true then true else kh n.lane) = false := by
        rw [if_neg (fun h => hheld (Or.inl h))]
        cases hk : kh n.lane
        · rfl
        · exact absurd (Or.inr hk) hheld
      rw [if_pos hunheld, if_neg hcond]
      dsimp only
      ring
  · rw [if_neg ha, if_neg (fun h => ha h.1)]
    ring

theorem holdSweep32_score (cfg : Config) (kh : Int → Bool) (dt t : ℚ) :
    ∀ (l : List Note) (st : Stats),
      (forEachNote (holdSweepNote32 cfg kh dt t) l st).2.score =
        st.score + (l.map (holdAccrual32 cfg kh dt t)).sum := by
  intro l
  induction l with
  | nil => intro st; simp [forEachNote]
  | cons n rest ih =>
    intro st
    rw [forEachNote]
    dsimp only
    rw [ih, holdSweepNote32_score, List.map_cons, List.sum_cons]
    ring

/-- The score after a tick is the score after its input block plus the accruals of the
hold loop; the miss check adds nothing. -/
theorem update32_score (cfg : Config) (dt t : ℚ) (stopped : Bool) (g : Game) :
    (update32 cfg dt t stopped g).score =
      (inputPhase32 cfg t g).score +
        ((inputPhase32 cfg t g).notes.map
          (holdAccrual32 cfg (inputPhase32 cfg t g).keyHeld dt t)).sum := by
  have h2 := holdSweep32_score cfg (inputPhase32 cfg t g).keyHeld dt t
    (inputPhase32 cfg t g).notes (inputPhase32 cfg t g).toStats
  unfold update32
  dsimp only
  by_cases ha : cfg.autoPlay = false
  · rw [if_pos ha, missSweep32_eq]
    dsimp only
    exact h2
  · rw [if_neg ha]
    exact h2

theorem holdAccrual32_still_held (cfg : Config) (kh : Int → Bool) (dt t : ℚ) :
    ∀ (l : List Note),
      (∀ n ∈ l, n.holdActive32 = true →
        (cfg.autoPlay = true ∨ kh n.lane = true) ∧ t < n.endTimestamp) →
      (l.map (holdAccrual32 cfg kh dt t)).sum =
        ((l.filter Note.holdActive32).length : Int) * holdTick32 dt := by
  intro l
  induction l with
  | nil => intro _; simp
  | cons n rest ih =>
    intro h
    have hrest := ih (fun m hm => h m (List.mem_cons_of_mem n hm))
    rw [List.map_cons, List.sum_cons, hrest]
    unfold holdAccrual32
    by_cases ha : n.holdActive32 = true
    · obtain ⟨hheld, hend⟩ := h n (List.mem_cons_self n rest) ha
      have hcond : n.holdActive32 = true ∧ (cfg.autoPlay = true ∨ kh n.lane = true) :=
        ⟨ha, hheld⟩
      rw [if_pos hcond, if_neg (not_le.mpr hend), List.filter_cons_of_pos ha,
        List.length_cons]
      push_cast
      ring
    · rw [if_neg (fun hc => ha hc.1), List.filter_cons_of_neg ha]
      ring

/-- The cast `static_cast<int>(HOLD_TICK_SCORE * dt * 10)` for `dt >= 0` is the integer part
of the `float` product, and it is not negative. -/
theorem holdTick32_floor (dt : ℚ) (h : 0 ≤ dt) :
    holdTick32 dt = ⌊f32 (f32 (10 * dt) * 10)⌋ ∧ 0 ≤ holdTick32 dt := by
  have hc : ((HOLD_TICK_SCORE : Int) : ℚ) = 10 := by norm_num [HOLD_TICK_SCORE]
  have h0 : 0 ≤ f32 (f32 (10 * dt) * 10) :=
    f32_nonneg (mul_nonneg (f32_nonneg (by linarith)) (by norm_num))
  unfold holdTick32 truncToInt
  rw [hc, if_pos h0]
  exact ⟨rfl, Int.floor_nonneg.mpr h0⟩

/-- The `float` product `HOLD_TICK_SCORE * dt * 10` differs from `100 * dt` by at most
`2^-22` of it (two roundings), for `dt` of at least `2^-100` s. -/
theorem holdTick32_near (dt : ℚ) (h : 1 / 2 ^ 100 ≤ dt) :
    |f32 (f32 (10 * dt) * 10) - 100 * dt| ≤ 100 * dt / 2 ^ 22 := by
  have hdt : 0 < dt := lt_of_lt_of_le (by norm_num) h
  have e126 : (2 : ℚ) ^ (-126 : Int) ≤ 1 / 2 ^ 100 := by
    rw [zpow_neg, zpow_ofNat, one_div]
    exact inv_anti₀ (by norm_num) (by norm_num)
  have h1 := f32_rel_error (10 * dt)
    (by rw [abs_of_pos (by linarith)]; exact le_trans e126 (le_trans h (by linarith)))
  rw [abs_of_pos (by linarith : (0 : ℚ) < 10 * dt), abs_le] at h1
  have ha : 0 < f32 (10 * dt) * 10 := by
    have : (0 : ℚ) < 10 * dt - 10 * dt / 2 ^ 24 := by
      have : (10 : ℚ) * dt / 2 ^ 24 < 10 * dt := by
        rw [div_lt_iff₀ (by norm_num)]
        nlinarith
      linarith
    linarith [h1.1]
  have hlow : dt ≤ f32 (10 * dt) * 10 := by
    have : (10 : ℚ) * dt / 2 ^ 24 ≤ dt := by
      rw [div_le_iff₀ (by norm_num)]
      nlinarith
    linarith [h1.1]
  have h2 := f32_rel_error (f32 (10 * dt) * 10)
    (by rw [abs_of_pos ha]; exact le_trans e126 (le_trans h hlow))
  rw [abs_of_pos ha, abs_le] at h2
  rw [abs_le]
  have k1 : (10 : ℚ) * dt / 2 ^ 24 = dt * (10 / 2 ^ 24) := by ring
  have k2 : f32 (10 * dt) * 10 / 2 ^ 24 = f32 (10 * dt) * (10 / 2 ^ 24) := by ring
  have k3 : (100 : ℚ) * dt / 2 ^ 22 = dt * (100 / 2 ^ 22) := by ring
  rw [k1] at h1
  rw [k2] at h2
  rw [k3]
  norm_num at h1 h2 ⊢
  constructor <;> nlinarith [h1.1, h1.2, h2.1, h2.2]

/-- The product `10 * dt` for `dt = 0.01f` lies halfway between two `float` values; the
tie goes to the even one, which is below 0.1. -/
theorem f32_ten_cent : f32 (26843545 / 268435456) = 3355443 / 33554432 := by
  have hq : (26843545 : ℚ) / 268435456 / 2 ^ ((-4 : Int) - 23) = 26843545 / 2 := by
    norm_num [zpow_neg]
  have hfl : ⌊(26843545 : ℚ) / 2⌋ = 13421772 := by
    rw [Int.floor_eq_iff]
    constructor <;> norm_num
  unfold f32
  rw [f32Exp_eq _ (-4) (by norm_num) (by rw [abs_of_nonneg (by norm_num)]; norm_num)
    (Or.inl (by rw [abs_of_nonneg (by norm_num)]; norm_num)), hq]
  unfold roundHalfEven
  rw [hfl]
  norm_num

theorem f32_below_one : f32 (16777215 / 16777216) = 16777215 / 16777216 := by
  rw [f32_eq (16777215 / 16777216) (-1) 16777215 (by norm_num)
    (by rw [abs_of_nonneg (by norm_num)]; norm_num)
    (Or.inl (by rw [abs_of_nonneg (by norm_num)]; norm_num)) (by norm_num) (by norm_num)]
  norm_num

/-- A tick of at most `0.01f` seconds (the `float` of 0.01, so every `float` below 0.01)
accrues nothing. -/
theorem holdTick32_small (dt : ℚ) (h0 : 0 ≤ dt) (h : dt ≤ 5368709 / 536870912) :
    holdTick32 dt = 0 := by
  have hfl := (holdTick32_floor dt h0).1
  have hF0 : 0 ≤ f32 (f32 (10 * dt) * 10) :=
    f32_nonneg (mul_nonneg (f32_nonneg (by linarith)) (by norm_num))
  have hF1 : f32 (f32 (10 * dt) * 10) ≤ 16777215 / 16777216 := by
    have hc : f32 (f32 (10 * (5368709 / 536870912)) * 10) = 16777215 / 16777216 := by
      have e1 : (10 : ℚ) * (5368709 / 536870912) = 26843545 / 268435456 := by norm_num
      have e2 : (3355443 : ℚ) / 33554432 * 10 = 16777215 / 16777216 := by norm_num
      rw [e1, f32_ten_cent, e2, f32_below_one]
    rw [← hc]
    exact f32_mono (mul_le_mul_of_nonneg_right (f32_mono (by linarith)) (by norm_num))
  rw [hfl, Int.floor_eq_iff]
  constructor
  · push_cast; linarith
  · push_cast; linarith

theorem absMs32_self (t : ℚ) : absMs32 t t = 0 := by
  rw [absMs32_eq, sub_self, abs_zero, f32_zero, zero_mul, f32_zero]

theorem holdTick32_sixtieth : holdTick32 (8947849 / 536870912) = 1 := by
  have h : ((HOLD_TICK_SCORE : Int) : ℚ) * (8947849 / 536870912) = 44739245 / 268435456 := by
    norm_num [HOLD_TICK_SCORE]
  have h2 : (11184811 : ℚ) / 67108864 * 10 = 55924055 / 33554432 := by norm_num
  unfold holdTick32
  rw [h, f32_ten_sixtieth, h2, f32_hundred_sixtieth]
  unfold truncToInt
  rw [if_pos (by norm_num), Int.floor_eq_iff]
  constructor <;> norm_num

theorem holdTick32_eleven : holdTick32 (7381975 / 67108864) = 11 := by
  have h : ((HOLD_TICK_SCORE : Int) : ℚ) * (7381975 / 67108864) = 36909875 / 33554432 := by
    norm_num [HOLD_TICK_SCORE]
  have h2 : (9227469 : ℚ) / 8388608 * 10 = 46137345 / 4194304 := by norm_num
  unfold holdTick32
  rw [h, f32_ten_eleven, h2, f32_hundred_eleven]
  unfold truncToInt
  rw [if_pos (by norm_num), Int.floor_eq_iff]
  constructor <;> norm_num

/-- C27, as stated, fails: the hold note of lane 0 (second 1 to second 3) is Holding and
its key is down.  A tick at second 2 with `dt` the `float` of 1/60 s leaves it Holding and
raises the score by 1, while `HOLD_TICK_SCORE * 10 * dt` is 1.6667; a tick with `dt` the
`float` of 0.11 s raises the score by 11, while `HOLD_TICK_SCORE * 10 * dt` is
10.99999994, below 11: the two `float` products round up to 11.0 before the cast. -/
theorem C27_counterexample :
    processLaneInput32 Config.manual 0 1 (Game.start [holdAt1]) = holdingGame ∧
    holdingGame.holdLane0.notes = [{ holdAt1 with hit := true, holding := true }] ∧
    ({ holdAt1 with hit := true, holding := true } : Note).holdActive32 = true ∧
    holdingGame.holdLane0.keyHeld 0 = true ∧
    (2 : ℚ) < ({ holdAt1 with hit := true, holding := true } : Note).endTimestamp ∧
    f32 (1 / 60) = 8947849 / 536870912 ∧ f32 (11 / 100) = 7381975 / 67108864 ∧
    (update32 Config.manual (8947849 / 536870912) 2 false holdingGame.holdLane0).notes =
      [{ holdAt1 with hit := true, holding := true }] ∧
    (update32 Config.manual (8947849 / 536870912) 2 false holdingGame.holdLane0).score =
      holdingGame.holdLane0.score + 1 ∧
    (HOLD_TICK_SCORE : ℚ) * 10 * (8947849 / 536870912) = 223696225 / 134217728 ∧
    (update32 Config.manual (7381975 / 67108864) 2 false holdingGame.holdLane0).notes =
      [{ holdAt1 with hit := true, holding := true }] ∧
    (update32 Config.manual (7381975 / 67108864) 2 false holdingGame.holdLane0).score =
      holdingGame.holdLane0.score + 11 ∧
    (HOLD_TICK_SCORE : ℚ) * 10 * (7381975 / 67108864) < 11 := by
  have hpress : processLaneInput32 Config.manual 0 1 (Game.start [holdAt1]) = holdingGame := by
    rw [holdingGame_eq]
    simp only [processLaneInput32, findClosest32, Game.start, holdAt1, Note.create,
      absMs32_self, MISS_WINDOW]
    norm_num [judgePress32, PERFECT_WINDOW, Note.isHoldNote32, Config.manual, Stats.zero,
      PERFECT_SCORE, hold_test_one]
  refine ⟨hpress, by rw [holdingGame_eq]; rfl, ?_, rfl, ?_, f32_dt_sixtieth, f32_dt_eleven,
    ?_, ?_, by norm_num [HOLD_TICK_SCORE], ?_, ?_, by norm_num [HOLD_TICK_SCORE]⟩
  · norm_num [Note.holdActive32, Note.isHoldNote32, holdAt1, Note.create, hold_test_one]
  · norm_num [holdAt1, Note.create]
  all_goals
    simp only [update32, inputPhase32, holdingGame_eq, Game.holdLane0, Config.manual]
    norm_num [laneStep32, NUM_LANES, List.range, List.range.loop, Game.start, forEachNote,
      holdSweepNote32, missSweepNote32, holdAt1, Note.create, Note.holdActive32,
      Note.isHoldNote32, MISS_WINDOW, Stats.zero, HOLD_COMPLETE_SCORE, holdTick32_sixtieth,
      holdTick32_eleven, hold_test_one]

/-- C27, amended: for an active hold whose lane is held (any active hold in auto-play) and
whose end is not yet reached, the hold loop leaves the note as it is and adds
`static_cast<int>(HOLD_TICK_SCORE * dt * 10)` to the score.  For `dt >= 0` this is the
integer part of the `float` product, not negative, and 0 when `dt` is at most `0.01f` (so
for every `float` below 0.01); for `dt` of at least `2^-100` s the `float` product is
within `100 * dt / 2^22` of `100 * dt`, so the amount is at most `100 * dt * (1 + 2^-22)`
and more than `100 * dt * (1 - 2^-22) - 1`: the fraction of a point is dropped on every
tick, and the rounding can lift a product just below an integer to it.
Over a tick the score is the score after the input block plus these accruals (and the
completion bonus of each hold that ends); on a manual tick without key events on which
every active hold is held and not yet over, the score rises by the cast amount per active
hold. -/
theorem C27_hold_tick_accrual (cfg : Config) (g : Game) (dt t : ℚ) (stopped : Bool) :
    (∀ (kh : Int → Bool) (n : Note) (st : Stats), n.holdActive32 = true →
      (cfg.autoPlay = true ∨ kh n.lane = true) → t < n.endTimestamp →
      (holdSweepNote32 cfg kh dt t n st).1 = n ∧
      (holdSweepNote32 cfg kh dt t n st).2.score = st.score + holdTick32 dt) ∧
    (0 ≤ dt → holdTick32 dt = ⌊f32 (f32 (10 * dt) * 10)⌋ ∧ 0 ≤ holdTick32 dt) ∧
    (0 ≤ dt → dt ≤ f32 (1 / 100) → holdTick32 dt = 0) ∧
    (1 / 2 ^ 100 ≤ dt →
      |f32 (f32 (10 * dt) * 10) - 100 * dt| ≤ 100 * dt / 2 ^ 22 ∧
      (holdTick32 dt : ℚ) ≤ 100 * dt * (1 + 1 / 2 ^ 22) ∧
      100 * dt * (1 - 1 / 2 ^ 22) - 1 < (holdTick32 dt : ℚ)) ∧
    (update32 cfg dt t stopped g).score =
      (inputPhase32 cfg t g).score +
        ((inputPhase32 cfg t g).notes.map
          (holdAccrual32 cfg (inputPhase32 cfg t g).keyHeld dt t)).sum ∧
    (cfg.autoPlay = false → (∀ x, g.keyPressed x = false ∧ g.keyReleased x = false) →
      (update32 cfg dt t stopped g).score =
        g.score + (g.notes.map (holdAccrual32 cfg g.keyHeld dt t)).sum ∧
      ((∀ n ∈ g.notes, n.holdActive32 = true →
          g.keyHeld n.lane = true ∧ t < n.endTimestamp) →
        (update32 cfg dt t stopped g).score =
          g.score + ((g.notes.filter Note.holdActive32).length : Int) * holdTick32 dt)) := by
  refine ⟨?_, holdTick32_floor dt,
    fun h0 h => holdTick32_small dt h0 (by rw [← f32_cent]; exact h), ?_,
    update32_score cfg dt t stopped g, ?_⟩
  · intro kh n st ha hheld hend
    have hacc := holdSweepNote32_score cfg kh dt t n st
    have hcond : n.holdActive32 = true ∧ (cfg.autoPlay = true ∨ kh n.lane = true) :=
      ⟨ha, hheld⟩
    have hnot : ¬ (if cfg.autoPlay = true then true else kh n.lane) = false := by
      rcases hheld with h' | h'
      · rw [if_pos h']; decide
      · split_ifs
        · decide
        · rw [h']; decide
    constructor
    · unfold holdSweepNote32
      rw [if_pos ha]
      dsimp only
      rw [if_neg hnot, if_neg (not_le.mpr hend)]
    · rw [hacc]
      unfold holdAccrual32
      rw [if_pos hcond, if_neg (not_le.mpr hend), add_zero]
  · intro hdt
    have hnear := holdTick32_near dt hdt
    have h0 : 0 ≤ dt := le_trans (by norm_num) hdt
    have hfl := (holdTick32_floor dt h0).1
    have h1 := Int.floor_le (f32 (f32 (10 * dt) * 10))
    have h2 := Int.lt_floor_add_one (f32 (f32 (10 * dt) * 10))
    rw [← hfl] at h1 h2
    have hb := abs_le.mp hnear
    refine ⟨hnear, ?_, ?_⟩
    · have : (100 : ℚ) * dt * (1 + 1 / 2 ^ 22) = 100 * dt + 100 * dt / 2 ^ 22 := by ring
      rw [this]
      linarith [hb.2]
    · have : (100 : ℚ) * dt * (1 - 1 / 2 ^ 22) = 100 * dt - 100 * dt / 2 ^ 22 := by ring
      rw [this]
      linarith [hb.1]
  · intro hm hkeys
    have hidle := inputPhase32_idle cfg t g hm hkeys
    have hscore := update32_score cfg dt t stopped g
    rw [hidle] at hscore
    refine ⟨hscore, ?_⟩
    intro hall
    rw [hscore, holdAccrual32_still_held cfg g.keyHeld dt t g.notes
      (fun n hn ha => ⟨Or.inr (hall n hn ha).1, (hall n hn ha).2⟩)]

/-- C27 (amended) at the hold note of lane 0 held down on a tick of one sixtieth of a
second (as a `float`): the score rises by the cast amount, which is 1. -/
theorem C27_hold_tick_accrual_witness :
    Config.manual.autoPlay = false ∧
    (∀ x, holdingGame.holdLane0.keyPressed x = false ∧
      holdingGame.holdLane0.keyReleased x = false) ∧
    (1 : ℚ) / 2 ^ 100 ≤ 8947849 / 536870912 ∧
    (|f32 (f32 (10 * (8947849 / 536870912)) * 10) - 100 * (8947849 / 536870912)| ≤
        100 * (8947849 / 536870912) / 2 ^ 22 ∧
      (holdTick32 (8947849 / 536870912) : ℚ) ≤
        100 * (8947849 / 536870912) * (1 + 1 / 2 ^ 22) ∧
      100 * (8947849 / 536870912) * (1 - 1 / 2 ^ 22) - 1 <
        (holdTick32 (8947849 / 536870912) : ℚ)) ∧
    (update32 Config.manual (8947849 / 536870912) 2 false holdingGame.holdLane0).score =
      holdingGame.holdLane0.score +
        (holdingGame.holdLane0.notes.map
          (holdAccrual32 Config.manual holdingGame.holdLane0.keyHeld
            (8947849 / 536870912) 2)).sum :=
  have h := C27_hold_tick_accrual Config.manual holdingGame.holdLane0
    (8947849 / 536870912) 2 false
  ⟨rfl, fun _ => ⟨rfl, rfl⟩, by norm_num, h.2.2.2.1 (by norm_num),
   (h.2.2.2.2.2 rfl (fun _ => ⟨rfl, rfl⟩)).1⟩

end VSRG
